import Mathlib

/-!
# Esoterica animation tools graph: state machine compilation

A shallow embedding of `StateMachineToolsNode::Compile`, `CompileState` and
`CompileTransition` (Animation_ToolsGraphNode_StateMachine.cpp), together with the
parts of the compilation context they call; of the external graph runtime node
(Animation_RuntimeGraphNode_ExternalGraph.cpp); and of the timeline track container
(TimelineTrackContainer.cpp).

Conventions of the embedding.

* A pointer to a settings record (`pSettings`) is the position of the record in the
  context's settings table; a write through the pointer is an update of the table at
  that position.
* Every function that can hit an `EE_ASSERT` returns an `Option`: `none` means that
  execution stopped at a failed assertion (or read a record through a pointer that
  does not point to a record of the expected node type); `some` carries the returned
  value and the context after the call.
* `m_log` in the context is a verification-only journal of the calls made on the
  context. No function of the embedding reads it.
-/

namespace EE.Animation

/-- A node identifier (`UUID`). -/
abbrev UUID := Nat

/-- An event tag (`StringID`). -/
abbrev StringID := String

/-- A floating point quantity (`float`, `Seconds`), kept as its raw bit pattern: the
compiler only copies such values. -/
structure FloatValue where
  bits : Nat
deriving DecidableEq, Repr

/-- Modelled from the spec: the constant `InvalidIndex`, declared outside src; section 6
gives its value, -1. -/
def InvalidIndex : Int := -1

/-- The C conversion of an `int` to `int16_t` (two's complement wrap-around). -/
def toInt16 (i : Int) : Int := (i + 32768) % 65536 - 32768

/-- Value types carried by pins (`GraphValueType`). -/
inductive GraphValueType
  | Unknown | Bool | ID | Int | Float | Vector | Target | BoneMask | Pose
deriving DecidableEq, Repr

/-- Modelled from the spec: the macro `EE_ASSERT`, declared outside src; per section 7 (b)
a failed assertion is fatal: execution continues only when the condition holds. -/
def EE_ASSERT (condition : Bool) : Option Unit :=
  if condition then some () else none

/-! ## Runtime settings records -/

namespace StateMachineNode

/-- Modelled from the spec: `StateMachineNode::TransitionSettings`, declared in the runtime
header that is outside src; per section 4.2 a transition entry holds the target state
index, the transition node index and the activation-condition node index, each
`InvalidIndex` until written. -/
structure TransitionSettings where
  m_targetStateIdx : Int := InvalidIndex
  m_conditionNodeIdx : Int := InvalidIndex
  m_transitionNodeIdx : Int := InvalidIndex
deriving DecidableEq, Repr

/-- Modelled from the spec: `StateMachineNode::StateSettings`, declared in the runtime
header that is outside src; per section 4.2 it holds the state node index, the
entry-condition node index or Invalid, and the state's transition list. -/
structure StateSettings where
  m_stateNodeIdx : Int := InvalidIndex
  m_entryConditionNodeIdx : Int := InvalidIndex
  m_transitionSettings : List TransitionSettings := []
deriving DecidableEq, Repr

/-- Modelled from the spec: `StateMachineNode::Settings`, declared in the runtime header
that is outside src; per section 4.2 it holds the per-state settings and the default
state's index, next to the node index every settings record has. -/
structure Settings where
  m_nodeIdx : Int
  m_stateSettings : List StateSettings := []
  m_defaultStateIndex : Int := InvalidIndex
deriving DecidableEq, Repr

end StateMachineNode

namespace StateNode

/-- Modelled from the spec: `StateNode::TimedEvent`, declared in the runtime header that
is outside src: a tag and a trigger time. -/
structure TimedEvent where
  m_ID : StringID
  m_timeValue : FloatValue
deriving DecidableEq, Repr

/-- Modelled from the spec: `StateNode::Settings`, declared in the runtime header that is
outside src; per section 4.3 it holds the child node index, the two layer input
indices, the five event lists and the off-state flag. -/
structure Settings where
  m_nodeIdx : Int
  m_childNodeIdx : Int := InvalidIndex
  m_layerWeightNodeIdx : Int := InvalidIndex
  m_layerBoneMaskNodeIdx : Int := InvalidIndex
  m_entryEvents : List StringID := []
  m_executeEvents : List StringID := []
  m_exitEvents : List StringID := []
  m_timedRemainingEvents : List TimedEvent := []
  m_timedElapsedEvents : List TimedEvent := []
  m_isOffState : Bool := false
deriving DecidableEq, Repr

end StateNode

namespace TransitionNode

/-- Modelled from the spec: the enumeration `TransitionNode::TransitionOptions`, declared
in the runtime header that is outside src; section 4.4 lists five independent options. -/
inductive TransitionOptions
  | Synchronized | ClampDuration | KeepSyncEventIndex | KeepSyncEventPercentage
  | ForcedTransitionAllowed
deriving DecidableEq, Repr

/-- The position of an option in the enumeration: the bit it occupies in the flag set. -/
def TransitionOptions.bit : TransitionOptions → Nat
  | .Synchronized => 0
  | .ClampDuration => 1
  | .KeepSyncEventIndex => 2
  | .KeepSyncEventPercentage => 3
  | .ForcedTransitionAllowed => 4

/-- Modelled from the spec: `TBitFlags<TransitionOptions>`, declared outside src: a 32-bit
word with one bit per option ("a bitflag set", section 4.4). -/
structure BitFlags where
  m_flags : Nat := 0
deriving DecidableEq, Repr

/-- Modelled from the spec: `TBitFlags::SetFlag( flag, value )`, declared outside src: sets
the option's bit when `value` is true and clears it otherwise (section 4.4: each boolean
option goes into the flag set). -/
def BitFlags.SetFlag (f : BitFlags) (flag : TransitionOptions) (value : Bool) : BitFlags :=
  if value then ⟨f.m_flags ||| (2 ^ flag.bit)⟩
  else ⟨f.m_flags &&& (0xFFFFFFFF ^^^ (2 ^ flag.bit))⟩

/-- Modelled from the spec: `TBitFlags::IsFlagSet( flag )`, declared outside src: whether
the option's bit is set. -/
def BitFlags.IsFlagSet (f : BitFlags) (flag : TransitionOptions) : Bool :=
  f.m_flags.testBit flag.bit

/-- Modelled from the spec: `TransitionNode::Settings`, declared in the runtime header
that is outside src; per section 4.4 it holds the target state node index, the two
override node indices, the scalar parameters and the option flags. -/
structure Settings where
  m_nodeIdx : Int
  m_targetStateNodeIdx : Int := InvalidIndex
  m_durationOverrideNodeIdx : Int := InvalidIndex
  m_syncEventOffsetOverrideNodeIdx : Int := InvalidIndex
  m_blendWeightEasingType : Nat := 0
  m_rootMotionBlend : Nat := 0
  m_duration : FloatValue := ⟨0⟩
  m_syncEventOffset : FloatValue := ⟨0⟩
  m_transitionOptions : BitFlags := {}
deriving DecidableEq, Repr

end TransitionNode

/-- A record of the context's settings table: the settings of a state machine node,
of a state node, of a transition node, or of a node of any other type (of which only
the node index matters here). -/
inductive NodeSettings
  | stateMachine (s : StateMachineNode.Settings)
  | state (s : StateNode.Settings)
  | transition (s : TransitionNode.Settings)
  | flow (m_nodeIdx : Int)
deriving DecidableEq, Repr

/-- The field `m_nodeIdx`, which every settings record has. -/
def NodeSettings.m_nodeIdx : NodeSettings → Int
  | .stateMachine s => s.m_nodeIdx
  | .state s => s.m_nodeIdx
  | .transition s => s.m_nodeIdx
  | .flow i => i

/-! ## Compilation context -/

/-- The place a compile call is made from. -/
inductive CallKind
  | stateBody | entryCondition | transitionNode | transitionCondition
  | blendTree | layerWeight | layerBoneMask | durationOverride | syncEventOffsetOverride
deriving DecidableEq, Repr

/-- The loop of `Compile` a transition is offered to `TryCompileTransition` from: the
loop over the conduits (with the conduit's position) or the loop over the working
copy of the global transitions. -/
inductive TransitionOrigin
  | conduit (c : Nat)
  | global
deriving DecidableEq, Repr

/-- An entry of the journal. `call kind id result`: the compile call made at a site of
kind `kind` on the node `id` returned `result`. `emit i origin id endStateID`:
`TryCompileTransition` appended a transition entry to state `i` for the transition
node `id` towards `endStateID`. -/
inductive CompileEvent
  | call (kind : CallKind) (id : UUID) (result : Int)
  | emit (stateIdx : Nat) (origin : TransitionOrigin) (id : UUID) (endStateID : UUID)
deriving DecidableEq, Repr

/-- Modelled from the spec: `NodeCompilationState`, declared in
Animation_ToolsGraph_Compilation.h, which is outside src; section 4.1 names the three
values. -/
inductive NodeCompilationState
  | NeedCompilation | AlreadyCompiled | Error
deriving DecidableEq, Repr

/-- Modelled from the spec: `GraphCompilationContext`, declared in
Animation_ToolsGraph_Compilation.h, which is outside src. Per section 4.1 it memoizes the
settings record of every node by node identity (`m_nodeIDToIndexMap`, `m_nodeSettings`)
and tracks the open conduit scopes and transition-condition scopes, which obey a stack
discipline. `m_log` is the verification-only journal. -/
structure GraphCompilationContext where
  m_nodeIDToIndexMap : List (UUID × Nat) := []
  m_nodeSettings : List NodeSettings := []
  m_conduitScopes : List Int := []
  m_transitionConditionsScopes : List (FloatValue × Int) := []
  m_log : List CompileEvent := []
deriving DecidableEq, Repr

namespace GraphCompilationContext

/-- Modelled from the spec: `GraphCompilationContext::GetSettings<T>`, defined in
Animation_ToolsGraph_Compilation.h, which is outside src. Per section 4.1 the first request
for a node identity allocates a fresh record, which gets the next runtime index, and
answers `NeedCompilation`; any later request for the same identity answers
`AlreadyCompiled` with the record allocated before. The spec names no condition under
which `Error` is answered, so it never is. The result is the state and the pointer to
the record; `fresh` builds the default-constructed record of type `T`. -/
def GetSettings (ctx : GraphCompilationContext) (id : UUID) (fresh : Int → NodeSettings) :
    NodeCompilationState × Nat × GraphCompilationContext :=
  match ctx.m_nodeIDToIndexMap.lookup id with
  | some p => (.AlreadyCompiled, p, ctx)
  | none =>
    let p := ctx.m_nodeSettings.length
    (.NeedCompilation, p,
      { ctx with
        m_nodeIDToIndexMap := ctx.m_nodeIDToIndexMap ++ [(id, p)]
        m_nodeSettings := ctx.m_nodeSettings ++ [fresh (p : Int)] })

/-- Reading `pSettings->m_nodeIdx`. -/
def nodeIdxAt (ctx : GraphCompilationContext) (p : Nat) : Option Int :=
  ctx.m_nodeSettings[p]?.map NodeSettings.m_nodeIdx

/-- Reading a `TransitionNode::Settings` record through its pointer. -/
def transitionAt (ctx : GraphCompilationContext) (p : Nat) : Option TransitionNode.Settings :=
  match ctx.m_nodeSettings[p]? with
  | some (.transition s) => some s
  | _ => none

/-- Reading a `StateMachineNode::Settings` record through its pointer. -/
def stateMachineAt (ctx : GraphCompilationContext) (p : Nat) :
    Option StateMachineNode.Settings :=
  match ctx.m_nodeSettings[p]? with
  | some (.stateMachine s) => some s
  | _ => none

/-- Reading a `StateNode::Settings` record through its pointer. -/
def stateAt (ctx : GraphCompilationContext) (p : Nat) : Option StateNode.Settings :=
  match ctx.m_nodeSettings[p]? with
  | some (.state s) => some s
  | _ => none

/-- A write through a `StateMachineNode::Settings*`. -/
def modifyStateMachine (ctx : GraphCompilationContext) (p : Nat)
    (f : StateMachineNode.Settings → StateMachineNode.Settings) : GraphCompilationContext :=
  let write : NodeSettings → NodeSettings := fun r =>
    match r with
    | .stateMachine s => .stateMachine (f s)
    | other => other
  { ctx with m_nodeSettings := ctx.m_nodeSettings.modify write p }

/-- A write through a `StateNode::Settings*`. -/
def modifyState (ctx : GraphCompilationContext) (p : Nat)
    (f : StateNode.Settings → StateNode.Settings) : GraphCompilationContext :=
  let write : NodeSettings → NodeSettings := fun r =>
    match r with
    | .state s => .state (f s)
    | other => other
  { ctx with m_nodeSettings := ctx.m_nodeSettings.modify write p }

/-- A write through a `TransitionNode::Settings*`. -/
def modifyTransition (ctx : GraphCompilationContext) (p : Nat)
    (f : TransitionNode.Settings → TransitionNode.Settings) : GraphCompilationContext :=
  let write : NodeSettings → NodeSettings := fun r =>
    match r with
    | .transition s => .transition (f s)
    | other => other
  { ctx with m_nodeSettings := ctx.m_nodeSettings.modify write p }

/-- Journal entry (verification only). -/
def record (ctx : GraphCompilationContext) (e : CompileEvent) : GraphCompilationContext :=
  { ctx with m_log := ctx.m_log ++ [e] }

/-- Modelled from the spec: `BeginConduitCompilation`, defined in
Animation_ToolsGraph_Compilation.h, which is outside src; per section 4.1 it opens a conduit
scope that records the source state of the conduit. -/
def BeginConduitCompilation (ctx : GraphCompilationContext) (sourceStateNodeIdx : Int) :
    GraphCompilationContext :=
  { ctx with m_conduitScopes := sourceStateNodeIdx :: ctx.m_conduitScopes }

/-- Modelled from the spec: `EndConduitCompilation`, defined in
Animation_ToolsGraph_Compilation.h, which is outside src; it closes the innermost open
conduit scope. -/
def EndConduitCompilation (ctx : GraphCompilationContext) : GraphCompilationContext :=
  { ctx with m_conduitScopes := ctx.m_conduitScopes.tail }

/-- Modelled from the spec: `BeginTransitionConditionsCompilation`, defined in
Animation_ToolsGraph_Compilation.h, which is outside src; per section 4.1 it opens a
transition-condition scope that records the duration context of the transition. -/
def BeginTransitionConditionsCompilation (ctx : GraphCompilationContext)
    (duration : FloatValue) (durationOverrideNodeIdx : Int) : GraphCompilationContext :=
  { ctx with m_transitionConditionsScopes :=
      (duration, durationOverrideNodeIdx) :: ctx.m_transitionConditionsScopes }

/-- Modelled from the spec: `EndTransitionConditionsCompilation`, defined in
Animation_ToolsGraph_Compilation.h, which is outside src; it closes the innermost open
transition-condition scope. -/
def EndTransitionConditionsCompilation (ctx : GraphCompilationContext) :
    GraphCompilationContext :=
  { ctx with m_transitionConditionsScopes := ctx.m_transitionConditionsScopes.tail }

end GraphCompilationContext

/-! ## Authoring nodes -/

/-- Modelled from the spec: a flow node other than the state machine node (a condition,
a blend tree node, a value node), whose class is outside src. It has an identifier and
a value type; `m_compiles` tells whether its own compilation succeeds. -/
structure FlowToolsNode where
  GetID : UUID
  GetValueType : GraphValueType
  m_compiles : Bool
deriving DecidableEq, Repr

/-- Modelled from the spec: the virtual `Compile` of a flow node whose class is outside
src. Per sections 3 and 4.1 it asks the context for the node's settings, returns the
memoized index when the node is already compiled, and otherwise returns the index of
the fresh record, or `InvalidIndex` when the node fails to compile. -/
def FlowToolsNode.Compile (n : FlowToolsNode) (ctx : GraphCompilationContext) :
    Option (Int × GraphCompilationContext) :=
  match ctx.GetSettings n.GetID NodeSettings.flow with
  | (state, pSettings, ctx) =>
    if state = NodeCompilationState.NeedCompilation ∧ n.m_compiles = false then
      some (InvalidIndex, ctx)
    else
      match ctx.nodeIdxAt pSettings with
      | none => none
      | some idx => some (idx, ctx)

/-- `TransitionToolsNode`: input pin 0 is the condition, pin 1 the duration override,
pin 2 the sync event offset override. -/
structure TransitionToolsNode where
  GetID : UUID
  GetConnectedInputNode : Nat → Option FlowToolsNode
  m_blendWeightEasingType : Nat := 0
  m_rootMotionBlend : Nat := 0
  m_duration : FloatValue := ⟨0⟩
  m_syncEventOffset : FloatValue := ⟨0⟩
  m_isSynchronized : Bool := false
  m_clampDurationToSource : Bool := false
  m_keepSourceSyncEventIdx : Bool := false
  m_keepSourceSyncEventPercentageThrough : Bool := false
  m_canBeForced : Bool := false

/-- `GlobalTransitionToolsNode`: a transition node that names its end state. -/
structure GlobalTransitionToolsNode extends TransitionToolsNode where
  GetEndStateID : UUID

/-- `TransitionConduitToolsNode`; `transitionNodes` is what
`GetSecondaryGraph()->FindAllNodesOfType<TransitionToolsNode>()` finds. -/
structure TransitionConduitToolsNode where
  GetStartStateID : UUID
  GetEndStateID : UUID
  transitionNodes : List TransitionToolsNode

/-- `ResultToolsNode`, of which only the connected inputs matter. -/
structure ResultToolsNode where
  GetConnectedInputNode : Nat → Option FlowToolsNode

/-- `StateLayerDataToolsNode`: input pin 0 is the layer weight, pin 1 the layer mask. -/
structure StateLayerDataToolsNode where
  GetConnectedInputNode : Nat → Option FlowToolsNode

/-- A timed state event of the authoring node. -/
structure TimedStateEvent where
  m_ID : StringID
  m_timeValue : FloatValue
deriving DecidableEq, Repr

/-- The members `BlendTreeStateToolsNode` adds to `ToolsState`. The two getters return
a pointer that `CompileState` asserts to be non-null. -/
structure BlendTreeStateToolsNode where
  GetBlendTreeRootNode : Option ResultToolsNode
  GetLayerDataNode : Option StateLayerDataToolsNode
  m_timeRemainingEvents : List TimedStateEvent := []
  m_timeElapsedEvents : List TimedStateEvent := []

/-- `ToolsState`. `TryCastBlendTreeState` is `TryCast<BlendTreeStateToolsNode>`: the
members of the derived class when the state is a blend tree state, `none` when it is an
`OffStateToolsNode`. -/
structure ToolsState where
  GetID : UUID
  m_entryEvents : List StringID := []
  m_executeEvents : List StringID := []
  m_exitEvents : List StringID := []
  TryCastBlendTreeState : Option BlendTreeStateToolsNode

/-- `EntryStateOverrideConduitToolsNode`, of which only the entry condition lookup
matters. -/
structure EntryStateOverrideConduitToolsNode where
  GetEntryConditionNodeForState : UUID → Option FlowToolsNode

/-- `GlobalTransitionConduitToolsNode`; `globalTransitionNodes` is what
`GetSecondaryGraph()->FindAllNodesOfType<GlobalTransitionToolsNode>()` finds. -/
structure GlobalTransitionConduitToolsNode where
  globalTransitionNodes : List GlobalTransitionToolsNode

/-- `StateMachineGraph`: `stateNodes` is what `FindAllNodesOfType<ToolsState>` finds
(derived types included), `conduitNodes` what
`FindAllNodesOfType<TransitionConduitToolsNode>` finds, both in declaration order. -/
structure StateMachineGraph where
  stateNodes : List ToolsState
  conduitNodes : List TransitionConduitToolsNode
  GetDefaultEntryStateID : UUID

/-- `StateMachineToolsNode`. The graph holds exactly one entry state override conduit
and one global transition conduit (the getters assert it), which are fields here. -/
structure StateMachineToolsNode where
  GetID : UUID
  GetChildGraph : StateMachineGraph
  GetEntryStateOverrideConduit : EntryStateOverrideConduitToolsNode
  GetGlobalTransitionConduit : GlobalTransitionConduitToolsNode

/-! ## Lookup maps -/

/-- Modelled from the spec: `THashMap<UUID, V>`, declared outside src: the lookup maps of
section 4.2 step 3, kept as an association list in insertion order. -/
abbrev THashMap (V : Type) := List (UUID × V)

/-- Modelled from the spec: `THashMap::find`, declared outside src: the value stored for
the key, if any. -/
def THashMap.find {V : Type} (m : THashMap V) (k : UUID) : Option V :=
  List.lookup k m

/-- Modelled from the spec: `THashMap::insert( pair )`, declared outside src: adds the pair
unless the key is already present. -/
def THashMap.insert {V : Type} (m : THashMap V) (k : UUID) (v : V) : THashMap V :=
  match m.find k with
  | some _ => m
  | none => m ++ [(k, v)]

/-- Modelled from the spec: `THashMap::operator[]`, declared outside src: the value stored
for the key; an absent key is first inserted with a value-initialized value (`zero`).
Returns the value and the map afterwards. -/
def THashMap.index {V : Type} (m : THashMap V) (k : UUID) (zero : V) : V × THashMap V :=
  match m.find k with
  | some v => (v, m)
  | none => (zero, m ++ [(k, zero)])

/-- The two maps local to `Compile`. -/
structure CompileLocals where
  IDToStateIdxMap : THashMap Int := []
  IDToCompiledNodeIdxMap : THashMap Int := []
deriving DecidableEq, Repr

/-! ## CompileState and CompileTransition -/

/-- The block that recurs for every optional input:
`if ( pNode != nullptr ) { EE_ASSERT( type ); field = pNode->Compile( context );
if ( field == InvalidIndex ) return InvalidIndex; }`.
`requiredType` is the asserted value type, if the block asserts one; `store` is the
write to `field`. The boolean is false when the enclosing function returns
`InvalidIndex`. -/
def compileConnectedInput (kind : CallKind) (pNode : Option FlowToolsNode)
    (requiredType : Option GraphValueType)
    (store : Int → GraphCompilationContext → GraphCompilationContext)
    (ctx : GraphCompilationContext) : Option (Bool × GraphCompilationContext) :=
  match pNode with
  | none => some (true, ctx)
  | some n =>
    match EE_ASSERT (requiredType.all (fun t => decide (n.GetValueType = t))) with
    | none => none
    | some _ =>
      match n.Compile ctx with
      | none => none
      | some (idx, ctx) =>
        let ctx := store idx (ctx.record (.call kind n.GetID idx))
        if idx = InvalidIndex then some (false, ctx) else some (true, ctx)

/-- `StateMachineToolsNode::CompileState`. -/
def CompileState (ctx : GraphCompilationContext) (pBaseStateNode : ToolsState) :
    Option (Int × GraphCompilationContext) :=
  match ctx.GetSettings pBaseStateNode.GetID (fun i => .state { m_nodeIdx := i }) with
  | (state, pSettings, ctx) =>
    match EE_ASSERT (decide (state = NodeCompilationState.NeedCompilation)) with
    | none => none
    | some _ =>
      let ctx := ctx.modifyState pSettings fun s =>
        { s with m_entryEvents := s.m_entryEvents ++ pBaseStateNode.m_entryEvents }
      let ctx := ctx.modifyState pSettings fun s =>
        { s with m_executeEvents := s.m_executeEvents ++ pBaseStateNode.m_executeEvents }
      let ctx := ctx.modifyState pSettings fun s =>
        { s with m_exitEvents := s.m_exitEvents ++ pBaseStateNode.m_exitEvents }
      match pBaseStateNode.TryCastBlendTreeState with
      | some pBlendTreeStateNode =>
        match pBlendTreeStateNode.GetBlendTreeRootNode with
        | none => none
        | some pBlendTreeRoot =>
          match compileConnectedInput .blendTree (pBlendTreeRoot.GetConnectedInputNode 0) none
              (fun idx c => c.modifyState pSettings fun s => { s with m_childNodeIdx := idx })
              ctx with
          | none => none
          | some (false, ctx) => some (InvalidIndex, ctx)
          | some (true, ctx) =>
            match pBlendTreeStateNode.GetLayerDataNode with
            | none => none
            | some pLayerData =>
              match compileConnectedInput .layerWeight (pLayerData.GetConnectedInputNode 0)
                  none
                  (fun idx c => c.modifyState pSettings fun s =>
                    { s with m_layerWeightNodeIdx := idx })
                  ctx with
              | none => none
              | some (false, ctx) => some (InvalidIndex, ctx)
              | some (true, ctx) =>
                match compileConnectedInput .layerBoneMask
                    (pLayerData.GetConnectedInputNode 1) none
                    (fun idx c => c.modifyState pSettings fun s =>
                      { s with m_layerBoneMaskNodeIdx := idx })
                    ctx with
                | none => none
                | some (false, ctx) => some (InvalidIndex, ctx)
                | some (true, ctx) =>
                  let remaining : List StateNode.TimedEvent :=
                    pBlendTreeStateNode.m_timeRemainingEvents.map
                      (fun evt => ⟨evt.m_ID, evt.m_timeValue⟩)
                  let elapsed : List StateNode.TimedEvent :=
                    pBlendTreeStateNode.m_timeElapsedEvents.map
                      (fun evt => ⟨evt.m_ID, evt.m_timeValue⟩)
                  let ctx := ctx.modifyState pSettings fun s =>
                    { s with m_timedRemainingEvents := s.m_timedRemainingEvents ++ remaining }
                  let ctx := ctx.modifyState pSettings fun s =>
                    { s with m_timedElapsedEvents := s.m_timedElapsedEvents ++ elapsed }
                  match ctx.nodeIdxAt pSettings with
                  | none => none
                  | some idx => some (idx, ctx)
      | none =>
        let ctx := ctx.modifyState pSettings fun s => { s with m_childNodeIdx := InvalidIndex }
        let ctx := ctx.modifyState pSettings fun s => { s with m_isOffState := true }
        match ctx.nodeIdxAt pSettings with
        | none => none
        | some idx => some (idx, ctx)

/-- `StateMachineToolsNode::CompileTransition`. -/
def CompileTransition (ctx : GraphCompilationContext) (pTransitionNode : TransitionToolsNode)
    (targetStateNodeIdx : Int) : Option (Int × GraphCompilationContext) :=
  match ctx.GetSettings pTransitionNode.GetID (fun i => .transition { m_nodeIdx := i }) with
  | (state, pSettings, ctx) =>
    if state = NodeCompilationState.AlreadyCompiled then
      match ctx.nodeIdxAt pSettings with
      | none => none
      | some idx => some (idx, ctx)
    else
      match compileConnectedInput .durationOverride (pTransitionNode.GetConnectedInputNode 1)
          (some GraphValueType.Float)
          (fun idx c => c.modifyTransition pSettings fun s =>
            { s with m_durationOverrideNodeIdx := idx })
          ctx with
      | none => none
      | some (false, ctx) => some (InvalidIndex, ctx)
      | some (true, ctx) =>
        match compileConnectedInput .syncEventOffsetOverride
            (pTransitionNode.GetConnectedInputNode 2) (some GraphValueType.Float)
            (fun idx c => c.modifyTransition pSettings fun s =>
              { s with m_syncEventOffsetOverrideNodeIdx := idx })
            ctx with
        | none => none
        | some (false, ctx) => some (InvalidIndex, ctx)
        | some (true, ctx) =>
          let ctx := ctx.modifyTransition pSettings fun s =>
            { s with
              m_targetStateNodeIdx := targetStateNodeIdx
              m_blendWeightEasingType := pTransitionNode.m_blendWeightEasingType
              m_rootMotionBlend := pTransitionNode.m_rootMotionBlend
              m_duration := pTransitionNode.m_duration
              m_syncEventOffset := pTransitionNode.m_syncEventOffset }
          let setFlag (flag : TransitionNode.TransitionOptions) (value : Bool)
              (c : GraphCompilationContext) : GraphCompilationContext :=
            c.modifyTransition pSettings fun s =>
              { s with m_transitionOptions := s.m_transitionOptions.SetFlag flag value }
          let ctx := setFlag .Synchronized pTransitionNode.m_isSynchronized ctx
          let ctx := setFlag .ClampDuration pTransitionNode.m_clampDurationToSource ctx
          let ctx := setFlag .KeepSyncEventIndex pTransitionNode.m_keepSourceSyncEventIdx ctx
          let ctx := setFlag .KeepSyncEventPercentage
            pTransitionNode.m_keepSourceSyncEventPercentageThrough ctx
          let ctx := setFlag .ForcedTransitionAllowed pTransitionNode.m_canBeForced ctx
          match ctx.nodeIdxAt pSettings with
          | none => none
          | some idx => some (idx, ctx)

/-! ## StateMachineToolsNode::Compile -/

/-- A write to `pSettings->m_stateSettings[i]`. -/
def writeState (i : Nat) (f : StateMachineNode.StateSettings → StateMachineNode.StateSettings)
    (s : StateMachineNode.Settings) : StateMachineNode.Settings :=
  { s with m_stateSettings := s.m_stateSettings.modify f i }

/-- A write through the reference `stateSettings`, which `emplace_back` returned: the
last element of `m_stateSettings`. -/
def writeLastState (f : StateMachineNode.StateSettings → StateMachineNode.StateSettings)
    (s : StateMachineNode.Settings) : StateMachineNode.Settings :=
  { s with m_stateSettings := s.m_stateSettings.modifyLast f }

/-- A write through the reference `transitionSettings`, which `emplace_back` returned:
the last element of the transition list of state `i`. -/
def writeLastTransition (i : Nat)
    (f : StateMachineNode.TransitionSettings → StateMachineNode.TransitionSettings)
    (s : StateMachineNode.Settings) : StateMachineNode.Settings :=
  writeState i
    (fun st => { st with m_transitionSettings := st.m_transitionSettings.modifyLast f }) s

/-- The lambda `RemoveFromGlobalTransitions` of `Compile`, as a function of the working
copy: erases the first entry whose end state is `endStateID` and stops. -/
def RemoveFromGlobalTransitions :
    List GlobalTransitionToolsNode → UUID → List GlobalTransitionToolsNode
  | [], _ => []
  | g :: rest, endStateID =>
    if g.GetEndStateID = endStateID then rest
    else g :: RemoveFromGlobalTransitions rest endStateID

/-- The lambda `TryCompileTransition` of `Compile`, for the state at position `i`.
`pSettings` points to the settings of the state machine node; `origin` only goes to the
journal. The boolean is the lambda's result. -/
def TryCompileTransition (pSettings : Nat) (i : Nat) (origin : TransitionOrigin)
    (pTransitionNode : TransitionToolsNode) (endStateID : UUID) (maps : CompileLocals)
    (ctx : GraphCompilationContext) : Option (Bool × CompileLocals × GraphCompilationContext) :=
  match pTransitionNode.GetConnectedInputNode 0 with
  | none => some (true, maps, ctx)
  | some pConditionNode =>
    match EE_ASSERT (decide (pConditionNode.GetValueType = GraphValueType.Bool)) with
    | none => none
    | some _ =>
      let ctx := ctx.modifyStateMachine pSettings (writeState i fun st =>
        { st with m_transitionSettings := st.m_transitionSettings ++ [{}] })
      let ctx := ctx.record (.emit i origin pTransitionNode.GetID endStateID)
      match maps.IDToStateIdxMap.index endStateID 0 with
      | (targetStateIdx, stateIdxMap) =>
        let ctx := ctx.modifyStateMachine pSettings (writeLastTransition i fun t =>
          { t with m_targetStateIdx := targetStateIdx })
        match maps.IDToCompiledNodeIdxMap.index endStateID 0 with
        | (targetStateNodeIdx, compiledNodeIdxMap) =>
          let maps : CompileLocals := ⟨stateIdxMap, compiledNodeIdxMap⟩
          match CompileTransition ctx pTransitionNode targetStateNodeIdx with
          | none => none
          | some (transitionNodeIdx, ctx) =>
            let ctx := ctx.record (.call .transitionNode pTransitionNode.GetID transitionNodeIdx)
            let ctx := ctx.modifyStateMachine pSettings (writeLastTransition i fun t =>
              { t with m_transitionNodeIdx := transitionNodeIdx })
            if transitionNodeIdx = InvalidIndex then some (false, maps, ctx)
            else
              match ctx.GetSettings pTransitionNode.GetID
                  (fun idx => .transition { m_nodeIdx := idx }) with
              | (state, pCompiledTransitionSettings, ctx) =>
                match EE_ASSERT (decide (state = NodeCompilationState.AlreadyCompiled)) with
                | none => none
                | some _ =>
                  match ctx.transitionAt pCompiledTransitionSettings with
                  | none => none
                  | some compiled =>
                    let ctx := ctx.BeginTransitionConditionsCompilation compiled.m_duration
                      compiled.m_durationOverrideNodeIdx
                    match pConditionNode.Compile ctx with
                    | none => none
                    | some (conditionNodeIdx, ctx) =>
                      let ctx := ctx.record
                        (.call .transitionCondition pConditionNode.GetID conditionNodeIdx)
                      let ctx := ctx.modifyStateMachine pSettings
                        (writeLastTransition i fun t =>
                          { t with m_conditionNodeIdx := conditionNodeIdx })
                      if conditionNodeIdx = InvalidIndex then some (false, maps, ctx)
                      else some (true, maps, ctx.EndTransitionConditionsCompilation)

/-- The first loop of `Compile` (lines 86 to 112), from the state at position `i` on.
The boolean is false when the loop executed `return InvalidIndex`. -/
def compileStates (sm : StateMachineToolsNode) (pSettings : Nat) :
    List ToolsState → Nat → CompileLocals → GraphCompilationContext →
    Option (Bool × CompileLocals × GraphCompilationContext)
  | [], _, maps, ctx => some (true, maps, ctx)
  | pStateNode :: rest, i, maps, ctx =>
    let ctx := ctx.modifyStateMachine pSettings fun s =>
      { s with m_stateSettings := s.m_stateSettings ++ [{}] }
    match CompileState ctx pStateNode with
    | none => none
    | some (stateNodeIdx, ctx) =>
      let ctx := ctx.record (.call .stateBody pStateNode.GetID stateNodeIdx)
      let ctx := ctx.modifyStateMachine pSettings (writeLastState fun st =>
        { st with m_stateNodeIdx := stateNodeIdx })
      if stateNodeIdx = InvalidIndex then some (false, maps, ctx)
      else
        match compileConnectedInput .entryCondition
            (sm.GetEntryStateOverrideConduit.GetEntryConditionNodeForState pStateNode.GetID)
            (some GraphValueType.Bool)
            (fun idx c => c.modifyStateMachine pSettings (writeLastState fun st =>
              { st with m_entryConditionNodeIdx := idx }))
            ctx with
        | none => none
        | some (false, ctx) => some (false, maps, ctx)
        | some (true, ctx) =>
          let maps : CompileLocals :=
            ⟨maps.IDToStateIdxMap.insert pStateNode.GetID (toInt16 i),
              maps.IDToCompiledNodeIdxMap.insert pStateNode.GetID stateNodeIdx⟩
          compileStates sm pSettings rest (i + 1) maps ctx

/-- The loop over the transitions of one conduit (lines 202 to 208). -/
def compileConduitTransitions (pSettings : Nat) (i : Nat) (c : Nat) (endStateID : UUID) :
    List TransitionToolsNode → CompileLocals → GraphCompilationContext →
    Option (Bool × CompileLocals × GraphCompilationContext)
  | [], maps, ctx => some (true, maps, ctx)
  | pTransitionNode :: rest, maps, ctx =>
    match TryCompileTransition pSettings i (.conduit c) pTransitionNode endStateID maps ctx with
    | none => none
    | some (false, maps, ctx) => some (false, maps, ctx)
    | some (true, maps, ctx) =>
      compileConduitTransitions pSettings i c endStateID rest maps ctx

/-- The loop over the conduits (lines 186 to 211) for the state at position `i`, from
the conduit at position `c` on; `copy` is `globalTransitionNodesCopy`. -/
def compileConduits (pSettings : Nat) (i : Nat) (pStartStateNode : ToolsState) :
    List TransitionConduitToolsNode → Nat → List GlobalTransitionToolsNode → CompileLocals →
    GraphCompilationContext →
    Option (Bool × List GlobalTransitionToolsNode × CompileLocals × GraphCompilationContext)
  | [], _, copy, maps, ctx => some (true, copy, maps, ctx)
  | pConduit :: rest, c, copy, maps, ctx =>
    if pConduit.GetStartStateID ≠ pStartStateNode.GetID then
      compileConduits pSettings i pStartStateNode rest (c + 1) copy maps ctx
    else
      let copy := RemoveFromGlobalTransitions copy pConduit.GetEndStateID
      match maps.IDToCompiledNodeIdxMap.find pConduit.GetStartStateID with
      | none => none
      | some sourceStateNodeIdx =>
        let ctx := ctx.BeginConduitCompilation sourceStateNodeIdx
        match compileConduitTransitions pSettings i c pConduit.GetEndStateID
            pConduit.transitionNodes maps ctx with
        | none => none
        | some (false, maps, ctx) => some (false, copy, maps, ctx)
        | some (true, maps, ctx) =>
          compileConduits pSettings i pStartStateNode rest (c + 1) copy maps
            ctx.EndConduitCompilation

/-- The loop over the working copy of the global transitions (lines 217 to 228) for the
state at position `i`. -/
def compileGlobalTransitions (pSettings : Nat) (i : Nat) (pStartStateNode : ToolsState) :
    List GlobalTransitionToolsNode → CompileLocals → GraphCompilationContext →
    Option (Bool × CompileLocals × GraphCompilationContext)
  | [], maps, ctx => some (true, maps, ctx)
  | pGlobalTransition :: rest, maps, ctx =>
    match maps.IDToCompiledNodeIdxMap.find pStartStateNode.GetID with
    | none => none
    | some sourceStateNodeIdx =>
      let ctx := ctx.BeginConduitCompilation sourceStateNodeIdx
      match TryCompileTransition pSettings i .global pGlobalTransition.toTransitionToolsNode
          pGlobalTransition.GetEndStateID maps ctx with
      | none => none
      | some (false, maps, ctx) => some (false, maps, ctx)
      | some (true, maps, ctx) =>
        compileGlobalTransitions pSettings i pStartStateNode rest maps
          ctx.EndConduitCompilation

/-- The second loop of `Compile` (lines 122 to 229), from the state at position `i` on.
Every iteration starts from a copy of `globalTransitionNodes`. -/
def compileTransitions (sm : StateMachineToolsNode) (pSettings : Nat) :
    List ToolsState → Nat → CompileLocals → GraphCompilationContext →
    Option (Bool × CompileLocals × GraphCompilationContext)
  | [], _, maps, ctx => some (true, maps, ctx)
  | pStartStateNode :: rest, i, maps, ctx =>
    let globalTransitionNodesCopy := sm.GetGlobalTransitionConduit.globalTransitionNodes
    let globalTransitionNodesCopy :=
      RemoveFromGlobalTransitions globalTransitionNodesCopy pStartStateNode.GetID
    match compileConduits pSettings i pStartStateNode sm.GetChildGraph.conduitNodes 0
        globalTransitionNodesCopy maps ctx with
    | none => none
    | some (false, _, maps, ctx) => some (false, maps, ctx)
    | some (true, globalTransitionNodesCopy, maps, ctx) =>
      match compileGlobalTransitions pSettings i pStartStateNode globalTransitionNodesCopy
          maps ctx with
      | none => none
      | some (false, maps, ctx) => some (false, maps, ctx)
      | some (true, maps, ctx) => compileTransitions sm pSettings rest (i + 1) maps ctx

/-- `StateMachineToolsNode::Compile` (lines 56 to 236). The state count and the loop
counters are `int32_t` in the source; a state list that does not fit is out of reach and
the counters are natural numbers here. -/
def StateMachineToolsNode.Compile (sm : StateMachineToolsNode) (ctx : GraphCompilationContext) :
    Option (Int × GraphCompilationContext) :=
  match ctx.GetSettings sm.GetID (fun i => .stateMachine { m_nodeIdx := i }) with
  | (state, pSettings, ctx) =>
    if state ≠ NodeCompilationState.NeedCompilation then
      match ctx.nodeIdxAt pSettings with
      | none => none
      | some idx => some (idx, ctx)
    else
      let stateNodes := sm.GetChildGraph.stateNodes
      match EE_ASSERT (decide (stateNodes.length ≥ 1)) with
      | none => none
      | some _ =>
        match compileStates sm pSettings stateNodes 0 {} ctx with
        | none => none
        | some (false, _, ctx) => some (InvalidIndex, ctx)
        | some (true, maps, ctx) =>
          match compileTransitions sm pSettings stateNodes 0 maps ctx with
          | none => none
          | some (false, _, ctx) => some (InvalidIndex, ctx)
          | some (true, maps, ctx) =>
            let ctx := ctx.modifyStateMachine pSettings fun s =>
              { s with m_defaultStateIndex :=
                  (maps.IDToStateIdxMap.index sm.GetChildGraph.GetDefaultEntryStateID 0).1 }
            match ctx.nodeIdxAt pSettings with
            | none => none
            | some idx => some (idx, ctx)

/-! ## Vocabulary of the specification -/

/-- The journal entries written between two contexts of one run. -/
def journal (a b : GraphCompilationContext) : List CompileEvent :=
  b.m_log.drop a.m_log.length

/-- How a context may change during a call: the journal grows, the identity map keeps its
entries, the
settings table keeps its length or grows, every record keeps its node index, and the
records at positions outside `P` are untouched. -/
structure Evolves (P : Nat → Prop) (a b : GraphCompilationContext) : Prop where
  log : b.m_log = a.m_log ++ journal a b
  map : ∀ (id : UUID) (p : Nat), a.m_nodeIDToIndexMap.lookup id = some p →
    b.m_nodeIDToIndexMap.lookup id = some p
  len : a.m_nodeSettings.length ≤ b.m_nodeSettings.length
  idx : ∀ (q : Nat) (s : NodeSettings), a.m_nodeSettings[q]? = some s →
    ∃ s' : NodeSettings, b.m_nodeSettings[q]? = some s' ∧ s'.m_nodeIdx = s.m_nodeIdx
  frame : ∀ q : Nat, q < a.m_nodeSettings.length → ¬ P q →
    b.m_nodeSettings[q]? = a.m_nodeSettings[q]?

/-- The call sites of `Compile` itself and of its lambda `TryCompileTransition`: the
state body, the entry condition, the transition node and the transition's condition
tree. The other sites are inside `CompileState` and `CompileTransition`. -/
def CallKind.isDirect : CallKind → Bool
  | .stateBody => true
  | .entryCondition => true
  | .transitionNode => true
  | .transitionCondition => true
  | _ => false

/-- The two call sites inside a conduit scope. -/
def CallKind.inConduit : CallKind → Bool
  | .transitionNode => true
  | .transitionCondition => true
  | _ => false

/-- The two call sites of the first loop of `Compile`. -/
def CallKind.inStateLoop : CallKind → Bool
  | .stateBody => true
  | .entryCondition => true
  | _ => false

/-- Journal entries of the calls made below `CompileState` and `CompileTransition`. -/
def CompileEvent.isNested : CompileEvent → Bool
  | .call k _ _ => !k.isDirect
  | .emit _ _ _ _ => false

/-- Journal entries of a child compile of `Compile` that returned `InvalidIndex`. -/
def CompileEvent.isFailedChild : CompileEvent → Bool
  | .call k _ r => k.isDirect && decide (r = InvalidIndex)
  | .emit _ _ _ _ => false

/-- Journal entries of an appended transition entry. -/
def CompileEvent.isEmit : CompileEvent → Bool
  | .call _ _ _ => false
  | .emit _ _ _ _ => true

/-- The effect of a call that leaves the scopes as they were: the context evolves,
touching only records at positions in `P`, and the journal grows by entries that
satisfy `A`. -/
structure Effect (P : Nat → Prop) (A : CompileEvent → Prop)
    (a b : GraphCompilationContext) : Prop where
  evolves : Evolves P a b
  conduitScopes : b.m_conduitScopes = a.m_conduitScopes
  conditionsScopes : b.m_transitionConditionsScopes = a.m_transitionConditionsScopes
  events : ∀ e ∈ journal a b, A e

/-- The shape of the journal of a run of `Compile` or of one of its loops, whose calls
are made at sites in `K`: when the run completes (`ok`), no child compile failed; when
the run executed `return InvalidIndex`, the last entry is a child compile that failed,
and it is the only one. -/
def Trace (K : CallKind → Bool) (ok : Bool) (evs : List CompileEvent) : Prop :=
  (ok = true → ∀ e ∈ evs, e.isFailedChild = false) ∧
  (ok = false → ∃ pre k id, evs = pre ++ [CompileEvent.call k id InvalidIndex] ∧
    K k = true ∧ k.isDirect = true ∧ ∀ x ∈ pre, x.isFailedChild = false)

/-- Both kinds of scope are as they were. -/
def ScopesKept (a b : GraphCompilationContext) : Prop :=
  b.m_conduitScopes = a.m_conduitScopes ∧
  b.m_transitionConditionsScopes = a.m_transitionConditionsScopes

/-- A run of a part of `Compile` for the state machine record at `ps`: the context
evolves, touching only that record, the journal has the shape `Trace`, the
transition entries appended are a prefix of `plan`, all of `plan` when the run
completes, and a run that completes leaves the scopes as they were; so does a run that
executed `return InvalidIndex` when `bal` is set. -/
structure Step (ps : Nat) (K : CallKind → Bool) (bal : Bool) (plan : List CompileEvent)
    (ok : Bool) (a b : GraphCompilationContext) : Prop where
  evolves : Evolves (fun q => q = ps) a b
  trace : Trace K ok (journal a b)
  emits : (journal a b).filter CompileEvent.isEmit <+: plan
  emitsAll : ok = true → (journal a b).filter CompileEvent.isEmit = plan
  scopes : ok = true ∨ bal = true → ScopesKept a b

/-- The transition entries one offer of a transition to `TryCompileTransition` appends:
one when the condition pin is connected, none otherwise. -/
def plannedTransition (i : Nat) (origin : TransitionOrigin) (pTransitionNode : TransitionToolsNode)
    (endStateID : UUID) : List CompileEvent :=
  match pTransitionNode.GetConnectedInputNode 0 with
  | some _ => [.emit i origin pTransitionNode.GetID endStateID]
  | none => []

/-- The transition entries the loop over a conduit's transitions appends. -/
def plannedConduitTransitions (i c : Nat) (endStateID : UUID) :
    List TransitionToolsNode → List CompileEvent
  | [] => []
  | t :: rest =>
    plannedTransition i (.conduit c) t endStateID ++
      plannedConduitTransitions i c endStateID rest

/-- The transition entries the loop over the conduits appends for the state at position
`i`, from the conduit at position `c` on: those of the conduits that start at the
state. -/
def plannedConduits (i : Nat) (pStartStateNode : ToolsState) :
    List TransitionConduitToolsNode → Nat → List CompileEvent
  | [], _ => []
  | pConduit :: rest, c =>
    (if pConduit.GetStartStateID ≠ pStartStateNode.GetID then []
      else plannedConduitTransitions i c pConduit.GetEndStateID pConduit.transitionNodes) ++
      plannedConduits i pStartStateNode rest (c + 1)

/-- The working copy of the global transitions after the loop over the conduits: the
end state of every conduit that starts at the state has been removed from it. -/
def workingCopy (pStartStateNode : ToolsState) :
    List TransitionConduitToolsNode → List GlobalTransitionToolsNode →
    List GlobalTransitionToolsNode
  | [], copy => copy
  | pConduit :: rest, copy =>
    if pConduit.GetStartStateID ≠ pStartStateNode.GetID then
      workingCopy pStartStateNode rest copy
    else
      workingCopy pStartStateNode rest (RemoveFromGlobalTransitions copy pConduit.GetEndStateID)

/-- The transition entries the loop over the working copy appends. -/
def plannedGlobals (i : Nat) : List GlobalTransitionToolsNode → List CompileEvent
  | [] => []
  | g :: rest =>
    plannedTransition i .global g.toTransitionToolsNode g.GetEndStateID ++
      plannedGlobals i rest

/-- The working copy the loop over the global transitions runs over for a state: the
master list without the first entry that targets the state itself and without the
first entry that targets the end state of each conduit starting at the state. -/
def globalsFor (sm : StateMachineToolsNode) (pStartStateNode : ToolsState) :
    List GlobalTransitionToolsNode :=
  workingCopy pStartStateNode sm.GetChildGraph.conduitNodes
    (RemoveFromGlobalTransitions sm.GetGlobalTransitionConduit.globalTransitionNodes
      pStartStateNode.GetID)

/-- The transition entries one iteration of the second loop appends. -/
def plannedState (sm : StateMachineToolsNode) (i : Nat) (pStartStateNode : ToolsState) :
    List CompileEvent :=
  plannedConduits i pStartStateNode sm.GetChildGraph.conduitNodes 0 ++
    plannedGlobals i (globalsFor sm pStartStateNode)

/-- The transition entries the second loop appends, from the state at position `i`
on. -/
def plannedTransitions (sm : StateMachineToolsNode) : List ToolsState → Nat → List CompileEvent
  | [], _ => []
  | pStartStateNode :: rest, i =>
    plannedState sm i pStartStateNode ++ plannedTransitions sm rest (i + 1)

/-- The runtime index of a node's settings record, as registered in the context. -/
def GraphCompilationContext.settingsIndexOf (ctx : GraphCompilationContext) (id : UUID) :
    Option Int :=
  match ctx.m_nodeIDToIndexMap.lookup id with
  | some p => ctx.nodeIdxAt p
  | none => none

/-- The journal ends with a transition node or a transition condition tree that
compiled to `InvalidIndex`. -/
def AbortedInConduit (evs : List CompileEvent) : Prop :=
  ∃ pre k id, evs = pre ++ [CompileEvent.call k id InvalidIndex] ∧ k.inConduit = true

/-- A node of Boolean value type that compiles. -/
def boolNode (id : UUID) : FlowToolsNode := ⟨id, .Bool, true⟩

/-- A node of Boolean value type that fails to compile. -/
def failingBoolNode (id : UUID) : FlowToolsNode := ⟨id, .Bool, false⟩

/-- A node of pose value type that compiles. -/
def poseNode (id : UUID) : FlowToolsNode := ⟨id, .Pose, true⟩

/-- A node of pose value type that fails to compile. -/
def failingPoseNode (id : UUID) : FlowToolsNode := ⟨id, .Pose, false⟩

/-- The connections of a node whose only connected input pin is pin 0. -/
def onlyPin0 (n : FlowToolsNode) : Nat → Option FlowToolsNode
  | 0 => some n
  | _ => none

/-- The connections of a node with no connected input pin. -/
def noPins : Nat → Option FlowToolsNode := fun _ => none

/-- An off state. -/
def offState (id : UUID) : ToolsState := { GetID := id, TryCastBlendTreeState := none }

/-- A blend tree state whose result node is fed by the node `pose`. -/
def blendTreeState (id : UUID) (pose : FlowToolsNode) : ToolsState :=
  { GetID := id
    TryCastBlendTreeState := some
      { GetBlendTreeRootNode := some ⟨onlyPin0 pose⟩
        GetLayerDataNode := some ⟨noPins⟩ } }

/-- A transition whose condition pin is fed by `condition`. -/
def transitionWith (id : UUID) (condition : FlowToolsNode) : TransitionToolsNode :=
  { GetID := id, GetConnectedInputNode := onlyPin0 condition }

/-- A global transition to `endStateID` whose condition pin is fed by `condition`. -/
def globalTransitionTo (id : UUID) (condition : FlowToolsNode) (endStateID : UUID) :
    GlobalTransitionToolsNode :=
  { toTransitionToolsNode := transitionWith id condition, GetEndStateID := endStateID }

/-- A state machine node with no entry conditions. -/
def stateMachineOf (id : UUID) (states : List ToolsState)
    (conduits : List TransitionConduitToolsNode) (globals : List GlobalTransitionToolsNode)
    (defaultEntryStateID : UUID) : StateMachineToolsNode :=
  { GetID := id
    GetChildGraph := ⟨states, conduits, defaultEntryStateID⟩
    GetEntryStateOverrideConduit := ⟨fun _ => none⟩
    GetGlobalTransitionConduit := ⟨globals⟩ }

/-- The context a first compile in the empty context ends in (the empty context when
the compile stops at an assertion). -/
def compiledContext (sm : StateMachineToolsNode) : GraphCompilationContext :=
  ((sm.Compile {}).getD (InvalidIndex, {})).2

/-- The target state indices of the transition entries of every state, read from the
state machine settings at `p`. -/
def targetsAt (ctx : GraphCompilationContext) (p : Nat) : Option (List (List Int)) :=
  (ctx.stateMachineAt p).map fun s =>
    s.m_stateSettings.map fun st => st.m_transitionSettings.map fun t => t.m_targetStateIdx

/-- The scenario of the spec: states Idle (10), Run (11), Jump (12) in that order, a
conduit Idle to Run with one transition on the condition `speed > 0` (node 100), and a
global transition to Jump on the condition `jumpPressed` (node 101). -/
def idleRunJump : StateMachineToolsNode :=
  stateMachineOf 1
    [blendTreeState 10 (poseNode 50), blendTreeState 11 (poseNode 51),
      blendTreeState 12 (poseNode 52)]
    [⟨10, 11, [transitionWith 20 (boolNode 100)]⟩]
    [globalTransitionTo 30 (boolNode 101) 12] 10

/-- The scenario with a condition-connected global transition to each of the three
states, as the editor keeps them. -/
def idleRunJumpAllGlobals : StateMachineToolsNode :=
  stateMachineOf 1
    [blendTreeState 10 (poseNode 50), blendTreeState 11 (poseNode 51),
      blendTreeState 12 (poseNode 52)]
    [⟨10, 11, [transitionWith 20 (boolNode 100)]⟩]
    [globalTransitionTo 31 (boolNode 102) 10, globalTransitionTo 32 (boolNode 103) 11,
      globalTransitionTo 30 (boolNode 101) 12] 10

/-- One blend tree state whose pose node fails to compile. -/
def failingBody : StateMachineToolsNode :=
  stateMachineOf 1 [blendTreeState 10 (failingPoseNode 50)] [] [] 10

/-- Three off states and a global transition to the third whose condition tree fails to
compile. -/
def failingCondition : StateMachineToolsNode :=
  stateMachineOf 1 [offState 10, offState 11, offState 12] []
    [globalTransitionTo 30 (failingBoolNode 101) 12] 10

/-- A state machine whose graph has no state node. -/
def noStates : StateMachineToolsNode := stateMachineOf 2 [] [] [] 10

/-- A transition whose condition pin is unconnected while its two override pins are
connected and its options are set. -/
def unconditionalTransition : TransitionToolsNode :=
  { GetID := 20
    GetConnectedInputNode := fun pin =>
      if pin = 1 then some ⟨60, .Float, true⟩ else if pin = 2 then some ⟨61, .Float, true⟩
      else none
    m_duration := ⟨1056964608⟩
    m_isSynchronized := true
    m_canBeForced := true }

/-! ## The compiled state machine record -/

/-- The runtime index registered for a node in a context, `InvalidIndex` when the node
has no settings record. -/
def GraphCompilationContext.indexOf (ctx : GraphCompilationContext) (id : UUID) : Int :=
  (ctx.settingsIndexOf id).getD InvalidIndex

/-- The map `IDToStateIdxMap` after the first loop of `Compile` has run over the states
from position `i` on, starting from the map `m`. -/
def stateIdxMapFrom : List ToolsState → Nat → THashMap Int → THashMap Int
  | [], _, m => m
  | pStateNode :: rest, i, m =>
    stateIdxMapFrom rest (i + 1) (m.insert pStateNode.GetID (toInt16 i))

/-- What `IDToStateIdxMap[ id ]` yields during the second loop of `Compile`: the index
the first loop stored for the ID, and 0 for an ID it stored nothing for. -/
def StateMachineToolsNode.stateIndexOf (sm : StateMachineToolsNode) (id : UUID) : Int :=
  ((stateIdxMapFrom sm.GetChildGraph.stateNodes 0 []).find id).getD 0

/-- A transition that gets a transition entry: the transition node, the node connected
to its condition pin, and the end state it is offered with. -/
structure EmittedTransition where
  pTransitionNode : TransitionToolsNode
  pConditionNode : FlowToolsNode
  endStateID : UUID

/-- The transition entry one offer of a transition to `TryCompileTransition` produces:
one when the condition pin is connected, none otherwise. -/
def emittedTransition (pTransitionNode : TransitionToolsNode) (endStateID : UUID) :
    List EmittedTransition :=
  match pTransitionNode.GetConnectedInputNode 0 with
  | some pConditionNode => [⟨pTransitionNode, pConditionNode, endStateID⟩]
  | none => []

/-- The transitions of one conduit that get an entry, in the conduit's order. -/
def emittedConduitTransitions (endStateID : UUID) :
    List TransitionToolsNode → List EmittedTransition
  | [] => []
  | t :: rest => emittedTransition t endStateID ++ emittedConduitTransitions endStateID rest

/-- The transitions of the conduits that start at a state that get an entry, in the
order of the conduits. -/
def emittedConduits (pStartStateNode : ToolsState) :
    List TransitionConduitToolsNode → List EmittedTransition
  | [] => []
  | pConduit :: rest =>
    (if pConduit.GetStartStateID ≠ pStartStateNode.GetID then []
      else emittedConduitTransitions pConduit.GetEndStateID pConduit.transitionNodes) ++
      emittedConduits pStartStateNode rest

/-- The global transitions of a working copy that get an entry, in the copy's order. -/
def emittedGlobals : List GlobalTransitionToolsNode → List EmittedTransition
  | [] => []
  | g :: rest => emittedTransition g.toTransitionToolsNode g.GetEndStateID ++ emittedGlobals rest

/-- The transitions that get an entry in the transition list of a state, in the order
of the entries: those of the conduits that start at the state, then the global
transitions that remain in the state's working copy. -/
def StateMachineToolsNode.emittedFor (sm : StateMachineToolsNode) (pStartStateNode : ToolsState) :
    List EmittedTransition :=
  emittedConduits pStartStateNode sm.GetChildGraph.conduitNodes ++
    emittedGlobals (globalsFor sm pStartStateNode)

/-- The transition entry of an emitted transition, with the node indices registered in
the context. -/
def StateMachineToolsNode.transitionSettingsOf (sm : StateMachineToolsNode)
    (ctx : GraphCompilationContext) (t : EmittedTransition) :
    StateMachineNode.TransitionSettings :=
  { m_targetStateIdx := sm.stateIndexOf t.endStateID
    m_conditionNodeIdx := ctx.indexOf t.pConditionNode.GetID
    m_transitionNodeIdx := ctx.indexOf t.pTransitionNode.GetID }

/-- The settings of a state in the compiled state machine record, with the node indices
registered in the context. -/
def StateMachineToolsNode.stateSettingsOf (sm : StateMachineToolsNode)
    (ctx : GraphCompilationContext) (pStateNode : ToolsState) :
    StateMachineNode.StateSettings :=
  { m_stateNodeIdx := ctx.indexOf pStateNode.GetID
    m_entryConditionNodeIdx :=
      match sm.GetEntryStateOverrideConduit.GetEntryConditionNodeForState pStateNode.GetID with
      | some pEntryConditionNode => ctx.indexOf pEntryConditionNode.GetID
      | none => InvalidIndex
    m_transitionSettings := (sm.emittedFor pStateNode).map (sm.transitionSettingsOf ctx) }

/-- The compiled state machine record, with the node indices registered in the
context. -/
def StateMachineToolsNode.settingsOf (sm : StateMachineToolsNode)
    (ctx : GraphCompilationContext) : StateMachineNode.Settings :=
  { m_nodeIdx := ctx.indexOf sm.GetID
    m_stateSettings := sm.GetChildGraph.stateNodes.map (sm.stateSettingsOf ctx)
    m_defaultStateIndex := sm.stateIndexOf sm.GetChildGraph.GetDefaultEntryStateID }

/-- A transition entry is the entry of an emitted transition: its target is the index
`idx` gives for the end state, and its node indices are those registered in the context
for the transition node and the condition node. -/
def IsEntryOf (ctx : GraphCompilationContext) (idx : UUID → Int) (t : EmittedTransition)
    (entry : StateMachineNode.TransitionSettings) : Prop :=
  entry.m_targetStateIdx = idx t.endStateID ∧
  ctx.settingsIndexOf t.pTransitionNode.GetID = some entry.m_transitionNodeIdx ∧
  ctx.settingsIndexOf t.pConditionNode.GetID = some entry.m_conditionNodeIdx

/-- A state settings entry is the entry of a state after the first loop of `Compile`:
its node indices are those registered in the context for the state and for its entry
condition, if it has one, and it has no transition yet. -/
def IsStateEntryOf (sm : StateMachineToolsNode) (ctx : GraphCompilationContext)
    (pStateNode : ToolsState) (entry : StateMachineNode.StateSettings) : Prop :=
  ctx.settingsIndexOf pStateNode.GetID = some entry.m_stateNodeIdx ∧
  (match sm.GetEntryStateOverrideConduit.GetEntryConditionNodeForState pStateNode.GetID with
    | some pEntryConditionNode =>
      ctx.settingsIndexOf pEntryConditionNode.GetID = some entry.m_entryConditionNodeIdx
    | none => entry.m_entryConditionNodeIdx = InvalidIndex) ∧
  entry.m_transitionSettings = []

/-- A state settings entry with more transition entries appended to its list. -/
def appendEntries (st : StateMachineNode.StateSettings)
    (entries : List StateMachineNode.TransitionSettings) : StateMachineNode.StateSettings :=
  { st with m_transitionSettings := st.m_transitionSettings ++ entries }

/-- The writes of the second loop of `Compile` to the record, from the state at
position `i` on: the state at position `i + k` gets the `k`-th list of entries appended
to its transition list. -/
def appendTransitionsFrom :
    Nat → List (List StateMachineNode.TransitionSettings) → StateMachineNode.Settings →
    StateMachineNode.Settings
  | _, [], s => s
  | i, entries :: rest, s =>
    appendTransitionsFrom (i + 1) rest
      (writeState i
        (fun st => { st with m_transitionSettings := st.m_transitionSettings ++ entries }) s)

/-- The scenario with Jump (12), the state at position 2, as the default entry state. -/
def jumpDefault : StateMachineToolsNode :=
  stateMachineOf 1
    [blendTreeState 10 (poseNode 50), blendTreeState 11 (poseNode 51),
      blendTreeState 12 (poseNode 52)]
    [⟨10, 11, [transitionWith 20 (boolNode 100)]⟩]
    [globalTransitionTo 30 (boolNode 101) 12] 12

/-! ## Transition lists, state inputs and entry conditions -/

/-- Two off states, a conduit from the first to a state ID no state has (99) with one
condition-connected transition, a condition-connected global transition to another such
ID (98), and a default entry state ID no state has (97). -/
def danglingTargets : StateMachineToolsNode :=
  stateMachineOf 1 [offState 10, offState 11] [⟨10, 99, [transitionWith 20 (boolNode 100)]⟩]
    [globalTransitionTo 30 (boolNode 101) 98] 97

/-- A context in which one other node (7) has been compiled. -/
def otherNodeContext : GraphCompilationContext :=
  (((poseNode 7).Compile {}).getD (InvalidIndex, {})).2

/-- The transition entry a transition gets when it is offered with an end state: one
when a node is connected to its condition pin, none otherwise. -/
def conditionConnected (pTransitionNode : TransitionToolsNode) (endStateID : UUID) :
    Option EmittedTransition :=
  (pTransitionNode.GetConnectedInputNode 0).map fun pConditionNode =>
    ⟨pTransitionNode, pConditionNode, endStateID⟩

/-- The transition list of a state in the words of the specification: for each conduit
that starts at the state, in declaration order, the condition-connected transitions of
the conduit in the conduit's order; then the condition-connected global transitions that
remain in the state's working copy, in the order of the copy. -/
def StateMachineToolsNode.specifiedTransitionsOf (sm : StateMachineToolsNode)
    (pStartStateNode : ToolsState) : List EmittedTransition :=
  ((sm.GetChildGraph.conduitNodes.filter fun pConduit =>
      decide (pConduit.GetStartStateID = pStartStateNode.GetID)).flatMap fun pConduit =>
    pConduit.transitionNodes.filterMap fun pTransitionNode =>
      conditionConnected pTransitionNode pConduit.GetEndStateID) ++
  (globalsFor sm pStartStateNode).filterMap fun pGlobalTransition =>
    conditionConnected pGlobalTransition.toTransitionToolsNode pGlobalTransition.GetEndStateID

/-- The context a compile of the node in the context `ctx` ends in (the empty context
when the compile stops at an assertion). -/
def compiledContextFrom (sm : StateMachineToolsNode) (ctx : GraphCompilationContext) :
    GraphCompilationContext :=
  ((sm.Compile ctx).getD (InvalidIndex, {})).2

/-- The authored boolean that `CompileTransition` passes to `SetFlag` for an option
(lines 359 to 363). -/
def TransitionToolsNode.authoredOption (pTransitionNode : TransitionToolsNode) :
    TransitionNode.TransitionOptions → Bool
  | .Synchronized => pTransitionNode.m_isSynchronized
  | .ClampDuration => pTransitionNode.m_clampDurationToSource
  | .KeepSyncEventIndex => pTransitionNode.m_keepSourceSyncEventIdx
  | .KeepSyncEventPercentage => pTransitionNode.m_keepSourceSyncEventPercentageThrough
  | .ForcedTransitionAllowed => pTransitionNode.m_canBeForced

/-- The context a call of `CompileTransition` in the context `ctx` ends in (the empty
context when the call stops at an assertion). -/
def transitionContext (ctx : GraphCompilationContext) (pTransitionNode : TransitionToolsNode)
    (targetStateNodeIdx : Int) : GraphCompilationContext :=
  ((CompileTransition ctx pTransitionNode targetStateNodeIdx).getD (InvalidIndex, {})).2

/-- The transition node indices of the transition entries of every state, read from the
state machine settings at `p`. -/
def transitionNodesAt (ctx : GraphCompilationContext) (p : Nat) : Option (List (List Int)) :=
  (ctx.stateMachineAt p).map fun s =>
    s.m_stateSettings.map fun st => st.m_transitionSettings.map fun t => t.m_transitionNodeIdx

/-- The journal entry of the block for an optional input: the call on the connected
node with its result, nothing when no node is connected. -/
def inputCall (kind : CallKind) (pNode : Option FlowToolsNode) (result : Int) :
    List CompileEvent :=
  match pNode with
  | some n => [.call kind n.GetID result]
  | none => []

/-- Whether the block for an optional input executed `return InvalidIndex`: a node is
connected and `result`, the value the block stored, is `InvalidIndex`. -/
def inputFailed (pNode : Option FlowToolsNode) (result : Int) : Bool :=
  pNode.isSome && decide (result = InvalidIndex)

/-- The compile calls `CompileState` makes for a blend tree state whose three optional
inputs are connected to `pBlendTreeNode`, `pLayerWeightNode` and `pLayerMaskNode` and
whose three index fields end up as `childNodeIdx`, `layerWeightNodeIdx` and
`layerBoneMaskNodeIdx`: one call per connected input, in this order, up to and including
the first that stored `InvalidIndex`. -/
def stateInputCalls (pBlendTreeNode pLayerWeightNode pLayerMaskNode : Option FlowToolsNode)
    (childNodeIdx layerWeightNodeIdx layerBoneMaskNodeIdx : Int) : List CompileEvent :=
  inputCall .blendTree pBlendTreeNode childNodeIdx ++
    if inputFailed pBlendTreeNode childNodeIdx then []
    else
      inputCall .layerWeight pLayerWeightNode layerWeightNodeIdx ++
        if inputFailed pLayerWeightNode layerWeightNodeIdx then []
        else inputCall .layerBoneMask pLayerMaskNode layerBoneMaskNodeIdx

/-- A result node whose input 0 is fed by `pose`, if any. -/
def layeredRoot (pose : Option FlowToolsNode) : ResultToolsNode :=
  ⟨fun pin => if pin = 0 then pose else none⟩

/-- A layer data node whose layer weight input is fed by `weight` and whose layer mask
input is fed by `mask`, if any. -/
def layeredData (weight mask : Option FlowToolsNode) : StateLayerDataToolsNode :=
  ⟨fun pin => if pin = 0 then weight else if pin = 1 then mask else none⟩

/-- The blend tree members of a state with the given optional inputs. -/
def layeredBlendTree (pose weight mask : Option FlowToolsNode) : BlendTreeStateToolsNode :=
  { GetBlendTreeRootNode := some (layeredRoot pose)
    GetLayerDataNode := some (layeredData weight mask) }

/-- A blend tree state (10) whose result node is fed by `pose`, whose layer weight input
is fed by `weight` and whose layer mask input is fed by `mask`, each of them optional. -/
def layeredState (pose weight mask : Option FlowToolsNode) : ToolsState :=
  { GetID := 10, TryCastBlendTreeState := some (layeredBlendTree pose weight mask) }

/-- A blend tree state (10) whose result node is fed by `pose`, with one entry event, two
execute events, one exit event, one time-remaining event and two time-elapsed events. -/
def eventfulState (pose : FlowToolsNode) : ToolsState :=
  { GetID := 10
    m_entryEvents := ["enter"]
    m_executeEvents := ["tick", "tock"]
    m_exitEvents := ["leave"]
    TryCastBlendTreeState := some
      { GetBlendTreeRootNode := some ⟨onlyPin0 pose⟩
        GetLayerDataNode := some ⟨noPins⟩
        m_timeRemainingEvents := [⟨"nearEnd", ⟨5⟩⟩]
        m_timeElapsedEvents := [⟨"started", ⟨1⟩⟩, ⟨"warm", ⟨2⟩⟩] } }

/-- An off state (11) with one entry event, one execute event and one exit event. -/
def eventfulOffState : ToolsState :=
  { GetID := 11
    m_entryEvents := ["enter"]
    m_executeEvents := ["tick"]
    m_exitEvents := ["leave"]
    TryCastBlendTreeState := none }

/-- The context a call of `CompileState` in the context `ctx` ends in (the empty context
when the call stops at an assertion). -/
def stateContext (ctx : GraphCompilationContext) (pBaseStateNode : ToolsState) :
    GraphCompilationContext :=
  ((CompileState ctx pBaseStateNode).getD (InvalidIndex, {})).2

/-- The node and the result of a journal entry that is an entry condition call. -/
def CompileEvent.entryConditionCall : CompileEvent → Option (UUID × Int)
  | .call .entryCondition id result => some (id, result)
  | _ => none

/-- Journal entries that the second loop of `Compile` writes: appended transition
entries, calls on transition nodes and on their condition trees, and the calls below
`CompileTransition`. -/
def CompileEvent.inSecondLoop : CompileEvent → Bool
  | .call k _ _ => k.inConduit || !k.isDirect
  | .emit _ _ _ _ => true

/-- The journal grows from `a` to `b` by entries that satisfy `A`. -/
def Journals (A : CompileEvent → Prop) (a b : GraphCompilationContext) : Prop :=
  b.m_log = a.m_log ++ journal a b ∧ ∀ e ∈ journal a b, A e

/-- Two off states, 10 and 11, of which 11 has an entry condition (node 70). -/
def entryConditioned : StateMachineToolsNode :=
  { GetID := 1
    GetChildGraph := ⟨[offState 10, offState 11], [], 10⟩
    GetEntryStateOverrideConduit := ⟨fun id => if id = 11 then some (boolNode 70) else none⟩
    GetGlobalTransitionConduit := ⟨[]⟩ }

/-- The entry condition node indices of the states, read from the state machine settings
at `p`. -/
def entryConditionsAt (ctx : GraphCompilationContext) (p : Nat) : Option (List Int) :=
  (ctx.stateMachineAt p).map fun s => s.m_stateSettings.map fun st => st.m_entryConditionNodeIdx

/-! ## External graph runtime node

The embedding of Animation_RuntimeGraphNode_ExternalGraph.cpp. The node's pointer to the
external graph instance (`m_pGraphInstance`) is the state of the instance it points to,
`none` being `nullptr`; a call through the pointer that changes the instance stores the
changed instance back. -/

/-- An opaque handle of a collaborator (a world transform, a physics scene, a root
motion delta): the node only passes it on. -/
abbrev Handle := Nat

/-- A sampled event; the node only moves events between buffers. -/
abbrev SampledEvent := Nat

/-- Modelled from the spec: `SampledEventsBuffer`, declared outside src: "an append-only,
frame-scoped ordered sequence of animation events" (section 3). -/
structure SampledEventsBuffer where
  m_events : List SampledEvent := []
deriving DecidableEq, Repr

/-- Modelled from the spec: `SampledEventsBuffer::GetNumEvents`, declared outside src: the
number of events the buffer holds. -/
def SampledEventsBuffer.GetNumEvents (b : SampledEventsBuffer) : Nat :=
  b.m_events.length

/-- Modelled from the spec: `SampledEventsBuffer::Append( otherBuffer )`, declared outside
src: "append, preserving source ordering" (section 4.5). -/
def SampledEventsBuffer.Append (b other : SampledEventsBuffer) : SampledEventsBuffer :=
  ⟨b.m_events ++ other.m_events⟩

/-- Modelled from the spec: `SampledEventRange`, declared outside src: "a half-open index
range `[start, end)`" into the sampled event buffer (section 3). -/
structure SampledEventRange where
  m_startIdx : Nat := 0
  m_endIdx : Nat := 0
deriving DecidableEq, Repr

/-- Modelled from the spec: the constructor `SampledEventRange( index )`, declared outside
src: "an empty sampled-event range anchored at" the index (section 4.5). -/
def SampledEventRange.atIndex (index : Nat) : SampledEventRange := ⟨index, index⟩

/-- The number of events a range denotes. -/
def SampledEventRange.GetLength (r : SampledEventRange) : Nat := r.m_endIdx - r.m_startIdx

/-- The events a range denotes in a buffer, when the range lies within the buffer. -/
def SampledEventRange.eventsIn (r : SampledEventRange) (b : SampledEventsBuffer) :
    Option (List SampledEvent) :=
  if r.m_startIdx ≤ r.m_endIdx ∧ r.m_endIdx ≤ b.GetNumEvents then
    some ((b.m_events.drop r.m_startIdx).take (r.m_endIdx - r.m_startIdx))
  else none

/-- `Pose::Type`, of which the node names `ReferencePose`. -/
inductive PoseType
  | None | ReferencePose | ZeroPose
deriving DecidableEq, Repr

/-- A task of the task system: a default pose task of a node, or a task of another
kind. -/
inductive Task
  | DefaultPoseTask (sourceIdx : Int) (type : PoseType)
  | other (sourceIdx : Int)
deriving DecidableEq, Repr

/-- Modelled from the spec: `TaskSystem`, declared outside src: the "task list consumed
later by the pose blending/evaluation pass" (section 2). -/
structure TaskSystem where
  m_tasks : List Task := []
deriving DecidableEq, Repr

/-- Modelled from the spec: `TaskSystem::RegisterTask<T>( nodeIndex, args... )`, declared
outside src: it enqueues the task (section 6) and returns the index of the task in the
list. -/
def TaskSystem.RegisterTask (ts : TaskSystem) (task : Task) : Nat × TaskSystem :=
  (ts.m_tasks.length, ⟨ts.m_tasks ++ [task]⟩)

/-- Modelled from the spec: `SyncTrack`, declared outside src: "a sequence of named time
markers" (glossary). -/
structure SyncTrack where
  m_syncEvents : List (StringID × FloatValue) := []
deriving DecidableEq, Repr

/-- Modelled from the spec: `SyncTrack::s_defaultTrack`, declared outside src: the
"process-wide default empty track" (section 4.5). -/
def SyncTrack.s_defaultTrack : SyncTrack := ⟨[]⟩

/-- `SyncTrackTime`: an event index and a percentage through the event. -/
structure SyncTrackTime where
  m_eventIdx : Int := 0
  m_percentageThrough : FloatValue := ⟨0⟩
deriving DecidableEq, Repr

/-- `SyncTrackTimeRange`. -/
structure SyncTrackTimeRange where
  m_startTime : SyncTrackTime := {}
  m_endTime : SyncTrackTime := {}
deriving DecidableEq, Repr

/-- The members of `PoseNode` that `ExternalGraphNode` reads or writes: the node index
(`GetNodeIndex`), the duration, the current and the previous time. -/
structure PoseNode where
  GetNodeIndex : Int := InvalidIndex
  m_duration : FloatValue := ⟨0⟩
  m_currentTime : FloatValue := ⟨0⟩
  m_previousTime : FloatValue := ⟨0⟩
deriving DecidableEq, Repr

/-- `PoseNode::GetCurrentTime`. -/
def PoseNode.GetCurrentTime (n : PoseNode) : FloatValue := n.m_currentTime

/-- `PoseNode::GetPreviousTime`. -/
def PoseNode.GetPreviousTime (n : PoseNode) : FloatValue := n.m_previousTime

/-- `PoseNode::GetDuration`. -/
def PoseNode.GetDuration (n : PoseNode) : FloatValue := n.m_duration

/-- The root node of an external instance: a pose node of some class, of which the
answer of its `GetSyncTrack` is a field. -/
structure RootNode extends PoseNode where
  GetSyncTrack : SyncTrack := SyncTrack.s_defaultTrack
deriving DecidableEq, Repr

/-- `GraphPoseNodeResult`; a default-constructed result has no task. -/
structure GraphPoseNodeResult where
  m_taskIdx : Int := InvalidIndex
  m_rootMotionDelta : Handle := 0
  m_sampledEventRange : SampledEventRange := {}
deriving DecidableEq, Repr

/-- Modelled from the spec: the state of a `GraphInstance`, declared outside src, as far
as the node reads it: the root node (`GetRootNode`) and the events sampled by the last
evaluation (`GetSampledEvents`); `m_state` stands for the rest of the instance. -/
structure GraphInstance where
  GetRootNode : RootNode := {}
  GetSampledEvents : SampledEventsBuffer := {}
  m_state : Nat := 0
deriving DecidableEq, Repr

/-- Modelled from the spec: the operations of the external instance and of the base
class that the node calls and whose code is outside src; the spec treats graph
evaluation as a collaborator, so they are parameters of the embedding.
`EvaluateGraph` and `EvaluateGraphSynchronized` are the two overloads of
`GraphInstance::EvaluateGraph`. `EE_DEVELOPMENT_TOOLS` is the build flag. -/
structure Collaborators where
  ResetGraphState : GraphInstance → GraphInstance
  EvaluateGraph : GraphInstance → FloatValue → Handle → Handle →
    GraphPoseNodeResult × GraphInstance
  EvaluateGraphSynchronized : GraphInstance → FloatValue → Handle → Handle →
    SyncTrackTimeRange → GraphPoseNodeResult × GraphInstance
  PoseNodeInitializeInternal : PoseNode → SyncTrackTime → PoseNode
  EE_DEVELOPMENT_TOOLS : Bool

/-- Modelled from the spec: `GraphContext`, declared outside src, as far as the node uses
it: the frame's delta time, world transform and physics scene, the sampled event
buffer, the task system, the nodes marked active and the root motion debugger's
record. `m_isValid` is the answer of `IsValid`. -/
structure GraphContext where
  m_deltaTime : FloatValue := ⟨0⟩
  m_worldTransform : Handle := 0
  m_pPhysicsScene : Handle := 0
  m_sampledEventsBuffer : SampledEventsBuffer := {}
  m_pTaskSystem : TaskSystem := {}
  m_activeNodes : List Int := []
  m_rootMotionDebugger : List (Int × Handle) := []
  m_isValid : Bool := true
deriving DecidableEq, Repr

/-- Modelled from the spec: `GraphContext::IsValid`, declared outside src. -/
def GraphContext.IsValid (context : GraphContext) : Bool := context.m_isValid

/-- Modelled from the spec: `RootMotionDebugger::RecordGraphSource( nodeIdx, delta )`,
declared outside src: it records the delta for the node (section 4.5: "republishes the
transferred root-motion delta to the active debugging recorder"). -/
def GraphContext.RecordGraphSource (context : GraphContext) (nodeIdx : Int) (delta : Handle) :
    GraphContext :=
  { context with m_rootMotionDebugger := context.m_rootMotionDebugger ++ [(nodeIdx, delta)] }

namespace GraphNodes

/-- `ExternalGraphNode`: a pose node with the pointer to the attached instance. -/
structure ExternalGraphNode extends PoseNode where
  m_pGraphInstance : Option GraphInstance := none
deriving DecidableEq, Repr

namespace ExternalGraphNode

/-- Modelled from the spec: `GraphNode::MarkNodeActive( context )`, declared outside src:
it notes the node's index in the context's list of active nodes; section 4.5 gives it
no part in the events or the tasks of an update. -/
def MarkNodeActive (node : ExternalGraphNode) (context : GraphContext) : GraphContext :=
  { context with m_activeNodes := context.m_activeNodes ++ [node.GetNodeIndex] }

/-- The destructor `~ExternalGraphNode`: `none` when its assertion fails. -/
def destructor (node : ExternalGraphNode) : Option Unit :=
  EE_ASSERT node.m_pGraphInstance.isNone

/-- `ExternalGraphNode::AttachGraphInstance`. -/
def AttachGraphInstance (node : ExternalGraphNode) (_context : GraphContext)
    (pExternalGraphInstance : Option GraphInstance) : Option ExternalGraphNode :=
  match EE_ASSERT pExternalGraphInstance.isSome with
  | none => none
  | some _ =>
    match EE_ASSERT node.m_pGraphInstance.isNone with
    | none => none
    | some _ => some { node with m_pGraphInstance := pExternalGraphInstance }

/-- `ExternalGraphNode::DetachExternalGraphInstance`. -/
def DetachExternalGraphInstance (node : ExternalGraphNode) (_context : GraphContext) :
    Option ExternalGraphNode :=
  match EE_ASSERT node.m_pGraphInstance.isSome with
  | none => none
  | some _ => some { node with m_pGraphInstance := none }

/-- `ExternalGraphNode::InitializeInternal`. The call of the base class comes first; what
it does to the node's `PoseNode` members is a parameter, and the context, which this
function itself does not touch, is left as it is. -/
def InitializeInternal (env : Collaborators) (node : ExternalGraphNode)
    (_context : GraphContext) (initialTime : SyncTrackTime) : ExternalGraphNode :=
  let node : ExternalGraphNode :=
    { node with toPoseNode := env.PoseNodeInitializeInternal node.toPoseNode initialTime }
  match node.m_pGraphInstance with
  | some pGraphInstance =>
    let pGraphInstance := env.ResetGraphState pGraphInstance
    let pRootNode := pGraphInstance.GetRootNode
    let node : ExternalGraphNode := { node with m_pGraphInstance := some pGraphInstance }
    let node : ExternalGraphNode := { node with m_previousTime := pRootNode.GetCurrentTime }
    let node : ExternalGraphNode := { node with m_currentTime := pRootNode.GetCurrentTime }
    { node with m_duration := pRootNode.GetDuration }
  | none =>
    let node : ExternalGraphNode := { node with m_currentTime := ⟨0⟩ }
    let node : ExternalGraphNode := { node with m_previousTime := node.m_currentTime }
    { node with m_duration := ⟨0⟩ }

/-- `ExternalGraphNode::GetSyncTrack`. -/
def GetSyncTrack (node : ExternalGraphNode) : SyncTrack :=
  match node.m_pGraphInstance with
  | some pGraphInstance =>
    let pRootNode := pGraphInstance.GetRootNode
    pRootNode.GetSyncTrack
  | none => SyncTrack.s_defaultTrack

/-- `ExternalGraphNode::TransferGraphInstanceData`; `none` when `m_pGraphInstance` is
null, which the function dereferences. -/
def TransferGraphInstanceData (env : Collaborators) (node : ExternalGraphNode)
    (context : GraphContext) (result : GraphPoseNodeResult) :
    Option (GraphPoseNodeResult × ExternalGraphNode × GraphContext) :=
  match node.m_pGraphInstance with
  | none => none
  | some pGraphInstance =>
    let externalEventBuffer := pGraphInstance.GetSampledEvents
    let localEventBuffer := context.m_sampledEventsBuffer.Append externalEventBuffer
    let context : GraphContext := { context with m_sampledEventsBuffer := localEventBuffer }
    let result : GraphPoseNodeResult :=
      { result with
        m_sampledEventRange :=
          ⟨localEventBuffer.GetNumEvents,
            localEventBuffer.GetNumEvents + externalEventBuffer.GetNumEvents⟩ }
    let pRootNode := pGraphInstance.GetRootNode
    let node : ExternalGraphNode := { node with m_previousTime := pRootNode.GetCurrentTime }
    let node : ExternalGraphNode := { node with m_currentTime := pRootNode.GetCurrentTime }
    let node : ExternalGraphNode := { node with m_duration := pRootNode.GetDuration }
    let context :=
      if env.EE_DEVELOPMENT_TOOLS then
        context.RecordGraphSource node.GetNodeIndex result.m_rootMotionDelta
      else context
    some (result, node, context)

/-- `ExternalGraphNode::Update( context )`. -/
def Update (env : Collaborators) (node : ExternalGraphNode) (context : GraphContext) :
    Option (GraphPoseNodeResult × ExternalGraphNode × GraphContext) :=
  match EE_ASSERT context.IsValid with
  | none => none
  | some _ =>
    let context := node.MarkNodeActive context
    let result : GraphPoseNodeResult := {}
    match node.m_pGraphInstance with
    | none =>
      let result : GraphPoseNodeResult :=
        { result with
          m_sampledEventRange :=
            SampledEventRange.atIndex context.m_sampledEventsBuffer.GetNumEvents }
      match context.m_pTaskSystem.RegisterTask
          (.DefaultPoseTask node.GetNodeIndex .ReferencePose) with
      | (taskIdx, taskSystem) =>
        let context : GraphContext := { context with m_pTaskSystem := taskSystem }
        some ({ result with m_taskIdx := (taskIdx : Int) }, node, context)
    | some pGraphInstance =>
      match env.EvaluateGraph pGraphInstance context.m_deltaTime context.m_worldTransform
          context.m_pPhysicsScene with
      | (result, pGraphInstance) =>
        TransferGraphInstanceData env { node with m_pGraphInstance := some pGraphInstance }
          context result

/-- `ExternalGraphNode::Update( context, updateRange )`. -/
def UpdateSynchronized (env : Collaborators) (node : ExternalGraphNode)
    (context : GraphContext) (updateRange : SyncTrackTimeRange) :
    Option (GraphPoseNodeResult × ExternalGraphNode × GraphContext) :=
  match EE_ASSERT context.IsValid with
  | none => none
  | some _ =>
    let context := node.MarkNodeActive context
    let result : GraphPoseNodeResult := {}
    match node.m_pGraphInstance with
    | none =>
      let result : GraphPoseNodeResult :=
        { result with
          m_sampledEventRange :=
            SampledEventRange.atIndex context.m_sampledEventsBuffer.GetNumEvents }
      match context.m_pTaskSystem.RegisterTask
          (.DefaultPoseTask node.GetNodeIndex .ReferencePose) with
      | (taskIdx, taskSystem) =>
        let context : GraphContext := { context with m_pTaskSystem := taskSystem }
        some ({ result with m_taskIdx := (taskIdx : Int) }, node, context)
    | some pGraphInstance =>
      match env.EvaluateGraphSynchronized pGraphInstance context.m_deltaTime
          context.m_worldTransform context.m_pPhysicsScene updateRange with
      | (result, pGraphInstance) =>
        TransferGraphInstanceData env { node with m_pGraphInstance := some pGraphInstance }
          context result

end ExternalGraphNode

/-- A call on an `ExternalGraphNode`. -/
inductive Call
  | Attach (pExternalGraphInstance : Option GraphInstance)
  | Detach
  | Initialize (initialTime : SyncTrackTime)
  | Update
  | UpdateSynchronized (updateRange : SyncTrackTimeRange)
deriving DecidableEq, Repr

/-- Whether a call is `DetachExternalGraphInstance`. -/
def Call.isDetach : Call → Bool
  | .Detach => true
  | _ => false

/-- One call on the node; `none` when an assertion of the call fails. -/
def Call.run (env : Collaborators) (call : Call) (node : ExternalGraphNode)
    (context : GraphContext) : Option (ExternalGraphNode × GraphContext) :=
  match call with
  | .Attach p => (node.AttachGraphInstance context p).map fun n => (n, context)
  | .Detach => (node.DetachExternalGraphInstance context).map fun n => (n, context)
  | .Initialize t => some (node.InitializeInternal env context t, context)
  | .Update => (node.Update env context).map fun r => r.2
  | .UpdateSynchronized range => (node.UpdateSynchronized env context range).map fun r => r.2

/-- A sequence of calls on the node, one after the other; `none` when an assertion
fails on the way. -/
def runCalls (env : Collaborators) : List Call → ExternalGraphNode → GraphContext →
    Option (ExternalGraphNode × GraphContext)
  | [], node, context => some (node, context)
  | call :: rest, node, context =>
    match call.run env node context with
    | none => none
    | some (node, context) => runCalls env rest node context

/-- Collaborators of the examples: resetting rewinds the root node's current time to 0
and keeps its previous time, evaluating leaves the instance as it is. -/
def exampleCollaborators : Collaborators where
  ResetGraphState := fun g =>
    { g with GetRootNode := { g.GetRootNode with m_currentTime := ⟨0⟩ } }
  EvaluateGraph := fun g _ _ _ => ({ m_taskIdx := 0 }, g)
  EvaluateGraphSynchronized := fun g _ _ _ _ => ({ m_taskIdx := 0 }, g)
  PoseNodeInitializeInternal := fun n _ => n
  EE_DEVELOPMENT_TOOLS := true

/-- An instance whose root node is at time 5 (previous time 4) of a duration 9, on the
track `walk`, and whose last evaluation sampled the events 7 and 8. -/
def exampleInstance : GraphInstance :=
  { GetRootNode :=
      { GetNodeIndex := 0, m_duration := ⟨9⟩, m_currentTime := ⟨5⟩
        m_previousTime := ⟨4⟩, GetSyncTrack := ⟨[("walk", ⟨0⟩)]⟩ }
    GetSampledEvents := ⟨[7, 8]⟩ }

/-- A node with index 3 that is detached. -/
def exampleNode : ExternalGraphNode := { GetNodeIndex := 3 }

/-- The example node attached to the example instance. -/
def attachedExampleNode : ExternalGraphNode :=
  { GetNodeIndex := 3, m_pGraphInstance := some exampleInstance }

/-- A valid context whose buffer holds the events 1 and 2 and whose task system holds one
task. -/
def exampleContext : GraphContext :=
  { m_sampledEventsBuffer := ⟨[1, 2]⟩, m_pTaskSystem := ⟨[.other 0]⟩ }

/-- The example node at time 1 (previous time 2) of a duration 3, attached to the example
instance. -/
def staleNode : ExternalGraphNode :=
  { GetNodeIndex := 3, m_duration := ⟨3⟩, m_currentTime := ⟨1⟩, m_previousTime := ⟨2⟩
    m_pGraphInstance := some exampleInstance }

end GraphNodes

end EE.Animation

namespace EE.Serialization

/-- Modelled from the spec: a value of the "structured document format" of section 6
(`Serialization::JsonValue`, declared outside src): a scalar, an array of values, or an
object, which is a sequence of named members. -/
inductive JsonValue
  | null
  | bool (b : Bool)
  | number (n : Int)
  | string (s : String)
  | array (elements : List JsonValue)
  | object (members : List (String × JsonValue))

/-- Modelled from the spec: `JsonValue::IsArray`, declared outside src. -/
def JsonValue.IsArray : JsonValue → Bool
  | .array _ => true
  | _ => false

/-- Modelled from the spec: `JsonValue::GetArray`, declared outside src: the elements of an
array; `none` for a value that is not an array, which the accessor does not accept. -/
def JsonValue.GetArray : JsonValue → Option (List JsonValue)
  | .array elements => some elements
  | _ => none

/-- Modelled from the spec: `JsonValue::FindMember( name )`, declared outside src, compared
with `MemberEnd()`: `some (some v)` when the first member of the object with that name
has the value `v`, `some none` when the object has no such member (the iterator is
`MemberEnd()`), and `none` for a value that is not an object, which the accessor does
not accept. -/
def JsonValue.FindMember : JsonValue → String → Option (Option JsonValue)
  | .object members, name => some (members.lookup name)
  | _, _ => none

/-- Whether a value is an object with a member of the given name. -/
def JsonValue.HasMember (v : JsonValue) (name : String) : Bool :=
  match v.FindMember name with
  | some (some _) => true
  | _ => false

end EE.Serialization

namespace EE.Timeline

open EE.Animation (FloatValue EE_ASSERT)
open EE.Serialization

/-! ## Timeline track container

The embedding of TimelineTrackContainer.cpp. The container holds its tracks, and a track
its items, by pointer; the embedding holds the objects themselves, in the order of the
pointers. -/

/-- `FloatRange`: the time range of an item. -/
structure FloatRange where
  m_begin : FloatValue
  m_end : FloatValue
deriving DecidableEq, Repr

/-- Modelled from the spec: `TrackItem`, declared outside src, as far as the container sees
it: the time range, the rest of the item's serialized data (`m_data`) and the dirty
flag. -/
structure TrackItem where
  m_timeRange : FloatRange
  m_data : Nat := 0
  m_isDirty : Bool := false
deriving DecidableEq, Repr

/-- `TrackItem::GetTimeRange`. -/
def TrackItem.GetTimeRange (item : TrackItem) : FloatRange := item.m_timeRange

/-- Modelled from the spec: `Track`, declared outside src, as far as the container sees it:
the track's serialized data (`m_data`), its items and the dirty flag. -/
structure Track where
  m_data : Nat := 0
  m_items : List TrackItem := []
  m_isDirty : Bool := false
deriving DecidableEq, Repr

/-- Modelled from the spec: `Track::IsDirty`, declared outside src: the track is dirty when
its flag is set or one of its items is dirty. -/
def Track.IsDirty (track : Track) : Bool :=
  track.m_isDirty || track.m_items.any fun item => item.m_isDirty

/-- Modelled from the spec: `Track::ClearDirtyFlags`, declared outside src: it clears the
flag of the track and of its items. -/
def Track.ClearDirtyFlags (track : Track) : Track :=
  { track with
    m_isDirty := false
    m_items := track.m_items.map fun item => { item with m_isDirty := false } }

/-- Modelled from the spec: what the type registry and the virtual `SerializeCustom` hooks
of `Track` and `TrackItem` do, all declared outside src; they are parameters of the
embedding. `CreateAndReadTrack` and `CreateAndReadItem` are
`Serialization::CreateAndReadNativeType` (`none`: a null pointer), `WriteTrack` and
`WriteItem` are `Serialization::WriteNativeType`; the reading hooks change the object
from the record it was read from, the writing hooks add members to the record being
written. -/
structure TypeRegistry where
  CreateAndReadTrack : JsonValue → Option Track
  CreateAndReadItem : JsonValue → Option TrackItem
  WriteTrack : Track → JsonValue
  WriteItem : TrackItem → JsonValue
  TrackSerializeCustom : Track → JsonValue → Track
  ItemSerializeCustom : TrackItem → JsonValue → TrackItem
  TrackSerializeCustomWriter : Track → List (String × JsonValue)
  ItemSerializeCustomWriter : TrackItem → List (String × JsonValue)

/-- `TrackContainer`. -/
structure TrackContainer where
  m_tracks : List Track := []
  m_isDirty : Bool := false
  m_beginModificationCallCount : Int := 0
deriving DecidableEq, Repr

namespace TrackContainer

/-- `TrackContainer::IsDirty`. -/
def IsDirty (c : TrackContainer) : Bool :=
  if c.m_isDirty then true
  else c.m_tracks.any fun pTrack => pTrack.IsDirty

/-- `TrackContainer::ClearDirtyFlags`. -/
def ClearDirtyFlags (c : TrackContainer) : TrackContainer :=
  let c : TrackContainer := { c with m_isDirty := false }
  { c with m_tracks := c.m_tracks.map fun pTrack => pTrack.ClearDirtyFlags }

/-- The lambda `FreeTrackData` of `Serialize`. -/
def FreeTrackData (c : TrackContainer) : TrackContainer :=
  { c with m_tracks := [] }

/-- The loop over the item records of one track record (lines 228 to 241), appending to
`pTrack->m_items`. The boolean is `failed`. -/
def readItems (typeRegistry : TypeRegistry) : List JsonValue → Track → Option (Bool × Track)
  | [], pTrack => some (false, pTrack)
  | itemObjectValue :: rest, pTrack =>
    match itemObjectValue.FindMember "Item" with
    | none => none
    | some none => some (true, pTrack)
    | some (some itemData) =>
      match typeRegistry.CreateAndReadItem itemData with
      | none => none
      | some pItem =>
        let pItem := typeRegistry.ItemSerializeCustom pItem itemObjectValue
        readItems typeRegistry rest { pTrack with m_items := pTrack.m_items ++ [pItem] }

/-- The loop over the track records (lines 200 to 247). The boolean is `failed`. The
track that `emplace_back` appends to `m_tracks` is the object the rest of the iteration
writes to through `pTrack`; the embedding appends it in the state in which the
iteration leaves it. -/
def readTracks (typeRegistry : TypeRegistry) :
    List JsonValue → TrackContainer → Option (Bool × TrackContainer)
  | [], c => some (false, c)
  | trackObjectValue :: rest, c =>
    match trackObjectValue.FindMember "Track" with
    | none => none
    | some none => some (true, c)
    | some (some trackData) =>
      match typeRegistry.CreateAndReadTrack trackData with
      | none => none
      | some pTrack =>
        let pTrack := typeRegistry.TrackSerializeCustom pTrack trackObjectValue
        match trackObjectValue.FindMember "Items" with
        | none => none
        | some none => some (true, { c with m_tracks := c.m_tracks ++ [pTrack] })
        | some (some itemArray) =>
          if !itemArray.IsArray then
            some (true, { c with m_tracks := c.m_tracks ++ [pTrack] })
          else
            match itemArray.GetArray with
            | none => none
            | some itemRecords =>
              match readItems typeRegistry itemRecords pTrack with
              | none => none
              | some (true, pTrack) =>
                some (true, { c with m_tracks := c.m_tracks ++ [pTrack] })
              | some (false, pTrack) =>
                readTracks typeRegistry rest { c with m_tracks := c.m_tracks ++ [pTrack] }

/-- `TrackContainer::Serialize( typeRegistry, dataObjectValue )`, the reading overload:
the returned boolean and the container afterwards; `none` when the document library
or a null pointer stops the execution. -/
def Serialize (c : TrackContainer) (typeRegistry : TypeRegistry) (dataObjectValue : JsonValue) :
    Option (Bool × TrackContainer) :=
  let c := c.FreeTrackData
  if !dataObjectValue.IsArray then some (false, c)
  else
    match dataObjectValue.GetArray with
    | none => none
    | some trackRecords =>
      match readTracks typeRegistry trackRecords c with
      | none => none
      | some (true, c) =>
        let c := c.FreeTrackData
        some (false, { c with m_isDirty := false })
      | some (false, c) => some (true, c.ClearDirtyFlags)

/-- The record `Serialize( typeRegistry, writer )` writes for one item: an object that
starts with the member `Item`. -/
def writeItem (typeRegistry : TypeRegistry) (pItem : TrackItem) : JsonValue :=
  .object (("Item", typeRegistry.WriteItem pItem) ::
    typeRegistry.ItemSerializeCustomWriter pItem)

/-- The record `Serialize( typeRegistry, writer )` writes for one track: an object that
starts with the member `Track`, goes on with the members of the track's hook and ends
with the member `Items`, the array of the item records. -/
def writeTrack (typeRegistry : TypeRegistry) (pTrack : Track) : JsonValue :=
  .object (("Track", typeRegistry.WriteTrack pTrack) ::
    (typeRegistry.TrackSerializeCustomWriter pTrack ++
      [("Items", .array (pTrack.m_items.map (writeItem typeRegistry)))]))

/-- `TrackContainer::Serialize( typeRegistry, writer )`, the writing overload: the
document the calls on the writer produce, and the container afterwards. -/
def SerializeWriter (c : TrackContainer) (typeRegistry : TypeRegistry) :
    JsonValue × TrackContainer :=
  (.array (c.m_tracks.map (writeTrack typeRegistry)), c.ClearDirtyFlags)

end TrackContainer

/-- The assumption of the round trip: reading back the record written for a single item
gives an item with the data and the time range of the written one; reading back the
record written for a single track, whatever its item records, gives a track with the
data of the written one and no item yet; and the item records of a written track record
are found under `Items`. -/
structure TypeRegistry.RoundTrips (typeRegistry : TypeRegistry) : Prop where
  item : ∀ pItem : TrackItem, ∃ read,
    typeRegistry.CreateAndReadItem (typeRegistry.WriteItem pItem) = some read ∧
    (typeRegistry.ItemSerializeCustom read
      (TrackContainer.writeItem typeRegistry pItem)).m_data = pItem.m_data ∧
    (typeRegistry.ItemSerializeCustom read
      (TrackContainer.writeItem typeRegistry pItem)).GetTimeRange = pItem.GetTimeRange
  track : ∀ pTrack : Track, ∃ read,
    typeRegistry.CreateAndReadTrack (typeRegistry.WriteTrack pTrack) = some read ∧
    (typeRegistry.TrackSerializeCustom read
      (TrackContainer.writeTrack typeRegistry pTrack)).m_data = pTrack.m_data ∧
    (typeRegistry.TrackSerializeCustom read
      (TrackContainer.writeTrack typeRegistry pTrack)).m_items = []
  items : ∀ pTrack : Track,
    (typeRegistry.TrackSerializeCustomWriter pTrack).lookup "Items" = none

/-- The structure of a container the round trip is about: for every track, in order, its
data and, for every item, in order, its data and its time range. -/
def TrackContainer.structureOf (c : TrackContainer) : List (Nat × List (Nat × FloatRange)) :=
  c.m_tracks.map fun pTrack =>
    (pTrack.m_data, pTrack.m_items.map fun pItem => (pItem.m_data, pItem.GetTimeRange))

/-- Whether a track record has its required keys (section 6): it is an object with a
member `Track` and a member `Items` that is an array of item records, each an object
with a member `Item`. -/
def trackRecordHasRequiredKeys (trackRecord : JsonValue) : Bool :=
  trackRecord.HasMember "Track" &&
  match trackRecord.FindMember "Items" with
  | some (some (.array itemRecords)) =>
    itemRecords.all fun itemRecord => itemRecord.HasMember "Item"
  | _ => false

/-- Whether every record of a document has its required keys: the document is an array
of track records that have theirs. -/
def hasRequiredKeys (document : JsonValue) : Bool :=
  match document with
  | .array trackRecords => trackRecords.all trackRecordHasRequiredKeys
  | _ => false

/-- A type registry for the examples: a track or an item is written as the array of its
numbers, the hooks write and read nothing. -/
def exampleRegistry : TypeRegistry where
  CreateAndReadTrack := fun v =>
    match v with
    | .number n => some { m_data := n.toNat }
    | _ => none
  CreateAndReadItem := fun v =>
    match v with
    | .array [.number d, .number b, .number e] =>
      some { m_timeRange := ⟨⟨b.toNat⟩, ⟨e.toNat⟩⟩, m_data := d.toNat }
    | _ => none
  WriteTrack := fun t => .number t.m_data
  WriteItem := fun i =>
    .array [.number i.m_data, .number i.m_timeRange.m_begin.bits,
      .number i.m_timeRange.m_end.bits]
  TrackSerializeCustom := fun t _ => t
  ItemSerializeCustom := fun i _ => i
  TrackSerializeCustomWriter := fun _ => []
  ItemSerializeCustomWriter := fun _ => []

/-- An item of the examples. -/
def exampleItem (data b e : Nat) : TrackItem :=
  { m_timeRange := ⟨⟨b⟩, ⟨e⟩⟩, m_data := data, m_isDirty := true }

/-- The container of the spec's round trip: 2 tracks of 3 items each, all dirty. -/
def exampleContainer : TrackContainer :=
  { m_tracks :=
      [{ m_data := 1, m_isDirty := true
         m_items := [exampleItem 11 0 1, exampleItem 12 1 2, exampleItem 13 2 3] },
        { m_data := 2
          m_items := [exampleItem 21 0 4, exampleItem 22 4 5, exampleItem 23 5 9] }]
    m_isDirty := true }

/-- A document whose second track record lacks the member `Items`. -/
def documentWithoutItems : JsonValue :=
  .array [.object [("Track", .number 1), ("Items", .array [])],
    .object [("Track", .number 2)]]

/-! ## Modifications of the track container

The embedding of lines 23 to 142 of TimelineTrackContainer.cpp. A pointer to a track of
the container is the position of the track in `m_tracks`, and a pointer to an item is the
position of the track that holds it together with the position of the item in that
track; `none` is `nullptr`. -/

/-- Modelled from the spec: `TEvent<TrackContainer*>`, declared outside src, as far as the
container uses it: whether a user is bound to the event (`HasBoundUsers`) and, for
verification only, how many times the event has been executed. The bound handlers get
the container by pointer; they are outside src and are taken to leave it as it is. -/
structure TEvent where
  HasBoundUsers : Bool := false
  m_executed : Nat := 0
deriving DecidableEq, Repr

/-- Modelled from the spec: `TEvent::Execute`, declared outside src: it calls the bound
handlers, which the embedding counts. -/
def TEvent.Execute (event : TEvent) : TEvent :=
  { event with m_executed := event.m_executed + 1 }

/-- The two static events of `TrackContainer` (lines 8 and 9). -/
structure StaticEvents where
  s_onEndModification : TEvent := {}
  s_onBeginModification : TEvent := {}
deriving DecidableEq, Repr

/-- Modelled from the spec: `TypeSystem::TypeInfo`, declared outside src, as far as
`CreateTrack` uses it: whether the type derives from `Track` and the object `CreateType`
creates. -/
structure TypeInfo where
  IsDerivedFromTrack : Bool
  CreateType : Track

/-- Modelled from the spec: the operations of `Track`, `TrackItem` and `FloatRange` that
the container calls and whose code is outside src; they are parameters of the embedding.
`DeleteItem` is what `Track::DeleteItem` does to a track that holds the item, at the
given position. -/
structure TrackOperations where
  CreateItem : Track → FloatValue → Track
  DeleteItem : Track → Nat → Track
  SetTimeRange : TrackItem → FloatRange → TrackItem
  IsSetAndValid : FloatRange → Bool

/-- `TrackContainer::GetTrackForItem`: the track that holds the item, `none` when no track
does. `Track::Contains` is outside src: a track contains the items it holds. -/
def TrackContainer.GetTrackForItem (c : TrackContainer) (pItem : Option (Nat × Nat)) :
    Option Nat :=
  match pItem with
  | none => none
  | some (trackIdx, itemIdx) =>
    match c.m_tracks[trackIdx]? with
    | some pTrack => if itemIdx < pTrack.m_items.length then some trackIdx else none
    | none => none

/-- `TrackContainer::Contains( Track const* )`. -/
def TrackContainer.Contains (c : TrackContainer) (pTrack : Option Nat) : Bool :=
  match pTrack with
  | some trackIdx => decide (trackIdx < c.m_tracks.length)
  | none => false

/-- `TrackContainer::Contains( TrackItem const* )`. -/
def TrackContainer.ContainsItem (c : TrackContainer) (pItem : Option (Nat × Nat)) : Bool :=
  (c.GetTrackForItem pItem).isSome

/-- The value an `int32_t` holds after the integer `n` is stored in it (two's complement
wrap-around). -/
def toInt32 (n : Int) : Int := (n + 2147483648) % 4294967296 - 2147483648

/-- `TrackContainer::BeginModification`. The counter is declared in the header, which is
outside src, as an `int32_t`; line 125 increments it without a check, so the increment
wraps at 2147483647. -/
def TrackContainer.BeginModification (c : TrackContainer) (events : StaticEvents) :
    TrackContainer × StaticEvents :=
  let events : StaticEvents :=
    if c.m_beginModificationCallCount = 0 then
      if events.s_onBeginModification.HasBoundUsers then
        { events with s_onBeginModification := events.s_onBeginModification.Execute }
      else events
    else events
  ({ c with m_beginModificationCallCount := toInt32 (c.m_beginModificationCallCount + 1) },
    events)

/-- `TrackContainer::EndModification`; `none` when its assertion fails. -/
def TrackContainer.EndModification (c : TrackContainer) (events : StaticEvents) :
    Option (TrackContainer × StaticEvents) :=
  match EE_ASSERT (decide (c.m_beginModificationCallCount > 0)) with
  | none => none
  | some _ =>
    let c : TrackContainer :=
      { c with m_beginModificationCallCount := toInt32 (c.m_beginModificationCallCount - 1) }
    let events : StaticEvents :=
      if c.m_beginModificationCallCount = 0 then
        if events.s_onEndModification.HasBoundUsers then
          { events with s_onEndModification := events.s_onEndModification.Execute }
        else events
      else events
    some ({ c with m_isDirty := true }, events)

/-- `TrackContainer::CreateTrack`: the pointer to the created track, the container and
the events afterwards. -/
def TrackContainer.CreateTrack (c : TrackContainer) (events : StaticEvents)
    (pTrackTypeInfo : TypeInfo) : Option (Option Nat × TrackContainer × StaticEvents) :=
  match EE_ASSERT pTrackTypeInfo.IsDerivedFromTrack with
  | none => none
  | some _ =>
    match c.BeginModification events with
    | (c, events) =>
      let pCreatedTrack := pTrackTypeInfo.CreateType
      let created := c.m_tracks.length
      let c : TrackContainer := { c with m_tracks := c.m_tracks ++ [pCreatedTrack] }
      match c.EndModification events with
      | none => none
      | some (c, events) => some (some created, c, events)

/-- `TrackContainer::DeleteTrack`. -/
def TrackContainer.DeleteTrack (c : TrackContainer) (events : StaticEvents)
    (pTrack : Option Nat) : Option (TrackContainer × StaticEvents) :=
  match EE_ASSERT (c.Contains pTrack) with
  | none => none
  | some _ =>
    match c.BeginModification events with
    | (c, events) =>
      let c : TrackContainer :=
        match pTrack with
        | some trackIdx => { c with m_tracks := c.m_tracks.eraseIdx trackIdx }
        | none => c
      c.EndModification events

/-- `TrackContainer::CreateItem`. -/
def TrackContainer.CreateItem (operations : TrackOperations) (c : TrackContainer)
    (events : StaticEvents) (pTrack : Option Nat) (itemStartTime : FloatValue) :
    Option (TrackContainer × StaticEvents) :=
  match EE_ASSERT pTrack.isSome with
  | none => none
  | some _ =>
    match EE_ASSERT (c.Contains pTrack) with
    | none => none
    | some _ =>
      match c.BeginModification events with
      | (c, events) =>
        let c : TrackContainer :=
          match pTrack with
          | some trackIdx =>
            { c with
              m_tracks := (c.m_tracks.modify
                (fun track => operations.CreateItem track itemStartTime) trackIdx) }
          | none => c
        c.EndModification events

/-- `TrackContainer::UpdateItemTimeRange`. -/
def TrackContainer.UpdateItemTimeRange (operations : TrackOperations) (c : TrackContainer)
    (events : StaticEvents) (pItem : Option (Nat × Nat)) (newTimeRange : FloatRange) :
    Option (TrackContainer × StaticEvents) :=
  match EE_ASSERT pItem.isSome with
  | none => none
  | some _ =>
    match EE_ASSERT (c.ContainsItem pItem) with
    | none => none
    | some _ =>
      match EE_ASSERT (operations.IsSetAndValid newTimeRange) with
      | none => none
      | some _ =>
        match c.BeginModification events with
        | (c, events) =>
          let c : TrackContainer :=
            match pItem with
            | some (trackIdx, itemIdx) =>
              { c with
                m_tracks := (c.m_tracks.modify
                  (fun track =>
                    { track with
                      m_items := (track.m_items.modify
                        (fun item => operations.SetTimeRange item newTimeRange) itemIdx) })
                  trackIdx) }
            | none => c
          c.EndModification events

/-- `TrackContainer::DeleteItem`. The loop stops at the first track whose `DeleteItem`
answers true, which is the track that holds the item. -/
def TrackContainer.DeleteItem (operations : TrackOperations) (c : TrackContainer)
    (events : StaticEvents) (pItem : Option (Nat × Nat)) :
    Option (TrackContainer × StaticEvents) :=
  match EE_ASSERT pItem.isSome with
  | none => none
  | some _ =>
    match EE_ASSERT (c.ContainsItem pItem) with
    | none => none
    | some _ =>
      match c.BeginModification events with
      | (c, events) =>
        let c : TrackContainer :=
          match pItem with
          | some (trackIdx, itemIdx) =>
            { c with
              m_tracks := (c.m_tracks.modify
                (fun track => operations.DeleteItem track itemIdx) trackIdx) }
          | none => c
        c.EndModification events

/-- A call on a `TrackContainer` that takes part in the modification nesting. -/
inductive Operation
  | BeginModification
  | EndModification
  | CreateTrack (pTrackTypeInfo : TypeInfo)
  | DeleteTrack (pTrack : Option Nat)
  | CreateItem (pTrack : Option Nat) (itemStartTime : FloatValue)
  | UpdateItemTimeRange (pItem : Option (Nat × Nat)) (newTimeRange : FloatRange)
  | DeleteItem (pItem : Option (Nat × Nat))

/-- The five mutating operations. -/
def Operation.isMutation : Operation → Bool
  | .BeginModification => false
  | .EndModification => false
  | _ => true

/-- What the operation asserts of its arguments and of the container when it is called. -/
def Operation.asserted (operations : TrackOperations) (c : TrackContainer) :
    Operation → Bool
  | .BeginModification => true
  | .EndModification => decide (c.m_beginModificationCallCount > 0)
  | .CreateTrack pTrackTypeInfo => pTrackTypeInfo.IsDerivedFromTrack
  | .DeleteTrack pTrack => c.Contains pTrack
  | .CreateItem pTrack _ => pTrack.isSome && c.Contains pTrack
  | .UpdateItemTimeRange pItem newTimeRange =>
    pItem.isSome && c.ContainsItem pItem && operations.IsSetAndValid newTimeRange
  | .DeleteItem pItem => pItem.isSome && c.ContainsItem pItem

/-- One call on the container; `none` when an assertion of the call fails. -/
def Operation.run (operations : TrackOperations) (operation : Operation) (c : TrackContainer)
    (events : StaticEvents) : Option (TrackContainer × StaticEvents) :=
  match operation with
  | .BeginModification => some (c.BeginModification events)
  | .EndModification => c.EndModification events
  | .CreateTrack pTrackTypeInfo => (c.CreateTrack events pTrackTypeInfo).map fun r => r.2
  | .DeleteTrack pTrack => c.DeleteTrack events pTrack
  | .CreateItem pTrack itemStartTime => c.CreateItem operations events pTrack itemStartTime
  | .UpdateItemTimeRange pItem newTimeRange =>
    c.UpdateItemTimeRange operations events pItem newTimeRange
  | .DeleteItem pItem => c.DeleteItem operations events pItem

/-- A sequence of calls on the container, one after the other; `none` when an assertion
fails on the way. -/
def runOperations (operations : TrackOperations) :
    List Operation → TrackContainer → StaticEvents → Option (TrackContainer × StaticEvents)
  | [], c, events => some (c, events)
  | operation :: rest, c, events =>
    match operation.run operations c events with
    | none => none
    | some (c, events) => runOperations operations rest c events

/-- Track operations for the examples: a created item starts and ends at the start time,
deleting erases the item, and every time range is valid. -/
def exampleOperations : TrackOperations where
  CreateItem := fun track itemStartTime =>
    { track with
      m_items := track.m_items ++ [{ m_timeRange := ⟨itemStartTime, itemStartTime⟩ }] }
  DeleteItem := fun track itemIdx => { track with m_items := track.m_items.eraseIdx itemIdx }
  SetTimeRange := fun item newTimeRange => { item with m_timeRange := newTimeRange }
  IsSetAndValid := fun _ => true

/-- The two static events with a user bound to each and no execution yet. -/
def boundEvents : StaticEvents :=
  { s_onEndModification := { HasBoundUsers := true }
    s_onBeginModification := { HasBoundUsers := true } }

/-- A container whose counter holds the largest value of an `int32_t`. -/
def deepestContainer : TrackContainer := { m_beginModificationCallCount := 2147483647 }

end EE.Timeline

namespace EE.Animation

/-! ## Theorems -/

theorem journal_of_append {a b : GraphCompilationContext} {evs : List CompileEvent}
    (h : b.m_log = a.m_log ++ evs) : journal a b = evs := by
  simp [journal, h]

theorem journal_self (a : GraphCompilationContext) : journal a a = [] := by
  simp [journal]

theorem journal_trans {a b c : GraphCompilationContext}
    (h1 : b.m_log = a.m_log ++ journal a b) (h2 : c.m_log = b.m_log ++ journal b c) :
    c.m_log = a.m_log ++ journal a c ∧ journal a c = journal a b ++ journal b c := by
  have h : c.m_log = a.m_log ++ (journal a b ++ journal b c) := by
    rw [← List.append_assoc, ← h1, ← h2]
  exact ⟨by rw [journal_of_append h]; exact h, journal_of_append h⟩

theorem Evolves.stay (P : Nat → Prop) (a : GraphCompilationContext) : Evolves P a a :=
  ⟨by simp [journal_self], fun _ _ h => h, le_refl _, fun _ s h => ⟨s, h, rfl⟩, fun _ _ _ => rfl⟩

theorem Evolves.andThen {P Q : Nat → Prop} {a b c : GraphCompilationContext}
    (h1 : Evolves P a b) (h2 : Evolves Q b c)
    (hQ : ∀ q, q < a.m_nodeSettings.length → Q q → P q) : Evolves P a c := by
  refine ⟨(journal_trans h1.log h2.log).1, fun id p h => h2.map id p (h1.map id p h),
    le_trans h1.len h2.len, ?_, ?_⟩
  · intro q s h
    obtain ⟨s1, hs1, e1⟩ := h1.idx q s h
    obtain ⟨s2, hs2, e2⟩ := h2.idx q s1 hs1
    exact ⟨s2, hs2, e2.trans e1⟩
  · intro q hq hP
    rw [h2.frame q (lt_of_lt_of_le hq h1.len) (fun hQq => hP (hQ q hq hQq)), h1.frame q hq hP]

theorem Evolves.widen {P Q : Nat → Prop} {a b : GraphCompilationContext}
    (h : Evolves P a b) (hPQ : ∀ q, P q → Q q) : Evolves Q a b :=
  ⟨h.log, h.map, h.len, h.idx, fun q hq hn => h.frame q hq (fun hp => hn (hPQ q hp))⟩

theorem GetSettings_found {ctx : GraphCompilationContext} {id : UUID} {p : Nat}
    (fresh : Int → NodeSettings) (h : ctx.m_nodeIDToIndexMap.lookup id = some p) :
    ctx.GetSettings id fresh = (.AlreadyCompiled, p, ctx) := by
  simp [GraphCompilationContext.GetSettings, h]

theorem GetSettings_new {ctx : GraphCompilationContext} {id : UUID}
    (fresh : Int → NodeSettings) (h : ctx.m_nodeIDToIndexMap.lookup id = none) :
    ctx.GetSettings id fresh = (.NeedCompilation, ctx.m_nodeSettings.length,
      { ctx with
        m_nodeIDToIndexMap := ctx.m_nodeIDToIndexMap ++ [(id, ctx.m_nodeSettings.length)]
        m_nodeSettings := ctx.m_nodeSettings ++ [fresh (ctx.m_nodeSettings.length : Int)] }) := by
  simp [GraphCompilationContext.GetSettings, h]

theorem Effect.idle (P : Nat → Prop) (A : CompileEvent → Prop) (a : GraphCompilationContext) :
    Effect P A a a :=
  ⟨Evolves.stay P a, rfl, rfl, by simp [journal_self]⟩

theorem Effect.seq {P Q : Nat → Prop} {A : CompileEvent → Prop}
    {a b c : GraphCompilationContext} (h1 : Effect P A a b) (h2 : Effect Q A b c)
    (hQ : ∀ q, q < a.m_nodeSettings.length → Q q → P q) : Effect P A a c := by
  obtain ⟨_, hj⟩ := journal_trans h1.evolves.log h2.evolves.log
  refine ⟨h1.evolves.andThen h2.evolves hQ, h2.conduitScopes.trans h1.conduitScopes,
    h2.conditionsScopes.trans h1.conditionsScopes, ?_⟩
  intro e he
  rw [hj] at he
  rcases List.mem_append.mp he with h | h
  · exact h1.events e h
  · exact h2.events e h

theorem Effect.relax {P Q : Nat → Prop} {A B : CompileEvent → Prop}
    {a b : GraphCompilationContext} (h : Effect P A a b) (hPQ : ∀ q, P q → Q q)
    (hAB : ∀ e, A e → B e) : Effect Q B a b :=
  ⟨h.evolves.widen hPQ, h.conduitScopes, h.conditionsScopes,
    fun e he => hAB e (h.events e he)⟩

/-- An effect that writes nothing to the journal. -/
theorem Effect.quiet {P : Nat → Prop} (A : CompileEvent → Prop) {a b : GraphCompilationContext}
    (he : Evolves P a b) (h1 : b.m_conduitScopes = a.m_conduitScopes)
    (h2 : b.m_transitionConditionsScopes = a.m_transitionConditionsScopes)
    (h3 : b.m_log = a.m_log) : Effect P A a b := by
  have hj : journal a b = [] := journal_of_append (by simp [h3])
  exact ⟨he, h1, h2, by simp [hj]⟩

theorem Effect.journal_nil {P : Nat → Prop} {a b : GraphCompilationContext}
    (h : Effect P (fun _ => False) a b) : journal a b = [] := by
  cases hj : journal a b with
  | nil => rfl
  | cons e _ => exact absurd (h.events e (by simp [hj])) id

theorem Effect.record (P : Nat → Prop) {A : CompileEvent → Prop} (a : GraphCompilationContext)
    (e : CompileEvent) (he : A e) : Effect P A a (a.record e) := by
  have hj : journal a (a.record e) = [e] := journal_of_append rfl
  exact ⟨⟨by rw [hj]; rfl, fun _ _ h => h, le_refl _, fun _ s h => ⟨s, h, rfl⟩,
    fun _ _ _ => rfl⟩, rfl, rfl, by simpa [hj] using he⟩

theorem getElem?_modify_same {α : Type} (f : α → α) (l : List α) (p : Nat) :
    (l.modify f p)[p]? = l[p]?.map f := by
  rw [List.getElem?_modify]; simp

theorem getElem?_modify_other {α : Type} (f : α → α) (l : List α) {p q : Nat} (h : q ≠ p) :
    (l.modify f p)[q]? = l[q]? := by
  rw [List.getElem?_modify]
  cases l[q]? with
  | none => rfl
  | some a => simp [Ne.symm h]

theorem Evolves.modify (a : GraphCompilationContext) (p : Nat) (w : NodeSettings → NodeSettings)
    (hw : ∀ r, (w r).m_nodeIdx = r.m_nodeIdx) :
    Evolves (fun q => q = p) a { a with m_nodeSettings := a.m_nodeSettings.modify w p } := by
  refine ⟨by simp [journal], fun _ _ h => h, by simp, ?_, ?_⟩
  · intro q s h
    by_cases hq : q = p
    · subst hq
      refine ⟨w s, ?_, hw s⟩
      show (a.m_nodeSettings.modify w q)[q]? = some (w s)
      rw [getElem?_modify_same, h]; rfl
    · exact ⟨s, by show (a.m_nodeSettings.modify w p)[q]? = some s
                   rw [getElem?_modify_other _ _ hq, h], rfl⟩
  · intro q _ hq
    show (a.m_nodeSettings.modify w p)[q]? = _
    rw [getElem?_modify_other _ _ hq]

theorem Effect.modifyState (A : CompileEvent → Prop) (a : GraphCompilationContext) (p : Nat)
    (f : StateNode.Settings → StateNode.Settings) (hf : ∀ s, (f s).m_nodeIdx = s.m_nodeIdx) :
    Effect (fun q => q = p) A a (a.modifyState p f) := by
  refine Effect.quiet A (Evolves.modify a p _ ?_) rfl rfl rfl
  intro r; cases r <;> simp [NodeSettings.m_nodeIdx, hf]

theorem Effect.modifyTransition (A : CompileEvent → Prop) (a : GraphCompilationContext)
    (p : Nat) (f : TransitionNode.Settings → TransitionNode.Settings)
    (hf : ∀ s, (f s).m_nodeIdx = s.m_nodeIdx) :
    Effect (fun q => q = p) A a (a.modifyTransition p f) := by
  refine Effect.quiet A (Evolves.modify a p _ ?_) rfl rfl rfl
  intro r; cases r <;> simp [NodeSettings.m_nodeIdx, hf]

theorem Effect.modifyStateMachine (A : CompileEvent → Prop) (a : GraphCompilationContext)
    (p : Nat) (f : StateMachineNode.Settings → StateMachineNode.Settings)
    (hf : ∀ s, (f s).m_nodeIdx = s.m_nodeIdx) :
    Effect (fun q => q = p) A a (a.modifyStateMachine p f) := by
  refine Effect.quiet A (Evolves.modify a p _ ?_) rfl rfl rfl
  intro r; cases r <;> simp [NodeSettings.m_nodeIdx, hf]

/-- What `GetSettings` does: either the node was registered, and nothing changes, or
it was not, and a fresh record is appended and registered. -/
theorem GetSettings_spec (ctx : GraphCompilationContext) (id : UUID)
    (fresh : Int → NodeSettings) (hfresh : ∀ i, (fresh i).m_nodeIdx = i) :
    (∃ p, ctx.m_nodeIDToIndexMap.lookup id = some p ∧
        ctx.GetSettings id fresh = (.AlreadyCompiled, p, ctx)) ∨
    (∃ c, ctx.m_nodeIDToIndexMap.lookup id = none ∧
        ctx.GetSettings id fresh = (.NeedCompilation, ctx.m_nodeSettings.length, c) ∧
        c.m_nodeIDToIndexMap.lookup id = some ctx.m_nodeSettings.length ∧
        c.m_nodeSettings = ctx.m_nodeSettings ++ [fresh (ctx.m_nodeSettings.length : Int)] ∧
        c.nodeIdxAt ctx.m_nodeSettings.length = some (ctx.m_nodeSettings.length : Int) ∧
        Effect (fun _ => False) (fun _ => False) ctx c) := by
  cases h : ctx.m_nodeIDToIndexMap.lookup id with
  | some p => exact Or.inl ⟨p, rfl, GetSettings_found fresh h⟩
  | none =>
    refine Or.inr ⟨_, rfl, GetSettings_new fresh h, ?_, rfl, ?_, ?_⟩
    · simp [List.lookup_append, h, List.lookup]
    · simp [GraphCompilationContext.nodeIdxAt, hfresh]
    · refine Effect.quiet _ ⟨by simp [journal], ?_, by simp, ?_, ?_⟩ rfl rfl rfl
      · intro id' p hp
        simp [List.lookup_append, hp]
      · intro q s hs
        have hq : q < ctx.m_nodeSettings.length := (List.getElem?_eq_some.mp hs).1
        exact ⟨s, by simp [List.getElem?_append_left hq, hs], rfl⟩
      · intro q hq _
        simp [List.getElem?_append_left hq]

theorem FlowToolsNode.Compile_effect {n : FlowToolsNode} {ctx ctx' : GraphCompilationContext}
    {r : Int} (h : n.Compile ctx = some (r, ctx')) :
    Effect (fun _ => False) (fun _ => False) ctx ctx' := by
  unfold FlowToolsNode.Compile at h
  rcases GetSettings_spec ctx n.GetID NodeSettings.flow (fun _ => rfl) with
    ⟨p, _, hg⟩ | ⟨c, _, hg, _, _, _, he⟩
  · rw [hg] at h
    simp only [] at h
    split at h
    · cases h; exact Effect.idle _ _ _
    · split at h
      · cases h
      · cases h; exact Effect.idle _ _ _
  · rw [hg] at h
    simp only [] at h
    split at h
    · cases h; exact he
    · split at h
      · cases h
      · cases h; exact he

/-- What the block for an optional input does. -/
theorem compileConnectedInput_spec {P : Nat → Prop} {kind : CallKind}
    {pNode : Option FlowToolsNode} {requiredType : Option GraphValueType}
    {store : Int → GraphCompilationContext → GraphCompilationContext}
    {ctx ctx' : GraphCompilationContext} {ok : Bool}
    (hstore : ∀ idx c, Effect P (fun _ => False) c (store idx c))
    (h : compileConnectedInput kind pNode requiredType store ctx = some (ok, ctx')) :
    Effect P (fun e => ∃ id idx, e = CompileEvent.call kind id idx) ctx ctx' ∧
    ((pNode = none ∧ ok = true ∧ ctx' = ctx) ∨
      ∃ n idx, pNode = some n ∧ journal ctx ctx' = [CompileEvent.call kind n.GetID idx] ∧
        (ok = true ↔ idx ≠ InvalidIndex)) := by
  unfold compileConnectedInput at h
  split at h
  · cases h
    exact ⟨Effect.idle _ _ _, Or.inl ⟨rfl, rfl, rfl⟩⟩
  · rename_i n
    split at h
    · cases h
    · split at h
      · cases h
      · rename_i idx c hc
        have e1 : Effect P (fun e => ∃ id idx, e = CompileEvent.call kind id idx) ctx c :=
          (FlowToolsNode.Compile_effect hc).relax (fun _ hq => hq.elim) (fun _ he => he.elim)
        have e2 : Effect P (fun e => ∃ id idx, e = CompileEvent.call kind id idx) c
            (c.record (.call kind n.GetID idx)) := Effect.record P c _ ⟨_, _, rfl⟩
        have e3 := (hstore idx (c.record (.call kind n.GetID idx))).relax (fun _ hq => hq)
          (fun e (he : False) => (he.elim : ∃ id idx, e = CompileEvent.call kind id idx))
        have e12 := e1.seq e2 (fun _ _ hq => hq)
        have hj : journal ctx (store idx (c.record (.call kind n.GetID idx))) =
            [CompileEvent.call kind n.GetID idx] := by
          have h1 := (journal_trans e12.evolves.log e3.evolves.log).2
          have h2 := (journal_trans e1.evolves.log e2.evolves.log).2
          rw [h1, h2, (FlowToolsNode.Compile_effect hc).journal_nil,
            (hstore idx _).journal_nil]
          simp [journal_of_append (rfl : (c.record (.call kind n.GetID idx)).m_log = c.m_log ++ _)]
        simp only [] at h
        split at h
        · cases h
          exact ⟨e12.seq e3 (fun _ _ hq => hq), Or.inr ⟨n, idx, rfl, hj, by simp_all⟩⟩
        · cases h
          exact ⟨e12.seq e3 (fun _ _ hq => hq), Or.inr ⟨n, idx, rfl, hj, by simp_all⟩⟩

theorem Effect.step {P : Nat → Prop} {A : CompileEvent → Prop}
    {a b c : GraphCompilationContext} (h1 : Effect P A a b) (h2 : Effect P A b c) :
    Effect P A a c :=
  h1.seq h2 (fun _ _ hq => hq)

/-- The effect of an optional input block whose call site is below `CompileState` or
`CompileTransition` and which stores into the record at `p`. -/
theorem compileConnectedInput_nested (kind : CallKind) {pNode : Option FlowToolsNode}
    {requiredType : Option GraphValueType}
    {store : Int → GraphCompilationContext → GraphCompilationContext}
    {ctx ctx' : GraphCompilationContext} {ok : Bool} {p : Nat}
    (hkind : ∀ id idx, (CompileEvent.call kind id idx).isNested = true)
    (hstore : ∀ idx c, Effect (fun q => q = p) (fun _ => False) c (store idx c))
    (h : compileConnectedInput kind pNode requiredType store ctx = some (ok, ctx')) :
    Effect (fun q => q = p) (fun e => e.isNested = true) ctx ctx' :=
  (compileConnectedInput_spec hstore h).1.relax (fun _ hq => hq)
    (fun e he => by obtain ⟨id, idx, rfl⟩ := he; exact hkind id idx)

theorem CompileState_spec {ctx ctx' : GraphCompilationContext} {pBaseStateNode : ToolsState}
    {r : Int} (h : CompileState ctx pBaseStateNode = some (r, ctx')) :
    ctx.m_nodeIDToIndexMap.lookup pBaseStateNode.GetID = none ∧
    Effect (fun _ => False) (fun e => e.isNested = true) ctx ctx' := by
  unfold CompileState at h
  rcases GetSettings_spec ctx pBaseStateNode.GetID (fun i => .state { m_nodeIdx := i })
    (fun _ => rfl) with ⟨p, _, hg⟩ | ⟨c, hnone, hg, _, _, _, he⟩
  · rw [hg] at h
    simp [EE_ASSERT] at h
  · rw [hg] at h
    refine ⟨hnone, ?_⟩
    have he' : Effect (fun _ => False) (fun e => e.isNested = true) ctx c :=
      he.relax (fun _ hq => hq) (fun _ hf => hf.elim)
    refine he'.seq (Q := fun q => q = ctx.m_nodeSettings.length) ?_
      (fun q hq hqp => absurd hqp (Nat.ne_of_lt hq))
    generalize ctx.m_nodeSettings.length = p at h
    clear hg he he' hnone
    have m : ∀ (a : GraphCompilationContext) (f : StateNode.Settings → StateNode.Settings),
        (∀ s, (f s).m_nodeIdx = s.m_nodeIdx) →
        Effect (fun q => q = p) (fun e => e.isNested = true) a (a.modifyState p f) :=
      fun a f hf => Effect.modifyState _ a p f hf
    have m0 : ∀ (f : Int → StateNode.Settings → StateNode.Settings),
        (∀ i s, (f i s).m_nodeIdx = s.m_nodeIdx) → ∀ (idx : Int) (a : GraphCompilationContext),
        Effect (fun q => q = p) (fun _ => False) a (a.modifyState p (f idx)) :=
      fun f hf idx a => Effect.modifyState _ a p (f idx) (hf idx)
    simp only [EE_ASSERT] at h
    simp only [decide_True, if_true] at h
    have e3 : ∀ f1 f2 f3 : StateNode.Settings → StateNode.Settings,
        (∀ s, (f1 s).m_nodeIdx = s.m_nodeIdx) → (∀ s, (f2 s).m_nodeIdx = s.m_nodeIdx) →
        (∀ s, (f3 s).m_nodeIdx = s.m_nodeIdx) →
        Effect (fun q => q = p) (fun e => e.isNested = true) c
          (((c.modifyState p f1).modifyState p f2).modifyState p f3) :=
      fun f1 f2 f3 h1 h2 h3 => ((m c f1 h1).step (m _ f2 h2)).step (m _ f3 h3)
    split at h
    · split at h
      · cases h
      · split at h
        · cases h
        · rename_i h1
          cases h
          exact (e3 _ _ _ (by intro _; rfl) (by intro _; rfl) (by intro _; rfl)).step
            (compileConnectedInput_nested .blendTree (by intros; rfl)
              (m0 (fun idx s => { s with m_childNodeIdx := idx }) (fun _ _ => rfl)) h1)
        · rename_i h1
          have e4 := (e3 _ _ _ (by intro _; rfl) (by intro _; rfl) (by intro _; rfl)).step
            (compileConnectedInput_nested .blendTree (by intros; rfl)
              (m0 (fun idx s => { s with m_childNodeIdx := idx }) (fun _ _ => rfl)) h1)
          split at h
          · cases h
          · split at h
            · cases h
            · rename_i h2
              cases h
              exact e4.step (compileConnectedInput_nested .layerWeight (by intros; rfl)
                (m0 (fun idx s => { s with m_layerWeightNodeIdx := idx }) (fun _ _ => rfl)) h2)
            · rename_i h2
              have e5 := e4.step (compileConnectedInput_nested .layerWeight (by intros; rfl)
                (m0 (fun idx s => { s with m_layerWeightNodeIdx := idx }) (fun _ _ => rfl)) h2)
              split at h
              · cases h
              · rename_i h3
                cases h
                exact e5.step (compileConnectedInput_nested .layerBoneMask (by intros; rfl)
                  (m0 (fun idx s => { s with m_layerBoneMaskNodeIdx := idx }) (fun _ _ => rfl))
                  h3)
              · rename_i h3
                have e6 := e5.step (compileConnectedInput_nested .layerBoneMask (by intros; rfl)
                  (m0 (fun idx s => { s with m_layerBoneMaskNodeIdx := idx }) (fun _ _ => rfl))
                  h3)
                split at h
                · cases h
                · cases h
                  exact (e6.step (m _ _ (by intro _; rfl))).step (m _ _ (by intro _; rfl))
    · split at h
      · cases h
      · cases h
        exact ((e3 _ _ _ (by intro _; rfl) (by intro _; rfl) (by intro _; rfl)).step
          (m _ _ (by intro _; rfl))).step (m _ _ (by intro _; rfl))

theorem CompileTransition_spec {ctx ctx' : GraphCompilationContext}
    {pTransitionNode : TransitionToolsNode} {targetStateNodeIdx r : Int}
    (h : CompileTransition ctx pTransitionNode targetStateNodeIdx = some (r, ctx')) :
    Effect (fun _ => False) (fun e => e.isNested = true) ctx ctx' := by
  unfold CompileTransition at h
  rcases GetSettings_spec ctx pTransitionNode.GetID (fun i => .transition { m_nodeIdx := i })
    (fun _ => rfl) with ⟨p, _, hg⟩ | ⟨c, hnone, hg, _, _, _, he⟩
  · rw [hg] at h
    simp only [if_true] at h
    split at h
    · cases h
    · cases h; exact Effect.idle _ _ _
  · rw [hg] at h
    have he' : Effect (fun _ => False) (fun e => e.isNested = true) ctx c :=
      he.relax (fun _ hq => hq) (fun _ hf => hf.elim)
    refine he'.seq (Q := fun q => q = ctx.m_nodeSettings.length) ?_
      (fun q hq hqp => absurd hqp (Nat.ne_of_lt hq))
    generalize ctx.m_nodeSettings.length = p at h
    clear hg he he' hnone
    have m : ∀ (a : GraphCompilationContext)
        (f : TransitionNode.Settings → TransitionNode.Settings),
        (∀ s, (f s).m_nodeIdx = s.m_nodeIdx) →
        Effect (fun q => q = p) (fun e => e.isNested = true) a (a.modifyTransition p f) :=
      fun a f hf => Effect.modifyTransition _ a p f hf
    have m0 : ∀ (f : Int → TransitionNode.Settings → TransitionNode.Settings),
        (∀ i s, (f i s).m_nodeIdx = s.m_nodeIdx) → ∀ (idx : Int) (a : GraphCompilationContext),
        Effect (fun q => q = p) (fun _ => False) a (a.modifyTransition p (f idx)) :=
      fun f hf idx a => Effect.modifyTransition _ a p (f idx) (hf idx)
    simp only [reduceCtorEq, if_false] at h
    split at h
    · cases h
    · rename_i h1
      cases h
      exact compileConnectedInput_nested .durationOverride (by intros; rfl)
        (m0 (fun idx s => { s with m_durationOverrideNodeIdx := idx }) (fun _ _ => rfl)) h1
    · rename_i h1
      have e1 := compileConnectedInput_nested .durationOverride (by intros; rfl)
        (m0 (fun idx s => { s with m_durationOverrideNodeIdx := idx }) (fun _ _ => rfl)) h1
      split at h
      · cases h
      · rename_i h2
        cases h
        exact e1.step (compileConnectedInput_nested .syncEventOffsetOverride (by intros; rfl)
          (m0 (fun idx s => { s with m_syncEventOffsetOverrideNodeIdx := idx })
            (fun _ _ => rfl)) h2)
      · rename_i h2
        have e2 := e1.step (compileConnectedInput_nested .syncEventOffsetOverride
          (by intros; rfl)
          (m0 (fun idx s => { s with m_syncEventOffsetOverrideNodeIdx := idx })
            (fun _ _ => rfl)) h2)
        split at h
        · cases h
        · cases h
          exact (((((e2.step (m _ _ (by intro _; rfl))).step (m _ _ (by intro _; rfl))).step
            (m _ _ (by intro _; rfl))).step (m _ _ (by intro _; rfl))).step
            (m _ _ (by intro _; rfl))).step (m _ _ (by intro _; rfl))

theorem Step.nil (ps : Nat) (K : CallKind → Bool) (bal : Bool) (a : GraphCompilationContext) :
    Step ps K bal [] true a a :=
  ⟨Evolves.stay _ a, by simp [Trace, journal_self], by simp [journal_self],
    by simp [journal_self], fun _ => ⟨rfl, rfl⟩⟩

theorem Step.append {ps : Nat} {K : CallKind → Bool} {bal : Bool} {p1 p2 : List CompileEvent}
    {ok : Bool}
    {a b c : GraphCompilationContext} (h1 : Step ps K bal p1 true a b) (h2 : Step ps K bal p2 ok b c) :
    Step ps K bal (p1 ++ p2) ok a c := by
  obtain ⟨_, hj⟩ := journal_trans h1.evolves.log h2.evolves.log
  have hf1 := h1.trace.1 rfl
  have he1 := h1.emitsAll rfl
  refine ⟨h1.evolves.andThen h2.evolves (fun _ _ hq => hq), ⟨?_, ?_⟩, ?_, ?_,
    fun hok => ⟨(h2.scopes hok).1.trans (h1.scopes (Or.inl rfl)).1,
      (h2.scopes hok).2.trans (h1.scopes (Or.inl rfl)).2⟩⟩
  · intro hok e he
    rw [hj] at he
    rcases List.mem_append.mp he with h | h
    · exact hf1 e h
    · exact h2.trace.1 hok e h
  · intro hok
    obtain ⟨pre, k, id, hpre, hK, hd, hno⟩ := h2.trace.2 hok
    refine ⟨journal a b ++ pre, k, id, by rw [hj, hpre, List.append_assoc], hK, hd, ?_⟩
    intro x hx
    rcases List.mem_append.mp hx with h | h
    · exact hf1 x h
    · exact hno x h
  · rw [hj, List.filter_append, he1]
    exact (List.prefix_append_right_inj p1).mpr h2.emits
  · intro hok
    rw [hj, List.filter_append, he1, h2.emitsAll hok]

/-- A failed run stays a failed run of any longer plan. -/
theorem Step.extend {ps : Nat} {K : CallKind → Bool} {bal : Bool} {p1 : List CompileEvent}
    {a b : GraphCompilationContext} (h : Step ps K bal p1 false a b) (p2 : List CompileEvent) :
    Step ps K bal (p1 ++ p2) false a b :=
  ⟨h.evolves, h.trace, h.emits.trans (List.prefix_append p1 p2), (fun hf => Bool.noConfusion hf),
    h.scopes⟩

/-- A run followed by writes that leave the journal alone. -/
theorem Step.thenEffect {ps : Nat} {K : CallKind → Bool} {bal : Bool} {plan : List CompileEvent}
    {ok : Bool}
    {a b c : GraphCompilationContext} (h : Step ps K bal plan ok a b)
    (h2 : Effect (fun q => q = ps) (fun _ => False) b c) : Step ps K bal plan ok a c := by
  obtain ⟨_, hj⟩ := journal_trans h.evolves.log h2.evolves.log
  rw [h2.journal_nil, List.append_nil] at hj
  exact ⟨h.evolves.andThen h2.evolves (fun _ _ hq => hq), hj ▸ h.trace, hj ▸ h.emits,
    hj ▸ h.emitsAll, fun hok => ⟨h2.conduitScopes.trans (h.scopes hok).1,
      h2.conditionsScopes.trans (h.scopes hok).2⟩⟩

theorem Step.of_effect {ps : Nat} (K : CallKind → Bool) (bal : Bool) {P : Nat → Prop}
    {A : CompileEvent → Prop} {a b : GraphCompilationContext} (h : Effect P A a b)
    (hP : ∀ q, P q → q = ps) (hA : ∀ e, A e → e.isFailedChild = false ∧ e.isEmit = false) :
    Step ps K bal [] true a b := by
  have hnone : (journal a b).filter CompileEvent.isEmit = [] := by
    rw [List.filter_eq_nil_iff]
    intro e he
    simp [(hA e (h.events e he)).2]
  exact ⟨h.evolves.widen hP, ⟨fun _ e he => (hA e (h.events e he)).1, (fun hf => Bool.noConfusion hf)⟩,
    by rw [hnone], fun _ => hnone, fun _ => ⟨h.conduitScopes, h.conditionsScopes⟩⟩

theorem isNested_not_failed (e : CompileEvent) (h : e.isNested = true) :
    e.isFailedChild = false ∧ e.isEmit = false := by
  cases e with
  | call k id r =>
    simp only [CompileEvent.isNested, Bool.not_eq_true'] at h
    simp [CompileEvent.isFailedChild, CompileEvent.isEmit, h]
  | emit _ _ _ _ => simp [CompileEvent.isNested] at h

/-- The journal entry of an appended transition entry. -/
theorem Step.emit (ps : Nat) (K : CallKind → Bool) (bal : Bool) (a : GraphCompilationContext)
    (i : Nat) (o : TransitionOrigin) (id e : UUID) :
    Step ps K bal [CompileEvent.emit i o id e] true a (a.record (.emit i o id e)) := by
  have hj : journal a (a.record (.emit i o id e)) = [.emit i o id e] := journal_of_append rfl
  exact ⟨(Effect.record _ a _ trivial : Effect _ (fun _ => True) _ _).evolves,
    by simp [Trace, hj, CompileEvent.isFailedChild], by simp [hj, CompileEvent.isEmit],
    by simp [hj, CompileEvent.isEmit], fun _ => ⟨rfl, rfl⟩⟩

/-- The journal entry of a child compile that did not return `InvalidIndex`. -/
theorem Step.call_ok (ps : Nat) (K : CallKind → Bool) (bal : Bool) (a : GraphCompilationContext)
    (k : CallKind) (id : UUID) {r : Int} (hr : r ≠ InvalidIndex) :
    Step ps K bal [] true a (a.record (.call k id r)) := by
  have hj : journal a (a.record (.call k id r)) = [.call k id r] := journal_of_append rfl
  exact ⟨(Effect.record _ a _ trivial : Effect _ (fun _ => True) _ _).evolves,
    by simp [Trace, hj, CompileEvent.isFailedChild, hr], by simp [hj, CompileEvent.isEmit],
    by simp [hj, CompileEvent.isEmit], fun _ => ⟨rfl, rfl⟩⟩

/-- The journal entry of a child compile that returned `InvalidIndex`. -/
theorem Step.call_fail (ps : Nat) {K : CallKind → Bool} (bal : Bool) (a : GraphCompilationContext)
    {k : CallKind} (id : UUID) (hK : K k = true) (hd : k.isDirect = true) :
    Step ps K bal [] false a (a.record (.call k id InvalidIndex)) := by
  have hj : journal a (a.record (.call k id InvalidIndex)) = [.call k id InvalidIndex] :=
    journal_of_append rfl
  exact ⟨(Effect.record _ a _ trivial : Effect _ (fun _ => True) _ _).evolves,
    ⟨(fun hf => Bool.noConfusion hf), fun _ => ⟨[], k, id, by simp [hj], hK, hd, by simp⟩⟩,
    by simp [hj, CompileEvent.isEmit], (fun hf => Bool.noConfusion hf), fun _ => ⟨rfl, rfl⟩⟩

theorem journal_congr {a a' b b' : GraphCompilationContext} (ha : a'.m_log = a.m_log)
    (hb : b'.m_log = b.m_log) : journal a' b' = journal a b := by
  simp [journal, ha, hb]

theorem Evolves.congr {P : Nat → Prop} {a a' b b' : GraphCompilationContext}
    (h : Evolves P a b) (ha1 : a'.m_log = a.m_log)
    (ha2 : a'.m_nodeIDToIndexMap = a.m_nodeIDToIndexMap)
    (ha3 : a'.m_nodeSettings = a.m_nodeSettings) (hb1 : b'.m_log = b.m_log)
    (hb2 : b'.m_nodeIDToIndexMap = b.m_nodeIDToIndexMap)
    (hb3 : b'.m_nodeSettings = b.m_nodeSettings) : Evolves P a' b' := by
  refine ⟨?_, ?_, ?_, ?_, ?_⟩
  · rw [journal_congr ha1 hb1, ha1, hb1]; exact h.log
  · rw [ha2, hb2]; exact h.map
  · rw [ha3, hb3]; exact h.len
  · rw [ha3, hb3]; exact h.idx
  · rw [ha3, hb3]; exact h.frame

/-- A run inside a transition-conditions scope that completes, followed by the end of
the scope. -/
theorem Step.conditionsScope {ps : Nat} {K : CallKind → Bool} {bal : Bool}
    {plan : List CompileEvent}
    {a b : GraphCompilationContext} {d : FloatValue} {o : Int}
    (h : Step ps K bal plan true (a.BeginTransitionConditionsCompilation d o) b) :
    Step ps K bal plan true a b.EndTransitionConditionsCompilation := by
  have hj : journal a b.EndTransitionConditionsCompilation =
      journal (a.BeginTransitionConditionsCompilation d o) b := journal_congr rfl rfl
  refine ⟨h.evolves.congr rfl rfl rfl rfl rfl rfl, hj ▸ h.trace, hj ▸ h.emits,
    hj ▸ h.emitsAll, fun _ => ⟨(h.scopes (Or.inl rfl)).1, ?_⟩⟩
  have h2 := (h.scopes (Or.inl rfl)).2
  simp only [GraphCompilationContext.BeginTransitionConditionsCompilation] at h2
  simp [GraphCompilationContext.EndTransitionConditionsCompilation, h2]

/-- A run inside a conduit scope that completes, followed by the end of the scope. -/
theorem Step.conduitScope {ps : Nat} {K : CallKind → Bool} {bal : Bool} {plan : List CompileEvent}
    {a b : GraphCompilationContext} {src : Int}
    (h : Step ps K bal plan true (a.BeginConduitCompilation src) b) :
    Step ps K bal plan true a b.EndConduitCompilation := by
  have hj : journal a b.EndConduitCompilation =
      journal (a.BeginConduitCompilation src) b := journal_congr rfl rfl
  refine ⟨h.evolves.congr rfl rfl rfl rfl rfl rfl, hj ▸ h.trace, hj ▸ h.emits,
    hj ▸ h.emitsAll, fun _ => ⟨?_, (h.scopes (Or.inl rfl)).2⟩⟩
  have h2 := (h.scopes (Or.inl rfl)).1
  simp only [GraphCompilationContext.BeginConduitCompilation] at h2
  simp [GraphCompilationContext.EndConduitCompilation, h2]

/-- A run inside a scope that executed `return InvalidIndex`. -/
theorem Step.abort {ps : Nat} {K : CallKind → Bool} {plan : List CompileEvent}
    {a a' b : GraphCompilationContext} (h : Step ps K false plan false a' b)
    (h1 : a'.m_log = a.m_log) (h2 : a'.m_nodeIDToIndexMap = a.m_nodeIDToIndexMap)
    (h3 : a'.m_nodeSettings = a.m_nodeSettings) : Step ps K false plan false a b := by
  have hj : journal a b = journal a' b := journal_congr h1.symm rfl
  exact ⟨h.evolves.congr h1.symm h2.symm h3.symm rfl rfl rfl, hj ▸ h.trace, hj ▸ h.emits,
    (fun hf => Bool.noConfusion hf), (fun hf => hf.elim Bool.noConfusion Bool.noConfusion)⟩

/-- A run inside a transition-conditions scope that executed `return InvalidIndex`. -/
theorem Step.abortConditions {ps : Nat} {K : CallKind → Bool} {plan : List CompileEvent}
    {a b : GraphCompilationContext} {d : FloatValue} {o : Int}
    (h : Step ps K false plan false (a.BeginTransitionConditionsCompilation d o) b) :
    Step ps K false plan false a b :=
  h.abort rfl rfl rfl

/-- A run inside a conduit scope that executed `return InvalidIndex`. -/
theorem Step.abortConduit {ps : Nat} {K : CallKind → Bool} {plan : List CompileEvent}
    {a b : GraphCompilationContext} {src : Int}
    (h : Step ps K false plan false (a.BeginConduitCompilation src) b) :
    Step ps K false plan false a b :=
  h.abort rfl rfl rfl

/-- A run seen as a run with more call sites and no promise about the scopes of an
aborted run. -/
theorem Step.weaken {ps : Nat} {K K' : CallKind → Bool} {bal : Bool}
    {plan : List CompileEvent} {ok : Bool} {a b : GraphCompilationContext}
    (h : Step ps K bal plan ok a b) (hK : ∀ k, K k = true → K' k = true) :
    Step ps K' false plan ok a b := by
  refine ⟨h.evolves, ⟨h.trace.1, fun hok => ?_⟩, h.emits, h.emitsAll,
    fun hc => h.scopes (hc.elim Or.inl (fun hf => Bool.noConfusion hf))⟩
  obtain ⟨pre, k, id, h1, h2, h3, h4⟩ := h.trace.2 hok
  exact ⟨pre, k, id, h1, hK k h2, h3, h4⟩

/-- A run followed by a write to the state machine record. -/
theorem Step.write {ps : Nat} {K : CallKind → Bool} {bal : Bool} {plan : List CompileEvent}
    {ok : Bool}
    {a b : GraphCompilationContext} (h : Step ps K bal plan ok a b)
    (f : StateMachineNode.Settings → StateMachineNode.Settings)
    (hf : ∀ s, (f s).m_nodeIdx = s.m_nodeIdx) :
    Step ps K bal plan ok a (b.modifyStateMachine ps f) :=
  h.thenEffect (Effect.modifyStateMachine _ b ps f hf)

theorem TryCompileTransition_spec {ps i : Nat} {origin : TransitionOrigin}
    {pTransitionNode : TransitionToolsNode} {endStateID : UUID} {maps maps' : CompileLocals}
    {ctx ctx' : GraphCompilationContext} {ok : Bool}
    (h : TryCompileTransition ps i origin pTransitionNode endStateID maps ctx =
      some (ok, maps', ctx')) :
    Step ps CallKind.inConduit false (plannedTransition i origin pTransitionNode endStateID) ok
      ctx ctx' := by
  unfold TryCompileTransition at h
  unfold plannedTransition
  have w : ∀ (a : GraphCompilationContext)
      (f : StateMachineNode.Settings → StateMachineNode.Settings),
      (∀ s, (f s).m_nodeIdx = s.m_nodeIdx) →
      Effect (fun q => q = ps) (fun _ => False) a (a.modifyStateMachine ps f) :=
    fun a f hf => Effect.modifyStateMachine _ a ps f hf
  split at h
  · rename_i hnone
    cases h
    rw [hnone]
    exact Step.nil _ _ _ _
  · rename_i pConditionNode hcond
    rw [hcond]
    simp only []
    split at h
    · cases h
    · split at h
      rename_i targetStateIdx stateIdxMap _
      split at h
      rename_i targetStateNodeIdx compiledNodeIdxMap _
      simp only [] at h
      split at h
      · cases h
      · rename_i transitionNodeIdx c2 hCT
        have s1 : ∀ f1 f2 : StateMachineNode.Settings → StateMachineNode.Settings,
            (∀ s, (f1 s).m_nodeIdx = s.m_nodeIdx) → (∀ s, (f2 s).m_nodeIdx = s.m_nodeIdx) →
            Step ps CallKind.inConduit false
              [CompileEvent.emit i origin pTransitionNode.GetID endStateID] true ctx
              (((ctx.modifyStateMachine ps f1).record
                (.emit i origin pTransitionNode.GetID endStateID)).modifyStateMachine ps f2) :=
          fun f1 f2 h1 h2 =>
            ((((Step.nil ps _ _ ctx).write f1 h1).append
              (Step.emit ps _ _ _ i origin pTransitionNode.GetID endStateID))).write f2 h2
        have s2 := (s1 _ _ (by intro _; rfl) (by intro _; rfl)).append
          (Step.of_effect CallKind.inConduit false (CompileTransition_spec hCT)
            (fun _ hf => hf.elim) isNested_not_failed)
        split at h
        · rename_i hinv
          cases h
          subst hinv
          exact (s2.append (Step.call_fail ps false _ pTransitionNode.GetID
            (show CallKind.inConduit .transitionNode = true from rfl) rfl)).write _
            (by intro _; rfl)
        · rename_i hvalid
          have s3 : ∀ f : StateMachineNode.Settings → StateMachineNode.Settings,
              (∀ s, (f s).m_nodeIdx = s.m_nodeIdx) →
              Step ps CallKind.inConduit false
                [CompileEvent.emit i origin pTransitionNode.GetID endStateID] true ctx
                ((c2.record (.call .transitionNode pTransitionNode.GetID
                  transitionNodeIdx)).modifyStateMachine ps f) :=
            fun f hf => (s2.append (Step.call_ok ps CallKind.inConduit false _ .transitionNode
              pTransitionNode.GetID hvalid)).write f hf
          rcases GetSettings_spec ((c2.record (.call .transitionNode pTransitionNode.GetID
              transitionNodeIdx)).modifyStateMachine ps (writeLastTransition i fun t =>
              { t with m_transitionNodeIdx := transitionNodeIdx })) pTransitionNode.GetID
            (fun idx => .transition { m_nodeIdx := idx }) (fun _ => rfl) with
            ⟨p, _, hg⟩ | ⟨c, _, hg, _⟩
          · simp only [hg, EE_ASSERT, decide_True, if_true] at h
            split at h
            · cases h
            · rename_i compiled _
              split at h
              · cases h
              · rename_i conditionNodeIdx c5 hC
                have s5 : Step ps CallKind.inConduit false [] true _ c5 :=
                  Step.of_effect CallKind.inConduit false
                    (FlowToolsNode.Compile_effect hC) (fun _ hf => hf.elim)
                    (fun _ hf => hf.elim)
                split at h
                · rename_i hinv
                  cases h
                  subst hinv
                  exact (s3 _ (by intro _; rfl)).append (Step.abortConditions
                    ((s5.append (Step.call_fail ps false _ pConditionNode.GetID
                      (show CallKind.inConduit .transitionCondition = true from rfl)
                      rfl)).write _ (by intro _; rfl)))
                · rename_i hvalid2
                  cases h
                  exact (s3 _ (by intro _; rfl)).append (Step.conditionsScope
                    ((s5.append (Step.call_ok ps CallKind.inConduit false _
                      .transitionCondition pConditionNode.GetID hvalid2)).write _
                      (by intro _; rfl)))
          · simp [hg, EE_ASSERT] at h

theorem compileConduitTransitions_spec {ps i c : Nat} {endStateID : UUID}
    (ts : List TransitionToolsNode) :
    ∀ {maps maps' : CompileLocals} {ctx ctx' : GraphCompilationContext} {ok : Bool},
    compileConduitTransitions ps i c endStateID ts maps ctx = some (ok, maps', ctx') →
    Step ps CallKind.inConduit false (plannedConduitTransitions i c endStateID ts) ok
      ctx ctx' := by
  induction ts with
  | nil =>
    intro maps maps' ctx ctx' ok h
    simp only [compileConduitTransitions] at h
    cases h
    exact Step.nil _ _ _ _
  | cons t rest ih =>
    intro maps maps' ctx ctx' ok h
    simp only [compileConduitTransitions] at h
    split at h
    · cases h
    · rename_i hT
      cases h
      exact (TryCompileTransition_spec hT).extend _
    · rename_i hT
      exact (TryCompileTransition_spec hT).append (ih h)

theorem compileConduits_spec {ps i : Nat} {pStartStateNode : ToolsState}
    (conduits : List TransitionConduitToolsNode) :
    ∀ {c : Nat} {copy copy' : List GlobalTransitionToolsNode} {maps maps' : CompileLocals}
      {ctx ctx' : GraphCompilationContext} {ok : Bool},
    compileConduits ps i pStartStateNode conduits c copy maps ctx =
      some (ok, copy', maps', ctx') →
    Step ps CallKind.inConduit false (plannedConduits i pStartStateNode conduits c) ok
      ctx ctx' ∧
    (ok = true → copy' = workingCopy pStartStateNode conduits copy) := by
  induction conduits with
  | nil =>
    intro c copy copy' maps maps' ctx ctx' ok h
    simp only [compileConduits] at h
    cases h
    exact ⟨Step.nil _ _ _ _, fun _ => rfl⟩
  | cons pConduit rest ih =>
    intro c copy copy' maps maps' ctx ctx' ok h
    simp only [compileConduits] at h
    simp only [plannedConduits, workingCopy]
    split at h
    · rename_i hne
      rw [if_pos hne, if_pos hne]
      exact ih h
    · rename_i heq
      rw [if_neg heq, if_neg heq]
      split at h
      · cases h
      · split at h
        · cases h
        · rename_i hT
          cases h
          exact ⟨((compileConduitTransitions_spec _ hT).abortConduit).extend _,
            (fun hf => Bool.noConfusion hf)⟩
        · rename_i hT
          obtain ⟨s, hc⟩ := ih h
          exact ⟨((compileConduitTransitions_spec _ hT).conduitScope).append s, hc⟩

theorem compileGlobalTransitions_spec {ps i : Nat} {pStartStateNode : ToolsState}
    (copy : List GlobalTransitionToolsNode) :
    ∀ {maps maps' : CompileLocals} {ctx ctx' : GraphCompilationContext} {ok : Bool},
    compileGlobalTransitions ps i pStartStateNode copy maps ctx = some (ok, maps', ctx') →
    Step ps CallKind.inConduit false (plannedGlobals i copy) ok ctx ctx' := by
  induction copy with
  | nil =>
    intro maps maps' ctx ctx' ok h
    simp only [compileGlobalTransitions] at h
    cases h
    exact Step.nil _ _ _ _
  | cons g rest ih =>
    intro maps maps' ctx ctx' ok h
    simp only [compileGlobalTransitions] at h
    split at h
    · cases h
    · split at h
      · cases h
      · rename_i hT
        cases h
        exact ((TryCompileTransition_spec hT).abortConduit).extend _
      · rename_i hT
        exact ((TryCompileTransition_spec hT).conduitScope).append (ih h)

theorem compileTransitions_spec {sm : StateMachineToolsNode} {ps : Nat}
    (states : List ToolsState) :
    ∀ {i : Nat} {maps maps' : CompileLocals} {ctx ctx' : GraphCompilationContext} {ok : Bool},
    compileTransitions sm ps states i maps ctx = some (ok, maps', ctx') →
    Step ps CallKind.inConduit false (plannedTransitions sm states i) ok ctx ctx' := by
  induction states with
  | nil =>
    intro i maps maps' ctx ctx' ok h
    simp only [compileTransitions] at h
    cases h
    exact Step.nil _ _ _ _
  | cons pStartStateNode rest ih =>
    intro i maps maps' ctx ctx' ok h
    simp only [compileTransitions] at h
    simp only [plannedTransitions, plannedState, globalsFor]
    split at h
    · cases h
    · rename_i hC
      cases h
      exact (((compileConduits_spec _ hC).1.extend _).extend _)
    · rename_i hC
      obtain ⟨s1, hcopy⟩ := compileConduits_spec _ hC
      rw [hcopy rfl] at h
      split at h
      · cases h
      · rename_i hG
        cases h
        exact ((s1.append (compileGlobalTransitions_spec _ hG)).extend _)
      · rename_i hG
        exact (s1.append (compileGlobalTransitions_spec _ hG)).append (ih h)

/-- The block for an optional input at a call site of `Compile` itself, storing into the
state machine record. -/
theorem compileConnectedInput_step {ps : Nat} {K : CallKind → Bool} (bal : Bool)
    {kind : CallKind} (hK : K kind = true) (hd : kind.isDirect = true)
    {pNode : Option FlowToolsNode} {requiredType : Option GraphValueType}
    {store : Int → GraphCompilationContext → GraphCompilationContext}
    {ctx ctx' : GraphCompilationContext} {ok : Bool}
    (hstore : ∀ idx c, Effect (fun q => q = ps) (fun _ => False) c (store idx c))
    (h : compileConnectedInput kind pNode requiredType store ctx = some (ok, ctx')) :
    Step ps K bal [] ok ctx ctx' := by
  obtain ⟨eff, hcases⟩ := compileConnectedInput_spec hstore h
  rcases hcases with ⟨_, hok, hctx⟩ | ⟨n, idx, _, hj, hok⟩
  · subst hok; subst hctx
    exact Step.nil _ _ _ _
  · refine ⟨eff.evolves, ⟨?_, ?_⟩, by simp [hj, CompileEvent.isEmit],
      fun _ => by simp [hj, CompileEvent.isEmit],
      fun _ => ⟨eff.conduitScopes, eff.conditionsScopes⟩⟩
    · intro h1 e he
      rw [hj] at he
      simp only [List.mem_singleton] at he
      subst he
      simp [CompileEvent.isFailedChild, hok.mp h1]
    · intro h1
      have hidx : idx = InvalidIndex := by
        by_contra hne
        rw [hok.mpr hne] at h1
        cases h1
      subst hidx
      exact ⟨[], kind, n.GetID, by simp [hj], hK, hd, by simp⟩

theorem compileStates_spec {sm : StateMachineToolsNode} {ps : Nat} (states : List ToolsState) :
    ∀ {i : Nat} {maps maps' : CompileLocals} {ctx ctx' : GraphCompilationContext} {ok : Bool},
    compileStates sm ps states i maps ctx = some (ok, maps', ctx') →
    Step ps CallKind.inStateLoop true [] ok ctx ctx' := by
  induction states with
  | nil =>
    intro i maps maps' ctx ctx' ok h
    simp only [compileStates] at h
    cases h
    exact Step.nil _ _ _ _
  | cons pStateNode rest ih =>
    intro i maps maps' ctx ctx' ok h
    simp only [compileStates] at h
    split at h
    · cases h
    · rename_i stateNodeIdx c1 hCS
      have s1 : Step ps CallKind.inStateLoop true [] true ctx c1 :=
        ((Step.nil ps CallKind.inStateLoop true ctx).write _ (by intro _; rfl)).append
          (Step.of_effect CallKind.inStateLoop true (CompileState_spec hCS).2
            (fun _ hf => hf.elim) isNested_not_failed)
      split at h
      · rename_i hinv
        cases h
        subst hinv
        exact (s1.append (Step.call_fail ps true _ pStateNode.GetID
          (show CallKind.inStateLoop .stateBody = true from rfl) rfl)).write _
          (by intro _; rfl)
      · rename_i hvalid
        have s2 : ∀ f : StateMachineNode.Settings → StateMachineNode.Settings,
            (∀ s, (f s).m_nodeIdx = s.m_nodeIdx) →
            Step ps CallKind.inStateLoop true [] true ctx
              ((c1.record (.call .stateBody pStateNode.GetID
                stateNodeIdx)).modifyStateMachine ps f) :=
          fun f hf => (s1.append (Step.call_ok ps CallKind.inStateLoop true _ .stateBody
            pStateNode.GetID hvalid)).write f hf
        split at h
        · cases h
        · rename_i hE
          cases h
          exact (s2 _ (by intro _; rfl)).append
            (compileConnectedInput_step true
              (show CallKind.inStateLoop .entryCondition = true from rfl) rfl
              (fun idx c => Effect.modifyStateMachine _ c ps _ (by intro _; rfl)) hE)
        · rename_i hE
          exact ((s2 _ (by intro _; rfl)).append
            (compileConnectedInput_step true
              (show CallKind.inStateLoop .entryCondition = true from rfl) rfl
              (fun idx c => Effect.modifyStateMachine _ c ps _ (by intro _; rfl)) hE)).append
            (ih h)

theorem Evolves.nodeIdxAt {P : Nat → Prop} {a b : GraphCompilationContext} (h : Evolves P a b)
    {p : Nat} {r : Int} (hr : a.nodeIdxAt p = some r) : b.nodeIdxAt p = some r := by
  unfold GraphCompilationContext.nodeIdxAt at hr ⊢
  cases hs : a.m_nodeSettings[p]? with
  | none => simp [hs] at hr
  | some s =>
    obtain ⟨s', hs', e⟩ := h.idx p s hs
    simp only [hs, Option.map_some', Option.some.injEq] at hr
    simp [hs', e, hr]

/-- What a run of `Compile` that returns does. Either the node was compiled before:
the context is untouched and the memoized index is returned. Or it was not: a fresh
record is registered at the end of the table, the two loops run and append the planned
transition entries, and the result is the index of the fresh record when both loops
complete and `InvalidIndex` otherwise. -/
theorem Compile_spec {sm : StateMachineToolsNode} {ctx ctx' : GraphCompilationContext}
    {r : Int} (h : sm.Compile ctx = some (r, ctx')) :
    (∃ p, ctx.m_nodeIDToIndexMap.lookup sm.GetID = some p ∧ ctx' = ctx ∧
      ctx.nodeIdxAt p = some r) ∨
    (ctx.m_nodeIDToIndexMap.lookup sm.GetID = none ∧
      1 ≤ sm.GetChildGraph.stateNodes.length ∧
      ctx'.m_nodeIDToIndexMap.lookup sm.GetID = some ctx.m_nodeSettings.length ∧
      ctx'.nodeIdxAt ctx.m_nodeSettings.length = some (ctx.m_nodeSettings.length : Int) ∧
      ∃ ok, r = (if ok = true then (ctx.m_nodeSettings.length : Int) else InvalidIndex) ∧
        Step ctx.m_nodeSettings.length CallKind.isDirect false
          (plannedTransitions sm sm.GetChildGraph.stateNodes 0) ok ctx ctx' ∧
        (ScopesKept ctx ctx' ∨ AbortedInConduit (journal ctx ctx'))) := by
  unfold StateMachineToolsNode.Compile at h
  rcases GetSettings_spec ctx sm.GetID (fun i => .stateMachine { m_nodeIdx := i })
    (fun _ => rfl) with ⟨p, hp, hg⟩ | ⟨c, hnone, hg, hlook, _, hidx, he⟩
  · rw [hg] at h
    simp only [ne_eq, reduceCtorEq, not_false_eq_true, if_true] at h
    split at h
    · cases h
    · rename_i hr
      cases h
      exact Or.inl ⟨p, hp, rfl, hr⟩
  · rw [hg] at h
    simp only [ne_eq, not_true_eq_false, if_false] at h
    refine Or.inr ⟨hnone, ?_⟩
    generalize hps : ctx.m_nodeSettings.length = ps at h hlook hidx
    have s0 : Step ps CallKind.isDirect false [] true ctx c :=
      Step.of_effect _ _ he (fun _ hf => hf.elim) (fun _ hf => hf.elim)
    have dir1 : ∀ k, CallKind.inStateLoop k = true → CallKind.isDirect k = true := by
      intro k hk; cases k <;> simp_all [CallKind.inStateLoop, CallKind.isDirect]
    have dir2 : ∀ k, CallKind.inConduit k = true → CallKind.isDirect k = true := by
      intro k hk; cases k <;> simp_all [CallKind.inConduit, CallKind.isDirect]
    have fin : ∀ {b : GraphCompilationContext}, Evolves (fun q => q = ps) c b →
        b.m_nodeIDToIndexMap.lookup sm.GetID = some ps ∧ b.nodeIdxAt ps = some (ps : Int) :=
      fun e => ⟨e.map _ _ hlook, e.nodeIdxAt hidx⟩
    have k0 : ScopesKept ctx c := s0.scopes (Or.inl rfl)
    simp only [EE_ASSERT, ge_iff_le, decide_eq_true_eq] at h
    by_cases hlen : 1 ≤ sm.GetChildGraph.stateNodes.length
    · refine ⟨hlen, ?_⟩
      simp only [hlen, if_true] at h
      split at h
      · cases h
      · rename_i hS
        cases h
        have sS := compileStates_spec _ hS
        have k1 := sS.scopes (Or.inr rfl)
        exact ⟨(fin sS.evolves).1, (fin sS.evolves).2, false, rfl,
          (s0.append (sS.weaken dir1)).extend _,
          Or.inl ⟨k1.1.trans k0.1, k1.2.trans k0.2⟩⟩
      · rename_i hS
        have sS := compileStates_spec _ hS
        have k1 := sS.scopes (Or.inr rfl)
        split at h
        · cases h
        · rename_i hT
          cases h
          have sT := compileTransitions_spec _ hT
          have sAll := (s0.append (sS.weaken dir1)).append (sT.weaken dir2)
          refine ⟨(fin (sS.evolves.andThen sT.evolves (fun _ _ hq => hq))).1,
            (fin (sS.evolves.andThen sT.evolves (fun _ _ hq => hq))).2, false, rfl, sAll,
            Or.inr ?_⟩
          obtain ⟨pre, k, id, hj, hk, _, _⟩ := sT.trace.2 rfl
          have hj2 := (journal_trans (s0.append (sS.weaken dir1)).evolves.log sT.evolves.log).2
          exact ⟨_ ++ pre, k, id, by rw [hj2, hj, List.append_assoc], hk⟩
        · rename_i maps2 c2 hT
          have sT := compileTransitions_spec _ hT
          have k2 := sT.scopes (Or.inl rfl)
          have eF : ∀ f : StateMachineNode.Settings → StateMachineNode.Settings,
              (∀ s, (f s).m_nodeIdx = s.m_nodeIdx) →
              Evolves (fun q => q = ps) c (c2.modifyStateMachine ps f) :=
            fun f hf => (sS.evolves.andThen sT.evolves (fun _ _ hq => hq)).andThen
              (Effect.modifyStateMachine (fun _ => False) _ ps f hf).evolves
              (fun _ _ hq => hq)
          split at h
          · cases h
          · rename_i idx hidx2
            cases h
            have hEq : some (ps : Int) = some r :=
              (fin (eF _ (by intro _; rfl))).2.symm.trans hidx2
            simp only [Option.some.injEq] at hEq
            exact ⟨(fin (eF _ (by intro _; rfl))).1, (fin (eF _ (by intro _; rfl))).2, true,
              by simp [hEq],
              ((s0.append (sS.weaken dir1)).append (sT.weaken dir2)).write _ (by intro _; rfl),
              Or.inl ⟨k2.1.trans (k1.1.trans k0.1), k2.2.trans (k1.2.trans k0.2)⟩⟩
    · simp [hlen] at h

theorem RemoveFromGlobalTransitions_sublist (l : List GlobalTransitionToolsNode) (x : UUID) :
    (RemoveFromGlobalTransitions l x).Sublist l := by
  induction l with
  | nil => exact List.Sublist.refl _
  | cons g rest ih =>
    simp only [RemoveFromGlobalTransitions]
    split
    · exact List.sublist_cons_self g rest
    · exact ih.cons₂ g

theorem mem_RemoveFromGlobalTransitions {l : List GlobalTransitionToolsNode} {x : UUID}
    {g : GlobalTransitionToolsNode} (hg : g ∈ l) (hne : g.GetEndStateID ≠ x) :
    g ∈ RemoveFromGlobalTransitions l x := by
  induction l with
  | nil => cases hg
  | cons a rest ih =>
    simp only [RemoveFromGlobalTransitions]
    split
    · rename_i ha
      rcases List.mem_cons.mp hg with h | h
      · subst h; exact absurd ha hne
      · exact h
    · rcases List.mem_cons.mp hg with h | h
      · subst h; exact List.mem_cons_self _ _
      · exact List.mem_cons_of_mem _ (ih h)

theorem workingCopy_sublist (S : ToolsState) (conduits : List TransitionConduitToolsNode) :
    ∀ copy, (workingCopy S conduits copy).Sublist copy := by
  induction conduits with
  | nil => intro copy; exact List.Sublist.refl _
  | cons cd rest ih =>
    intro copy
    simp only [workingCopy]
    split
    · exact ih copy
    · exact (ih _).trans (RemoveFromGlobalTransitions_sublist _ _)

theorem mem_workingCopy {S : ToolsState} {g : GlobalTransitionToolsNode}
    (conduits : List TransitionConduitToolsNode) :
    ∀ copy, g ∈ copy →
    (∀ cd ∈ conduits, cd.GetStartStateID = S.GetID → cd.GetEndStateID ≠ g.GetEndStateID) →
    g ∈ workingCopy S conduits copy := by
  induction conduits with
  | nil => intro copy hg _; exact hg
  | cons cd rest ih =>
    intro copy hg hno
    simp only [workingCopy]
    split
    · exact ih copy hg (fun c hc => hno c (List.mem_cons_of_mem _ hc))
    · rename_i hstart
      have hs : cd.GetStartStateID = S.GetID := by simpa using hstart
      exact ih _ (mem_RemoveFromGlobalTransitions hg
        (fun h => hno cd (List.mem_cons_self _ _) hs h.symm))
        (fun c hc => hno c (List.mem_cons_of_mem _ hc))

theorem mem_plannedTransition {i : Nat} {o : TransitionOrigin} {t : TransitionToolsNode}
    {eid : UUID} {e : CompileEvent} :
    e ∈ plannedTransition i o t eid ↔
      t.GetConnectedInputNode 0 ≠ none ∧ e = CompileEvent.emit i o t.GetID eid := by
  unfold plannedTransition
  cases t.GetConnectedInputNode 0 <;> simp

theorem mem_plannedConduitTransitions {i c : Nat} {eid : UUID} {e : CompileEvent}
    (ts : List TransitionToolsNode) (h : e ∈ plannedConduitTransitions i c eid ts) :
    ∃ id, e = CompileEvent.emit i (.conduit c) id eid := by
  induction ts with
  | nil => cases h
  | cons t rest ih =>
    simp only [plannedConduitTransitions, List.mem_append] at h
    rcases h with h | h
    · exact ⟨_, (mem_plannedTransition.mp h).2⟩
    · exact ih h

theorem mem_plannedConduits {i : Nat} {S : ToolsState} {e : CompileEvent}
    (conduits : List TransitionConduitToolsNode) :
    ∀ c, e ∈ plannedConduits i S conduits c →
      ∃ c' id eid, e = CompileEvent.emit i (.conduit c') id eid := by
  induction conduits with
  | nil => intro c h; cases h
  | cons cd rest ih =>
    intro c h
    simp only [plannedConduits, List.mem_append] at h
    rcases h with h | h
    · split at h
      · cases h
      · obtain ⟨id, hid⟩ := mem_plannedConduitTransitions _ h
        exact ⟨c, id, _, hid⟩
    · exact ih _ h

theorem mem_plannedGlobals {i : Nat} {e : CompileEvent} (copy : List GlobalTransitionToolsNode) :
    e ∈ plannedGlobals i copy ↔
      ∃ g ∈ copy, g.GetConnectedInputNode 0 ≠ none ∧
        e = CompileEvent.emit i .global g.GetID g.GetEndStateID := by
  induction copy with
  | nil => simp [plannedGlobals]
  | cons g rest ih =>
    simp only [plannedGlobals, List.mem_append, mem_plannedTransition, ih, List.mem_cons]
    constructor
    · rintro (⟨h1, h2⟩ | ⟨g', hg', h1, h2⟩)
      · exact ⟨g, Or.inl rfl, h1, h2⟩
      · exact ⟨g', Or.inr hg', h1, h2⟩
    · rintro ⟨g', hg' | hg', h1, h2⟩
      · subst hg'; exact Or.inl ⟨h1, h2⟩
      · exact Or.inr ⟨g', hg', h1, h2⟩

/-- The planned transition entries from the working copy of the global transitions are
exactly those of the condition-connected entries of each state's working copy. -/
theorem mem_plannedTransitions_global {sm : StateMachineToolsNode} {j : Nat} {id eid : UUID}
    (states : List ToolsState) :
    ∀ i, CompileEvent.emit j .global id eid ∈ plannedTransitions sm states i ↔
      ∃ k S g, j = i + k ∧ states[k]? = some S ∧ g ∈ globalsFor sm S ∧
        g.GetConnectedInputNode 0 ≠ none ∧ id = g.GetID ∧ eid = g.GetEndStateID := by
  induction states with
  | nil => intro i; simp [plannedTransitions]
  | cons S rest ih =>
    intro i
    simp only [plannedTransitions, plannedState, List.mem_append, ih, mem_plannedGlobals]
    constructor
    · rintro ((h | ⟨g, hg, hc, he⟩) | ⟨k, S', g, hj, hS, hg, hc, h1, h2⟩)
      · obtain ⟨c', id', eid', h'⟩ := mem_plannedConduits _ _ h
        cases h'
      · cases he
        exact ⟨0, S, g, rfl, by simp, hg, hc, rfl, rfl⟩
      · exact ⟨k + 1, S', g, by omega, by simpa using hS, hg, hc, h1, h2⟩
    · rintro ⟨k, S', g, hj, hS, hg, hc, h1, h2⟩
      cases k with
      | zero =>
        simp only [List.getElem?_cons_zero, Option.some.injEq] at hS
        subst hS; subst h1; subst h2
        exact Or.inl (Or.inr ⟨g, hg, hc, by simp [hj]⟩)
      | succ k =>
        exact Or.inr ⟨k, S', g, by omega, by simpa using hS, hg, hc, h1, h2⟩

/-- A first run of `Compile` that succeeds appends every planned transition entry. -/
theorem journal_emit_complete {sm : StateMachineToolsNode} {ctx ctx' : GraphCompilationContext}
    {r : Int} (h : sm.Compile ctx = some (r, ctx'))
    (hfresh : ctx.m_nodeIDToIndexMap.lookup sm.GetID = none) (hr : r ≠ InvalidIndex)
    {e : CompileEvent} (he : e ∈ plannedTransitions sm sm.GetChildGraph.stateNodes 0) :
    e ∈ journal ctx ctx' := by
  rcases Compile_spec h with ⟨p, hp, _, _⟩ | ⟨_, _, _, _, ok, hok, s, _⟩
  · rw [hfresh] at hp
    cases hp
  · cases ok with
    | false => exact absurd (by simpa using hok) hr
    | true =>
      rw [← s.emitsAll rfl] at he
      exact (List.mem_filter.mp he).1

/-- C3: a transition whose condition pin is unconnected makes `TryCompileTransition`
report success without touching the context: no transition entry is appended, no
compile call is made, and the maps are as before, whatever the other fields of the
transition are. -/
theorem unconnected_transition_is_skipped (ps i : Nat) (origin : TransitionOrigin)
    (pTransitionNode : TransitionToolsNode) (endStateID : UUID) (maps : CompileLocals)
    (ctx : GraphCompilationContext) (h : pTransitionNode.GetConnectedInputNode 0 = none) :
    TryCompileTransition ps i origin pTransitionNode endStateID maps ctx =
      some (true, maps, ctx) := by
  unfold TryCompileTransition
  rw [h]

/-- C4 (as amended): when `Compile` returns an index other than `InvalidIndex`, a second
call on the same node in the resulting context returns the same index and leaves the
context as it is. -/
theorem compile_twice_same_index {sm : StateMachineToolsNode}
    {ctx ctx' : GraphCompilationContext} {r : Int}
    (h : sm.Compile ctx = some (r, ctx')) (hr : r ≠ InvalidIndex) :
    sm.Compile ctx' = some (r, ctx') := by
  have key : ∃ p, ctx'.m_nodeIDToIndexMap.lookup sm.GetID = some p ∧
      ctx'.nodeIdxAt p = some r := by
    rcases Compile_spec h with ⟨p, hp, hctx, hidx⟩ | ⟨_, _, hl, hidx, ok, hok, _, _⟩
    · subst hctx
      exact ⟨p, hp, hidx⟩
    · cases ok with
      | false => exact absurd (by simpa using hok) hr
      | true =>
        simp only [if_true] at hok
        exact ⟨_, hl, hok ▸ hidx⟩
  obtain ⟨p, hp, hidx⟩ := key
  unfold StateMachineToolsNode.Compile
  rw [GetSettings_found _ hp]
  simp [hidx]

/-- C7: when a child compile of `Compile` (a state body, an entry condition, a transition
node, a transition's condition tree) returns `InvalidIndex`, `Compile` returns
`InvalidIndex` and nothing at all follows the failed call in the journal; and when no
child compile returns `InvalidIndex`, `Compile` returns the index of the node's own
settings record. -/
theorem child_failure_aborts_compile {sm : StateMachineToolsNode}
    {ctx ctx' : GraphCompilationContext} {r : Int}
    (h : sm.Compile ctx = some (r, ctx')) :
    (∀ pre e post, journal ctx ctx' = pre ++ e :: post → e.isFailedChild = true →
      r = InvalidIndex ∧ post = []) ∧
    ((∀ e ∈ journal ctx ctx', e.isFailedChild = false) →
      ctx'.settingsIndexOf sm.GetID = some r) := by
  rcases Compile_spec h with ⟨p, hp, hctx, hidx⟩ | ⟨_, _, hl, hidx, ok, hok, s, _⟩
  · subst hctx
    refine ⟨fun pre e post hj _ => ?_, fun _ => ?_⟩
    · rw [journal_self] at hj
      exact absurd hj (by simp)
    · simp [GraphCompilationContext.settingsIndexOf, hp, hidx]
  · cases ok with
    | true =>
      simp only [if_true] at hok
      refine ⟨fun pre e post hj he => ?_, fun _ => ?_⟩
      · have := s.trace.1 rfl e (by rw [hj]; simp)
        rw [this] at he
        cases he
      · simp [GraphCompilationContext.settingsIndexOf, hl, hidx, hok]
    | false =>
      have hr : r = InvalidIndex := by simpa using hok
      obtain ⟨pre0, k, id, hj0, _, hd, hno⟩ := s.trace.2 rfl
      refine ⟨fun pre e post hj he => ⟨hr, ?_⟩, fun hall => ?_⟩
      · by_contra hpost
        have hmem : e ∈ pre0 := by
          have h1 : pre ++ e :: post = pre0 ++ [CompileEvent.call k id InvalidIndex] := by
            rw [← hj, hj0]
          obtain ⟨post', hp'⟩ : ∃ post', post = post' ++ [post.getLast hpost] :=
            ⟨post.dropLast, (List.dropLast_append_getLast hpost).symm⟩
          rw [hp', ← List.cons_append, ← List.append_assoc] at h1
          have h2 := List.append_inj_left' h1 rfl
          rw [← h2]
          simp
        rw [hno e hmem] at he
        cases he
      · have := hall (CompileEvent.call k id InvalidIndex) (by rw [hj0]; simp)
        simp [CompileEvent.isFailedChild, hd] at this

/-- C8 (as amended): on every return of `Compile` other than the abort caused by a
transition node or a transition's condition tree compiling to `InvalidIndex`, both
kinds of scope are as they were on entry. -/
theorem scopes_balanced_unless_aborted_in_conduit {sm : StateMachineToolsNode}
    {ctx ctx' : GraphCompilationContext} {r : Int}
    (h : sm.Compile ctx = some (r, ctx')) :
    ScopesKept ctx ctx' ∨ (r = InvalidIndex ∧ AbortedInConduit (journal ctx ctx')) := by
  rcases Compile_spec h with ⟨p, hp, hctx, hidx⟩ | ⟨_, _, hl, hidx, ok, hok, s, hsc⟩
  · subst hctx
    exact Or.inl ⟨rfl, rfl⟩
  · rcases hsc with hk | ha
    · exact Or.inl hk
    · refine Or.inr ⟨?_, ha⟩
      cases ok with
      | false => simpa using hok
      | true =>
        obtain ⟨pre, k, id, hj, hk⟩ := ha
        have := s.trace.1 rfl (CompileEvent.call k id InvalidIndex) (by rw [hj]; simp)
        have hd : k.isDirect = true := by
          cases k <;> simp_all [CallKind.inConduit, CallKind.isDirect]
        simp [CompileEvent.isFailedChild, hd] at this

/-- C9 (as amended): a first compile of a state machine whose graph has no state node
stops at the assertion `numStateNodes >= 1`; it does not return `InvalidIndex`. -/
theorem compile_without_states_asserts (sm : StateMachineToolsNode)
    (ctx : GraphCompilationContext) (hstates : sm.GetChildGraph.stateNodes = [])
    (hfresh : ctx.m_nodeIDToIndexMap.lookup sm.GetID = none) :
    sm.Compile ctx = none := by
  unfold StateMachineToolsNode.Compile
  rw [GetSettings_new _ hfresh]
  simp [hstates, EE_ASSERT]

theorem modify_append_last {α : Type} (f : α → α) (l : List α) (x : α) :
    (l ++ [x]).modify f l.length = l ++ [f x] := by
  induction l with
  | nil => rfl
  | cons a rest ih => simp [List.modify_succ_cons, ih]

/-- A write through the pointer to the record that was appended last. -/
theorem modifyState_last (ctx : GraphCompilationContext) (recs : List NodeSettings)
    (s : StateNode.Settings) (f : StateNode.Settings → StateNode.Settings)
    (h : ctx.m_nodeSettings = recs ++ [.state s]) :
    (ctx.modifyState recs.length f).m_nodeSettings = recs ++ [.state (f s)] ∧
    (ctx.modifyState recs.length f).m_log = ctx.m_log := by
  simp [GraphCompilationContext.modifyState, h, modify_append_last]

/-- C10: for a state that is not a blend tree state and is not compiled yet (which
`CompileState` asserts), `CompileState` succeeds: it returns the index of the fresh
settings record, which has `m_isOffState` set and `m_childNodeIdx` invalid, it makes no
compile call, and it allocates no other record. -/
theorem off_state_compiles_without_child (ctx : GraphCompilationContext)
    (pBaseStateNode : ToolsState) (hoff : pBaseStateNode.TryCastBlendTreeState = none)
    (hfresh : ctx.m_nodeIDToIndexMap.lookup pBaseStateNode.GetID = none) :
    ∃ ctx' s, CompileState ctx pBaseStateNode = some ((ctx.m_nodeSettings.length : Int), ctx') ∧
      (ctx.m_nodeSettings.length : Int) ≠ InvalidIndex ∧
      ctx'.stateAt ctx.m_nodeSettings.length = some s ∧
      s.m_isOffState = true ∧ s.m_childNodeIdx = InvalidIndex ∧
      journal ctx ctx' = [] ∧
      ctx'.m_nodeSettings.length = ctx.m_nodeSettings.length + 1 := by
  unfold CompileState
  rw [GetSettings_new _ hfresh]
  simp only [EE_ASSERT, decide_True, if_true, hoff]
  generalize hc : ({ ctx with
      m_nodeIDToIndexMap := ctx.m_nodeIDToIndexMap ++
        [(pBaseStateNode.GetID, ctx.m_nodeSettings.length)]
      m_nodeSettings := ctx.m_nodeSettings ++
        [NodeSettings.state { m_nodeIdx := (ctx.m_nodeSettings.length : Int) }] } :
      GraphCompilationContext) = c0
  have h0 : c0.m_nodeSettings = ctx.m_nodeSettings ++
      [NodeSettings.state { m_nodeIdx := (ctx.m_nodeSettings.length : Int) }] := by
    rw [← hc]
  have l0 : c0.m_log = ctx.m_log := by rw [← hc]
  obtain ⟨h1, l1⟩ := modifyState_last c0 _ _ (fun s =>
    { s with m_entryEvents := s.m_entryEvents ++ pBaseStateNode.m_entryEvents }) h0
  obtain ⟨h2, l2⟩ := modifyState_last _ _ _ (fun s =>
    { s with m_executeEvents := s.m_executeEvents ++ pBaseStateNode.m_executeEvents }) h1
  obtain ⟨h3, l3⟩ := modifyState_last _ _ _ (fun s =>
    { s with m_exitEvents := s.m_exitEvents ++ pBaseStateNode.m_exitEvents }) h2
  obtain ⟨h4, l4⟩ := modifyState_last _ _ _ (fun s =>
    { s with m_childNodeIdx := InvalidIndex }) h3
  obtain ⟨h5, l5⟩ := modifyState_last _ _ _ (fun s => { s with m_isOffState := true }) h4
  have hn := congrArg (fun l => (l[ctx.m_nodeSettings.length]?).map NodeSettings.m_nodeIdx) h5
  simp only [List.getElem?_concat_length, Option.map_some', NodeSettings.m_nodeIdx] at hn
  apply Exists.intro
  apply Exists.intro
  refine ⟨?_, ?_, ?_⟩
  · unfold GraphCompilationContext.nodeIdxAt
    rw [hn]
  · simp only [InvalidIndex, ne_eq]
    omega
  · refine ⟨?_, ?_, ?_, ?_, ?_⟩
    · unfold GraphCompilationContext.stateAt
      rw [h5, List.getElem?_concat_length]
    · rfl
    · rfl
    · exact journal_of_append (by rw [l5, l4, l3, l2, l1, l0]; simp)
    · rw [h5]; simp

theorem idleRunJump_compiles :
    idleRunJump.Compile {} = some (0, compiledContext idleRunJump) := by decide!

theorem idleRunJumpAllGlobals_compiles :
    idleRunJumpAllGlobals.Compile {} = some (0, compiledContext idleRunJumpAllGlobals) := by
  decide!

theorem failingCondition_compiles :
    failingCondition.Compile {} = some (InvalidIndex, compiledContext failingCondition) := by
  decide!

/-- C3, witness: a transition with an unconnected condition pin, connected override
pins and set options is skipped. -/
theorem unconditionalTransition_is_skipped :
    unconditionalTransition.GetConnectedInputNode 0 = none ∧
    TryCompileTransition 0 0 .global unconditionalTransition 12 {} {} = some (true, {}, {}) :=
  ⟨rfl, unconnected_transition_is_skipped 0 0 .global unconditionalTransition 12 {} {} rfl⟩

/-- C4, counterexample: the first compile of a state machine whose state body fails
returns `InvalidIndex`; the second compile in the resulting context returns index 0. -/
theorem second_compile_after_failure_differs :
    failingBody.Compile {} = some (InvalidIndex, compiledContext failingBody) ∧
    failingBody.Compile (compiledContext failingBody) =
      some (0, compiledContext failingBody) ∧
    (0 : Int) ≠ InvalidIndex := by
  decide!

/-- C4, witness: the second compile of the scenario returns index 0 again. -/
theorem idleRunJump_compiles_twice :
    idleRunJump.Compile (compiledContext idleRunJump) =
      some (0, compiledContext idleRunJump) :=
  compile_twice_same_index idleRunJump_compiles (by decide)

/-- C6: the scenario compiles to index 0, and the settings of Run (position 1) hold
exactly one transition entry: to Jump (state index 2), through the compiled global
transition node 30 on the compiled condition node 101. -/
theorem idle_run_jump_scenario :
    idleRunJump.Compile {} = some (0, compiledContext idleRunJump) ∧
    (0 : Int) ≠ InvalidIndex ∧
    ((compiledContext idleRunJump).stateMachineAt 0).map
      (fun s => s.m_stateSettings[1]?.map fun st => st.m_transitionSettings) =
      some (some
        [{ m_targetStateIdx := 2, m_transitionNodeIdx := 9, m_conditionNodeIdx := 10 }]) ∧
    (compiledContext idleRunJump).settingsIndexOf 30 = some 9 ∧
    (compiledContext idleRunJump).settingsIndexOf 101 = some 10 := by
  decide!

/-- C7, witness: in the journal of the compile of the graph whose transition condition
fails, which returns `InvalidIndex`, nothing follows a failed call; and the compile of
the scenario returns the index of its settings record when no call failed. -/
theorem failed_condition_is_last_in_journal :
    (∀ pre e post,
      journal {} (compiledContext failingCondition) = pre ++ e :: post →
      e.isFailedChild = true → InvalidIndex = InvalidIndex ∧ post = []) ∧
    ((∀ e ∈ journal {} (compiledContext idleRunJump), e.isFailedChild = false) →
      (compiledContext idleRunJump).settingsIndexOf idleRunJump.GetID = some 0) :=
  ⟨(child_failure_aborts_compile failingCondition_compiles).1,
    (child_failure_aborts_compile idleRunJump_compiles).2⟩

/-- C8, counterexample: the compile of the graph whose transition condition fails starts
with no open scope and returns with one open conduit scope and one open
transition-conditions scope. -/
theorem scopes_left_open_after_failed_condition :
    failingCondition.Compile {} = some (InvalidIndex, compiledContext failingCondition) ∧
    ({} : GraphCompilationContext).m_conduitScopes.length = 0 ∧
    ({} : GraphCompilationContext).m_transitionConditionsScopes.length = 0 ∧
    (compiledContext failingCondition).m_conduitScopes.length = 1 ∧
    (compiledContext failingCondition).m_transitionConditionsScopes.length = 1 := by
  decide!

/-- C8, witness: the compile of the scenario leaves the scopes as they were, or was
aborted inside a conduit. -/
theorem idleRunJump_scopes_balanced :
    ScopesKept {} (compiledContext idleRunJump) ∨
      ((0 : Int) = InvalidIndex ∧ AbortedInConduit (journal {} (compiledContext idleRunJump))) :=
  scopes_balanced_unless_aborted_in_conduit idleRunJump_compiles

/-- C9, counterexample: the first compile of a state machine without states does not
return `InvalidIndex`: it stops at the assertion. -/
theorem compile_without_states_does_not_return :
    noStates.GetChildGraph.stateNodes.length = 0 ∧
    noStates.Compile {} = none ∧
    ¬ ∃ ctx', noStates.Compile {} = some (InvalidIndex, ctx') := by
  refine ⟨by decide!, by decide!, ?_⟩
  rintro ⟨ctx', h⟩
  have hn : noStates.Compile {} = none := by decide!
  rw [hn] at h
  cases h

/-- C9, witness: the same in the context the scenario was compiled in. -/
theorem noStates_asserts_after_scenario :
    noStates.Compile (compiledContext idleRunJump) = none :=
  compile_without_states_asserts noStates (compiledContext idleRunJump) rfl (by decide!)

/-- C10, witness: the off state 10 compiles in the empty context to record 0. -/
theorem offState_compiles_in_empty_context :
    ∃ ctx' s, CompileState {} (offState 10) = some ((0 : Int), ctx') ∧
      (0 : Int) ≠ InvalidIndex ∧
      ctx'.stateAt 0 = some s ∧
      s.m_isOffState = true ∧ s.m_childNodeIdx = InvalidIndex ∧
      journal {} ctx' = [] ∧
      ctx'.m_nodeSettings.length = 0 + 1 :=
  off_state_compiles_without_child {} (offState 10) rfl rfl

theorem settingsIndexOf_mono {P : Nat → Prop} {a b : GraphCompilationContext}
    (h : Evolves P a b) {id : UUID} {r : Int} (hr : a.settingsIndexOf id = some r) :
    b.settingsIndexOf id = some r := by
  unfold GraphCompilationContext.settingsIndexOf at hr ⊢
  cases hl : a.m_nodeIDToIndexMap.lookup id with
  | none => simp [hl] at hr
  | some p =>
    simp only [hl] at hr
    simp only [h.map id p hl]
    exact h.nodeIdxAt hr

theorem settingsIndexOf_of_lookup {c : GraphCompilationContext} {id : UUID} {p : Nat} {r : Int}
    (hl : c.m_nodeIDToIndexMap.lookup id = some p) (hn : c.nodeIdxAt p = some r) :
    c.settingsIndexOf id = some r := by
  simp [GraphCompilationContext.settingsIndexOf, hl, hn]

theorem indexOf_of_settingsIndexOf {c : GraphCompilationContext} {id : UUID} {r : Int}
    (h : c.settingsIndexOf id = some r) : c.indexOf id = r := by
  simp [GraphCompilationContext.indexOf, h]

theorem stateMachineAt_lt {a : GraphCompilationContext} {ps : Nat}
    {s : StateMachineNode.Settings} (hs : a.stateMachineAt ps = some s) :
    ps < a.m_nodeSettings.length ∧ a.m_nodeSettings[ps]? = some (.stateMachine s) := by
  unfold GraphCompilationContext.stateMachineAt at hs
  split at hs
  · rename_i s' heq
    cases hs
    exact ⟨(List.getElem?_eq_some.mp heq).1, heq⟩
  · cases hs

/-- A call that leaves the record at `ps` alone leaves the state machine settings read
through `ps` as they are. -/
theorem stateMachineAt_frame {P : Nat → Prop} {a b : GraphCompilationContext}
    (h : Evolves P a b) {ps : Nat} {s : StateMachineNode.Settings}
    (hs : a.stateMachineAt ps = some s) (hP : ¬ P ps) : b.stateMachineAt ps = some s := by
  obtain ⟨hlt, hget⟩ := stateMachineAt_lt hs
  unfold GraphCompilationContext.stateMachineAt
  rw [h.frame ps hlt hP, hget]

/-- A write through the pointer to the state machine settings. -/
theorem stateMachineAt_modify {a : GraphCompilationContext} {ps : Nat}
    {s : StateMachineNode.Settings} (hs : a.stateMachineAt ps = some s)
    (f : StateMachineNode.Settings → StateMachineNode.Settings) :
    (a.modifyStateMachine ps f).stateMachineAt ps = some (f s) := by
  obtain ⟨_, hget⟩ := stateMachineAt_lt hs
  unfold GraphCompilationContext.stateMachineAt GraphCompilationContext.modifyStateMachine
  simp only [getElem?_modify_same, hget, Option.map_some']

theorem FlowToolsNode.Compile_registers {n : FlowToolsNode} {ctx ctx' : GraphCompilationContext}
    {r : Int} (h : n.Compile ctx = some (r, ctx')) (hr : r ≠ InvalidIndex) :
    ctx'.settingsIndexOf n.GetID = some r := by
  unfold FlowToolsNode.Compile at h
  rcases GetSettings_spec ctx n.GetID NodeSettings.flow (fun _ => rfl) with
    ⟨p, hp, hg⟩ | ⟨c, _, hg, hl, _, _, _⟩
  · rw [hg] at h
    simp only [] at h
    split at h
    · cases h; exact absurd rfl hr
    · split at h
      · cases h
      · rename_i idx hn
        cases h
        exact settingsIndexOf_of_lookup hp hn
  · rw [hg] at h
    simp only [] at h
    split at h
    · cases h; exact absurd rfl hr
    · split at h
      · cases h
      · rename_i idx hn
        cases h
        exact settingsIndexOf_of_lookup hl hn

/-- A state body that compiles gets the index of a fresh record, which is registered
for the state, and the records the context held are untouched. -/
theorem CompileState_registers {ctx ctx' : GraphCompilationContext} {pBaseStateNode : ToolsState}
    {r : Int} (h : CompileState ctx pBaseStateNode = some (r, ctx')) (hr : r ≠ InvalidIndex) :
    r = (ctx.m_nodeSettings.length : Int) ∧
    ctx'.settingsIndexOf pBaseStateNode.GetID = some r := by
  have hE := (CompileState_spec h).2
  unfold CompileState at h
  rcases GetSettings_spec ctx pBaseStateNode.GetID (fun i => .state { m_nodeIdx := i })
    (fun _ => rfl) with ⟨p, _, hg⟩ | ⟨c, hnone, hg, hl, _, hidx, he⟩
  · rw [hg] at h
    simp [EE_ASSERT] at h
  · rw [hg] at h
    have key : ∀ {b : GraphCompilationContext},
        Effect (fun q => q = ctx.m_nodeSettings.length) (fun e => e.isNested = true) c b →
        b.m_nodeIDToIndexMap.lookup pBaseStateNode.GetID = some ctx.m_nodeSettings.length ∧
        b.nodeIdxAt ctx.m_nodeSettings.length = some (ctx.m_nodeSettings.length : Int) :=
      fun e => ⟨e.evolves.map _ _ hl, e.evolves.nodeIdxAt hidx⟩
    generalize ctx.m_nodeSettings.length = p at h key
    clear hg he hnone hl hidx hE
    have m : ∀ (a : GraphCompilationContext) (f : StateNode.Settings → StateNode.Settings),
        (∀ s, (f s).m_nodeIdx = s.m_nodeIdx) →
        Effect (fun q => q = p) (fun e => e.isNested = true) a (a.modifyState p f) :=
      fun a f hf => Effect.modifyState _ a p f hf
    have m0 : ∀ (f : Int → StateNode.Settings → StateNode.Settings),
        (∀ i s, (f i s).m_nodeIdx = s.m_nodeIdx) → ∀ (idx : Int) (a : GraphCompilationContext),
        Effect (fun q => q = p) (fun _ => False) a (a.modifyState p (f idx)) :=
      fun f hf idx a => Effect.modifyState _ a p (f idx) (hf idx)
    simp only [EE_ASSERT] at h
    simp only [decide_True, if_true] at h
    have e3 : ∀ f1 f2 f3 : StateNode.Settings → StateNode.Settings,
        (∀ s, (f1 s).m_nodeIdx = s.m_nodeIdx) → (∀ s, (f2 s).m_nodeIdx = s.m_nodeIdx) →
        (∀ s, (f3 s).m_nodeIdx = s.m_nodeIdx) →
        Effect (fun q => q = p) (fun e => e.isNested = true) c
          (((c.modifyState p f1).modifyState p f2).modifyState p f3) :=
      fun f1 f2 f3 h1 h2 h3 => ((m c f1 h1).step (m _ f2 h2)).step (m _ f3 h3)
    have fin : ∀ {b : GraphCompilationContext} {idx : Int},
        Effect (fun q => q = p) (fun e => e.isNested = true) c b →
        b.nodeIdxAt p = some idx →
        idx = (p : Int) ∧ b.settingsIndexOf pBaseStateNode.GetID = some idx := by
      intro b idx e hn
      have hk := key e
      have : idx = (p : Int) := by
        have := hk.2.symm.trans hn
        simpa using this.symm
      exact ⟨this, settingsIndexOf_of_lookup hk.1 hn⟩
    split at h
    · split at h
      · cases h
      · split at h
        · cases h
        · cases h; exact absurd rfl hr
        · rename_i h1
          have e4 := (e3 _ _ _ (by intro _; rfl) (by intro _; rfl) (by intro _; rfl)).step
            (compileConnectedInput_nested .blendTree (by intros; rfl)
              (m0 (fun idx s => { s with m_childNodeIdx := idx }) (fun _ _ => rfl)) h1)
          split at h
          · cases h
          · split at h
            · cases h
            · cases h; exact absurd rfl hr
            · rename_i h2
              have e5 := e4.step (compileConnectedInput_nested .layerWeight (by intros; rfl)
                (m0 (fun idx s => { s with m_layerWeightNodeIdx := idx }) (fun _ _ => rfl)) h2)
              split at h
              · cases h
              · cases h; exact absurd rfl hr
              · rename_i h3
                have e6 := e5.step (compileConnectedInput_nested .layerBoneMask (by intros; rfl)
                  (m0 (fun idx s => { s with m_layerBoneMaskNodeIdx := idx }) (fun _ _ => rfl))
                  h3)
                split at h
                · cases h
                · rename_i idx hn
                  cases h
                  exact fin ((e6.step (m _ _ (by intro _; rfl))).step (m _ _ (by intro _; rfl)))
                    hn
    · split at h
      · cases h
      · rename_i idx hn
        cases h
        exact fin (((e3 _ _ _ (by intro _; rfl) (by intro _; rfl) (by intro _; rfl)).step
          (m _ _ (by intro _; rfl))).step (m _ _ (by intro _; rfl))) hn

/-- A transition node that compiles has its index registered in the context. -/
theorem CompileTransition_registers {ctx ctx' : GraphCompilationContext}
    {pTransitionNode : TransitionToolsNode} {targetStateNodeIdx r : Int}
    (h : CompileTransition ctx pTransitionNode targetStateNodeIdx = some (r, ctx'))
    (hr : r ≠ InvalidIndex) : ctx'.settingsIndexOf pTransitionNode.GetID = some r := by
  unfold CompileTransition at h
  rcases GetSettings_spec ctx pTransitionNode.GetID (fun i => .transition { m_nodeIdx := i })
    (fun _ => rfl) with ⟨p, hp, hg⟩ | ⟨c, hnone, hg, hl, _, hidx, he⟩
  · rw [hg] at h
    simp only [if_true] at h
    split at h
    · cases h
    · rename_i idx hn
      cases h
      exact settingsIndexOf_of_lookup hp hn
  · rw [hg] at h
    have key : ∀ {b : GraphCompilationContext} {idx : Int},
        Effect (fun q => q = ctx.m_nodeSettings.length) (fun e => e.isNested = true) c b →
        b.nodeIdxAt ctx.m_nodeSettings.length = some idx →
        b.settingsIndexOf pTransitionNode.GetID = some idx :=
      fun e hn => settingsIndexOf_of_lookup (e.evolves.map _ _ hl) hn
    generalize ctx.m_nodeSettings.length = p at h key
    clear hg he hnone hl hidx
    have m : ∀ (a : GraphCompilationContext)
        (f : TransitionNode.Settings → TransitionNode.Settings),
        (∀ s, (f s).m_nodeIdx = s.m_nodeIdx) →
        Effect (fun q => q = p) (fun e => e.isNested = true) a (a.modifyTransition p f) :=
      fun a f hf => Effect.modifyTransition _ a p f hf
    have m0 : ∀ (f : Int → TransitionNode.Settings → TransitionNode.Settings),
        (∀ i s, (f i s).m_nodeIdx = s.m_nodeIdx) → ∀ (idx : Int) (a : GraphCompilationContext),
        Effect (fun q => q = p) (fun _ => False) a (a.modifyTransition p (f idx)) :=
      fun f hf idx a => Effect.modifyTransition _ a p (f idx) (hf idx)
    simp only [reduceCtorEq, if_false] at h
    split at h
    · cases h
    · cases h; exact absurd rfl hr
    · rename_i h1
      have e1 := compileConnectedInput_nested .durationOverride (by intros; rfl)
        (m0 (fun idx s => { s with m_durationOverrideNodeIdx := idx }) (fun _ _ => rfl)) h1
      split at h
      · cases h
      · cases h; exact absurd rfl hr
      · rename_i h2
        have e2 := e1.step (compileConnectedInput_nested .syncEventOffsetOverride
          (by intros; rfl)
          (m0 (fun idx s => { s with m_syncEventOffsetOverrideNodeIdx := idx })
            (fun _ _ => rfl)) h2)
        split at h
        · cases h
        · rename_i idx hn
          cases h
          exact key ((((((e2.step (m _ _ (by intro _; rfl))).step (m _ _ (by intro _; rfl))).step
            (m _ _ (by intro _; rfl))).step (m _ _ (by intro _; rfl))).step
            (m _ _ (by intro _; rfl))).step (m _ _ (by intro _; rfl))) hn

theorem writeState_writeState (i : Nat)
    (f g : StateMachineNode.StateSettings → StateMachineNode.StateSettings)
    (s : StateMachineNode.Settings) :
    writeState i g (writeState i f s) = writeState i (g ∘ f) s := by
  simp [writeState, List.modify_modify_eq]

/-- A write through the reference to the transition entry appended last. -/
theorem writeLastTransition_append (i : Nat)
    (g : StateMachineNode.TransitionSettings → StateMachineNode.TransitionSettings)
    (x : StateMachineNode.TransitionSettings) (s : StateMachineNode.Settings) :
    writeLastTransition i g
      (writeState i (fun st => { st with m_transitionSettings := st.m_transitionSettings ++ [x] })
        s) =
    writeState i (fun st => { st with m_transitionSettings := st.m_transitionSettings ++ [g x] })
      s := by
  unfold writeLastTransition
  rw [writeState_writeState]
  congr 1
  funext st
  simp [List.modifyLast_append_one]

theorem writeState_append_nil (i : Nat) (s : StateMachineNode.Settings) :
    writeState i (fun st => { st with m_transitionSettings := st.m_transitionSettings ++ [] })
      s = s := by
  have : (fun st : StateMachineNode.StateSettings =>
      ({ st with m_transitionSettings := st.m_transitionSettings ++ [] } :
        StateMachineNode.StateSettings)) = id := by
    funext st; simp
  simp only [writeState, this]
  have h2 : s.m_stateSettings.modify id i = s.m_stateSettings := by
    apply List.ext_getElem?
    intro n
    rw [List.getElem?_modify]
    cases s.m_stateSettings[n]? <;> simp
  rw [h2]

theorem writeState_append_append (i : Nat) (xs ys : List StateMachineNode.TransitionSettings)
    (s : StateMachineNode.Settings) :
    writeState i (fun st => { st with m_transitionSettings := st.m_transitionSettings ++ ys })
      (writeState i
        (fun st => { st with m_transitionSettings := st.m_transitionSettings ++ xs }) s) =
    writeState i
      (fun st => { st with m_transitionSettings := st.m_transitionSettings ++ (xs ++ ys) })
      s := by
  rw [writeState_writeState]
  congr 1
  funext st
  simp [List.append_assoc]

theorem THashMap.index_fst {V : Type} (m : THashMap V) (k : UUID) (zero : V) :
    (m.index k zero).1 = (m.find k).getD zero := by
  unfold THashMap.index
  cases h : m.find k <;> simp

theorem THashMap.find_index {V : Type} (m : THashMap V) (k k' : UUID) (zero : V) :
    ((m.index k zero).2.find k').getD zero = (m.find k').getD zero := by
  unfold THashMap.index
  cases h : m.find k with
  | some v => simp
  | none =>
    simp only [THashMap.find] at h ⊢
    by_cases hk : k' = k
    · subst hk
      simp [List.lookup_append, h, List.lookup]
    · have : (k' == k) = false := by simpa using hk
      cases h2 : List.lookup k' m <;> simp [List.lookup_append, h2, List.lookup, this]

theorem stateMachineAt_record_modify {a : GraphCompilationContext} {ps : Nat}
    {s : StateMachineNode.Settings} (hs : a.stateMachineAt ps = some s) (e : CompileEvent)
    (f : StateMachineNode.Settings → StateMachineNode.Settings) :
    ((a.record e).modifyStateMachine ps f).stateMachineAt ps = some (f s) :=
  stateMachineAt_modify (show (a.record e).stateMachineAt ps = some s from hs) f

theorem settingsIndexOf_record_modify {a : GraphCompilationContext} (ps : Nat) {id : UUID}
    {r : Int} (hr : a.settingsIndexOf id = some r) (e : CompileEvent)
    (f : StateMachineNode.Settings → StateMachineNode.Settings)
    (hf : ∀ s, (f s).m_nodeIdx = s.m_nodeIdx) :
    ((a.record e).modifyStateMachine ps f).settingsIndexOf id = some r :=
  settingsIndexOf_mono (Effect.modifyStateMachine (fun _ => False) (a.record e) ps f hf).evolves
    (show (a.record e).settingsIndexOf id = some r from hr)

theorem IsEntryOf.evolved {P : Nat → Prop} {a b : GraphCompilationContext} (h : Evolves P a b)
    {idx : UUID → Int} {t : EmittedTransition} {entry : StateMachineNode.TransitionSettings}
    (he : IsEntryOf a idx t entry) : IsEntryOf b idx t entry :=
  ⟨he.1, settingsIndexOf_mono h he.2.1, settingsIndexOf_mono h he.2.2⟩

theorem IsEntryOf.forall₂_mono {P : Nat → Prop} {a b : GraphCompilationContext}
    (h : Evolves P a b) {idx : UUID → Int} {ts : List EmittedTransition}
    {entries : List StateMachineNode.TransitionSettings}
    (he : List.Forall₂ (IsEntryOf a idx) ts entries) :
    List.Forall₂ (IsEntryOf b idx) ts entries :=
  he.imp (fun _ _ hx => hx.evolved h)

/-- What an offer of a transition to `TryCompileTransition` that returns true writes to
the state machine record: the entry of the transition, if it is emitted, appended to
the transition list of state `i`. -/
theorem TryCompileTransition_record {ps i : Nat} {origin : TransitionOrigin}
    {pTransitionNode : TransitionToolsNode} {endStateID : UUID} {maps maps' : CompileLocals}
    {ctx ctx' : GraphCompilationContext} {s : StateMachineNode.Settings} (idx : UUID → Int)
    (h : TryCompileTransition ps i origin pTransitionNode endStateID maps ctx =
      some (true, maps', ctx'))
    (hs : ctx.stateMachineAt ps = some s)
    (hidx : ∀ k, (maps.IDToStateIdxMap.find k).getD 0 = idx k) :
    (∃ entries, List.Forall₂ (IsEntryOf ctx' idx) (emittedTransition pTransitionNode endStateID)
        entries ∧
      ctx'.stateMachineAt ps = some (writeState i
        (fun st => { st with m_transitionSettings := st.m_transitionSettings ++ entries }) s)) ∧
    (∀ k, (maps'.IDToStateIdxMap.find k).getD 0 = idx k) ∧
    (∀ k v, maps.IDToCompiledNodeIdxMap.find k = some v →
      maps'.IDToCompiledNodeIdxMap.find k = some v) := by
  unfold TryCompileTransition at h
  unfold emittedTransition
  split at h
  · rename_i hnone
    cases h
    rw [hnone]
    exact ⟨⟨[], List.Forall₂.nil, by rw [writeState_append_nil]; exact hs⟩, hidx,
      fun _ _ hv => hv⟩
  · rename_i pConditionNode hcond
    rw [hcond]
    simp only []
    split at h
    · cases h
    · split at h
      rename_i targetStateIdx stateIdxMap hI1
      split at h
      rename_i targetStateNodeIdx compiledNodeIdxMap hI2
      simp only [] at h
      split at h
      · cases h
      · rename_i transitionNodeIdx c2 hCT
        split at h
        · cases h
        · rename_i hvalid
          have hT : targetStateIdx = idx endStateID := by
            have := THashMap.index_fst maps.IDToStateIdxMap endStateID 0
            rw [hI1] at this
            rw [← hidx]; exact this
          have hM : ∀ k, (stateIdxMap.find k).getD 0 = idx k := by
            intro k
            have := THashMap.find_index maps.IDToStateIdxMap endStateID k 0
            rw [hI1] at this
            rw [← hidx]; exact this
          have hM2 : ∀ k v, maps.IDToCompiledNodeIdxMap.find k = some v →
              compiledNodeIdxMap.find k = some v := by
            intro k v hv
            have : compiledNodeIdxMap = (maps.IDToCompiledNodeIdxMap.index endStateID 0).2 := by
              rw [hI2]
            rw [this]
            unfold THashMap.index
            cases hf : maps.IDToCompiledNodeIdxMap.find endStateID with
            | some w => exact hv
            | none =>
              simp only [THashMap.find] at hv ⊢
              simp [List.lookup_append, hv]
          have h3 := stateMachineAt_record_modify
            (stateMachineAt_modify hs (writeState i fun st =>
              { st with m_transitionSettings := st.m_transitionSettings ++ [{}] }))
            (.emit i origin pTransitionNode.GetID endStateID)
            (writeLastTransition i fun t => { t with m_targetStateIdx := targetStateIdx })
          rw [writeLastTransition_append] at h3
          have h4 := stateMachineAt_frame (CompileTransition_spec hCT).evolves h3 (fun hf => hf)
          have r4 := CompileTransition_registers hCT hvalid
          have h5 := stateMachineAt_record_modify h4
            (.call .transitionNode pTransitionNode.GetID transitionNodeIdx)
            (writeLastTransition i fun t => { t with m_transitionNodeIdx := transitionNodeIdx })
          rw [writeLastTransition_append] at h5
          have r5 := settingsIndexOf_record_modify ps r4
            (.call .transitionNode pTransitionNode.GetID transitionNodeIdx)
            (writeLastTransition i fun t => { t with m_transitionNodeIdx := transitionNodeIdx })
            (by intro _; rfl)
          rcases GetSettings_spec ((c2.record (.call .transitionNode pTransitionNode.GetID
              transitionNodeIdx)).modifyStateMachine ps (writeLastTransition i fun t =>
              { t with m_transitionNodeIdx := transitionNodeIdx })) pTransitionNode.GetID
            (fun idx => .transition { m_nodeIdx := idx }) (fun _ => rfl) with
            ⟨p, _, hg⟩ | ⟨c, _, hg, _⟩
          · simp only [hg, EE_ASSERT, decide_True, if_true] at h
            split at h
            · cases h
            · rename_i compiled _
              split at h
              · cases h
              · rename_i conditionNodeIdx c5 hC
                split at h
                · cases h
                · rename_i hvalid2
                  simp only [Option.some.injEq, Prod.mk.injEq, true_and] at h
                  obtain ⟨hmaps, hctx⟩ := h
                  subst hmaps
                  subst hctx
                  have eC := (FlowToolsNode.Compile_effect hC).evolves
                  have h6 := stateMachineAt_frame eC
                    (show (GraphCompilationContext.BeginTransitionConditionsCompilation _
                      compiled.m_duration compiled.m_durationOverrideNodeIdx).stateMachineAt ps
                      = _ from h5) (fun hf => hf)
                  have r6 := settingsIndexOf_mono eC
                    (show (GraphCompilationContext.BeginTransitionConditionsCompilation _
                      compiled.m_duration compiled.m_durationOverrideNodeIdx).settingsIndexOf
                      pTransitionNode.GetID = _ from r5)
                  have rC := FlowToolsNode.Compile_registers hC hvalid2
                  have h7 := stateMachineAt_record_modify h6
                    (.call .transitionCondition pConditionNode.GetID conditionNodeIdx)
                    (writeLastTransition i fun t =>
                      { t with m_conditionNodeIdx := conditionNodeIdx })
                  rw [writeLastTransition_append] at h7
                  have r7 := settingsIndexOf_record_modify ps r6
                    (.call .transitionCondition pConditionNode.GetID conditionNodeIdx)
                    (writeLastTransition i fun t =>
                      { t with m_conditionNodeIdx := conditionNodeIdx })
                    (by intro _; rfl)
                  have rC7 := settingsIndexOf_record_modify ps rC
                    (.call .transitionCondition pConditionNode.GetID conditionNodeIdx)
                    (writeLastTransition i fun t =>
                      { t with m_conditionNodeIdx := conditionNodeIdx })
                    (by intro _; rfl)
                  exact ⟨⟨[⟨targetStateIdx, conditionNodeIdx, transitionNodeIdx⟩],
                    List.Forall₂.cons ⟨hT, r7, rC7⟩ List.Forall₂.nil, h7⟩, hM, hM2⟩
          · simp [hg, EE_ASSERT] at h

theorem compileConduitTransitions_record {ps i c : Nat} {endStateID : UUID} (idx : UUID → Int)
    (ts : List TransitionToolsNode) :
    ∀ {maps maps' : CompileLocals} {ctx ctx' : GraphCompilationContext}
      {s : StateMachineNode.Settings},
    compileConduitTransitions ps i c endStateID ts maps ctx = some (true, maps', ctx') →
    ctx.stateMachineAt ps = some s →
    (∀ k, (maps.IDToStateIdxMap.find k).getD 0 = idx k) →
    (∃ entries, List.Forall₂ (IsEntryOf ctx' idx) (emittedConduitTransitions endStateID ts)
        entries ∧
      ctx'.stateMachineAt ps = some (writeState i
        (fun st => { st with m_transitionSettings := st.m_transitionSettings ++ entries }) s)) ∧
    (∀ k, (maps'.IDToStateIdxMap.find k).getD 0 = idx k) ∧
    (∀ k v, maps.IDToCompiledNodeIdxMap.find k = some v →
      maps'.IDToCompiledNodeIdxMap.find k = some v) := by
  induction ts with
  | nil =>
    intro maps maps' ctx ctx' s h hs hidx
    simp only [compileConduitTransitions, Option.some.injEq, Prod.mk.injEq, true_and] at h
    obtain ⟨rfl, rfl⟩ := h
    exact ⟨⟨[], List.Forall₂.nil, by rw [writeState_append_nil]; exact hs⟩, hidx,
      fun _ _ hv => hv⟩
  | cons t rest ih =>
    intro maps maps' ctx ctx' s h hs hidx
    simp only [compileConduitTransitions] at h
    split at h
    · cases h
    · cases h
    · rename_i maps1 ctx1 hT
      obtain ⟨⟨e1, hf1, hs1⟩, hidx1, hc1⟩ := TryCompileTransition_record idx hT hs hidx
      obtain ⟨⟨e2, hf2, hs2⟩, hidx2, hc2⟩ := ih h hs1 hidx1
      refine ⟨⟨e1 ++ e2, ?_, ?_⟩, hidx2, fun k v hv => hc2 k v (hc1 k v hv)⟩
      · exact List.rel_append
          (IsEntryOf.forall₂_mono (compileConduitTransitions_spec rest h).evolves hf1) hf2
      · rw [hs2, writeState_append_append]

theorem compileConduits_record {ps i : Nat} {pStartStateNode : ToolsState} (idx : UUID → Int)
    (conduits : List TransitionConduitToolsNode) :
    ∀ {c : Nat} {copy copy' : List GlobalTransitionToolsNode} {maps maps' : CompileLocals}
      {ctx ctx' : GraphCompilationContext} {s : StateMachineNode.Settings},
    compileConduits ps i pStartStateNode conduits c copy maps ctx =
      some (true, copy', maps', ctx') →
    ctx.stateMachineAt ps = some s →
    (∀ k, (maps.IDToStateIdxMap.find k).getD 0 = idx k) →
    (∃ entries, List.Forall₂ (IsEntryOf ctx' idx) (emittedConduits pStartStateNode conduits)
        entries ∧
      ctx'.stateMachineAt ps = some (writeState i
        (fun st => { st with m_transitionSettings := st.m_transitionSettings ++ entries }) s)) ∧
    (∀ k, (maps'.IDToStateIdxMap.find k).getD 0 = idx k) ∧
    (∀ k v, maps.IDToCompiledNodeIdxMap.find k = some v →
      maps'.IDToCompiledNodeIdxMap.find k = some v) := by
  induction conduits with
  | nil =>
    intro c copy copy' maps maps' ctx ctx' s h hs hidx
    simp only [compileConduits, Option.some.injEq, Prod.mk.injEq, true_and] at h
    obtain ⟨-, rfl, rfl⟩ := h
    exact ⟨⟨[], List.Forall₂.nil, by rw [writeState_append_nil]; exact hs⟩, hidx,
      fun _ _ hv => hv⟩
  | cons pConduit rest ih =>
    intro c copy copy' maps maps' ctx ctx' s h hs hidx
    simp only [compileConduits] at h
    simp only [emittedConduits]
    split at h
    · rename_i hne
      rw [if_pos hne, List.nil_append]
      exact ih h hs hidx
    · rename_i heq
      rw [if_neg heq]
      split at h
      · cases h
      · split at h
        · cases h
        · cases h
        · rename_i maps1 ctx1 hT
          obtain ⟨⟨e1, hf1, hs1⟩, hidx1, hc1⟩ := compileConduitTransitions_record idx _ hT
            (show (GraphCompilationContext.BeginConduitCompilation ctx _).stateMachineAt ps = some s
              from hs) hidx
          obtain ⟨⟨e2, hf2, hs2⟩, hidx2, hc2⟩ := ih h
            (show ctx1.EndConduitCompilation.stateMachineAt ps = _ from hs1) hidx1
          refine ⟨⟨e1 ++ e2, ?_, ?_⟩, hidx2, fun k v hv => hc2 k v (hc1 k v hv)⟩
          · exact List.rel_append
              (IsEntryOf.forall₂_mono (compileConduits_spec rest h).1.evolves
                (hf1.imp (fun _ _ hx => (⟨hx.1, hx.2.1, hx.2.2⟩ :
                  IsEntryOf ctx1.EndConduitCompilation idx _ _)))) hf2
          · rw [hs2, writeState_append_append]

theorem compileGlobalTransitions_record {ps i : Nat} {pStartStateNode : ToolsState}
    (idx : UUID → Int) (copy : List GlobalTransitionToolsNode) :
    ∀ {maps maps' : CompileLocals} {ctx ctx' : GraphCompilationContext}
      {s : StateMachineNode.Settings},
    compileGlobalTransitions ps i pStartStateNode copy maps ctx = some (true, maps', ctx') →
    ctx.stateMachineAt ps = some s →
    (∀ k, (maps.IDToStateIdxMap.find k).getD 0 = idx k) →
    (∃ entries, List.Forall₂ (IsEntryOf ctx' idx) (emittedGlobals copy) entries ∧
      ctx'.stateMachineAt ps = some (writeState i
        (fun st => { st with m_transitionSettings := st.m_transitionSettings ++ entries }) s)) ∧
    (∀ k, (maps'.IDToStateIdxMap.find k).getD 0 = idx k) ∧
    (∀ k v, maps.IDToCompiledNodeIdxMap.find k = some v →
      maps'.IDToCompiledNodeIdxMap.find k = some v) := by
  induction copy with
  | nil =>
    intro maps maps' ctx ctx' s h hs hidx
    simp only [compileGlobalTransitions, Option.some.injEq, Prod.mk.injEq, true_and] at h
    obtain ⟨rfl, rfl⟩ := h
    exact ⟨⟨[], List.Forall₂.nil, by rw [writeState_append_nil]; exact hs⟩, hidx,
      fun _ _ hv => hv⟩
  | cons g rest ih =>
    intro maps maps' ctx ctx' s h hs hidx
    simp only [compileGlobalTransitions] at h
    simp only [emittedGlobals]
    split at h
    · cases h
    · split at h
      · cases h
      · cases h
      · rename_i maps1 ctx1 hT
        obtain ⟨⟨e1, hf1, hs1⟩, hidx1, hc1⟩ := TryCompileTransition_record idx hT
          (show (GraphCompilationContext.BeginConduitCompilation ctx _).stateMachineAt ps = some s
              from hs) hidx
        obtain ⟨⟨e2, hf2, hs2⟩, hidx2, hc2⟩ := ih h
          (show ctx1.EndConduitCompilation.stateMachineAt ps = _ from hs1) hidx1
        refine ⟨⟨e1 ++ e2, ?_, ?_⟩, hidx2, fun k v hv => hc2 k v (hc1 k v hv)⟩
        · exact List.rel_append
            (IsEntryOf.forall₂_mono (compileGlobalTransitions_spec rest h).evolves
              (hf1.imp (fun _ _ hx => (⟨hx.1, hx.2.1, hx.2.2⟩ :
                IsEntryOf ctx1.EndConduitCompilation idx _ _)))) hf2
        · rw [hs2, writeState_append_append]

/-- What the second loop of `Compile` writes to the state machine record when it
completes: for every state, in order, the entries of the transitions emitted for
it. -/
theorem compileTransitions_record {sm : StateMachineToolsNode} {ps : Nat} (idx : UUID → Int)
    (states : List ToolsState) :
    ∀ {i : Nat} {maps maps' : CompileLocals} {ctx ctx' : GraphCompilationContext}
      {s : StateMachineNode.Settings},
    compileTransitions sm ps states i maps ctx = some (true, maps', ctx') →
    ctx.stateMachineAt ps = some s →
    (∀ k, (maps.IDToStateIdxMap.find k).getD 0 = idx k) →
    (∃ lists, List.Forall₂
        (fun pStateNode entries =>
          List.Forall₂ (IsEntryOf ctx' idx) (sm.emittedFor pStateNode) entries) states lists ∧
      ctx'.stateMachineAt ps = some (appendTransitionsFrom i lists s)) ∧
    (∀ k, (maps'.IDToStateIdxMap.find k).getD 0 = idx k) := by
  induction states with
  | nil =>
    intro i maps maps' ctx ctx' s h hs hidx
    simp only [compileTransitions, Option.some.injEq, Prod.mk.injEq, true_and] at h
    obtain ⟨rfl, rfl⟩ := h
    exact ⟨⟨[], List.Forall₂.nil, hs⟩, hidx⟩
  | cons pStartStateNode rest ih =>
    intro i maps maps' ctx ctx' s h hs hidx
    simp only [compileTransitions] at h
    split at h
    · cases h
    · cases h
    · rename_i copy1 maps1 ctx1 hC
      obtain ⟨⟨e1, hf1, hs1⟩, hidx1, -⟩ := compileConduits_record idx _ hC hs hidx
      have hcopy := (compileConduits_spec _ hC).2 rfl
      split at h
      · cases h
      · cases h
      · rename_i maps2 ctx2 hG
        obtain ⟨⟨e2, hf2, hs2⟩, hidx2, -⟩ :=
          compileGlobalTransitions_record idx _ hG hs1 hidx1
        obtain ⟨⟨lists, hfl, hsl⟩, hidx3⟩ := ih h
          (show ctx2.stateMachineAt ps = _ from hs2) hidx2
        have ev2 := (compileTransitions_spec rest h).evolves
        have evG := (compileGlobalTransitions_spec _ hG).evolves
        refine ⟨⟨(e1 ++ e2) :: lists, List.Forall₂.cons ?_ hfl, ?_⟩, hidx3⟩
        · have hg : List.Forall₂ (IsEntryOf ctx2 idx)
              (emittedGlobals (globalsFor sm pStartStateNode)) e2 := by
            rw [hcopy] at hf2
            exact hf2
          exact IsEntryOf.forall₂_mono ev2
            (List.rel_append (IsEntryOf.forall₂_mono evG hf1) hg)
        · rw [hsl, writeState_append_append]
          rfl

theorem writeLastState_append
    (f : StateMachineNode.StateSettings → StateMachineNode.StateSettings)
    (s : StateMachineNode.Settings) (l : List StateMachineNode.StateSettings)
    (x : StateMachineNode.StateSettings) :
    writeLastState f { s with m_stateSettings := l ++ [x] } =
      { s with m_stateSettings := l ++ [f x] } := by
  simp [writeLastState, List.modifyLast_append_one]

theorem IsStateEntryOf.stays {P : Nat → Prop} {a b : GraphCompilationContext}
    (h : Evolves P a b) {sm : StateMachineToolsNode} {pStateNode : ToolsState}
    {entry : StateMachineNode.StateSettings} (he : IsStateEntryOf sm a pStateNode entry) :
    IsStateEntryOf sm b pStateNode entry := by
  obtain ⟨h1, h2, h3⟩ := he
  refine ⟨settingsIndexOf_mono h h1, ?_, h3⟩
  cases hc : sm.GetEntryStateOverrideConduit.GetEntryConditionNodeForState pStateNode.GetID with
  | none => simpa [hc] using h2
  | some n =>
    simp only [hc] at h2 ⊢
    exact settingsIndexOf_mono h h2

/-- What the block for an optional input that stores into the state machine record does
to the record when it completes. -/
theorem compileConnectedInput_record {kind : CallKind} {pNode : Option FlowToolsNode}
    {requiredType : Option GraphValueType} {ps : Nat}
    {g : Int → StateMachineNode.Settings → StateMachineNode.Settings}
    {ctx ctx' : GraphCompilationContext} {s : StateMachineNode.Settings}
    (hg : ∀ idx t, (g idx t).m_nodeIdx = t.m_nodeIdx)
    (h : compileConnectedInput kind pNode requiredType
      (fun idx c => c.modifyStateMachine ps (g idx)) ctx = some (true, ctx'))
    (hs : ctx.stateMachineAt ps = some s) :
    (pNode = none ∧ ctx' = ctx) ∨
    (∃ n idx, pNode = some n ∧ ctx'.stateMachineAt ps = some (g idx s) ∧
      ctx'.settingsIndexOf n.GetID = some idx) := by
  unfold compileConnectedInput at h
  split at h
  · simp only [Option.some.injEq, Prod.mk.injEq, true_and] at h
    exact Or.inl ⟨rfl, h.symm⟩
  · rename_i n
    split at h
    · cases h
    · split at h
      · cases h
      · rename_i idx c hc
        simp only [] at h
        split at h
        · cases h
        · rename_i hvalid
          simp only [Option.some.injEq, Prod.mk.injEq, true_and] at h
          subst h
          refine Or.inr ⟨n, idx, rfl, ?_, ?_⟩
          · exact stateMachineAt_record_modify
              (stateMachineAt_frame (FlowToolsNode.Compile_effect hc).evolves hs (fun hf => hf))
              _ _
          · exact settingsIndexOf_record_modify ps (FlowToolsNode.Compile_registers hc hvalid)
              _ _ (hg idx)

/-- What the first loop of `Compile` writes to the state machine record when it
completes: one entry per state, in order, and what it leaves in `IDToStateIdxMap`. -/
theorem compileStates_record {sm : StateMachineToolsNode} {ps : Nat} (states : List ToolsState) :
    ∀ {i : Nat} {maps maps' : CompileLocals} {ctx ctx' : GraphCompilationContext}
      {s : StateMachineNode.Settings},
    compileStates sm ps states i maps ctx = some (true, maps', ctx') →
    ctx.stateMachineAt ps = some s →
    (∃ entries, List.Forall₂ (IsStateEntryOf sm ctx') states entries ∧
      ctx'.stateMachineAt ps =
        some { s with m_stateSettings := s.m_stateSettings ++ entries }) ∧
    maps'.IDToStateIdxMap = stateIdxMapFrom states i maps.IDToStateIdxMap := by
  induction states with
  | nil =>
    intro i maps maps' ctx ctx' s h hs
    simp only [compileStates, Option.some.injEq, Prod.mk.injEq, true_and] at h
    obtain ⟨rfl, rfl⟩ := h
    exact ⟨⟨[], List.Forall₂.nil, by simpa using hs⟩, rfl⟩
  | cons pStateNode rest ih =>
    intro i maps maps' ctx ctx' s h hs
    simp only [compileStates] at h
    split at h
    · cases h
    · rename_i stateNodeIdx c1 hCS
      split at h
      · cases h
      · rename_i hvalid
        have h1 := stateMachineAt_modify hs (fun t =>
          { t with m_stateSettings := t.m_stateSettings ++ [{}] })
        have h2 := stateMachineAt_frame (CompileState_spec hCS).2.evolves h1 (fun hf => hf)
        have r2 := (CompileState_registers hCS hvalid).2
        have h3 := stateMachineAt_record_modify h2
          (.call .stateBody pStateNode.GetID stateNodeIdx)
          (writeLastState fun st => { st with m_stateNodeIdx := stateNodeIdx })
        rw [writeLastState_append] at h3
        have r3 := settingsIndexOf_record_modify ps r2
          (.call .stateBody pStateNode.GetID stateNodeIdx)
          (writeLastState fun st => { st with m_stateNodeIdx := stateNodeIdx })
          (by intro _; rfl)
        split at h
        · cases h
        · cases h
        · rename_i c3 hE
          have evE := (compileConnectedInput_step (K := CallKind.inStateLoop) true
            (show CallKind.inStateLoop .entryCondition = true from rfl) rfl
            (fun idx c => Effect.modifyStateMachine _ c ps _ (by intro _; rfl)) hE).evolves
          have evR := (compileStates_spec rest h).evolves
          obtain ⟨x, hx, hsx⟩ : ∃ x, IsStateEntryOf sm c3 pStateNode x ∧
              c3.stateMachineAt ps =
                some { s with m_stateSettings := s.m_stateSettings ++ [x] } := by
            rcases compileConnectedInput_record
              (g := fun idx => writeLastState fun st =>
                { st with m_entryConditionNodeIdx := idx })
              (fun _ _ => rfl) hE h3 with ⟨hnone, hctx⟩ | ⟨n, idx, hsome, hst, hreg⟩
            · subst hctx
              exact ⟨_, ⟨r3, by simp only [hnone], rfl⟩, h3⟩
            · rw [writeLastState_append] at hst
              exact ⟨_, ⟨settingsIndexOf_mono evE r3, by simp only [hsome]; exact hreg, rfl⟩,
                hst⟩
          obtain ⟨⟨entries, hfe, hse⟩, hmap⟩ := ih h hsx
          refine ⟨⟨x :: entries, List.Forall₂.cons (hx.stays evR) hfe, ?_⟩, ?_⟩
          · rw [hse]; simp
          · rw [hmap]; rfl

theorem modify_append_cons {α : Type} (f : α → α) (pre : List α) (x : α) (rest : List α) :
    (pre ++ x :: rest).modify f pre.length = pre ++ f x :: rest := by
  induction pre with
  | nil => rfl
  | cons a pre ih => simp [List.modify_succ_cons, ih]

/-- The writes of the second loop, on a record that holds an entry for every state. -/
theorem appendTransitionsFrom_eq (lists : List (List StateMachineNode.TransitionSettings)) :
    ∀ (i : Nat) (s : StateMachineNode.Settings)
      (pre base : List StateMachineNode.StateSettings),
    s.m_stateSettings = pre ++ base → pre.length = i → base.length = lists.length →
    appendTransitionsFrom i lists s =
      { s with m_stateSettings := pre ++ List.zipWith appendEntries base lists } := by
  induction lists with
  | nil =>
    intro i s pre base hs _ hb
    have : base = [] := List.eq_nil_of_length_eq_zero hb
    subst this
    simp only [appendTransitionsFrom, List.zipWith_nil_right]
    rw [← hs]
  | cons entries rest ih =>
    intro i s pre base hs hi hb
    cases base with
    | nil => simp at hb
    | cons b base =>
      simp only [appendTransitionsFrom]
      have hw : (writeState i (fun st =>
          { st with m_transitionSettings := st.m_transitionSettings ++ entries })
          s).m_stateSettings =
          (pre ++ [{ b with m_transitionSettings := b.m_transitionSettings ++ entries }]) ++
            base := by
        simp only [writeState, hs, ← hi, modify_append_cons]
        simp
      rw [ih (i + 1) _ _ base hw (by simp [hi]) (by simpa using hb)]
      simp [writeState, appendEntries]

theorem IsEntryOf.eq_map {ctx : GraphCompilationContext} {sm : StateMachineToolsNode}
    {ts : List EmittedTransition} {entries : List StateMachineNode.TransitionSettings}
    (h : List.Forall₂ (IsEntryOf ctx sm.stateIndexOf) ts entries) :
    entries = ts.map (sm.transitionSettingsOf ctx) := by
  induction h with
  | nil => rfl
  | @cons t entry _ _ hx _ ih =>
    obtain ⟨target, condition, transition⟩ := entry
    obtain ⟨h1, h2, h3⟩ := hx
    have h1' : target = sm.stateIndexOf t.endStateID := h1
    have h2' : ctx.settingsIndexOf t.pTransitionNode.GetID = some transition := h2
    have h3' : ctx.settingsIndexOf t.pConditionNode.GetID = some condition := h3
    rw [List.map_cons, ← ih]
    congr 1
    simp only [StateMachineToolsNode.transitionSettingsOf, indexOf_of_settingsIndexOf h2',
      indexOf_of_settingsIndexOf h3', h1']

theorem IsStateEntryOf.zipWith_eq {ctx : GraphCompilationContext} {sm : StateMachineToolsNode}
    {states : List ToolsState} {entries : List StateMachineNode.StateSettings}
    (h : List.Forall₂ (IsStateEntryOf sm ctx) states entries) :
    ∀ {lists : List (List StateMachineNode.TransitionSettings)},
    List.Forall₂ (fun pStateNode es =>
      List.Forall₂ (IsEntryOf ctx sm.stateIndexOf) (sm.emittedFor pStateNode) es) states lists →
    List.zipWith appendEntries entries lists = states.map (sm.stateSettingsOf ctx) := by
  induction h with
  | nil =>
    intro lists hl
    cases hl
    rfl
  | @cons st entry _ _ hx _ ih =>
    intro lists hl
    cases hl with
    | cons hes hrest =>
      rename_i es lists
      rw [List.zipWith_cons_cons, List.map_cons, ih hrest]
      congr 1
      obtain ⟨h1, h2, h3⟩ := hx
      obtain ⟨stateIdx, entryIdx, transitions⟩ := entry
      have h1' : ctx.settingsIndexOf st.GetID = some stateIdx := h1
      have h3' : transitions = [] := h3
      subst h3'
      simp only [appendEntries, StateMachineToolsNode.stateSettingsOf, List.nil_append,
        indexOf_of_settingsIndexOf h1', ← IsEntryOf.eq_map hes]
      congr 1
      cases hc : sm.GetEntryStateOverrideConduit.GetEntryConditionNodeForState st.GetID with
      | none =>
        rw [hc] at h2
        exact h2
      | some n =>
        rw [hc] at h2
        exact (indexOf_of_settingsIndexOf h2).symm

/-- The state machine record after a first compile that succeeds: the run returns the
index of the fresh record, which is registered for the node, and the record holds, for
every state in declaration order, the index of the state's settings, the index of its
entry condition (or `InvalidIndex`) and the entries of the transitions emitted for it,
and the index the first loop stored for the default entry state. -/
theorem Compile_record {sm : StateMachineToolsNode} {ctx ctx' : GraphCompilationContext}
    {r : Int} (h : sm.Compile ctx = some (r, ctx'))
    (hfresh : ctx.m_nodeIDToIndexMap.lookup sm.GetID = none) (hr : r ≠ InvalidIndex) :
    r = (ctx.m_nodeSettings.length : Int) ∧
    ctx'.settingsIndexOf sm.GetID = some r ∧
    ctx'.stateMachineAt ctx.m_nodeSettings.length = some (sm.settingsOf ctx') := by
  have hspec := Compile_spec h
  rcases hspec with ⟨p, hp, _⟩ | ⟨_, _, hlook', hidx', ok, hrok, _, _⟩
  · rw [hfresh] at hp; cases hp
  have hok : ok = true := by
    cases ok
    · simp at hrok; exact absurd hrok hr
    · rfl
  subst hok
  simp only [if_true] at hrok
  have hreg : ctx'.settingsIndexOf sm.GetID = some r := by
    rw [hrok]; exact settingsIndexOf_of_lookup hlook' hidx'
  refine ⟨hrok, hreg, ?_⟩
  unfold StateMachineToolsNode.Compile at h
  rw [GetSettings_new _ hfresh] at h
  simp only [ne_eq, not_true_eq_false, if_false] at h
  have hs0 : ({ ctx with
      m_nodeIDToIndexMap := ctx.m_nodeIDToIndexMap ++ [(sm.GetID, ctx.m_nodeSettings.length)]
      m_nodeSettings := ctx.m_nodeSettings ++
        [NodeSettings.stateMachine { m_nodeIdx := (ctx.m_nodeSettings.length : Int) }] } :
      GraphCompilationContext).stateMachineAt ctx.m_nodeSettings.length =
      some { m_nodeIdx := (ctx.m_nodeSettings.length : Int) } := by
    simp [GraphCompilationContext.stateMachineAt]
  generalize hps : ctx.m_nodeSettings.length = ps at h hs0 hrok
  split at h
  · cases h
  · split at h
    · cases h
    · cases h; exact absurd rfl hr
    · rename_i maps1 c1 hS
      obtain ⟨⟨entries, hfe, hse⟩, hmap⟩ := compileStates_record _ hS hs0
      have hidx : ∀ k, (maps1.IDToStateIdxMap.find k).getD 0 = sm.stateIndexOf k := by
        intro k; rw [hmap]; rfl
      split at h
      · cases h
      · cases h; exact absurd rfl hr
      · rename_i maps2 c2 hT
        obtain ⟨⟨lists, hfl, hsl⟩, hidx2⟩ :=
          compileTransitions_record sm.stateIndexOf _ hT hse hidx
        have evT := (compileTransitions_spec _ hT).evolves
        split at h
        · cases h
        · rename_i idx hn
          simp only [Option.some.injEq, Prod.mk.injEq] at h
          obtain ⟨-, hctx⟩ := h
          subst hctx
          have hfin := stateMachineAt_modify hsl (fun s =>
            { s with m_defaultStateIndex :=
                (maps2.IDToStateIdxMap.index sm.GetChildGraph.GetDefaultEntryStateID 0).1 })
          have evF : Evolves (fun q => q = ps) c2 (c2.modifyStateMachine ps fun s =>
              { s with m_defaultStateIndex :=
                  (maps2.IDToStateIdxMap.index sm.GetChildGraph.GetDefaultEntryStateID 0).1 }) :=
            (Effect.modifyStateMachine (fun _ => False) c2 ps _ (by intro _; rfl)).evolves
          have hfe' := hfe.imp (fun _ _ hx => (hx.stays evT).stays evF)
          have hfl' := hfl.imp (fun _ _ hx => IsEntryOf.forall₂_mono evF hx)
          rw [hfin]
          have hlen : entries.length = lists.length :=
            hfe.length_eq.symm.trans hfl.length_eq
          rw [appendTransitionsFrom_eq lists 0 _ [] entries (by simp) rfl hlen]
          have hi := indexOf_of_settingsIndexOf hreg
          rw [hrok] at hi
          simp only [THashMap.index_fst, hidx2] at hi
          simp only [List.nil_append, IsStateEntryOf.zipWith_eq hfe' hfl',
            StateMachineToolsNode.settingsOf, THashMap.index_fst, hidx2, hi]

theorem mem_journal_of_left {a b c : GraphCompilationContext} {e : CompileEvent}
    (h1 : b.m_log = a.m_log ++ journal a b) (h2 : c.m_log = b.m_log ++ journal b c)
    (he : e ∈ journal a b) : e ∈ journal a c := by
  rw [(journal_trans h1 h2).2]
  exact List.mem_append_left _ he

theorem mem_journal_of_right {a b c : GraphCompilationContext} {e : CompileEvent}
    (h1 : b.m_log = a.m_log ++ journal a b) (h2 : c.m_log = b.m_log ++ journal b c)
    (he : e ∈ journal b c) : e ∈ journal a c := by
  rw [(journal_trans h1 h2).2]
  exact List.mem_append_right _ he

/-- The first loop of `Compile`, when it completes, has made one state body call per
state, which returned the index registered for the state. -/
theorem compileStates_calls {sm : StateMachineToolsNode} {ps : Nat} (states : List ToolsState) :
    ∀ {i : Nat} {maps maps' : CompileLocals} {ctx ctx' : GraphCompilationContext},
    compileStates sm ps states i maps ctx = some (true, maps', ctx') →
    ∀ pStateNode ∈ states, ∃ r : Int,
      CompileEvent.call .stateBody pStateNode.GetID r ∈ journal ctx ctx' ∧
      ctx'.settingsIndexOf pStateNode.GetID = some r ∧ r ≠ InvalidIndex := by
  induction states with
  | nil =>
    intro i maps maps' ctx ctx' _ st hst
    cases hst
  | cons pStateNode rest ih =>
    intro i maps maps' ctx ctx' h st hst
    have hall := compileStates_spec (pStateNode :: rest) h
    simp only [compileStates] at h
    split at h
    · cases h
    · rename_i stateNodeIdx c1 hCS
      have s1 : Step ps CallKind.inStateLoop true [] true ctx c1 :=
        ((Step.nil ps CallKind.inStateLoop true ctx).write _ (by intro _; rfl)).append
          (Step.of_effect CallKind.inStateLoop true (CompileState_spec hCS).2
            (fun _ hf => hf.elim) isNested_not_failed)
      split at h
      · cases h
      · rename_i hvalid
        have r2 := (CompileState_registers hCS hvalid).2
        have sR : Step ps CallKind.inStateLoop true [] true c1
            (c1.record (.call .stateBody pStateNode.GetID stateNodeIdx)) :=
          Step.call_ok ps CallKind.inStateLoop true c1 .stateBody pStateNode.GetID hvalid
        have hjR : journal c1 (c1.record (.call .stateBody pStateNode.GetID stateNodeIdx)) =
            [.call .stateBody pStateNode.GetID stateNodeIdx] := journal_of_append rfl
        have s2 : ∀ f : StateMachineNode.Settings → StateMachineNode.Settings,
            (∀ s, (f s).m_nodeIdx = s.m_nodeIdx) →
            Step ps CallKind.inStateLoop true [] true
              (c1.record (.call .stateBody pStateNode.GetID stateNodeIdx))
              ((c1.record (.call .stateBody pStateNode.GetID
                stateNodeIdx)).modifyStateMachine ps f) :=
          fun f hf => (Step.nil ps CallKind.inStateLoop true _).write f hf
        split at h
        · cases h
        · cases h
        · rename_i c3 hE
          have sE := compileConnectedInput_step (K := CallKind.inStateLoop) true
            (show CallKind.inStateLoop .entryCondition = true from rfl) rfl
            (fun idx c => Effect.modifyStateMachine _ c ps _ (by intro _; rfl)) hE
          have sRest := compileStates_spec rest h
          have e13 := (sR.evolves.andThen (s2 _ (by intro _; rfl)).evolves
            (fun _ _ hq => hq)).andThen sE.evolves (fun _ _ hq => hq)
          have e1' := e13.andThen sRest.evolves (fun _ _ hq => hq)
          rcases List.mem_cons.mp hst with heq | hmem
          · subst heq
            refine ⟨stateNodeIdx, ?_, settingsIndexOf_mono e1' r2, hvalid⟩
            have m1 : CompileEvent.call .stateBody st.GetID stateNodeIdx ∈
                journal c1 ctx' :=
              mem_journal_of_left sR.evolves.log
                (((s2 _ (by intro _; rfl)).evolves.andThen sE.evolves
                  (fun _ _ hq => hq)).andThen sRest.evolves (fun _ _ hq => hq)).log
                (by rw [hjR]; exact List.mem_singleton_self _)
            exact mem_journal_of_right s1.evolves.log e1'.log m1
          · obtain ⟨r, hr1, hr2, hr3⟩ := ih h st hmem
            refine ⟨r, ?_, hr2, hr3⟩
            exact mem_journal_of_right (s1.evolves.andThen e13 (fun _ _ hq => hq)).log
              sRest.evolves.log hr1

/-- The first loop of `Compile` completes only on states whose IDs are distinct and not
registered in the context: `CompileState` asserts that the state needs compilation. -/
theorem compileStates_fresh {sm : StateMachineToolsNode} {ps : Nat} (states : List ToolsState) :
    ∀ {i : Nat} {maps maps' : CompileLocals} {ctx ctx' : GraphCompilationContext},
    compileStates sm ps states i maps ctx = some (true, maps', ctx') →
    (states.map ToolsState.GetID).Nodup ∧
    ∀ pStateNode ∈ states, ctx.m_nodeIDToIndexMap.lookup pStateNode.GetID = none := by
  induction states with
  | nil =>
    intro i maps maps' ctx ctx' _
    exact ⟨List.nodup_nil, fun _ h => by cases h⟩
  | cons pStateNode rest ih =>
    intro i maps maps' ctx ctx' h
    simp only [compileStates] at h
    split at h
    · cases h
    · rename_i stateNodeIdx c1 hCS
      have hhead : ctx.m_nodeIDToIndexMap.lookup pStateNode.GetID = none :=
        (CompileState_spec hCS).1
      have s1 : Step ps CallKind.inStateLoop true [] true ctx c1 :=
        ((Step.nil ps CallKind.inStateLoop true ctx).write _ (by intro _; rfl)).append
          (Step.of_effect CallKind.inStateLoop true (CompileState_spec hCS).2
            (fun _ hf => hf.elim) isNested_not_failed)
      split at h
      · cases h
      · rename_i hvalid
        have r2 := (CompileState_registers hCS hvalid).2
        have s2 : ∀ f : StateMachineNode.Settings → StateMachineNode.Settings,
            (∀ s, (f s).m_nodeIdx = s.m_nodeIdx) →
            Step ps CallKind.inStateLoop true [] true c1
              ((c1.record (.call .stateBody pStateNode.GetID
                stateNodeIdx)).modifyStateMachine ps f) :=
          fun f hf => (Step.call_ok ps CallKind.inStateLoop true c1 .stateBody
            pStateNode.GetID hvalid).write f hf
        split at h
        · cases h
        · cases h
        · rename_i c3 hE
          have sE := compileConnectedInput_step (K := CallKind.inStateLoop) true
            (show CallKind.inStateLoop .entryCondition = true from rfl) rfl
            (fun idx c => Effect.modifyStateMachine _ c ps _ (by intro _; rfl)) hE
          have e13 := (s2 _ (by intro _; rfl)).evolves.andThen sE.evolves (fun _ _ hq => hq)
          have e03 := s1.evolves.andThen e13 (fun _ _ hq => hq)
          obtain ⟨hnd, hnone⟩ := ih h
          have hreg : ∃ p, c3.m_nodeIDToIndexMap.lookup pStateNode.GetID = some p := by
            have h3 := settingsIndexOf_mono e13 r2
            unfold GraphCompilationContext.settingsIndexOf at h3
            cases hl : c3.m_nodeIDToIndexMap.lookup pStateNode.GetID with
            | none => simp [hl] at h3
            | some p => exact ⟨p, rfl⟩
          refine ⟨?_, ?_⟩
          · simp only [List.map_cons, List.nodup_cons]
            refine ⟨?_, hnd⟩
            intro hmem
            obtain ⟨st, hst, hid⟩ := List.mem_map.mp hmem
            obtain ⟨p, hp⟩ := hreg
            have := hnone st hst
            rw [hid, hp] at this
            cases this
          · intro st hst
            rcases List.mem_cons.mp hst with heq | hmem
            · subst heq; exact hhead
            · cases hl : ctx.m_nodeIDToIndexMap.lookup st.GetID with
              | none => rfl
              | some p =>
                have := e03.map _ _ hl
                rw [hnone st hmem] at this
                cases this

theorem THashMap.find_insert_of_find {V : Type} (m : THashMap V) (k k' : UUID) (v w : V)
    (h : m.find k' = some w) : (m.insert k v).find k' = some w := by
  unfold THashMap.insert
  cases hk : m.find k with
  | some _ => exact h
  | none =>
    simp only [THashMap.find] at h ⊢
    simp [List.lookup_append, h]

theorem THashMap.find_insert_self {V : Type} (m : THashMap V) (k : UUID) (v : V)
    (h : m.find k = none) : (m.insert k v).find k = some v := by
  unfold THashMap.insert
  simp only [h]
  simp only [THashMap.find] at h ⊢
  simp [List.lookup_append, h, List.lookup]

theorem THashMap.find_insert_of_ne {V : Type} (m : THashMap V) (k k' : UUID) (v : V)
    (hne : k' ≠ k) (h : m.find k' = none) : (m.insert k v).find k' = none := by
  unfold THashMap.insert
  cases hk : m.find k with
  | some _ => exact h
  | none =>
    simp only [THashMap.find] at h ⊢
    have : (k' == k) = false := by simpa using hne
    simp [List.lookup_append, h, List.lookup, this]

theorem stateIdxMapFrom_keeps (states : List ToolsState) :
    ∀ (i : Nat) (m : THashMap Int) (k : UUID) (w : Int), m.find k = some w →
    (stateIdxMapFrom states i m).find k = some w := by
  induction states with
  | nil => intro i m k w h; exact h
  | cons st rest ih =>
    intro i m k w h
    exact ih (i + 1) _ k w (THashMap.find_insert_of_find m st.GetID k _ w h)

/-- The index the first loop stores for a state whose ID no earlier state has: the
position of the state, converted to `StateIndex`. -/
theorem stateIdxMapFrom_position (states : List ToolsState) :
    ∀ (i : Nat) (m : THashMap Int) (k : Nat) (st : ToolsState), states[k]? = some st →
    (states.map ToolsState.GetID).Nodup → m.find st.GetID = none →
    (stateIdxMapFrom states i m).find st.GetID = some (toInt16 ((i + k : Nat) : Int)) := by
  induction states with
  | nil => intro i m k st h; simp at h
  | cons head rest ih =>
    intro i m k st hk hnd hm
    simp only [List.map_cons, List.nodup_cons] at hnd
    cases k with
    | zero =>
      simp only [List.getElem?_cons_zero, Option.some.injEq] at hk
      subst hk
      exact stateIdxMapFrom_keeps rest (i + 1) _ _ _
        (THashMap.find_insert_self m head.GetID _ hm)
    | succ k =>
      simp only [List.getElem?_cons_succ] at hk
      have hne : st.GetID ≠ head.GetID := by
        intro heq
        apply hnd.1
        rw [← heq]
        exact List.mem_map_of_mem _ (List.getElem?_mem hk)
      have := ih (i + 1) (m.insert head.GetID (toInt16 (i : Int))) k st hk hnd.2
        (THashMap.find_insert_of_ne m head.GetID st.GetID _ hne hm)
      simp only [stateIdxMapFrom]
      rw [this]
      congr 2
      omega

theorem stateIndexOf_position {sm : StateMachineToolsNode}
    (hnd : (sm.GetChildGraph.stateNodes.map ToolsState.GetID).Nodup) {k : Nat}
    {st : ToolsState} (hk : sm.GetChildGraph.stateNodes[k]? = some st) :
    sm.stateIndexOf st.GetID = toInt16 (k : Int) := by
  unfold StateMachineToolsNode.stateIndexOf
  rw [stateIdxMapFrom_position _ 0 [] k st hk hnd rfl]
  simp

theorem toInt16_of_lt {k : Nat} (h : k < 32768) : toInt16 (k : Int) = (k : Int) := by
  unfold toInt16
  omega

/-- A first compile that succeeds has made one state body call per state, which returned
the index registered for the state. -/
theorem Compile_stateBody_calls {sm : StateMachineToolsNode}
    {ctx ctx' : GraphCompilationContext} {r : Int} (h : sm.Compile ctx = some (r, ctx'))
    (hfresh : ctx.m_nodeIDToIndexMap.lookup sm.GetID = none) (hr : r ≠ InvalidIndex) :
    ∀ pStateNode ∈ sm.GetChildGraph.stateNodes, ∃ idx : Int,
      CompileEvent.call .stateBody pStateNode.GetID idx ∈ journal ctx ctx' ∧
      ctx'.settingsIndexOf pStateNode.GetID = some idx ∧ idx ≠ InvalidIndex := by
  intro st hst
  unfold StateMachineToolsNode.Compile at h
  rcases GetSettings_spec ctx sm.GetID (fun i => .stateMachine { m_nodeIdx := i })
    (fun _ => rfl) with ⟨p, hp, _⟩ | ⟨c, _, hg, _, _, _, he⟩
  · rw [hfresh] at hp; cases hp
  · rw [hg] at h
    simp only [ne_eq, not_true_eq_false, if_false] at h
    generalize ctx.m_nodeSettings.length = ps at h
    split at h
    · cases h
    · split at h
      · cases h
      · cases h; exact absurd rfl hr
      · rename_i maps1 c1 hS
        have sS := compileStates_spec _ hS
        split at h
        · cases h
        · cases h; exact absurd rfl hr
        · rename_i maps2 c2 hT
          have sT := compileTransitions_spec _ hT
          split at h
          · cases h
          · simp only [Option.some.injEq, Prod.mk.injEq] at h
            obtain ⟨-, hctx⟩ := h
            subst hctx
            have evF : Evolves (fun q => q = ps) c2 (c2.modifyStateMachine ps fun s =>
                { s with m_defaultStateIndex :=
                    (maps2.IDToStateIdxMap.index sm.GetChildGraph.GetDefaultEntryStateID
                      0).1 }) :=
              (Effect.modifyStateMachine (fun _ => False) c2 ps _ (by intro _; rfl)).evolves
            have e12 := sT.evolves.andThen evF (fun _ _ hq => hq)
            have e02 := sS.evolves.andThen e12 (fun _ _ hq => hq)
            obtain ⟨idx, h1, h2, h3⟩ := compileStates_calls _ hS st hst
            exact ⟨idx, mem_journal_of_right he.evolves.log e02.log
              (mem_journal_of_left sS.evolves.log e12.log h1), settingsIndexOf_mono e12 h2, h3⟩

/-- A first compile succeeds only on a graph whose states have distinct IDs. -/
theorem Compile_distinct_states {sm : StateMachineToolsNode}
    {ctx ctx' : GraphCompilationContext} {r : Int} (h : sm.Compile ctx = some (r, ctx'))
    (hfresh : ctx.m_nodeIDToIndexMap.lookup sm.GetID = none) (hr : r ≠ InvalidIndex) :
    (sm.GetChildGraph.stateNodes.map ToolsState.GetID).Nodup := by
  unfold StateMachineToolsNode.Compile at h
  rw [GetSettings_new _ hfresh] at h
  simp only [ne_eq, not_true_eq_false, if_false] at h
  split at h
  · cases h
  · split at h
    · cases h
    · cases h; exact absurd rfl hr
    · rename_i hS
      exact (compileStates_fresh _ hS).1

/-- C11. On a first compile of a state machine node that succeeds, the compiled record
holds as many state settings as the graph has state nodes, and the entry at position
`i` holds the node index that the state body call on the state at position `i` of the
state list returned, which is the index registered for that state; and the state index
looked up for the ID of that state is `i`, converted to `StateIndex`. -/
theorem state_settings_follow_declaration_order {sm : StateMachineToolsNode}
    {ctx ctx' : GraphCompilationContext} {r : Int} (h : sm.Compile ctx = some (r, ctx'))
    (hfresh : ctx.m_nodeIDToIndexMap.lookup sm.GetID = none) (hr : r ≠ InvalidIndex) :
    ∃ s, ctx'.stateMachineAt ctx.m_nodeSettings.length = some s ∧
      s.m_stateSettings.length = sm.GetChildGraph.stateNodes.length ∧
      ∀ (i : Nat) (pStateNode : ToolsState),
        sm.GetChildGraph.stateNodes[i]? = some pStateNode →
        ∃ entry, s.m_stateSettings[i]? = some entry ∧
          CompileEvent.call .stateBody pStateNode.GetID entry.m_stateNodeIdx ∈
            journal ctx ctx' ∧
          ctx'.settingsIndexOf pStateNode.GetID = some entry.m_stateNodeIdx ∧
          entry.m_stateNodeIdx ≠ InvalidIndex ∧
          sm.stateIndexOf pStateNode.GetID = toInt16 (i : Int) ∧
          (i < 32768 → sm.stateIndexOf pStateNode.GetID = (i : Int)) := by
  obtain ⟨-, -, hrec⟩ := Compile_record h hfresh hr
  refine ⟨_, hrec, by simp [StateMachineToolsNode.settingsOf], ?_⟩
  intro i st hi
  obtain ⟨idx, h1, h2, h3⟩ := Compile_stateBody_calls h hfresh hr st (List.getElem?_mem hi)
  have hpos := stateIndexOf_position (Compile_distinct_states h hfresh hr) hi
  refine ⟨sm.stateSettingsOf ctx' st, by simp [StateMachineToolsNode.settingsOf, hi],
    ?_, ?_, ?_, hpos, fun hlt => hpos.trans (toInt16_of_lt hlt)⟩
  · simpa [StateMachineToolsNode.stateSettingsOf, indexOf_of_settingsIndexOf h2] using h1
  · simpa [StateMachineToolsNode.stateSettingsOf, indexOf_of_settingsIndexOf h2] using h2
  · simpa [StateMachineToolsNode.stateSettingsOf, indexOf_of_settingsIndexOf h2] using h3

/-- C12. On a first compile that succeeds of a state machine node whose states have
distinct IDs: when the default entry state ID is the ID of the state at position `k`,
`m_defaultStateIndex` is `k` converted to `StateIndex`, which is `k` itself for
`k < 32768`; and for the state at position `i`, the transition list has one entry per
emitted transition, in order, and when the end state ID of the `j`-th emitted transition
is the ID of the state at position `k`, the `j`-th entry has `k`, converted likewise, as
its `m_targetStateIdx`. -/
theorem default_and_target_index_are_positions {sm : StateMachineToolsNode}
    {ctx ctx' : GraphCompilationContext} {r : Int} (h : sm.Compile ctx = some (r, ctx'))
    (hfresh : ctx.m_nodeIDToIndexMap.lookup sm.GetID = none) (hr : r ≠ InvalidIndex)
    (hdistinct : (sm.GetChildGraph.stateNodes.map ToolsState.GetID).Nodup) :
    ∃ s, ctx'.stateMachineAt ctx.m_nodeSettings.length = some s ∧
      (∀ (k : Nat) (pStateNode : ToolsState),
        sm.GetChildGraph.stateNodes[k]? = some pStateNode →
        pStateNode.GetID = sm.GetChildGraph.GetDefaultEntryStateID →
        s.m_defaultStateIndex = toInt16 (k : Int) ∧
        (k < 32768 → s.m_defaultStateIndex = (k : Int))) ∧
      ∀ (i : Nat) (pStartStateNode : ToolsState),
        sm.GetChildGraph.stateNodes[i]? = some pStartStateNode →
        ∃ entry, s.m_stateSettings[i]? = some entry ∧
          entry.m_transitionSettings.length = (sm.emittedFor pStartStateNode).length ∧
          ∀ (j : Nat) (t : EmittedTransition),
            (sm.emittedFor pStartStateNode)[j]? = some t →
            ∀ (k : Nat) (pEndStateNode : ToolsState),
              sm.GetChildGraph.stateNodes[k]? = some pEndStateNode →
              pEndStateNode.GetID = t.endStateID →
              ∃ transition, entry.m_transitionSettings[j]? = some transition ∧
                transition.m_targetStateIdx = toInt16 (k : Int) ∧
                (k < 32768 → transition.m_targetStateIdx = (k : Int)) := by
  obtain ⟨-, -, hrec⟩ := Compile_record h hfresh hr
  refine ⟨_, hrec, ?_, ?_⟩
  · intro k st hk hid
    have hpos := stateIndexOf_position hdistinct hk
    rw [hid] at hpos
    exact ⟨hpos, fun hlt => hpos.trans (toInt16_of_lt hlt)⟩
  · intro i st hi
    refine ⟨sm.stateSettingsOf ctx' st, by simp [StateMachineToolsNode.settingsOf, hi],
      by simp [StateMachineToolsNode.stateSettingsOf], ?_⟩
    intro j t hj k target hk hid
    have hpos := stateIndexOf_position hdistinct hk
    rw [hid] at hpos
    refine ⟨sm.transitionSettingsOf ctx' t,
      by simp [StateMachineToolsNode.stateSettingsOf, hj], hpos,
      fun hlt => hpos.trans (toInt16_of_lt hlt)⟩

theorem jumpDefault_compiles :
    jumpDefault.Compile {} = some (0, compiledContext jumpDefault) := by decide!

/-- C11, at the scenario: the three state settings hold the indices 1, 3 and 5, which the
state body calls on Idle, Run and Jump returned. -/
theorem idleRunJump_state_settings :
    idleRunJump.Compile {} = some (0, compiledContext idleRunJump) ∧
    (({} : GraphCompilationContext).m_nodeIDToIndexMap.lookup idleRunJump.GetID = none) ∧
    (0 : Int) ≠ InvalidIndex ∧
    (((compiledContext idleRunJump).stateMachineAt 0).map fun s =>
      s.m_stateSettings.map fun st => st.m_stateNodeIdx) = some [1, 3, 5] ∧
    ∃ s, (compiledContext idleRunJump).stateMachineAt 0 = some s ∧
      s.m_stateSettings.length = idleRunJump.GetChildGraph.stateNodes.length ∧
      ∀ (i : Nat) (pStateNode : ToolsState),
        idleRunJump.GetChildGraph.stateNodes[i]? = some pStateNode →
        ∃ entry, s.m_stateSettings[i]? = some entry ∧
          CompileEvent.call .stateBody pStateNode.GetID entry.m_stateNodeIdx ∈
            journal {} (compiledContext idleRunJump) ∧
          (compiledContext idleRunJump).settingsIndexOf pStateNode.GetID =
            some entry.m_stateNodeIdx ∧
          entry.m_stateNodeIdx ≠ InvalidIndex ∧
          idleRunJump.stateIndexOf pStateNode.GetID = toInt16 (i : Int) ∧
          (i < 32768 → idleRunJump.stateIndexOf pStateNode.GetID = (i : Int)) :=
  ⟨idleRunJump_compiles, rfl, by decide, by decide!,
    state_settings_follow_declaration_order idleRunJump_compiles rfl (by decide)⟩

/-- C12, at the scenario with Jump as the default entry state: the default state index
is 2, and the targets of the transition entries are 1 and 2 for Idle, 2 for Run, and
Jump has no entry. -/
theorem jumpDefault_indices :
    jumpDefault.Compile {} = some (0, compiledContext jumpDefault) ∧
    (({} : GraphCompilationContext).m_nodeIDToIndexMap.lookup jumpDefault.GetID = none) ∧
    (0 : Int) ≠ InvalidIndex ∧
    (jumpDefault.GetChildGraph.stateNodes.map ToolsState.GetID).Nodup ∧
    (((compiledContext jumpDefault).stateMachineAt 0).map fun s => s.m_defaultStateIndex) =
      some 2 ∧
    targetsAt (compiledContext jumpDefault) 0 = some [[1, 2], [2], []] ∧
    ∃ s, (compiledContext jumpDefault).stateMachineAt 0 = some s ∧
      (∀ (k : Nat) (pStateNode : ToolsState),
        jumpDefault.GetChildGraph.stateNodes[k]? = some pStateNode →
        pStateNode.GetID = jumpDefault.GetChildGraph.GetDefaultEntryStateID →
        s.m_defaultStateIndex = toInt16 (k : Int) ∧
        (k < 32768 → s.m_defaultStateIndex = (k : Int))) ∧
      ∀ (i : Nat) (pStartStateNode : ToolsState),
        jumpDefault.GetChildGraph.stateNodes[i]? = some pStartStateNode →
        ∃ entry, s.m_stateSettings[i]? = some entry ∧
          entry.m_transitionSettings.length = (jumpDefault.emittedFor pStartStateNode).length ∧
          ∀ (j : Nat) (t : EmittedTransition),
            (jumpDefault.emittedFor pStartStateNode)[j]? = some t →
            ∀ (k : Nat) (pEndStateNode : ToolsState),
              jumpDefault.GetChildGraph.stateNodes[k]? = some pEndStateNode →
              pEndStateNode.GetID = t.endStateID →
              ∃ transition, entry.m_transitionSettings[j]? = some transition ∧
                transition.m_targetStateIdx = toInt16 (k : Int) ∧
                (k < 32768 → transition.m_targetStateIdx = (k : Int)) :=
  ⟨jumpDefault_compiles, rfl, by decide, by decide, by decide!, by decide!,
    default_and_target_index_are_positions jumpDefault_compiles rfl (by decide) (by decide)⟩

/-- C27. `RemoveFromGlobalTransitions( endStateID )` leaves the working copy as it is
when no entry has the end state ID; otherwise it removes the first entry that has it,
and only that one: the entries before it and all the entries after it, those with the
same end state ID included, stay in their order. -/
theorem remove_from_global_transitions_erases_first_match
    (copy : List GlobalTransitionToolsNode) (endStateID : UUID) :
    ((∀ g ∈ copy, g.GetEndStateID ≠ endStateID) →
      RemoveFromGlobalTransitions copy endStateID = copy) ∧
    (∀ (before : List GlobalTransitionToolsNode) (g : GlobalTransitionToolsNode)
      (after : List GlobalTransitionToolsNode), copy = before ++ g :: after →
      (∀ a ∈ before, a.GetEndStateID ≠ endStateID) → g.GetEndStateID = endStateID →
      RemoveFromGlobalTransitions copy endStateID = before ++ after) ∧
    copy.length ≤ (RemoveFromGlobalTransitions copy endStateID).length + 1 := by
  refine ⟨?_, ?_, ?_⟩
  · induction copy with
    | nil => intro _; rfl
    | cons a rest ih =>
      intro h
      simp only [RemoveFromGlobalTransitions]
      rw [if_neg (h a (List.mem_cons_self _ _)),
        ih (fun g hg => h g (List.mem_cons_of_mem _ hg))]
  · intro before
    induction before generalizing copy with
    | nil =>
      intro g after hcopy _ hg
      subst hcopy
      simp [RemoveFromGlobalTransitions, hg]
    | cons a rest ih =>
      intro g after hcopy hbefore hg
      subst hcopy
      simp only [List.cons_append, RemoveFromGlobalTransitions]
      rw [if_neg (hbefore a (List.mem_cons_self _ _))]
      exact congrArg (a :: ·)
        (ih _ g after rfl (fun x hx => hbefore x (List.mem_cons_of_mem _ hx)) hg)
  · induction copy with
    | nil => simp [RemoveFromGlobalTransitions]
    | cons a rest ih =>
      simp only [RemoveFromGlobalTransitions]
      split
      · simp
      · simpa using ih

/-- C27, at a working copy with a transition to 11 followed by two transitions to 12:
removing 12 erases the first of the two and keeps the second; removing 13 changes
nothing. -/
theorem remove_first_of_two_transitions_to_one_state :
    (∀ a ∈ [globalTransitionTo 30 (boolNode 100) 11], a.GetEndStateID ≠ 12) ∧
    (globalTransitionTo 31 (boolNode 101) 12).GetEndStateID = 12 ∧
    RemoveFromGlobalTransitions
      [globalTransitionTo 30 (boolNode 100) 11, globalTransitionTo 31 (boolNode 101) 12,
        globalTransitionTo 32 (boolNode 102) 12] 12 =
      [globalTransitionTo 30 (boolNode 100) 11] ++ [globalTransitionTo 32 (boolNode 102) 12] ∧
    ((RemoveFromGlobalTransitions
      [globalTransitionTo 30 (boolNode 100) 11, globalTransitionTo 31 (boolNode 101) 12,
        globalTransitionTo 32 (boolNode 102) 12] 12).map fun g => g.GetID) = [30, 32] :=
  ⟨by decide, rfl,
    (remove_from_global_transitions_erases_first_match
      [globalTransitionTo 30 (boolNode 100) 11, globalTransitionTo 31 (boolNode 101) 12,
        globalTransitionTo 32 (boolNode 102) 12] 12).2.1
      [globalTransitionTo 30 (boolNode 100) 11] (globalTransitionTo 31 (boolNode 101) 12)
      [globalTransitionTo 32 (boolNode 102) 12] rfl (by decide) rfl,
    by decide⟩

/-- A value the first loop of `Compile` leaves in `IDToStateIdxMap` was in the map
before, or is the position of a state, converted to `StateIndex`. -/
theorem stateIdxMapFrom_find (states : List ToolsState) :
    ∀ (i : Nat) (m : THashMap Int) (id : UUID) (w : Int),
    (stateIdxMapFrom states i m).find id = some w →
    m.find id = some w ∨ ∃ k, k < states.length ∧ w = toInt16 ((i + k : Nat) : Int) := by
  induction states with
  | nil => intro i m id w h; exact Or.inl h
  | cons st rest ih =>
    intro i m id w h
    rcases ih (i + 1) _ id w h with h1 | ⟨k, hk, hw⟩
    · cases hm : m.find id with
      | some w' =>
        rw [THashMap.find_insert_of_find m st.GetID id _ w' hm] at h1
        exact Or.inl h1
      | none =>
        by_cases hid : id = st.GetID
        · subst hid
          rw [THashMap.find_insert_self m st.GetID _ hm] at h1
          exact Or.inr ⟨0, by simp, by simpa using (Option.some.inj h1).symm⟩
        · rw [THashMap.find_insert_of_ne m st.GetID id _ hid hm] at h1
          cases h1
    · refine Or.inr ⟨k + 1, by simp; omega, ?_⟩
      rw [hw]
      congr 2
      omega

/-- The first loop of `Compile` stores nothing for an ID that no state has. -/
theorem stateIdxMapFrom_find_none (states : List ToolsState) :
    ∀ (i : Nat) (m : THashMap Int) (id : UUID), (∀ st ∈ states, st.GetID ≠ id) →
    m.find id = none → (stateIdxMapFrom states i m).find id = none := by
  induction states with
  | nil => intro i m id _ h; exact h
  | cons st rest ih =>
    intro i m id hne h
    exact ih (i + 1) _ id (fun x hx => hne x (List.mem_cons_of_mem _ hx))
      (THashMap.find_insert_of_ne m st.GetID id _
        (fun heq => hne st (List.mem_cons_self _ _) heq.symm) h)

/-- The state index looked up for an ID that no state has is 0. -/
theorem stateIndexOf_unknown {sm : StateMachineToolsNode} {id : UUID}
    (h : ∀ st ∈ sm.GetChildGraph.stateNodes, st.GetID ≠ id) : sm.stateIndexOf id = 0 := by
  unfold StateMachineToolsNode.stateIndexOf
  rw [stateIdxMapFrom_find_none _ 0 [] id h rfl]
  rfl

/-- The state index looked up for any ID is a position of the state list, when the list
is not empty and its positions fit `StateIndex`. -/
theorem stateIndexOf_range {sm : StateMachineToolsNode} (id : UUID)
    (h1 : 1 ≤ sm.GetChildGraph.stateNodes.length)
    (hfit : sm.GetChildGraph.stateNodes.length ≤ 32768) :
    0 ≤ sm.stateIndexOf id ∧
    sm.stateIndexOf id < (sm.GetChildGraph.stateNodes.length : Int) := by
  unfold StateMachineToolsNode.stateIndexOf
  cases hf : (stateIdxMapFrom sm.GetChildGraph.stateNodes 0 []).find id with
  | none =>
    simp only [Option.getD_none]
    omega
  | some w =>
    rcases stateIdxMapFrom_find _ 0 [] id w hf with h | ⟨k, hk, hw⟩
    · cases h
    · simp only [Option.getD_some]
      rw [hw, Nat.zero_add, toInt16_of_lt (by omega)]
      omega

/-- C28. On a first compile that succeeds of a state machine node with `N` states, where
`N` fits `StateIndex`: `N` is at least 1, `m_defaultStateIndex` and the `m_targetStateIdx`
of every transition entry lie in `[0, N)`, and the index is 0 when the default entry
state ID, or the end state ID of an emitted transition, is the ID of no state. -/
theorem state_indices_lie_within_state_count {sm : StateMachineToolsNode}
    {ctx ctx' : GraphCompilationContext} {r : Int} (h : sm.Compile ctx = some (r, ctx'))
    (hfresh : ctx.m_nodeIDToIndexMap.lookup sm.GetID = none) (hr : r ≠ InvalidIndex)
    (hfit : sm.GetChildGraph.stateNodes.length ≤ 32768) :
    ∃ s, ctx'.stateMachineAt ctx.m_nodeSettings.length = some s ∧
      1 ≤ sm.GetChildGraph.stateNodes.length ∧
      (0 ≤ s.m_defaultStateIndex ∧
        s.m_defaultStateIndex < (sm.GetChildGraph.stateNodes.length : Int)) ∧
      ((∀ st ∈ sm.GetChildGraph.stateNodes,
          st.GetID ≠ sm.GetChildGraph.GetDefaultEntryStateID) → s.m_defaultStateIndex = 0) ∧
      (∀ entry ∈ s.m_stateSettings, ∀ transition ∈ entry.m_transitionSettings,
        0 ≤ transition.m_targetStateIdx ∧
        transition.m_targetStateIdx < (sm.GetChildGraph.stateNodes.length : Int)) ∧
      ∀ (i : Nat) (pStartStateNode : ToolsState),
        sm.GetChildGraph.stateNodes[i]? = some pStartStateNode →
        ∃ entry, s.m_stateSettings[i]? = some entry ∧
          ∀ (j : Nat) (t : EmittedTransition),
            (sm.emittedFor pStartStateNode)[j]? = some t →
            (∀ st ∈ sm.GetChildGraph.stateNodes, st.GetID ≠ t.endStateID) →
            ∃ transition, entry.m_transitionSettings[j]? = some transition ∧
              transition.m_targetStateIdx = 0 := by
  obtain ⟨-, -, hrec⟩ := Compile_record h hfresh hr
  have hN : 1 ≤ sm.GetChildGraph.stateNodes.length := by
    rcases Compile_spec h with ⟨p, hp, _⟩ | ⟨_, hN, _⟩
    · rw [hfresh] at hp; cases hp
    · exact hN
  refine ⟨_, hrec, hN, stateIndexOf_range _ hN hfit, fun hno => stateIndexOf_unknown hno,
    ?_, ?_⟩
  · intro entry hentry transition htransition
    simp only [StateMachineToolsNode.settingsOf, List.mem_map] at hentry
    obtain ⟨st, -, rfl⟩ := hentry
    simp only [StateMachineToolsNode.stateSettingsOf, List.mem_map] at htransition
    obtain ⟨t, -, rfl⟩ := htransition
    exact stateIndexOf_range _ hN hfit
  · intro i st hi
    refine ⟨sm.stateSettingsOf ctx' st, by simp [StateMachineToolsNode.settingsOf, hi], ?_⟩
    intro j t hj hno
    exact ⟨sm.transitionSettingsOf ctx' t,
      by simp [StateMachineToolsNode.stateSettingsOf, hj], stateIndexOf_unknown hno⟩

theorem danglingTargets_compiles :
    danglingTargets.Compile {} = some (0, compiledContext danglingTargets) := by decide!

/-- C28, at a graph of two states whose conduit, global transition and default entry
state name state IDs that no state has: the compile succeeds, the default state index
is 0 and so is the target of every transition entry. -/
theorem danglingTargets_indices :
    danglingTargets.Compile {} = some (0, compiledContext danglingTargets) ∧
    (({} : GraphCompilationContext).m_nodeIDToIndexMap.lookup danglingTargets.GetID = none) ∧
    (0 : Int) ≠ InvalidIndex ∧
    danglingTargets.GetChildGraph.stateNodes.length ≤ 32768 ∧
    (((compiledContext danglingTargets).stateMachineAt 0).map fun s => s.m_defaultStateIndex) =
      some 0 ∧
    targetsAt (compiledContext danglingTargets) 0 = some [[0, 0], [0]] ∧
    ∃ s, (compiledContext danglingTargets).stateMachineAt 0 = some s ∧
      1 ≤ danglingTargets.GetChildGraph.stateNodes.length ∧
      (0 ≤ s.m_defaultStateIndex ∧
        s.m_defaultStateIndex < (danglingTargets.GetChildGraph.stateNodes.length : Int)) ∧
      ((∀ st ∈ danglingTargets.GetChildGraph.stateNodes,
          st.GetID ≠ danglingTargets.GetChildGraph.GetDefaultEntryStateID) →
        s.m_defaultStateIndex = 0) ∧
      (∀ entry ∈ s.m_stateSettings, ∀ transition ∈ entry.m_transitionSettings,
        0 ≤ transition.m_targetStateIdx ∧
        transition.m_targetStateIdx <
          (danglingTargets.GetChildGraph.stateNodes.length : Int)) ∧
      ∀ (i : Nat) (pStartStateNode : ToolsState),
        danglingTargets.GetChildGraph.stateNodes[i]? = some pStartStateNode →
        ∃ entry, s.m_stateSettings[i]? = some entry ∧
          ∀ (j : Nat) (t : EmittedTransition),
            (danglingTargets.emittedFor pStartStateNode)[j]? = some t →
            (∀ st ∈ danglingTargets.GetChildGraph.stateNodes, st.GetID ≠ t.endStateID) →
            ∃ transition, entry.m_transitionSettings[j]? = some transition ∧
              transition.m_targetStateIdx = 0 :=
  ⟨danglingTargets_compiles, rfl, by decide, by decide, by decide!, by decide!,
    state_indices_lie_within_state_count danglingTargets_compiles rfl (by decide)
      (by decide)⟩

theorem emittedTransition_eq (t : TransitionToolsNode) (endStateID : UUID) :
    emittedTransition t endStateID = (conditionConnected t endStateID).toList := by
  unfold emittedTransition conditionConnected
  cases t.GetConnectedInputNode 0 <;> rfl

theorem emittedConduitTransitions_eq (endStateID : UUID) (ts : List TransitionToolsNode) :
    emittedConduitTransitions endStateID ts =
      ts.filterMap fun t => conditionConnected t endStateID := by
  induction ts with
  | nil => rfl
  | cons t rest ih =>
    simp only [emittedConduitTransitions, emittedTransition_eq, ih, List.filterMap_cons]
    cases conditionConnected t endStateID <;> rfl

theorem emittedConduits_eq (S : ToolsState) (conduits : List TransitionConduitToolsNode) :
    emittedConduits S conduits =
      (conduits.filter fun c => decide (c.GetStartStateID = S.GetID)).flatMap fun c =>
        c.transitionNodes.filterMap fun t => conditionConnected t c.GetEndStateID := by
  induction conduits with
  | nil => rfl
  | cons c rest ih =>
    simp only [emittedConduits, ih, List.filter_cons]
    by_cases hc : c.GetStartStateID = S.GetID
    · simp [hc, emittedConduitTransitions_eq]
    · simp [hc]

theorem emittedGlobals_eq (gs : List GlobalTransitionToolsNode) :
    emittedGlobals gs =
      gs.filterMap fun g => conditionConnected g.toTransitionToolsNode g.GetEndStateID := by
  induction gs with
  | nil => rfl
  | cons g rest ih =>
    simp only [emittedGlobals, emittedTransition_eq, ih, List.filterMap_cons]
    cases conditionConnected g.toTransitionToolsNode g.GetEndStateID <;> rfl

/-- The transitions the code emits for a state are those the specification lists. -/
theorem emittedFor_eq_specified (sm : StateMachineToolsNode) (S : ToolsState) :
    sm.emittedFor S = sm.specifiedTransitionsOf S := by
  unfold StateMachineToolsNode.emittedFor StateMachineToolsNode.specifiedTransitionsOf
  rw [emittedConduits_eq, emittedGlobals_eq]

theorem globalsFor_sublist (sm : StateMachineToolsNode) (S : ToolsState) :
    (globalsFor sm S).Sublist sm.GetGlobalTransitionConduit.globalTransitionNodes :=
  (workingCopy_sublist S _ _).trans (RemoveFromGlobalTransitions_sublist _ _)

/-- C21. On a first compile that succeeds, the transition list of the state at position
`i` holds exactly one entry per transition the specification lists for the state, in
that order: the condition-connected transitions of the conduits that start at the state,
conduit by conduit in declaration order, then the condition-connected global transitions
that remain in the state's working copy, which is a sublist of the master list. Two such
compiles of the same node, in any two contexts, give transition lists of the same
transitions with the same target state indices, and the same record when the contexts
they start from are the same. -/
theorem transition_list_is_conduits_then_remaining_globals {sm : StateMachineToolsNode}
    {ctx1 ctx1' ctx2 ctx2' : GraphCompilationContext} {r1 r2 : Int}
    (h1 : sm.Compile ctx1 = some (r1, ctx1'))
    (hfresh1 : ctx1.m_nodeIDToIndexMap.lookup sm.GetID = none) (hr1 : r1 ≠ InvalidIndex)
    (h2 : sm.Compile ctx2 = some (r2, ctx2'))
    (hfresh2 : ctx2.m_nodeIDToIndexMap.lookup sm.GetID = none) (hr2 : r2 ≠ InvalidIndex) :
    ∃ s1 s2, ctx1'.stateMachineAt ctx1.m_nodeSettings.length = some s1 ∧
      ctx2'.stateMachineAt ctx2.m_nodeSettings.length = some s2 ∧
      (∀ (i : Nat) (pStartStateNode : ToolsState),
        sm.GetChildGraph.stateNodes[i]? = some pStartStateNode →
        (globalsFor sm pStartStateNode).Sublist
          sm.GetGlobalTransitionConduit.globalTransitionNodes ∧
        ∃ entry1 entry2, s1.m_stateSettings[i]? = some entry1 ∧
          s2.m_stateSettings[i]? = some entry2 ∧
          entry1.m_transitionSettings =
            (sm.specifiedTransitionsOf pStartStateNode).map (sm.transitionSettingsOf ctx1') ∧
          entry2.m_transitionSettings =
            (sm.specifiedTransitionsOf pStartStateNode).map (sm.transitionSettingsOf ctx2') ∧
          entry1.m_transitionSettings.length = entry2.m_transitionSettings.length ∧
          (entry1.m_transitionSettings.map fun t => t.m_targetStateIdx) =
            entry2.m_transitionSettings.map fun t => t.m_targetStateIdx) ∧
      (ctx1 = ctx2 → s1 = s2) := by
  obtain ⟨-, -, hrec1⟩ := Compile_record h1 hfresh1 hr1
  obtain ⟨-, -, hrec2⟩ := Compile_record h2 hfresh2 hr2
  refine ⟨_, _, hrec1, hrec2, ?_, ?_⟩
  · intro i st hi
    refine ⟨globalsFor_sublist sm st, sm.stateSettingsOf ctx1' st, sm.stateSettingsOf ctx2' st,
      by simp [StateMachineToolsNode.settingsOf, hi],
      by simp [StateMachineToolsNode.settingsOf, hi],
      by simp [StateMachineToolsNode.stateSettingsOf, emittedFor_eq_specified],
      by simp [StateMachineToolsNode.stateSettingsOf, emittedFor_eq_specified],
      by simp [StateMachineToolsNode.stateSettingsOf],
      by simp [StateMachineToolsNode.stateSettingsOf,
        StateMachineToolsNode.transitionSettingsOf, Function.comp_def]⟩
  · intro hctx
    subst hctx
    rw [h1] at h2
    cases h2
    rfl

theorem idleRunJumpAllGlobals_compiles_after_other_node :
    idleRunJumpAllGlobals.Compile otherNodeContext =
      some (1, compiledContextFrom idleRunJumpAllGlobals otherNodeContext) := by
  decide!

/-- C21, at the scenario with a global transition to each state, compiled in the empty
context and in a context that holds another node: in both, Idle gets the entry of its
conduit to Run (target 1) followed by the entry of the global transition to Jump (target
2), Run the entries of the global transitions to Idle and Jump, and Jump those to Idle
and Run. -/
theorem idleRunJumpAllGlobals_transition_lists :
    idleRunJumpAllGlobals.Compile {} = some (0, compiledContext idleRunJumpAllGlobals) ∧
    (({} : GraphCompilationContext).m_nodeIDToIndexMap.lookup idleRunJumpAllGlobals.GetID =
      none) ∧
    (0 : Int) ≠ InvalidIndex ∧
    idleRunJumpAllGlobals.Compile otherNodeContext =
      some (1, compiledContextFrom idleRunJumpAllGlobals otherNodeContext) ∧
    otherNodeContext.m_nodeIDToIndexMap.lookup idleRunJumpAllGlobals.GetID = none ∧
    (1 : Int) ≠ InvalidIndex ∧
    targetsAt (compiledContext idleRunJumpAllGlobals) 0 = some [[1, 2], [0, 2], [0, 1]] ∧
    targetsAt (compiledContextFrom idleRunJumpAllGlobals otherNodeContext) 1 =
      some [[1, 2], [0, 2], [0, 1]] ∧
    ∃ s1 s2, (compiledContext idleRunJumpAllGlobals).stateMachineAt
        ({} : GraphCompilationContext).m_nodeSettings.length = some s1 ∧
      (compiledContextFrom idleRunJumpAllGlobals otherNodeContext).stateMachineAt
        otherNodeContext.m_nodeSettings.length = some s2 ∧
      (∀ (i : Nat) (pStartStateNode : ToolsState),
        idleRunJumpAllGlobals.GetChildGraph.stateNodes[i]? = some pStartStateNode →
        (globalsFor idleRunJumpAllGlobals pStartStateNode).Sublist
          idleRunJumpAllGlobals.GetGlobalTransitionConduit.globalTransitionNodes ∧
        ∃ entry1 entry2, s1.m_stateSettings[i]? = some entry1 ∧
          s2.m_stateSettings[i]? = some entry2 ∧
          entry1.m_transitionSettings =
            (idleRunJumpAllGlobals.specifiedTransitionsOf pStartStateNode).map
              (idleRunJumpAllGlobals.transitionSettingsOf
                (compiledContext idleRunJumpAllGlobals)) ∧
          entry2.m_transitionSettings =
            (idleRunJumpAllGlobals.specifiedTransitionsOf pStartStateNode).map
              (idleRunJumpAllGlobals.transitionSettingsOf
                (compiledContextFrom idleRunJumpAllGlobals otherNodeContext)) ∧
          entry1.m_transitionSettings.length = entry2.m_transitionSettings.length ∧
          (entry1.m_transitionSettings.map fun t => t.m_targetStateIdx) =
            entry2.m_transitionSettings.map fun t => t.m_targetStateIdx) ∧
      (({} : GraphCompilationContext) = otherNodeContext → s1 = s2) :=
  ⟨idleRunJumpAllGlobals_compiles, rfl, by decide,
    idleRunJumpAllGlobals_compiles_after_other_node, by decide!, by decide, by decide!,
    by decide!,
    transition_list_is_conduits_then_remaining_globals idleRunJumpAllGlobals_compiles rfl
      (by decide) idleRunJumpAllGlobals_compiles_after_other_node (by decide!) (by decide)⟩

theorem transitionAt_iff {c : GraphCompilationContext} {p : Nat} {s : TransitionNode.Settings} :
    c.transitionAt p = some s ↔ c.m_nodeSettings[p]? = some (.transition s) := by
  unfold GraphCompilationContext.transitionAt
  split
  · rename_i s' heq
    rw [heq]
    simp
  · rename_i hne
    constructor
    · intro h; cases h
    · intro h; exact absurd h (hne s)

theorem stateAt_iff {c : GraphCompilationContext} {p : Nat} {s : StateNode.Settings} :
    c.stateAt p = some s ↔ c.m_nodeSettings[p]? = some (.state s) := by
  unfold GraphCompilationContext.stateAt
  split
  · rename_i s' heq
    rw [heq]
    simp
  · rename_i hne
    constructor
    · intro h; cases h
    · intro h; exact absurd h (hne s)

/-- A call that touches no record the context held leaves a transition record as it
is. -/
theorem transitionAt_frame {a b : GraphCompilationContext} (h : Evolves (fun _ => False) a b)
    {p : Nat} {s : TransitionNode.Settings} (hs : a.transitionAt p = some s) :
    b.transitionAt p = some s := by
  rw [transitionAt_iff] at hs ⊢
  rw [h.frame p (List.getElem?_eq_some.mp hs).1 (fun hf => hf), hs]

/-- A call that touches no record the context held leaves a state record as it is. -/
theorem stateAt_frame {a b : GraphCompilationContext} (h : Evolves (fun _ => False) a b)
    {p : Nat} {s : StateNode.Settings} (hs : a.stateAt p = some s) :
    b.stateAt p = some s := by
  rw [stateAt_iff] at hs ⊢
  rw [h.frame p (List.getElem?_eq_some.mp hs).1 (fun hf => hf), hs]

/-- A write through the pointer to a transition record. -/
theorem transitionAt_modify {a : GraphCompilationContext} {p : Nat}
    {s : TransitionNode.Settings} (hs : a.transitionAt p = some s)
    (f : TransitionNode.Settings → TransitionNode.Settings) :
    (a.modifyTransition p f).transitionAt p = some (f s) := by
  rw [transitionAt_iff] at hs ⊢
  unfold GraphCompilationContext.modifyTransition
  simp only [getElem?_modify_same, hs, Option.map_some']

/-- A write through the pointer to a state record. -/
theorem stateAt_modify {a : GraphCompilationContext} {p : Nat}
    {s : StateNode.Settings} (hs : a.stateAt p = some s)
    (f : StateNode.Settings → StateNode.Settings) :
    (a.modifyState p f).stateAt p = some (f s) := by
  rw [stateAt_iff] at hs ⊢
  unfold GraphCompilationContext.modifyState
  simp only [getElem?_modify_same, hs, Option.map_some']

/-- What the block for an optional input does to what is read through the pointer its
store writes to, and to the journal. -/
theorem compileConnectedInput_read {S : Type} {kind : CallKind} {pNode : Option FlowToolsNode}
    {requiredType : Option GraphValueType}
    {store : Int → GraphCompilationContext → GraphCompilationContext} {p : Nat}
    (read : GraphCompilationContext → Option S) (g : Int → S → S)
    (hstore : ∀ idx c, Effect (fun q => q = p) (fun _ => False) c (store idx c))
    (hframe : ∀ a b s, Evolves (fun _ => False) a b → read a = some s → read b = some s)
    (hrecord : ∀ a e, read (a.record e) = read a)
    (hwrite : ∀ idx c s, read c = some s → read (store idx c) = some (g idx s))
    {ctx ctx' : GraphCompilationContext} {ok : Bool} {s : S}
    (h : compileConnectedInput kind pNode requiredType store ctx = some (ok, ctx'))
    (hs : read ctx = some s) :
    (pNode = none ∧ ok = true ∧ ctx' = ctx) ∨
    ∃ n idx, pNode = some n ∧ read ctx' = some (g idx s) ∧
      journal ctx ctx' = [CompileEvent.call kind n.GetID idx] ∧
      (ok = true ↔ idx ≠ InvalidIndex) ∧
      (idx ≠ InvalidIndex → ctx'.settingsIndexOf n.GetID = some idx) := by
  unfold compileConnectedInput at h
  split at h
  · cases h; exact Or.inl ⟨rfl, rfl, rfl⟩
  · rename_i n
    split at h
    · cases h
    · split at h
      · cases h
      · rename_i idx c hc
        have e1 := FlowToolsNode.Compile_effect hc
        have e2 := hstore idx (c.record (.call kind n.GetID idx))
        have hread : read (store idx (c.record (.call kind n.GetID idx))) = some (g idx s) :=
          hwrite idx _ s (by rw [hrecord]; exact hframe _ _ s e1.evolves hs)
        have hreg : idx ≠ InvalidIndex →
            (store idx (c.record (.call kind n.GetID idx))).settingsIndexOf n.GetID =
              some idx := fun hne =>
          settingsIndexOf_mono e2.evolves
            (settingsIndexOf_mono
              (Effect.record (fun _ => False) c (.call kind n.GetID idx) trivial :
                Effect _ (fun _ => True) _ _).evolves
              (FlowToolsNode.Compile_registers hc hne))
        have hj : journal ctx (store idx (c.record (.call kind n.GetID idx))) =
            [CompileEvent.call kind n.GetID idx] := by
          apply journal_of_append
          have h1 := e1.evolves.log
          rw [e1.journal_nil, List.append_nil] at h1
          have h2 := e2.evolves.log
          rw [e2.journal_nil, List.append_nil] at h2
          rw [h2, ← h1]
          rfl
        simp only [] at h
        split at h
        · rename_i hidx
          cases h
          exact Or.inr ⟨n, idx, rfl, hread, hj, by simp [hidx], fun hne => absurd hidx hne⟩
        · rename_i hidx
          cases h
          exact Or.inr ⟨n, idx, rfl, hread, hj, by simp [hidx], hreg⟩

/-- The block for an optional input of `CompileTransition` that completes: the record of
the transition node afterwards. -/
theorem compileConnectedInput_transition {kind : CallKind} {pNode : Option FlowToolsNode}
    {requiredType : Option GraphValueType} {p : Nat}
    (g : Int → TransitionNode.Settings → TransitionNode.Settings)
    (hg : ∀ idx s, (g idx s).m_nodeIdx = s.m_nodeIdx)
    {ctx ctx' : GraphCompilationContext} {ok : Bool} {s : TransitionNode.Settings}
    (h : compileConnectedInput kind pNode requiredType
      (fun idx c => c.modifyTransition p (g idx)) ctx = some (ok, ctx'))
    (hs : ctx.transitionAt p = some s) :
    (pNode = none ∧ ok = true ∧ ctx' = ctx) ∨
    ∃ n idx, pNode = some n ∧ ctx'.transitionAt p = some (g idx s) ∧
      journal ctx ctx' = [CompileEvent.call kind n.GetID idx] ∧
      (ok = true ↔ idx ≠ InvalidIndex) ∧
      (idx ≠ InvalidIndex → ctx'.settingsIndexOf n.GetID = some idx) :=
  compileConnectedInput_read (fun c => c.transitionAt p) g
    (fun idx c => Effect.modifyTransition _ c p (g idx) (hg idx))
    (fun _ _ _ he hr => transitionAt_frame he hr) (fun _ _ => rfl)
    (fun idx _ _ hr => transitionAt_modify hr (g idx)) h hs

/-- The block for an optional input of `CompileState`: the record of the state node
afterwards. -/
theorem compileConnectedInput_state {kind : CallKind} {pNode : Option FlowToolsNode}
    {requiredType : Option GraphValueType} {p : Nat}
    (g : Int → StateNode.Settings → StateNode.Settings)
    (hg : ∀ idx s, (g idx s).m_nodeIdx = s.m_nodeIdx)
    {ctx ctx' : GraphCompilationContext} {ok : Bool} {s : StateNode.Settings}
    (h : compileConnectedInput kind pNode requiredType
      (fun idx c => c.modifyState p (g idx)) ctx = some (ok, ctx'))
    (hs : ctx.stateAt p = some s) :
    (pNode = none ∧ ok = true ∧ ctx' = ctx) ∨
    ∃ n idx, pNode = some n ∧ ctx'.stateAt p = some (g idx s) ∧
      journal ctx ctx' = [CompileEvent.call kind n.GetID idx] ∧
      (ok = true ↔ idx ≠ InvalidIndex) ∧
      (idx ≠ InvalidIndex → ctx'.settingsIndexOf n.GetID = some idx) :=
  compileConnectedInput_read (fun c => c.stateAt p) g
    (fun idx c => Effect.modifyState _ c p (g idx) (hg idx))
    (fun _ _ _ he hr => stateAt_frame he hr) (fun _ _ => rfl)
    (fun idx _ _ hr => stateAt_modify hr (g idx)) h hs

theorem IsFlagSet_SetFlag (f : TransitionNode.BitFlags)
    (a b : TransitionNode.TransitionOptions) (v : Bool) :
    (f.SetFlag a v).IsFlagSet b = if a = b then v else f.IsFlagSet b := by
  cases v <;> cases a <;> cases b <;>
    simp +decide [TransitionNode.BitFlags.SetFlag, TransitionNode.BitFlags.IsFlagSet,
      TransitionNode.TransitionOptions.bit, Nat.testBit_lor, Nat.testBit_land,
      Nat.testBit_xor, Nat.testBit_two_pow]

/-- What a first compile of a transition node that returns an index leaves in the
record of the node. -/
theorem CompileTransition_first {ctx ctx' : GraphCompilationContext}
    {pTransitionNode : TransitionToolsNode} {targetStateNodeIdx r : Int}
    (h : CompileTransition ctx pTransitionNode targetStateNodeIdx = some (r, ctx'))
    (hfresh : ctx.m_nodeIDToIndexMap.lookup pTransitionNode.GetID = none)
    (hr : r ≠ InvalidIndex) :
    r = (ctx.m_nodeSettings.length : Int) ∧
    ∃ s, ctx'.transitionAt ctx.m_nodeSettings.length = some s ∧
      s.m_nodeIdx = r ∧
      s.m_targetStateNodeIdx = targetStateNodeIdx ∧
      s.m_blendWeightEasingType = pTransitionNode.m_blendWeightEasingType ∧
      s.m_rootMotionBlend = pTransitionNode.m_rootMotionBlend ∧
      s.m_duration = pTransitionNode.m_duration ∧
      s.m_syncEventOffset = pTransitionNode.m_syncEventOffset ∧
      (∀ flag, s.m_transitionOptions.IsFlagSet flag = pTransitionNode.authoredOption flag) ∧
      (match pTransitionNode.GetConnectedInputNode 1 with
        | some pDurationOverrideNode =>
          ctx'.settingsIndexOf pDurationOverrideNode.GetID = some s.m_durationOverrideNodeIdx ∧
          s.m_durationOverrideNodeIdx ≠ InvalidIndex
        | none => s.m_durationOverrideNodeIdx = InvalidIndex) ∧
      (match pTransitionNode.GetConnectedInputNode 2 with
        | some pSyncEventOffsetOverrideNode =>
          ctx'.settingsIndexOf pSyncEventOffsetOverrideNode.GetID =
            some s.m_syncEventOffsetOverrideNodeIdx ∧
          s.m_syncEventOffsetOverrideNodeIdx ≠ InvalidIndex
        | none => s.m_syncEventOffsetOverrideNodeIdx = InvalidIndex) := by
  unfold CompileTransition at h
  rw [GetSettings_new _ hfresh] at h
  simp only [reduceCtorEq, if_false] at h
  have hs0 : GraphCompilationContext.transitionAt
      { ctx with
        m_nodeIDToIndexMap :=
          ctx.m_nodeIDToIndexMap ++ [(pTransitionNode.GetID, ctx.m_nodeSettings.length)]
        m_nodeSettings := ctx.m_nodeSettings ++
          [.transition { m_nodeIdx := (ctx.m_nodeSettings.length : Int) }] }
      ctx.m_nodeSettings.length = some { m_nodeIdx := (ctx.m_nodeSettings.length : Int) } := by
    simp [GraphCompilationContext.transitionAt]
  generalize ctx.m_nodeSettings.length = p at h hs0 ⊢
  split at h
  · cases h
  · cases h; exact absurd rfl hr
  · rename_i c1 h1
    split at h
    · cases h
    · cases h; exact absurd rfl hr
    · rename_i c2 h2
      split at h
      · cases h
      · rename_i idx hn
        simp only [Option.some.injEq, Prod.mk.injEq] at h
        obtain ⟨hidx, hctx⟩ := h
        subst hidx
        have m : ∀ (a : GraphCompilationContext)
            (f : TransitionNode.Settings → TransitionNode.Settings),
            (∀ s, (f s).m_nodeIdx = s.m_nodeIdx) →
            Effect (fun q => q = p) (fun e => e.isNested = true) a (a.modifyTransition p f) :=
          fun a f hf => Effect.modifyTransition _ a p f hf
        have m0 : ∀ (f : Int → TransitionNode.Settings → TransitionNode.Settings),
            (∀ i s, (f i s).m_nodeIdx = s.m_nodeIdx) → ∀ (idx : Int)
            (a : GraphCompilationContext),
            Effect (fun q => q = p) (fun _ => False) a (a.modifyTransition p (f idx)) :=
          fun f hf idx a => Effect.modifyTransition _ a p (f idx) (hf idx)
        have e12 := (compileConnectedInput_nested .syncEventOffsetOverride (by intros; rfl)
          (m0 (fun idx s => { s with m_syncEventOffsetOverrideNodeIdx := idx })
            (fun _ _ => rfl)) h2).evolves
        have e2f : Evolves (fun q => q = p) c2 ctx' := by
          rw [← hctx]
          exact ((((((m c2 _ (by intro _; rfl)).step (m _ _ (by intro _; rfl))).step
            (m _ _ (by intro _; rfl))).step (m _ _ (by intro _; rfl))).step
            (m _ _ (by intro _; rfl))).step (m _ _ (by intro _; rfl))).evolves
        have e1f := e12.andThen e2f (fun _ _ hq => hq)
        have fin : ∀ s2, c2.transitionAt p = some s2 → s2.m_nodeIdx = (p : Int) →
            idx = (p : Int) ∧ ∃ s, ctx'.transitionAt p = some s ∧ s.m_nodeIdx = idx ∧
              s.m_targetStateNodeIdx = targetStateNodeIdx ∧
              s.m_blendWeightEasingType = pTransitionNode.m_blendWeightEasingType ∧
              s.m_rootMotionBlend = pTransitionNode.m_rootMotionBlend ∧
              s.m_duration = pTransitionNode.m_duration ∧
              s.m_syncEventOffset = pTransitionNode.m_syncEventOffset ∧
              (∀ flag, s.m_transitionOptions.IsFlagSet flag =
                pTransitionNode.authoredOption flag) ∧
              s.m_durationOverrideNodeIdx = s2.m_durationOverrideNodeIdx ∧
              s.m_syncEventOffsetOverrideNodeIdx = s2.m_syncEventOffsetOverrideNodeIdx := by
          intro s2 hs2 hp2
          have key : ∃ s, ctx'.transitionAt p = some s ∧ s.m_nodeIdx = s2.m_nodeIdx ∧
              s.m_targetStateNodeIdx = targetStateNodeIdx ∧
              s.m_blendWeightEasingType = pTransitionNode.m_blendWeightEasingType ∧
              s.m_rootMotionBlend = pTransitionNode.m_rootMotionBlend ∧
              s.m_duration = pTransitionNode.m_duration ∧
              s.m_syncEventOffset = pTransitionNode.m_syncEventOffset ∧
              (∀ flag, s.m_transitionOptions.IsFlagSet flag =
                pTransitionNode.authoredOption flag) ∧
              s.m_durationOverrideNodeIdx = s2.m_durationOverrideNodeIdx ∧
              s.m_syncEventOffsetOverrideNodeIdx = s2.m_syncEventOffsetOverrideNodeIdx := by
            refine ⟨?w, ?h1, ?h2⟩
            case h1 =>
              rw [← hctx]
              exact transitionAt_modify (transitionAt_modify (transitionAt_modify
                (transitionAt_modify (transitionAt_modify (transitionAt_modify hs2 _) _) _)
                _) _) _
            case h2 =>
              refine ⟨rfl, rfl, rfl, rfl, rfl, rfl, ?_, rfl, rfl⟩
              intro flag
              cases flag <;>
                simp [IsFlagSet_SetFlag, TransitionToolsNode.authoredOption]
          obtain ⟨s, hfinal, k1, krest⟩ := key
          rw [hctx] at hn
          have hidx : idx = (p : Int) := by
            have h3 := transitionAt_iff.mp hfinal
            simp only [GraphCompilationContext.nodeIdxAt, h3, Option.map_some',
              NodeSettings.m_nodeIdx, Option.some.injEq] at hn
            rw [← hn, k1, hp2]
          exact ⟨hidx, s, hfinal, by rw [hidx, k1, hp2], krest⟩
        rcases compileConnectedInput_transition
            (fun idx s => { s with m_durationOverrideNodeIdx := idx }) (fun _ _ => rfl) h1 hs0 with
          ⟨hn1, -, rfl⟩ | ⟨n1, i1, hn1, hs1, -, hok1, hreg1⟩
        · rcases compileConnectedInput_transition
              (fun idx s => { s with m_syncEventOffsetOverrideNodeIdx := idx })
              (fun _ _ => rfl) h2 hs0 with
            ⟨hn2, -, rfl⟩ | ⟨n2, i2, hn2, hs2, -, hok2, hreg2⟩
          · obtain ⟨hidx, s, hs, k1, k2, k3, k4, k5, k6, k7, k8, k9⟩ := fin _ hs0 rfl
            refine ⟨hidx, s, hs, k1, k2, k3, k4, k5, k6, k7, ?_, ?_⟩
            · rw [hn1]; exact k8
            · rw [hn2]; exact k9
          · obtain ⟨hidx, s, hs, k1, k2, k3, k4, k5, k6, k7, k8, k9⟩ := fin _ hs2 rfl
            refine ⟨hidx, s, hs, k1, k2, k3, k4, k5, k6, k7, ?_, ?_⟩
            · rw [hn1]; exact k8
            · rw [hn2]
              simp only
              rw [k9]
              exact ⟨settingsIndexOf_mono e2f (hreg2 (hok2.mp rfl)), hok2.mp rfl⟩
        · rcases compileConnectedInput_transition
              (fun idx s => { s with m_syncEventOffsetOverrideNodeIdx := idx })
              (fun _ _ => rfl) h2 hs1 with
            ⟨hn2, -, rfl⟩ | ⟨n2, i2, hn2, hs2, -, hok2, hreg2⟩
          · obtain ⟨hidx, s, hs, k1, k2, k3, k4, k5, k6, k7, k8, k9⟩ := fin _ hs1 rfl
            refine ⟨hidx, s, hs, k1, k2, k3, k4, k5, k6, k7, ?_, ?_⟩
            · rw [hn1]
              simp only
              rw [k8]
              exact ⟨settingsIndexOf_mono e1f (hreg1 (hok1.mp rfl)), hok1.mp rfl⟩
            · rw [hn2]; exact k9
          · obtain ⟨hidx, s, hs, k1, k2, k3, k4, k5, k6, k7, k8, k9⟩ := fin _ hs2 rfl
            refine ⟨hidx, s, hs, k1, k2, k3, k4, k5, k6, k7, ?_, ?_⟩
            · rw [hn1]
              simp only
              rw [k8]
              exact ⟨settingsIndexOf_mono e1f (hreg1 (hok1.mp rfl)), hok1.mp rfl⟩
            · rw [hn2]
              simp only
              rw [k9]
              exact ⟨settingsIndexOf_mono e2f (hreg2 (hok2.mp rfl)), hok2.mp rfl⟩

/-- A call of `CompileTransition` on a node that has a record returns the index of the
record and leaves the context as it is. -/
theorem CompileTransition_found {ctx : GraphCompilationContext}
    {pTransitionNode : TransitionToolsNode} (targetStateNodeIdx : Int) {p : Nat} {idx : Int}
    (hp : ctx.m_nodeIDToIndexMap.lookup pTransitionNode.GetID = some p)
    (hidx : ctx.nodeIdxAt p = some idx) :
    CompileTransition ctx pTransitionNode targetStateNodeIdx = some (idx, ctx) := by
  unfold CompileTransition
  rw [GetSettings_found _ hp]
  simp [hidx]

/-- C24. A first compile of a transition node that returns an index (no connected
override input compiled to `InvalidIndex`) leaves in the node's record, which is
registered under the returned index: the given target state node index, the authored
easing type, root motion blend mode, duration and sync event offset, and each of the five
option flags set exactly when the authored boolean that goes with it is true. -/
theorem first_transition_compile_copies_parameters_and_options
    {ctx ctx' : GraphCompilationContext} {pTransitionNode : TransitionToolsNode}
    {targetStateNodeIdx r : Int}
    (h : CompileTransition ctx pTransitionNode targetStateNodeIdx = some (r, ctx'))
    (hfresh : ctx.m_nodeIDToIndexMap.lookup pTransitionNode.GetID = none)
    (hr : r ≠ InvalidIndex) :
    ∃ s, ctx'.transitionAt ctx.m_nodeSettings.length = some s ∧
      ctx'.settingsIndexOf pTransitionNode.GetID = some r ∧
      s.m_nodeIdx = r ∧
      s.m_targetStateNodeIdx = targetStateNodeIdx ∧
      s.m_blendWeightEasingType = pTransitionNode.m_blendWeightEasingType ∧
      s.m_rootMotionBlend = pTransitionNode.m_rootMotionBlend ∧
      s.m_duration = pTransitionNode.m_duration ∧
      s.m_syncEventOffset = pTransitionNode.m_syncEventOffset ∧
      (s.m_transitionOptions.IsFlagSet .Synchronized = true ↔
        pTransitionNode.m_isSynchronized = true) ∧
      (s.m_transitionOptions.IsFlagSet .ClampDuration = true ↔
        pTransitionNode.m_clampDurationToSource = true) ∧
      (s.m_transitionOptions.IsFlagSet .KeepSyncEventIndex = true ↔
        pTransitionNode.m_keepSourceSyncEventIdx = true) ∧
      (s.m_transitionOptions.IsFlagSet .KeepSyncEventPercentage = true ↔
        pTransitionNode.m_keepSourceSyncEventPercentageThrough = true) ∧
      (s.m_transitionOptions.IsFlagSet .ForcedTransitionAllowed = true ↔
        pTransitionNode.m_canBeForced = true) := by
  obtain ⟨-, s, hs, k1, k2, k3, k4, k5, k6, k7, -, -⟩ := CompileTransition_first h hfresh hr
  refine ⟨s, hs, CompileTransition_registers h hr, k1, k2, k3, k4, k5, k6, ?_, ?_, ?_, ?_, ?_⟩
  · rw [k7 .Synchronized]; rfl
  · rw [k7 .ClampDuration]; rfl
  · rw [k7 .KeepSyncEventIndex]; rfl
  · rw [k7 .KeepSyncEventPercentage]; rfl
  · rw [k7 .ForcedTransitionAllowed]; rfl

/-- C24, at the transition whose two override pins are connected, with the duration set
and the options "synchronized" and "can be forced" on: the record holds the target state
node index 7 it was compiled with, the authored duration, and exactly the flags
Synchronized and ForcedTransitionAllowed. -/
theorem unconditionalTransition_settings :
    CompileTransition {} unconditionalTransition 7 =
      some (0, transitionContext {} unconditionalTransition 7) ∧
    (({} : GraphCompilationContext).m_nodeIDToIndexMap.lookup unconditionalTransition.GetID =
      none) ∧
    (0 : Int) ≠ InvalidIndex ∧
    ((transitionContext {} unconditionalTransition 7).transitionAt 0).map (fun s =>
      (s.m_targetStateNodeIdx, s.m_duration, s.m_durationOverrideNodeIdx,
        s.m_syncEventOffsetOverrideNodeIdx,
        [TransitionNode.TransitionOptions.Synchronized, .ClampDuration, .KeepSyncEventIndex,
          .KeepSyncEventPercentage, .ForcedTransitionAllowed].map
          s.m_transitionOptions.IsFlagSet)) =
      some (7, ⟨1056964608⟩, 1, 2, [true, false, false, false, true]) ∧
    ∃ s, (transitionContext {} unconditionalTransition 7).transitionAt
        ({} : GraphCompilationContext).m_nodeSettings.length = some s ∧
      (transitionContext {} unconditionalTransition 7).settingsIndexOf
        unconditionalTransition.GetID = some 0 ∧
      s.m_nodeIdx = 0 ∧
      s.m_targetStateNodeIdx = 7 ∧
      s.m_blendWeightEasingType = unconditionalTransition.m_blendWeightEasingType ∧
      s.m_rootMotionBlend = unconditionalTransition.m_rootMotionBlend ∧
      s.m_duration = unconditionalTransition.m_duration ∧
      s.m_syncEventOffset = unconditionalTransition.m_syncEventOffset ∧
      (s.m_transitionOptions.IsFlagSet .Synchronized = true ↔
        unconditionalTransition.m_isSynchronized = true) ∧
      (s.m_transitionOptions.IsFlagSet .ClampDuration = true ↔
        unconditionalTransition.m_clampDurationToSource = true) ∧
      (s.m_transitionOptions.IsFlagSet .KeepSyncEventIndex = true ↔
        unconditionalTransition.m_keepSourceSyncEventIdx = true) ∧
      (s.m_transitionOptions.IsFlagSet .KeepSyncEventPercentage = true ↔
        unconditionalTransition.m_keepSourceSyncEventPercentageThrough = true) ∧
      (s.m_transitionOptions.IsFlagSet .ForcedTransitionAllowed = true ↔
        unconditionalTransition.m_canBeForced = true) :=
  ⟨by decide, rfl, by decide, by decide,
    first_transition_compile_copies_parameters_and_options
      (show CompileTransition {} unconditionalTransition 7 =
        some (0, transitionContext {} unconditionalTransition 7) by decide) rfl (by decide)⟩

/-- C23. `CompileTransition` is memoized by the ID of the transition node. A call on a
node that has a record returns the index of the record and leaves the context as it is.
So after a first compile of a node that returned an index, with the target state node
index `targetStateNodeIdx`, the record holds that target, and every later call, in any
context the compilation has moved on to and with any target, returns the same index and
changes nothing. In the record of a state machine that compiled, all transition entries
of one transition node, whatever state they belong to, carry the same
`m_transitionNodeIdx`, the index registered for the node. -/
theorem compile_transition_is_memoized {ctx ctx' : GraphCompilationContext}
    {pTransitionNode : TransitionToolsNode} {targetStateNodeIdx r : Int}
    (h : CompileTransition ctx pTransitionNode targetStateNodeIdx = some (r, ctx'))
    (hfresh : ctx.m_nodeIDToIndexMap.lookup pTransitionNode.GetID = none)
    (hr : r ≠ InvalidIndex) :
    (∀ (c : GraphCompilationContext) (other : Int) (p : Nat) (idx : Int),
      c.m_nodeIDToIndexMap.lookup pTransitionNode.GetID = some p → c.nodeIdxAt p = some idx →
      CompileTransition c pTransitionNode other = some (idx, c)) ∧
    (∃ s, ctx'.transitionAt ctx.m_nodeSettings.length = some s ∧
      s.m_targetStateNodeIdx = targetStateNodeIdx ∧
      ∀ (P : Nat → Prop) (later : GraphCompilationContext) (other : Int),
        Evolves P ctx' later →
        CompileTransition later pTransitionNode other = some (r, later)) ∧
    ∀ (sm : StateMachineToolsNode) (c c' : GraphCompilationContext) (index : Int),
      sm.Compile c = some (index, c') → c.m_nodeIDToIndexMap.lookup sm.GetID = none →
      index ≠ InvalidIndex →
      ∃ s, c'.stateMachineAt c.m_nodeSettings.length = some s ∧
        ∀ (i j i' j' : Nat) (pStateNode pStateNode' : ToolsState) (t t' : EmittedTransition),
          sm.GetChildGraph.stateNodes[i]? = some pStateNode →
          (sm.emittedFor pStateNode)[j]? = some t →
          sm.GetChildGraph.stateNodes[i']? = some pStateNode' →
          (sm.emittedFor pStateNode')[j']? = some t' →
          t.pTransitionNode.GetID = t'.pTransitionNode.GetID →
          ∃ entry entry' transition transition',
            s.m_stateSettings[i]? = some entry ∧
            entry.m_transitionSettings[j]? = some transition ∧
            s.m_stateSettings[i']? = some entry' ∧
            entry'.m_transitionSettings[j']? = some transition' ∧
            transition.m_transitionNodeIdx = transition'.m_transitionNodeIdx ∧
            transition.m_transitionNodeIdx = c'.indexOf t.pTransitionNode.GetID := by
  refine ⟨fun c other p idx hp hidx => CompileTransition_found other hp hidx, ?_, ?_⟩
  · obtain ⟨-, s, hs, -, k2, -⟩ := CompileTransition_first h hfresh hr
    refine ⟨s, hs, k2, ?_⟩
    intro P later other hev
    have hreg := settingsIndexOf_mono hev (CompileTransition_registers h hr)
    unfold GraphCompilationContext.settingsIndexOf at hreg
    cases hl : later.m_nodeIDToIndexMap.lookup pTransitionNode.GetID with
    | none => simp [hl] at hreg
    | some p =>
      simp only [hl] at hreg
      exact CompileTransition_found other hl hreg
  · intro sm c c' index hc hcf hi
    obtain ⟨-, -, hrec⟩ := Compile_record hc hcf hi
    refine ⟨_, hrec, ?_⟩
    intro i j i' j' st st' t t' hst ht hst' ht' hid
    refine ⟨sm.stateSettingsOf c' st, sm.stateSettingsOf c' st', sm.transitionSettingsOf c' t,
      sm.transitionSettingsOf c' t', by simp [StateMachineToolsNode.settingsOf, hst],
      by simp [StateMachineToolsNode.stateSettingsOf, ht],
      by simp [StateMachineToolsNode.settingsOf, hst'],
      by simp [StateMachineToolsNode.stateSettingsOf, ht'], ?_, rfl⟩
    simp [StateMachineToolsNode.transitionSettingsOf, hid]

/-- C23, at the transition 20 compiled first with the target state node index 5 and then
again with 9: the second call returns the same index 0 and the same context, whose
record still holds the target 5; and at the scenario, where the global transition to
Jump is emitted from Idle and from Run: both entries carry the transition node index
9. -/
theorem transition_compiled_twice_keeps_first_target :
    CompileTransition {} (transitionWith 20 (boolNode 100)) 5 =
      some (0, transitionContext {} (transitionWith 20 (boolNode 100)) 5) ∧
    (({} : GraphCompilationContext).m_nodeIDToIndexMap.lookup
      (transitionWith 20 (boolNode 100)).GetID = none) ∧
    (0 : Int) ≠ InvalidIndex ∧
    CompileTransition (transitionContext {} (transitionWith 20 (boolNode 100)) 5)
        (transitionWith 20 (boolNode 100)) 9 =
      some (0, transitionContext {} (transitionWith 20 (boolNode 100)) 5) ∧
    ((transitionContext {} (transitionWith 20 (boolNode 100)) 5).transitionAt 0).map
      (fun s => s.m_targetStateNodeIdx) = some 5 ∧
    transitionNodesAt (compiledContext idleRunJump) 0 = some [[7, 9], [9], []] ∧
    ((∀ (c : GraphCompilationContext) (other : Int) (p : Nat) (idx : Int),
      c.m_nodeIDToIndexMap.lookup (transitionWith 20 (boolNode 100)).GetID = some p →
      c.nodeIdxAt p = some idx →
      CompileTransition c (transitionWith 20 (boolNode 100)) other = some (idx, c)) ∧
    (∃ s, (transitionContext {} (transitionWith 20 (boolNode 100)) 5).transitionAt
        ({} : GraphCompilationContext).m_nodeSettings.length = some s ∧
      s.m_targetStateNodeIdx = 5 ∧
      ∀ (P : Nat → Prop) (later : GraphCompilationContext) (other : Int),
        Evolves P (transitionContext {} (transitionWith 20 (boolNode 100)) 5) later →
        CompileTransition later (transitionWith 20 (boolNode 100)) other =
          some (0, later)) ∧
    ∀ (sm : StateMachineToolsNode) (c c' : GraphCompilationContext) (index : Int),
      sm.Compile c = some (index, c') → c.m_nodeIDToIndexMap.lookup sm.GetID = none →
      index ≠ InvalidIndex →
      ∃ s, c'.stateMachineAt c.m_nodeSettings.length = some s ∧
        ∀ (i j i' j' : Nat) (pStateNode pStateNode' : ToolsState) (t t' : EmittedTransition),
          sm.GetChildGraph.stateNodes[i]? = some pStateNode →
          (sm.emittedFor pStateNode)[j]? = some t →
          sm.GetChildGraph.stateNodes[i']? = some pStateNode' →
          (sm.emittedFor pStateNode')[j']? = some t' →
          t.pTransitionNode.GetID = t'.pTransitionNode.GetID →
          ∃ entry entry' transition transition',
            s.m_stateSettings[i]? = some entry ∧
            entry.m_transitionSettings[j]? = some transition ∧
            s.m_stateSettings[i']? = some entry' ∧
            entry'.m_transitionSettings[j']? = some transition' ∧
            transition.m_transitionNodeIdx = transition'.m_transitionNodeIdx ∧
            transition.m_transitionNodeIdx = c'.indexOf t.pTransitionNode.GetID) :=
  ⟨by decide!, rfl, by decide, by decide!, by decide!, by decide!,
    compile_transition_is_memoized
      (show CompileTransition {} (transitionWith 20 (boolNode 100)) 5 =
        some (0, transitionContext {} (transitionWith 20 (boolNode 100)) 5) by decide!)
      rfl (by decide)⟩

/-- The block for an optional input of `CompileState`, stated alike for a connected and
an unconnected input: `v` is the value of the index field afterwards. -/
theorem compileConnectedInput_state_field {kind : CallKind} {pNode : Option FlowToolsNode}
    {requiredType : Option GraphValueType} {p : Nat}
    (g : Int → StateNode.Settings → StateNode.Settings) (field : StateNode.Settings → Int)
    (hg : ∀ idx s, (g idx s).m_nodeIdx = s.m_nodeIdx)
    (hsame : ∀ s, g (field s) s = s)
    {ctx ctx' : GraphCompilationContext} {ok : Bool} {s : StateNode.Settings}
    (h : compileConnectedInput kind pNode requiredType
      (fun idx c => c.modifyState p (g idx)) ctx = some (ok, ctx'))
    (hs : ctx.stateAt p = some s) (hdefault : field s = InvalidIndex) :
    ∃ v, ctx'.stateAt p = some (g v s) ∧
      ctx'.m_log = ctx.m_log ++ inputCall kind pNode v ∧
      ok = !inputFailed pNode v ∧
      Evolves (fun q => q = p) ctx ctx' ∧
      (pNode = none → v = InvalidIndex) ∧
      ∀ n, pNode = some n → v ≠ InvalidIndex → ctx'.settingsIndexOf n.GetID = some v := by
  have hE := (compileConnectedInput_spec
    (fun idx c => Effect.modifyState (fun _ => False) c p (g idx) (hg idx)) h).1.evolves
  rcases compileConnectedInput_state g hg h hs with
    ⟨hn, hok, rfl⟩ | ⟨n, idx, hn, hs', hj, hok, hreg⟩
  · subst hn
    subst hok
    refine ⟨InvalidIndex, ?_, by simp [inputCall], by simp [inputFailed], hE, fun _ => rfl,
      fun n hn => by cases hn⟩
    rw [← hdefault, hsame]
    exact hs
  · subst hn
    refine ⟨idx, hs', ?_, ?_, hE, (fun hn => by cases hn), ?_⟩
    · have := hE.log
      rw [hj] at this
      exact this
    · cases ok
      · have : idx = InvalidIndex := by
          by_contra hne
          exact Bool.noConfusion (hok.mpr hne)
        simp [inputFailed, this]
      · simp [inputFailed, hok.mp rfl]
    · intro n' hn' hne
      cases hn'
      exact hreg hne

/-- What a call of `CompileState` that returns leaves in the record of the state node
and in the journal. -/
theorem CompileState_record {ctx ctx' : GraphCompilationContext} {pBaseStateNode : ToolsState}
    {r : Int} (h : CompileState ctx pBaseStateNode = some (r, ctx')) :
    ∃ s, ctx'.stateAt ctx.m_nodeSettings.length = some s ∧
      s.m_nodeIdx = (ctx.m_nodeSettings.length : Int) ∧
      s.m_entryEvents = pBaseStateNode.m_entryEvents ∧
      s.m_executeEvents = pBaseStateNode.m_executeEvents ∧
      s.m_exitEvents = pBaseStateNode.m_exitEvents ∧
      (pBaseStateNode.TryCastBlendTreeState = none →
        r = (ctx.m_nodeSettings.length : Int) ∧ s.m_isOffState = true ∧
        s.m_childNodeIdx = InvalidIndex ∧ s.m_layerWeightNodeIdx = InvalidIndex ∧
        s.m_layerBoneMaskNodeIdx = InvalidIndex ∧
        s.m_timedRemainingEvents = [] ∧ s.m_timedElapsedEvents = [] ∧
        ctx'.m_log = ctx.m_log) ∧
      ∀ pBlendTreeStateNode,
        pBaseStateNode.TryCastBlendTreeState = some pBlendTreeStateNode →
        ∃ pBlendTreeRoot, pBlendTreeStateNode.GetBlendTreeRootNode = some pBlendTreeRoot ∧
          s.m_isOffState = false ∧
          (r = InvalidIndex ∨ r = (ctx.m_nodeSettings.length : Int)) ∧
          (r = InvalidIndex →
            s.m_timedRemainingEvents = [] ∧ s.m_timedElapsedEvents = []) ∧
          (r ≠ InvalidIndex →
            s.m_timedRemainingEvents = pBlendTreeStateNode.m_timeRemainingEvents.map
              (fun evt => ⟨evt.m_ID, evt.m_timeValue⟩) ∧
            s.m_timedElapsedEvents = pBlendTreeStateNode.m_timeElapsedEvents.map
              (fun evt => ⟨evt.m_ID, evt.m_timeValue⟩) ∧
            ∃ pLayerData, pBlendTreeStateNode.GetLayerDataNode = some pLayerData) ∧
          ∀ pLayerData, pBlendTreeStateNode.GetLayerDataNode = some pLayerData →
            ctx'.m_log = ctx.m_log ++
              stateInputCalls (pBlendTreeRoot.GetConnectedInputNode 0)
                (pLayerData.GetConnectedInputNode 0) (pLayerData.GetConnectedInputNode 1)
                s.m_childNodeIdx s.m_layerWeightNodeIdx s.m_layerBoneMaskNodeIdx ∧
            (r = InvalidIndex ↔
              (inputFailed (pBlendTreeRoot.GetConnectedInputNode 0) s.m_childNodeIdx ||
                inputFailed (pLayerData.GetConnectedInputNode 0) s.m_layerWeightNodeIdx ||
                inputFailed (pLayerData.GetConnectedInputNode 1)
                  s.m_layerBoneMaskNodeIdx) = true) ∧
            (pBlendTreeRoot.GetConnectedInputNode 0 = none →
              s.m_childNodeIdx = InvalidIndex) ∧
            (pLayerData.GetConnectedInputNode 0 = none →
              s.m_layerWeightNodeIdx = InvalidIndex) ∧
            (pLayerData.GetConnectedInputNode 1 = none →
              s.m_layerBoneMaskNodeIdx = InvalidIndex) ∧
            (∀ n, pBlendTreeRoot.GetConnectedInputNode 0 = some n →
              s.m_childNodeIdx ≠ InvalidIndex →
              ctx'.settingsIndexOf n.GetID = some s.m_childNodeIdx) ∧
            (∀ n, pLayerData.GetConnectedInputNode 0 = some n →
              s.m_layerWeightNodeIdx ≠ InvalidIndex →
              ctx'.settingsIndexOf n.GetID = some s.m_layerWeightNodeIdx) ∧
            ∀ n, pLayerData.GetConnectedInputNode 1 = some n →
              s.m_layerBoneMaskNodeIdx ≠ InvalidIndex →
              ctx'.settingsIndexOf n.GetID = some s.m_layerBoneMaskNodeIdx := by
  have hfresh := (CompileState_spec h).1
  unfold CompileState at h
  rw [GetSettings_new _ hfresh] at h
  simp only [EE_ASSERT, decide_True, if_true] at h
  have hs0 : GraphCompilationContext.stateAt
      { ctx with
        m_nodeIDToIndexMap :=
          ctx.m_nodeIDToIndexMap ++ [(pBaseStateNode.GetID, ctx.m_nodeSettings.length)]
        m_nodeSettings := ctx.m_nodeSettings ++
          [.state { m_nodeIdx := (ctx.m_nodeSettings.length : Int) }] }
      ctx.m_nodeSettings.length = some { m_nodeIdx := (ctx.m_nodeSettings.length : Int) } := by
    simp [GraphCompilationContext.stateAt]
  have hpos : (ctx.m_nodeSettings.length : Int) ≠ InvalidIndex := by
    simp only [InvalidIndex, ne_eq]; omega
  generalize ctx.m_nodeSettings.length = p at h hs0 hpos ⊢
  have hsE : GraphCompilationContext.stateAt _ p = some
      { m_nodeIdx := (p : Int), m_entryEvents := pBaseStateNode.m_entryEvents
        m_executeEvents := pBaseStateNode.m_executeEvents
        m_exitEvents := pBaseStateNode.m_exitEvents } :=
    stateAt_modify (stateAt_modify (stateAt_modify hs0
      (fun s => { s with m_entryEvents := s.m_entryEvents ++ pBaseStateNode.m_entryEvents }))
      (fun s => { s with
        m_executeEvents := s.m_executeEvents ++ pBaseStateNode.m_executeEvents }))
      (fun s => { s with m_exitEvents := s.m_exitEvents ++ pBaseStateNode.m_exitEvents })
  have hnot : ∀ {pNode : Option FlowToolsNode} {v : Int},
      true = !inputFailed pNode v → inputFailed pNode v = false := by
    intro pNode v hv
    cases hf : inputFailed pNode v
    · rfl
    · rw [hf] at hv; cases hv
  have hyes : ∀ {pNode : Option FlowToolsNode} {v : Int},
      false = !inputFailed pNode v → inputFailed pNode v = true := by
    intro pNode v hv
    cases hf : inputFailed pNode v
    · rw [hf] at hv; cases hv
    · rfl
  split at h
  · rename_i pBlendTreeStateNode hbt
    split at h
    · cases h
    · rename_i pBlendTreeRoot hroot
      split at h
      · cases h
      · -- the blend tree node compiled to InvalidIndex
        rename_i c1 h1
        simp only [Option.some.injEq, Prod.mk.injEq] at h
        obtain ⟨hr, hctx⟩ := h
        subst hr
        subst hctx
        obtain ⟨v0, hs1, hlog1, hok1, -, hnone1, -⟩ := compileConnectedInput_state_field
          (fun idx s => { s with m_childNodeIdx := idx }) (fun s => s.m_childNodeIdx)
          (fun _ _ => rfl) (fun _ => rfl) h1 hsE rfl
        refine ⟨_, hs1, rfl, by simp, by simp, by simp,
          (fun hoff => by rw [hbt] at hoff; cases hoff), ?_⟩
        intro bt hbt'
        rw [hbt] at hbt'
        cases hbt'
        refine ⟨pBlendTreeRoot, hroot, rfl, Or.inl rfl, (fun _ => ⟨rfl, rfl⟩),
          (fun hne => absurd rfl hne), ?_⟩
        intro pLayerData _
        refine ⟨?_, ?_, hnone1, (fun _ => rfl), (fun _ => rfl),
          (fun n _ hne => absurd (by
            have := hyes hok1
            simp only [inputFailed, Bool.and_eq_true, decide_eq_true_eq] at this
            exact this.2) hne),
          (fun n _ hne => absurd rfl hne), (fun n _ hne => absurd rfl hne)⟩
        · simp only [stateInputCalls, hyes hok1, if_true, List.append_nil]
          exact hlog1
        · simp [hyes hok1]
      · rename_i c1 h1
        obtain ⟨v0, hs1, hlog1, hok1, -, hnone1, hreg1⟩ := compileConnectedInput_state_field
          (fun idx s => { s with m_childNodeIdx := idx }) (fun s => s.m_childNodeIdx)
          (fun _ _ => rfl) (fun _ => rfl) h1 hsE rfl
        split at h
        · cases h
        · rename_i pLayerData hlayer
          split at h
          · cases h
          · -- the layer weight node compiled to InvalidIndex
            rename_i c2 h2
            simp only [Option.some.injEq, Prod.mk.injEq] at h
            obtain ⟨hr, hctx⟩ := h
            subst hr
            subst hctx
            obtain ⟨v1, hs2, hlog2, hok2, e2, hnone2, -⟩ := compileConnectedInput_state_field
              (fun idx s => { s with m_layerWeightNodeIdx := idx })
              (fun s => s.m_layerWeightNodeIdx) (fun _ _ => rfl) (fun _ => rfl) h2 hs1 rfl
            refine ⟨_, hs2, rfl, by simp, by simp, by simp,
              (fun hoff => by rw [hbt] at hoff; cases hoff), ?_⟩
            intro bt hbt'
            rw [hbt] at hbt'
            cases hbt'
            refine ⟨pBlendTreeRoot, hroot, rfl, Or.inl rfl, (fun _ => ⟨rfl, rfl⟩),
              (fun hne => absurd rfl hne), ?_⟩
            intro pLayerData' hlayer'
            rw [hlayer] at hlayer'
            cases hlayer'
            refine ⟨?_, ?_, hnone1, hnone2, (fun _ => rfl),
              (fun n hn hne => settingsIndexOf_mono e2 (hreg1 n hn hne)),
              (fun n _ hne => absurd (by
                have := hyes hok2
                simp only [inputFailed, Bool.and_eq_true, decide_eq_true_eq] at this
                exact this.2) hne),
              (fun n _ hne => absurd rfl hne)⟩
            · simp only [stateInputCalls, hnot hok1, hyes hok2, if_true, List.append_nil,
                Bool.false_eq_true, if_false]
              rw [hlog2, hlog1, List.append_assoc]
              rfl
            · simp [hyes hok2]
          · rename_i c2 h2
            obtain ⟨v1, hs2, hlog2, hok2, e2, hnone2, hreg2⟩ :=
              compileConnectedInput_state_field
                (fun idx s => { s with m_layerWeightNodeIdx := idx })
                (fun s => s.m_layerWeightNodeIdx) (fun _ _ => rfl) (fun _ => rfl) h2 hs1 rfl
            split at h
            · cases h
            · -- the layer mask node compiled to InvalidIndex
              rename_i c3 h3
              simp only [Option.some.injEq, Prod.mk.injEq] at h
              obtain ⟨hr, hctx⟩ := h
              subst hr
              subst hctx
              obtain ⟨v2, hs3, hlog3, hok3, e3, hnone3, -⟩ :=
                compileConnectedInput_state_field
                  (fun idx s => { s with m_layerBoneMaskNodeIdx := idx })
                  (fun s => s.m_layerBoneMaskNodeIdx) (fun _ _ => rfl) (fun _ => rfl) h3 hs2
                  rfl
              refine ⟨_, hs3, rfl, by simp, by simp, by simp,
                (fun hoff => by rw [hbt] at hoff; cases hoff), ?_⟩
              intro bt hbt'
              rw [hbt] at hbt'
              cases hbt'
              refine ⟨pBlendTreeRoot, hroot, rfl, Or.inl rfl, (fun _ => ⟨rfl, rfl⟩),
                (fun hne => absurd rfl hne), ?_⟩
              intro pLayerData' hlayer'
              rw [hlayer] at hlayer'
              cases hlayer'
              refine ⟨?_, ?_, hnone1, hnone2, hnone3,
                (fun n hn hne => settingsIndexOf_mono e3
                  (settingsIndexOf_mono e2 (hreg1 n hn hne))),
                (fun n hn hne => settingsIndexOf_mono e3 (hreg2 n hn hne)),
                (fun n _ hne => absurd (by
                  have := hyes hok3
                  simp only [inputFailed, Bool.and_eq_true, decide_eq_true_eq] at this
                  exact this.2) hne)⟩
              · simp only [stateInputCalls, hnot hok1, hnot hok2, Bool.false_eq_true, if_false]
                rw [hlog3, hlog2, hlog1, List.append_assoc, List.append_assoc]
                rfl
              · simp [hyes hok3]
            · rename_i c3 h3
              obtain ⟨v2, hs3, hlog3, hok3, e3, hnone3, hreg3⟩ :=
                compileConnectedInput_state_field
                  (fun idx s => { s with m_layerBoneMaskNodeIdx := idx })
                  (fun s => s.m_layerBoneMaskNodeIdx) (fun _ _ => rfl) (fun _ => rfl) h3 hs2
                  rfl
              have hsF := stateAt_modify (stateAt_modify hs3
                (fun s => { s with
                  m_timedRemainingEvents := (s.m_timedRemainingEvents ++
                    pBlendTreeStateNode.m_timeRemainingEvents.map
                      (fun evt => ⟨evt.m_ID, evt.m_timeValue⟩)) }))
                (fun s => { s with
                  m_timedElapsedEvents := (s.m_timedElapsedEvents ++
                    pBlendTreeStateNode.m_timeElapsedEvents.map
                      (fun evt => ⟨evt.m_ID, evt.m_timeValue⟩)) })
              have eF := ((Effect.modifyState (fun _ => False) c3 p
                (fun s => { s with
                  m_timedRemainingEvents := (s.m_timedRemainingEvents ++
                    pBlendTreeStateNode.m_timeRemainingEvents.map
                      (fun evt => ⟨evt.m_ID, evt.m_timeValue⟩)) }) (fun _ => rfl)).step
                (Effect.modifyState (fun _ => False) _ p
                (fun s => { s with
                  m_timedElapsedEvents := (s.m_timedElapsedEvents ++
                    pBlendTreeStateNode.m_timeElapsedEvents.map
                      (fun evt => ⟨evt.m_ID, evt.m_timeValue⟩)) }) (fun _ => rfl))).evolves
              split at h
              · cases h
              · rename_i idx hn
                simp only [Option.some.injEq, Prod.mk.injEq] at h
                obtain ⟨hr, hctx⟩ := h
                subst hr
                subst hctx
                have hidx : idx = (p : Int) := by
                  have h4 := stateAt_iff.mp hsF
                  simp only [GraphCompilationContext.nodeIdxAt, h4, Option.map_some',
                    NodeSettings.m_nodeIdx, Option.some.injEq] at hn
                  exact hn.symm
                subst hidx
                refine ⟨_, hsF, rfl, by simp, by simp, by simp,
                  (fun hoff => by rw [hbt] at hoff; cases hoff), ?_⟩
                intro bt hbt'
                rw [hbt] at hbt'
                cases hbt'
                refine ⟨pBlendTreeRoot, hroot, rfl, Or.inr rfl, (fun hinv => absurd hinv hpos),
                  (fun _ => ⟨by simp, by simp, pLayerData, hlayer⟩), ?_⟩
                intro pLayerData' hlayer'
                rw [hlayer] at hlayer'
                cases hlayer'
                refine ⟨?_, ?_, hnone1, hnone2, hnone3,
                  (fun n hn hne => settingsIndexOf_mono eF (settingsIndexOf_mono e3
                    (settingsIndexOf_mono e2 (hreg1 n hn hne)))),
                  (fun n hn hne => settingsIndexOf_mono eF
                    (settingsIndexOf_mono e3 (hreg2 n hn hne))),
                  (fun n hn hne => settingsIndexOf_mono eF (hreg3 n hn hne))⟩
                · simp only [stateInputCalls, hnot hok1, hnot hok2, Bool.false_eq_true,
                    if_false]
                  show c3.m_log = _
                  rw [hlog3, hlog2, hlog1, List.append_assoc, List.append_assoc]
                  rfl
                · simp [hnot hok1, hnot hok2, hnot hok3, hpos]
  · rename_i hoff
    have hsF := stateAt_modify (stateAt_modify hsE
      (fun s => { s with m_childNodeIdx := InvalidIndex }))
      (fun s => { s with m_isOffState := true })
    split at h
    · cases h
    · rename_i idx hn
      simp only [Option.some.injEq, Prod.mk.injEq] at h
      obtain ⟨hr, hctx⟩ := h
      subst hr
      subst hctx
      have hidx : idx = (p : Int) := by
        have h4 := stateAt_iff.mp hsF
        simp only [GraphCompilationContext.nodeIdxAt, h4, Option.map_some',
          NodeSettings.m_nodeIdx, Option.some.injEq] at hn
        exact hn.symm
      subst hidx
      refine ⟨_, hsF, rfl, by simp, by simp, by simp,
        (fun _ => ⟨rfl, rfl, rfl, rfl, rfl, rfl, rfl, rfl⟩), ?_⟩
      intro bt hbt'
      rw [hoff] at hbt'
      cases hbt'

theorem nodeIdxAt_of_stateAt {c : GraphCompilationContext} {p : Nat} {s : StateNode.Settings}
    (h : c.stateAt p = some s) : c.nodeIdxAt p = some s.m_nodeIdx := by
  have h4 := stateAt_iff.mp h
  simp [GraphCompilationContext.nodeIdxAt, h4, NodeSettings.m_nodeIdx]

/-- C26 does not hold as stated: this blend tree state has a time-remaining event and two
time-elapsed events, and the node that feeds its result node fails to compile;
`CompileState` returns `InvalidIndex` and leaves the two timed event lists of the
settings empty, while the entry, execute and exit events are copied. -/
theorem timed_events_not_copied_when_an_input_fails :
    ((eventfulState (failingPoseNode 50)).TryCastBlendTreeState.map fun b =>
      (b.m_timeRemainingEvents.length, b.m_timeElapsedEvents.length)) = some (1, 2) ∧
    (CompileState {} (eventfulState (failingPoseNode 50))).map (fun r => r.1) =
      some InvalidIndex ∧
    ((stateContext {} (eventfulState (failingPoseNode 50))).stateAt 0).map (fun s =>
      (s.m_timedRemainingEvents, s.m_timedElapsedEvents)) = some ([], []) ∧
    ((stateContext {} (eventfulState (failingPoseNode 50))).stateAt 0).map (fun s =>
      (s.m_entryEvents, s.m_executeEvents, s.m_exitEvents)) =
      some (["enter"], ["tick", "tock"], ["leave"]) := by
  decide

/-- C26, amended. Every call of `CompileState` that returns has copied the entry,
execute and exit events of the state node into the settings, in order, whatever the
type of the state and the returned value. For a blend tree state the time-remaining and
time-elapsed events are copied too, tag and time value, in order, when the call returns
an index; when it returns `InvalidIndex`, because a connected input compiled to
`InvalidIndex`, the two timed event lists stay empty. For a state that is not a blend
tree state they stay empty. -/
theorem state_events_are_copied {ctx ctx' : GraphCompilationContext}
    {pBaseStateNode : ToolsState} {r : Int}
    (h : CompileState ctx pBaseStateNode = some (r, ctx')) :
    ∃ s, ctx'.stateAt ctx.m_nodeSettings.length = some s ∧
      s.m_entryEvents = pBaseStateNode.m_entryEvents ∧
      s.m_executeEvents = pBaseStateNode.m_executeEvents ∧
      s.m_exitEvents = pBaseStateNode.m_exitEvents ∧
      (pBaseStateNode.TryCastBlendTreeState = none →
        s.m_timedRemainingEvents = [] ∧ s.m_timedElapsedEvents = []) ∧
      ∀ pBlendTreeStateNode,
        pBaseStateNode.TryCastBlendTreeState = some pBlendTreeStateNode →
        (r ≠ InvalidIndex →
          s.m_timedRemainingEvents.length =
            pBlendTreeStateNode.m_timeRemainingEvents.length ∧
          (s.m_timedRemainingEvents.map fun evt => (evt.m_ID, evt.m_timeValue)) =
            (pBlendTreeStateNode.m_timeRemainingEvents.map fun evt =>
              (evt.m_ID, evt.m_timeValue)) ∧
          s.m_timedElapsedEvents.length = pBlendTreeStateNode.m_timeElapsedEvents.length ∧
          (s.m_timedElapsedEvents.map fun evt => (evt.m_ID, evt.m_timeValue)) =
            (pBlendTreeStateNode.m_timeElapsedEvents.map fun evt =>
              (evt.m_ID, evt.m_timeValue))) ∧
        (r = InvalidIndex →
          s.m_timedRemainingEvents = [] ∧ s.m_timedElapsedEvents = []) := by
  obtain ⟨s, hs, -, k1, k2, k3, hoff, hbt⟩ := CompileState_record h
  refine ⟨s, hs, k1, k2, k3, fun hnone => ?_, fun bt hsome => ?_⟩
  · obtain ⟨-, -, -, -, -, h1, h2, -⟩ := hoff hnone
    exact ⟨h1, h2⟩
  · obtain ⟨root, -, -, -, hfail, hok, -⟩ := hbt bt hsome
    refine ⟨fun hne => ?_, hfail⟩
    obtain ⟨h1, h2, -⟩ := hok hne
    rw [h1, h2]
    simp [Function.comp_def]

/-- C26, amended, at a blend tree state and at an off state that compile: the blend tree
state's settings hold its entry, execute and exit events, its time-remaining event and
its two time-elapsed events; the off state's settings hold its three events and no timed
event. -/
theorem eventfulState_events :
    CompileState {} (eventfulState (poseNode 50)) =
      some (0, stateContext {} (eventfulState (poseNode 50))) ∧
    ((stateContext {} (eventfulState (poseNode 50))).stateAt 0).map (fun s =>
      (s.m_entryEvents, s.m_executeEvents, s.m_exitEvents, s.m_timedRemainingEvents,
        s.m_timedElapsedEvents)) =
      some (["enter"], ["tick", "tock"], ["leave"], [⟨"nearEnd", ⟨5⟩⟩],
        [⟨"started", ⟨1⟩⟩, ⟨"warm", ⟨2⟩⟩]) ∧
    ((stateContext {} eventfulOffState).stateAt 0).map (fun s =>
      (s.m_entryEvents, s.m_executeEvents, s.m_exitEvents, s.m_timedRemainingEvents,
        s.m_timedElapsedEvents)) = some (["enter"], ["tick"], ["leave"], [], []) ∧
    ∃ s, (stateContext {} (eventfulState (poseNode 50))).stateAt
        ({} : GraphCompilationContext).m_nodeSettings.length = some s ∧
      s.m_entryEvents = (eventfulState (poseNode 50)).m_entryEvents ∧
      s.m_executeEvents = (eventfulState (poseNode 50)).m_executeEvents ∧
      s.m_exitEvents = (eventfulState (poseNode 50)).m_exitEvents ∧
      ((eventfulState (poseNode 50)).TryCastBlendTreeState = none →
        s.m_timedRemainingEvents = [] ∧ s.m_timedElapsedEvents = []) ∧
      ∀ pBlendTreeStateNode,
        (eventfulState (poseNode 50)).TryCastBlendTreeState = some pBlendTreeStateNode →
        ((0 : Int) ≠ InvalidIndex →
          s.m_timedRemainingEvents.length =
            pBlendTreeStateNode.m_timeRemainingEvents.length ∧
          (s.m_timedRemainingEvents.map fun evt => (evt.m_ID, evt.m_timeValue)) =
            (pBlendTreeStateNode.m_timeRemainingEvents.map fun evt =>
              (evt.m_ID, evt.m_timeValue)) ∧
          s.m_timedElapsedEvents.length = pBlendTreeStateNode.m_timeElapsedEvents.length ∧
          (s.m_timedElapsedEvents.map fun evt => (evt.m_ID, evt.m_timeValue)) =
            (pBlendTreeStateNode.m_timeElapsedEvents.map fun evt =>
              (evt.m_ID, evt.m_timeValue))) ∧
        ((0 : Int) = InvalidIndex →
          s.m_timedRemainingEvents = [] ∧ s.m_timedElapsedEvents = []) :=
  ⟨by decide, by decide, by decide,
    state_events_are_copied
      (show CompileState {} (eventfulState (poseNode 50)) =
        some (0, stateContext {} (eventfulState (poseNode 50))) by decide)⟩

/-- The calls of one kind in the journal of `CompileState` on a blend tree state: a call
of the kind was made exactly when its input is connected and no input before it stored
`InvalidIndex`. -/
theorem stateInputCalls_kinds (n0 n1 n2 : Option FlowToolsNode) (v0 v1 v2 : Int) :
    ((∃ id idx, CompileEvent.call .blendTree id idx ∈ stateInputCalls n0 n1 n2 v0 v1 v2) ↔
      n0.isSome = true) ∧
    ((∃ id idx, CompileEvent.call .layerWeight id idx ∈ stateInputCalls n0 n1 n2 v0 v1 v2) ↔
      (n1.isSome = true ∧ inputFailed n0 v0 = false)) ∧
    ((∃ id idx,
        CompileEvent.call .layerBoneMask id idx ∈ stateInputCalls n0 n1 n2 v0 v1 v2) ↔
      (n2.isSome = true ∧ inputFailed n0 v0 = false ∧ inputFailed n1 v1 = false)) := by
  by_cases h0 : v0 = InvalidIndex <;> by_cases h1 : v1 = InvalidIndex <;>
    cases n0 <;> cases n1 <;> cases n2 <;>
    simp [stateInputCalls, inputCall, inputFailed, h0, h1]

/-- A connected input stored `InvalidIndex` exactly when the journal of `CompileState`
holds a call that returned `InvalidIndex`. -/
theorem stateInputCalls_failed (n0 n1 n2 : Option FlowToolsNode) (v0 v1 v2 : Int) :
    (inputFailed n0 v0 || inputFailed n1 v1 || inputFailed n2 v2) = true ↔
      ∃ kind id, CompileEvent.call kind id InvalidIndex ∈
        stateInputCalls n0 n1 n2 v0 v1 v2 := by
  by_cases h0 : v0 = InvalidIndex <;> by_cases h1 : v1 = InvalidIndex <;>
    by_cases h2 : v2 = InvalidIndex <;>
    cases n0 <;> cases n1 <;> cases n2 <;>
    simp [stateInputCalls, inputCall, inputFailed, h0, h1, h2, eq_comm (a := InvalidIndex)]

/-- C25 does not hold as stated: the result node of this blend tree state is fed by a node
that fails to compile and its layer weight input is connected to the node 60;
`CompileState` returns `InvalidIndex` after the one call on the failing node, and the
connected layer weight input is not compiled: the node 60 gets no record. -/
theorem connected_layer_weight_not_compiled_after_failed_blend_tree :
    ((layeredState (some (failingPoseNode 50)) (some ⟨60, .Float, true⟩)
      none).TryCastBlendTreeState.bind fun b => b.GetLayerDataNode.map fun l =>
        (l.GetConnectedInputNode 0).isSome) = some true ∧
    (CompileState {} (layeredState (some (failingPoseNode 50)) (some ⟨60, .Float, true⟩)
      none)).map (fun r => r.1) = some InvalidIndex ∧
    journal {} (stateContext {} (layeredState (some (failingPoseNode 50))
      (some ⟨60, .Float, true⟩) none)) = [.call .blendTree 50 InvalidIndex] ∧
    (stateContext {} (layeredState (some (failingPoseNode 50)) (some ⟨60, .Float, true⟩)
      none)).m_nodeIDToIndexMap.lookup 60 = none := by
  decide

/-- C25, amended. For a blend tree state whose result node and layer data node exist,
a call of `CompileState` that returns has compiled the connected ones of the three
optional inputs in the order blend tree node, layer weight, layer bone mask, up to and
including the first that compiled to `InvalidIndex`: an input is compiled exactly when it
is connected and no input before it compiled to `InvalidIndex`. An unconnected input
leaves its index at `InvalidIndex` and is no error; the index of a connected input that
compiled is the index registered for the node; `m_isOffState` stays false; and the call
returns `InvalidIndex` exactly when one of the inputs it compiled returned `InvalidIndex`,
and the index of the state's record otherwise. With nothing connected the call on a state
that is not compiled yet returns, with the three indices at `InvalidIndex` and no call
made. -/
theorem blend_tree_inputs_compiled_in_order_until_one_fails (ctx : GraphCompilationContext)
    (pBaseStateNode : ToolsState) (pBlendTreeStateNode : BlendTreeStateToolsNode)
    (pBlendTreeRoot : ResultToolsNode) (pLayerData : StateLayerDataToolsNode)
    (hbt : pBaseStateNode.TryCastBlendTreeState = some pBlendTreeStateNode)
    (hroot : pBlendTreeStateNode.GetBlendTreeRootNode = some pBlendTreeRoot)
    (hlayer : pBlendTreeStateNode.GetLayerDataNode = some pLayerData) :
    (∀ (r : Int) (ctx' : GraphCompilationContext),
      CompileState ctx pBaseStateNode = some (r, ctx') →
      ∃ s, ctx'.stateAt ctx.m_nodeSettings.length = some s ∧ s.m_isOffState = false ∧
        journal ctx ctx' =
          stateInputCalls (pBlendTreeRoot.GetConnectedInputNode 0)
            (pLayerData.GetConnectedInputNode 0) (pLayerData.GetConnectedInputNode 1)
            s.m_childNodeIdx s.m_layerWeightNodeIdx s.m_layerBoneMaskNodeIdx ∧
        ((∃ id idx, CompileEvent.call .blendTree id idx ∈ journal ctx ctx') ↔
          (pBlendTreeRoot.GetConnectedInputNode 0).isSome = true) ∧
        ((∃ id idx, CompileEvent.call .layerWeight id idx ∈ journal ctx ctx') ↔
          ((pLayerData.GetConnectedInputNode 0).isSome = true ∧
            inputFailed (pBlendTreeRoot.GetConnectedInputNode 0) s.m_childNodeIdx = false)) ∧
        ((∃ id idx, CompileEvent.call .layerBoneMask id idx ∈ journal ctx ctx') ↔
          ((pLayerData.GetConnectedInputNode 1).isSome = true ∧
            inputFailed (pBlendTreeRoot.GetConnectedInputNode 0) s.m_childNodeIdx = false ∧
            inputFailed (pLayerData.GetConnectedInputNode 0) s.m_layerWeightNodeIdx =
              false)) ∧
        (r = InvalidIndex ↔ ∃ kind id, CompileEvent.call kind id InvalidIndex ∈
          journal ctx ctx') ∧
        (r ≠ InvalidIndex → r = (ctx.m_nodeSettings.length : Int)) ∧
        (pBlendTreeRoot.GetConnectedInputNode 0 = none → s.m_childNodeIdx = InvalidIndex) ∧
        (pLayerData.GetConnectedInputNode 0 = none →
          s.m_layerWeightNodeIdx = InvalidIndex) ∧
        (pLayerData.GetConnectedInputNode 1 = none →
          s.m_layerBoneMaskNodeIdx = InvalidIndex) ∧
        (∀ n, pBlendTreeRoot.GetConnectedInputNode 0 = some n →
          s.m_childNodeIdx ≠ InvalidIndex →
          ctx'.settingsIndexOf n.GetID = some s.m_childNodeIdx) ∧
        (∀ n, pLayerData.GetConnectedInputNode 0 = some n →
          s.m_layerWeightNodeIdx ≠ InvalidIndex →
          ctx'.settingsIndexOf n.GetID = some s.m_layerWeightNodeIdx) ∧
        ∀ n, pLayerData.GetConnectedInputNode 1 = some n →
          s.m_layerBoneMaskNodeIdx ≠ InvalidIndex →
          ctx'.settingsIndexOf n.GetID = some s.m_layerBoneMaskNodeIdx) ∧
    (ctx.m_nodeIDToIndexMap.lookup pBaseStateNode.GetID = none →
      pBlendTreeRoot.GetConnectedInputNode 0 = none →
      pLayerData.GetConnectedInputNode 0 = none →
      pLayerData.GetConnectedInputNode 1 = none →
      ∃ ctx' s, CompileState ctx pBaseStateNode =
          some ((ctx.m_nodeSettings.length : Int), ctx') ∧
        (ctx.m_nodeSettings.length : Int) ≠ InvalidIndex ∧
        ctx'.stateAt ctx.m_nodeSettings.length = some s ∧ s.m_isOffState = false ∧
        s.m_childNodeIdx = InvalidIndex ∧ s.m_layerWeightNodeIdx = InvalidIndex ∧
        s.m_layerBoneMaskNodeIdx = InvalidIndex ∧ journal ctx ctx' = []) := by
  refine ⟨?_, ?_⟩
  · intro r ctx' h
    obtain ⟨s, hs, -, -, -, -, -, hblend⟩ := CompileState_record h
    obtain ⟨root, hroot', hoff, hr, -, -, hall⟩ := hblend _ hbt
    rw [hroot] at hroot'
    cases hroot'
    obtain ⟨hlog, hiff, k0, k1, k2, r0, r1, r2⟩ := hall _ hlayer
    have hj := journal_of_append hlog
    obtain ⟨c0, c1, c2⟩ := stateInputCalls_kinds (pBlendTreeRoot.GetConnectedInputNode 0)
      (pLayerData.GetConnectedInputNode 0) (pLayerData.GetConnectedInputNode 1)
      s.m_childNodeIdx s.m_layerWeightNodeIdx s.m_layerBoneMaskNodeIdx
    have hpos : (ctx.m_nodeSettings.length : Int) ≠ InvalidIndex := by
      simp only [InvalidIndex, ne_eq]; omega
    refine ⟨s, hs, hoff, hj, by rw [hj]; exact c0, by rw [hj]; exact c1,
      by rw [hj]; exact c2, ?_, fun hne => hr.resolve_left hne, k0, k1, k2, r0, r1, r2⟩
    rw [hiff, hj]
    exact stateInputCalls_failed _ _ _ _ _ _
  · intro hfresh h0 h1 h2
    have hpos : (ctx.m_nodeSettings.length : Int) ≠ InvalidIndex := by
      simp only [InvalidIndex, ne_eq]; omega
    unfold CompileState
    rw [GetSettings_new _ hfresh]
    simp only [EE_ASSERT, decide_True, if_true, hbt, hroot, hlayer, h0, h1, h2,
      compileConnectedInput]
    have hs0 : GraphCompilationContext.stateAt
        { ctx with
          m_nodeIDToIndexMap :=
            ctx.m_nodeIDToIndexMap ++ [(pBaseStateNode.GetID, ctx.m_nodeSettings.length)]
          m_nodeSettings := ctx.m_nodeSettings ++
            [.state { m_nodeIdx := (ctx.m_nodeSettings.length : Int) }] }
        ctx.m_nodeSettings.length =
          some { m_nodeIdx := (ctx.m_nodeSettings.length : Int) } := by
      simp [GraphCompilationContext.stateAt]
    have hsF := stateAt_modify (stateAt_modify (stateAt_modify (stateAt_modify
      (stateAt_modify hs0
        (fun s => { s with m_entryEvents := s.m_entryEvents ++ pBaseStateNode.m_entryEvents }))
        (fun s => { s with
          m_executeEvents := s.m_executeEvents ++ pBaseStateNode.m_executeEvents }))
        (fun s => { s with m_exitEvents := s.m_exitEvents ++ pBaseStateNode.m_exitEvents }))
        (fun s => { s with
          m_timedRemainingEvents := (s.m_timedRemainingEvents ++
            pBlendTreeStateNode.m_timeRemainingEvents.map
              (fun evt => ⟨evt.m_ID, evt.m_timeValue⟩)) }))
        (fun s => { s with
          m_timedElapsedEvents := (s.m_timedElapsedEvents ++
            pBlendTreeStateNode.m_timeElapsedEvents.map
              (fun evt => ⟨evt.m_ID, evt.m_timeValue⟩)) })
    rw [nodeIdxAt_of_stateAt hsF]
    exact ⟨_, _, rfl, hpos, hsF, rfl, rfl, rfl, rfl, journal_of_append (by simp; rfl)⟩

/-- C25, amended, at the blend tree state whose only connected input is the layer mask
(node 61), and at the blend tree state with nothing connected: both compile, to the index
0 of the state's record; the first makes the one call on the node 61 and stores its index
1 as the layer bone mask index, the second makes no call; the other indices are
`InvalidIndex` and `m_isOffState` is false. -/
theorem blend_tree_state_with_only_layer_mask_compiles :
    CompileState {} (layeredState none none (some ⟨61, .BoneMask, true⟩)) =
      some (0, stateContext {} (layeredState none none (some ⟨61, .BoneMask, true⟩))) ∧
    ((stateContext {} (layeredState none none (some ⟨61, .BoneMask, true⟩))).stateAt 0).map
      (fun s => (s.m_childNodeIdx, s.m_layerWeightNodeIdx, s.m_layerBoneMaskNodeIdx,
        s.m_isOffState)) = some (InvalidIndex, InvalidIndex, 1, false) ∧
    journal {} (stateContext {} (layeredState none none (some ⟨61, .BoneMask, true⟩))) =
      [.call .layerBoneMask 61 1] ∧
    (({} : GraphCompilationContext).m_nodeIDToIndexMap.lookup
      (layeredState none none none).GetID = none) ∧
    (∃ s, (stateContext {} (layeredState none none (some ⟨61, .BoneMask, true⟩))).stateAt
        ({} : GraphCompilationContext).m_nodeSettings.length = some s ∧
      s.m_isOffState = false ∧
      journal {} (stateContext {} (layeredState none none (some ⟨61, .BoneMask, true⟩))) =
        stateInputCalls ((layeredRoot none).GetConnectedInputNode 0)
          ((layeredData none (some ⟨61, .BoneMask, true⟩)).GetConnectedInputNode 0)
          ((layeredData none (some ⟨61, .BoneMask, true⟩)).GetConnectedInputNode 1)
          s.m_childNodeIdx s.m_layerWeightNodeIdx s.m_layerBoneMaskNodeIdx) ∧
    ∃ ctx' s, CompileState {} (layeredState none none none) =
        some ((({} : GraphCompilationContext).m_nodeSettings.length : Int), ctx') ∧
      ((({} : GraphCompilationContext).m_nodeSettings.length : Int)) ≠ InvalidIndex ∧
      ctx'.stateAt ({} : GraphCompilationContext).m_nodeSettings.length = some s ∧
      s.m_isOffState = false ∧
      s.m_childNodeIdx = InvalidIndex ∧ s.m_layerWeightNodeIdx = InvalidIndex ∧
      s.m_layerBoneMaskNodeIdx = InvalidIndex ∧ journal {} ctx' = [] :=
  ⟨by decide, by decide, by decide, rfl,
    (by
      obtain ⟨s, hs, hoff, hj, -⟩ :=
        (blend_tree_inputs_compiled_in_order_until_one_fails {}
          (layeredState none none (some ⟨61, .BoneMask, true⟩))
          (layeredBlendTree none none (some ⟨61, .BoneMask, true⟩)) (layeredRoot none)
          (layeredData none (some ⟨61, .BoneMask, true⟩)) rfl rfl rfl).1 0 _
          (show CompileState {} (layeredState none none (some ⟨61, .BoneMask, true⟩)) =
            some (0, stateContext {} (layeredState none none (some ⟨61, .BoneMask, true⟩)))
            by decide)
      exact ⟨s, hs, hoff, hj⟩),
    (blend_tree_inputs_compiled_in_order_until_one_fails {} (layeredState none none none)
      (layeredBlendTree none none none) (layeredRoot none) (layeredData none none)
      rfl rfl rfl).2 rfl rfl rfl rfl⟩

theorem Journals.still (A : CompileEvent → Prop) (a : GraphCompilationContext) :
    Journals A a a :=
  ⟨by simp [journal_self], by simp [journal_self]⟩

theorem Journals.join {A : CompileEvent → Prop} {a b c : GraphCompilationContext}
    (h1 : Journals A a b) (h2 : Journals A b c) : Journals A a c := by
  obtain ⟨hl, hj⟩ := journal_trans h1.1 h2.1
  refine ⟨hl, ?_⟩
  intro e he
  rw [hj] at he
  rcases List.mem_append.mp he with h | h
  · exact h1.2 e h
  · exact h2.2 e h

/-- A run followed by a step that leaves the journal alone. -/
theorem Journals.silent {A : CompileEvent → Prop} {a b b' : GraphCompilationContext}
    (h : Journals A a b) (hb : b'.m_log = b.m_log) : Journals A a b' := by
  have hj : journal a b' = journal a b := journal_congr rfl hb
  exact ⟨by rw [hj, hb]; exact h.1, by rw [hj]; exact h.2⟩

/-- A run that starts with a step that leaves the journal alone. -/
theorem Journals.after {A : CompileEvent → Prop} {a a' b : GraphCompilationContext}
    (h : Journals A a' b) (ha : a'.m_log = a.m_log) : Journals A a b := by
  have hj : journal a b = journal a' b := journal_congr ha.symm rfl
  exact ⟨by rw [hj, ← ha]; exact h.1, by rw [hj]; exact h.2⟩

theorem Journals.store {A : CompileEvent → Prop} {a b : GraphCompilationContext}
    (h : Journals A a b) (ps : Nat)
    (f : StateMachineNode.Settings → StateMachineNode.Settings) :
    Journals A a (b.modifyStateMachine ps f) :=
  h.silent rfl

theorem Journals.beginConditions {A : CompileEvent → Prop} {a b : GraphCompilationContext}
    (h : Journals A a b) (duration : FloatValue) (durationOverrideNodeIdx : Int) :
    Journals A a (b.BeginTransitionConditionsCompilation duration durationOverrideNodeIdx) :=
  h.silent rfl

theorem Journals.endConditions {A : CompileEvent → Prop} {a b : GraphCompilationContext}
    (h : Journals A a b) : Journals A a b.EndTransitionConditionsCompilation :=
  h.silent rfl

theorem Journals.beginConduit {A : CompileEvent → Prop} {a b : GraphCompilationContext}
    (h : Journals A a b) (sourceStateNodeIdx : Int) :
    Journals A a (b.BeginConduitCompilation sourceStateNodeIdx) :=
  h.silent rfl

theorem Journals.endConduit {A : CompileEvent → Prop} {a b : GraphCompilationContext}
    (h : Journals A a b) : Journals A a b.EndConduitCompilation :=
  h.silent rfl

theorem Journals.entry {A : CompileEvent → Prop} {a b : GraphCompilationContext}
    (h : Journals A a b) (e : CompileEvent) (he : A e) : Journals A a (b.record e) :=
  h.join ⟨by rw [journal_of_append (rfl : (b.record e).m_log = b.m_log ++ [e])]; rfl,
    by rw [journal_of_append (rfl : (b.record e).m_log = b.m_log ++ [e])]; simpa using he⟩

theorem Journals.effect {A B : CompileEvent → Prop} {P : Nat → Prop}
    {a b c : GraphCompilationContext} (h : Journals A a b) (e : Effect P B b c)
    (hBA : ∀ x, B x → A x) : Journals A a c :=
  h.join ⟨e.evolves.log, fun x hx => hBA x (e.events x hx)⟩

theorem isNested_inSecondLoop (e : CompileEvent) (h : e.isNested = true) :
    e.inSecondLoop = true := by
  cases e with
  | call k id r =>
    simp only [CompileEvent.isNested] at h
    simp [CompileEvent.inSecondLoop, h]
  | emit _ _ _ _ => simp [CompileEvent.isNested] at h

theorem TryCompileTransition_journals {ps i : Nat} {origin : TransitionOrigin}
    {pTransitionNode : TransitionToolsNode} {endStateID : UUID} {maps maps' : CompileLocals}
    {ctx ctx' : GraphCompilationContext} {ok : Bool}
    (h : TryCompileTransition ps i origin pTransitionNode endStateID maps ctx =
      some (ok, maps', ctx')) :
    Journals (fun e => e.inSecondLoop = true) ctx ctx' := by
  unfold TryCompileTransition at h
  split at h
  · cases h
    exact Journals.still _ _
  · rename_i pConditionNode hcond
    split at h
    · cases h
    · split at h
      rename_i targetStateIdx stateIdxMap _
      split at h
      rename_i targetStateNodeIdx compiledNodeIdxMap _
      simp only [] at h
      split at h
      · cases h
      · rename_i transitionNodeIdx c2 hCT
        have j2 : Journals (fun e => e.inSecondLoop = true) ctx c2 :=
          ((((Journals.still (fun e => e.inSecondLoop = true) ctx).store ps _).entry _
            (by rfl)).store ps _).effect (CompileTransition_spec hCT) isNested_inSecondLoop
        have j3 : ∀ f : StateMachineNode.Settings → StateMachineNode.Settings,
            Journals (fun e => e.inSecondLoop = true) ctx
              ((c2.record (.call .transitionNode pTransitionNode.GetID
                transitionNodeIdx)).modifyStateMachine ps f) :=
          fun f => (j2.entry _ (by rfl)).store ps f
        split at h
        · cases h
          exact j3 _
        · rcases GetSettings_spec ((c2.record (.call .transitionNode pTransitionNode.GetID
              transitionNodeIdx)).modifyStateMachine ps (writeLastTransition i fun t =>
              { t with m_transitionNodeIdx := transitionNodeIdx })) pTransitionNode.GetID
            (fun idx => .transition { m_nodeIdx := idx }) (fun _ => rfl) with
            ⟨p, _, hg⟩ | ⟨c, _, hg, _⟩
          · simp only [hg, EE_ASSERT, decide_True, if_true] at h
            split at h
            · cases h
            · rename_i compiled _
              split at h
              · cases h
              · rename_i conditionNodeIdx c5 hC
                have j5 : ∀ f : StateMachineNode.Settings → StateMachineNode.Settings,
                    Journals (fun e => e.inSecondLoop = true) ctx
                      ((c5.record (.call .transitionCondition pConditionNode.GetID
                        conditionNodeIdx)).modifyStateMachine ps f) :=
                  fun f => ((((j3 _).beginConditions compiled.m_duration
                    compiled.m_durationOverrideNodeIdx).effect
                    (FlowToolsNode.Compile_effect hC) (fun _ hf => hf.elim)).entry _
                    (by rfl)).store ps f
                split at h
                · cases h
                  exact j5 _
                · cases h
                  exact (j5 _).endConditions
          · simp [hg, EE_ASSERT] at h

theorem compileConduitTransitions_journals {ps i c : Nat} {endStateID : UUID}
    (ts : List TransitionToolsNode) :
    ∀ {maps maps' : CompileLocals} {ctx ctx' : GraphCompilationContext} {ok : Bool},
    compileConduitTransitions ps i c endStateID ts maps ctx = some (ok, maps', ctx') →
    Journals (fun e => e.inSecondLoop = true) ctx ctx' := by
  induction ts with
  | nil =>
    intro maps maps' ctx ctx' ok h
    simp only [compileConduitTransitions] at h
    cases h
    exact Journals.still _ _
  | cons t rest ih =>
    intro maps maps' ctx ctx' ok h
    simp only [compileConduitTransitions] at h
    split at h
    · cases h
    · rename_i hT
      cases h
      exact TryCompileTransition_journals hT
    · rename_i hT
      exact (TryCompileTransition_journals hT).join (ih h)

theorem compileConduits_journals {ps i : Nat} {pStartStateNode : ToolsState}
    (conduits : List TransitionConduitToolsNode) :
    ∀ {c : Nat} {copy copy' : List GlobalTransitionToolsNode} {maps maps' : CompileLocals}
      {ctx ctx' : GraphCompilationContext} {ok : Bool},
    compileConduits ps i pStartStateNode conduits c copy maps ctx =
      some (ok, copy', maps', ctx') →
    Journals (fun e => e.inSecondLoop = true) ctx ctx' := by
  induction conduits with
  | nil =>
    intro c copy copy' maps maps' ctx ctx' ok h
    simp only [compileConduits] at h
    cases h
    exact Journals.still _ _
  | cons pConduit rest ih =>
    intro c copy copy' maps maps' ctx ctx' ok h
    simp only [compileConduits] at h
    split at h
    · exact ih h
    · split at h
      · cases h
      · rename_i sourceStateNodeIdx _
        split at h
        · cases h
        · rename_i hT
          cases h
          exact (compileConduitTransitions_journals _ hT).after rfl
        · rename_i hT
          exact (((compileConduitTransitions_journals _ hT).after rfl).endConduit).join
            (ih h)

theorem compileGlobalTransitions_journals {ps i : Nat} {pStartStateNode : ToolsState}
    (copy : List GlobalTransitionToolsNode) :
    ∀ {maps maps' : CompileLocals} {ctx ctx' : GraphCompilationContext} {ok : Bool},
    compileGlobalTransitions ps i pStartStateNode copy maps ctx = some (ok, maps', ctx') →
    Journals (fun e => e.inSecondLoop = true) ctx ctx' := by
  induction copy with
  | nil =>
    intro maps maps' ctx ctx' ok h
    simp only [compileGlobalTransitions] at h
    cases h
    exact Journals.still _ _
  | cons g rest ih =>
    intro maps maps' ctx ctx' ok h
    simp only [compileGlobalTransitions] at h
    split at h
    · cases h
    · split at h
      · cases h
      · rename_i hT
        cases h
        exact (TryCompileTransition_journals hT).after rfl
      · rename_i hT
        exact (((TryCompileTransition_journals hT).after rfl).endConduit).join (ih h)

/-- The second loop of `Compile` writes only its own kinds of journal entries. -/
theorem compileTransitions_journals {sm : StateMachineToolsNode} {ps : Nat}
    (states : List ToolsState) :
    ∀ {i : Nat} {maps maps' : CompileLocals} {ctx ctx' : GraphCompilationContext} {ok : Bool},
    compileTransitions sm ps states i maps ctx = some (ok, maps', ctx') →
    Journals (fun e => e.inSecondLoop = true) ctx ctx' := by
  induction states with
  | nil =>
    intro i maps maps' ctx ctx' ok h
    simp only [compileTransitions] at h
    cases h
    exact Journals.still _ _
  | cons pStartStateNode rest ih =>
    intro i maps maps' ctx ctx' ok h
    simp only [compileTransitions] at h
    split at h
    · cases h
    · rename_i hC
      cases h
      exact compileConduits_journals _ hC
    · rename_i hC
      have j1 := compileConduits_journals _ hC
      split at h
      · cases h
      · rename_i hG
        cases h
        exact j1.join (compileGlobalTransitions_journals _ hG)
      · rename_i hG
        exact (j1.join (compileGlobalTransitions_journals _ hG)).join (ih h)

theorem filterMap_entryConditionCall_of_inSecondLoop {evs : List CompileEvent}
    (h : ∀ e ∈ evs, e.inSecondLoop = true) :
    evs.filterMap CompileEvent.entryConditionCall = [] := by
  rw [List.filterMap_eq_nil_iff]
  intro e he
  have := h e he
  cases e with
  | call k id r =>
    cases k <;> simp_all [CompileEvent.inSecondLoop, CompileEvent.entryConditionCall,
      CallKind.inConduit, CallKind.isDirect]
  | emit _ _ _ _ => rfl

theorem filterMap_entryConditionCall_of_isNested {evs : List CompileEvent}
    (h : ∀ e ∈ evs, e.isNested = true) :
    evs.filterMap CompileEvent.entryConditionCall = [] :=
  filterMap_entryConditionCall_of_inSecondLoop
    (fun e he => isNested_inSecondLoop e (h e he))

/-- The entry condition calls of the first loop of `Compile`, when it completes: one per
state that has an entry condition node, in the order of the states, on that node, and it
returned the index registered for the node. -/
theorem compileStates_entryConditions {sm : StateMachineToolsNode} {ps : Nat}
    (states : List ToolsState) :
    ∀ {i : Nat} {maps maps' : CompileLocals} {ctx ctx' : GraphCompilationContext},
    compileStates sm ps states i maps ctx = some (true, maps', ctx') →
    (journal ctx ctx').filterMap CompileEvent.entryConditionCall =
      states.filterMap (fun pStateNode =>
        (sm.GetEntryStateOverrideConduit.GetEntryConditionNodeForState pStateNode.GetID).map
          fun pEntryConditionNode =>
            (pEntryConditionNode.GetID, ctx'.indexOf pEntryConditionNode.GetID)) ∧
    ∀ pStateNode ∈ states, ∀ pEntryConditionNode,
      sm.GetEntryStateOverrideConduit.GetEntryConditionNodeForState pStateNode.GetID =
        some pEntryConditionNode →
      ∃ idx, ctx'.settingsIndexOf pEntryConditionNode.GetID = some idx ∧
        idx ≠ InvalidIndex := by
  induction states with
  | nil =>
    intro i maps maps' ctx ctx' h
    simp only [compileStates] at h
    cases h
    exact ⟨by simp [journal_self], fun _ hmem => by cases hmem⟩
  | cons st rest ih =>
    intro i maps maps' ctx ctx' h
    simp only [compileStates] at h
    split at h
    · cases h
    · rename_i stateNodeIdx c1 hCS
      split at h
      · cases h
      · rename_i hvalid
        split at h
        · cases h
        · cases h
        · rename_i c3 hE
          have sRest := compileStates_spec _ h
          obtain ⟨ihj, ihreg⟩ := ih h
          have j1 : Journals (fun e => e.isNested = true) ctx c1 :=
            ((Journals.still (fun e => e.isNested = true) ctx).store ps _).effect
              (CompileState_spec hCS).2 (fun _ hx => hx)
          have hstore : ∀ idx c, Effect (fun q => q = ps) (fun _ => False) c
              (c.modifyStateMachine ps (writeLastState fun st =>
                { st with m_entryConditionNodeIdx := idx })) :=
            fun idx c => Effect.modifyStateMachine _ c ps _ (by intro _; rfl)
          have e3 := (compileConnectedInput_spec hstore hE).1.evolves
          have hlog2 : GraphCompilationContext.m_log
              ((c1.record (.call .stateBody st.GetID stateNodeIdx)).modifyStateMachine ps
                (writeLastState fun x => { x with m_stateNodeIdx := stateNodeIdx })) =
              ctx.m_log ++ (journal ctx c1 ++ [.call .stateBody st.GetID stateNodeIdx]) := by
            show c1.m_log ++ [_] = _
            rw [j1.1, List.append_assoc]
          have hj02 := journal_of_append hlog2
          have hlog2' : GraphCompilationContext.m_log
              ((c1.record (.call .stateBody st.GetID stateNodeIdx)).modifyStateMachine ps
                (writeLastState fun x => { x with m_stateNodeIdx := stateNodeIdx })) =
              ctx.m_log ++ journal ctx
                ((c1.record (.call .stateBody st.GetID stateNodeIdx)).modifyStateMachine ps
                  (writeLastState fun x => { x with m_stateNodeIdx := stateNodeIdx })) := by
            rw [hj02]; exact hlog2
          obtain ⟨hl03, hj03⟩ := journal_trans hlog2' e3.log
          obtain ⟨-, hj0⟩ := journal_trans hl03 sRest.evolves.log
          have hpre : (journal ctx
              ((c1.record (.call .stateBody st.GetID stateNodeIdx)).modifyStateMachine ps
                (writeLastState fun x => { x with m_stateNodeIdx := stateNodeIdx }))).filterMap
              CompileEvent.entryConditionCall = [] := by
            rw [hj02, List.filterMap_append, filterMap_entryConditionCall_of_isNested j1.2]
            rfl
          rcases compileConnectedInput_read (fun _ => some ()) (fun _ u => u) hstore
            (fun _ _ _ _ hr => hr) (fun _ _ => rfl) (fun _ _ _ hr => hr) hE rfl with
            ⟨hn, -, hc3⟩ | ⟨n, idx, hn, -, hj, hok, hreg⟩
          · subst hc3
            refine ⟨?_, ?_⟩
            · rw [hj0, List.filterMap_append, hpre, ihj]
              simp [hn]
            · intro x hx m hm
              rcases List.mem_cons.mp hx with hxe | hxr
              · subst hxe
                rw [hn] at hm
                cases hm
              · exact ihreg x hxr m hm
          · have hidx : idx ≠ InvalidIndex := hok.mp rfl
            have hfinal := settingsIndexOf_mono sRest.evolves (hreg hidx)
            refine ⟨?_, ?_⟩
            · rw [hj0, hj03, List.filterMap_append, List.filterMap_append, hpre, hj, ihj]
              simp [hn, CompileEvent.entryConditionCall, indexOf_of_settingsIndexOf hfinal]
            · intro x hx m hm
              rcases List.mem_cons.mp hx with hxe | hxr
              · subst hxe
                rw [hn] at hm
                cases hm
                exact ⟨idx, hfinal, hidx⟩
              · exact ihreg x hxr m hm

/-- The entry condition calls of a first compile that succeeds: one per state that has an
entry condition node, in the order of the states, and each returned the index registered
for the node. -/
theorem Compile_entryConditions {sm : StateMachineToolsNode}
    {ctx ctx' : GraphCompilationContext} {r : Int} (h : sm.Compile ctx = some (r, ctx'))
    (hfresh : ctx.m_nodeIDToIndexMap.lookup sm.GetID = none) (hr : r ≠ InvalidIndex) :
    (journal ctx ctx').filterMap CompileEvent.entryConditionCall =
      sm.GetChildGraph.stateNodes.filterMap (fun pStateNode =>
        (sm.GetEntryStateOverrideConduit.GetEntryConditionNodeForState pStateNode.GetID).map
          fun pEntryConditionNode =>
            (pEntryConditionNode.GetID, ctx'.indexOf pEntryConditionNode.GetID)) ∧
    ∀ pStateNode ∈ sm.GetChildGraph.stateNodes, ∀ pEntryConditionNode,
      sm.GetEntryStateOverrideConduit.GetEntryConditionNodeForState pStateNode.GetID =
        some pEntryConditionNode →
      ∃ idx, ctx'.settingsIndexOf pEntryConditionNode.GetID = some idx ∧
        idx ≠ InvalidIndex := by
  unfold StateMachineToolsNode.Compile at h
  rcases GetSettings_spec ctx sm.GetID (fun i => .stateMachine { m_nodeIdx := i })
    (fun _ => rfl) with ⟨p, hp, _⟩ | ⟨c, _, hg, _, _, _, he⟩
  · rw [hfresh] at hp; cases hp
  · rw [hg] at h
    simp only [ne_eq, not_true_eq_false, if_false] at h
    generalize ctx.m_nodeSettings.length = ps at h
    split at h
    · cases h
    · split at h
      · cases h
      · cases h; exact absurd rfl hr
      · rename_i maps1 c1 hS
        have sS := compileStates_spec _ hS
        obtain ⟨hjS, hregS⟩ := compileStates_entryConditions _ hS
        split at h
        · cases h
        · cases h; exact absurd rfl hr
        · rename_i maps2 c2 hT
          have sT := compileTransitions_spec _ hT
          have jT := compileTransitions_journals _ hT
          split at h
          · cases h
          · simp only [Option.some.injEq, Prod.mk.injEq] at h
            obtain ⟨-, hctx⟩ := h
            subst hctx
            have evF : Evolves (fun q => q = ps) c2 (c2.modifyStateMachine ps fun s =>
                { s with m_defaultStateIndex :=
                    (maps2.IDToStateIdxMap.index sm.GetChildGraph.GetDefaultEntryStateID
                      0).1 }) :=
              (Effect.modifyStateMachine (fun _ => False) c2 ps _ (by intro _; rfl)).evolves
            have e12 := sT.evolves.andThen evF (fun _ _ hq => hq)
            have hmono : ∀ (id : UUID) (idx : Int), c1.settingsIndexOf id = some idx →
                GraphCompilationContext.settingsIndexOf (c2.modifyStateMachine ps fun s =>
                  { s with m_defaultStateIndex :=
                      (maps2.IDToStateIdxMap.index sm.GetChildGraph.GetDefaultEntryStateID
                        0).1 }) id = some idx :=
              fun id idx hid => settingsIndexOf_mono e12 hid
            have hjournal : journal ctx (c2.modifyStateMachine ps fun s =>
                { s with m_defaultStateIndex :=
                    (maps2.IDToStateIdxMap.index sm.GetChildGraph.GetDefaultEntryStateID
                      0).1 }) = journal c c1 ++ journal c1 c2 := by
              have h0 : c.m_log = ctx.m_log := by
                have := he.evolves.log
                rw [he.journal_nil, List.append_nil] at this
                exact this
              exact (journal_congr h0.symm rfl).trans
                (journal_trans sS.evolves.log sT.evolves.log).2
            refine ⟨?_, ?_⟩
            · rw [hjournal, List.filterMap_append,
                filterMap_entryConditionCall_of_inSecondLoop jT.2, List.append_nil, hjS]
              apply List.filterMap_congr
              intro st hst
              cases hn : sm.GetEntryStateOverrideConduit.GetEntryConditionNodeForState
                  st.GetID with
              | none => rfl
              | some n =>
                obtain ⟨idx, hidx, -⟩ := hregS st hst n hn
                simp [indexOf_of_settingsIndexOf hidx,
                  indexOf_of_settingsIndexOf (hmono _ _ hidx)]
            · intro st hst n hn
              obtain ⟨idx, hidx, hne⟩ := hregS st hst n hn
              exact ⟨idx, hmono _ _ hidx, hne⟩

/-- C22. On a first compile that succeeds, for the state at position `i`: when the entry
state override conduit has an entry condition node for the ID of the state, the journal
holds the entry condition call on that node, the state's `m_entryConditionNodeIdx` is the
index the call returned, which is the index registered for the node and not
`InvalidIndex`; otherwise `m_entryConditionNodeIdx` is `InvalidIndex`. The entry
condition calls of the compile are those of the states that have an entry condition
node, one each, in the order of the states: none is made for a state without one. -/
theorem entry_condition_index_is_that_of_the_compiled_node {sm : StateMachineToolsNode}
    {ctx ctx' : GraphCompilationContext} {r : Int} (h : sm.Compile ctx = some (r, ctx'))
    (hfresh : ctx.m_nodeIDToIndexMap.lookup sm.GetID = none) (hr : r ≠ InvalidIndex) :
    ∃ s, ctx'.stateMachineAt ctx.m_nodeSettings.length = some s ∧
      (journal ctx ctx').filterMap CompileEvent.entryConditionCall =
        sm.GetChildGraph.stateNodes.filterMap (fun pStateNode =>
          (sm.GetEntryStateOverrideConduit.GetEntryConditionNodeForState
            pStateNode.GetID).map fun pEntryConditionNode =>
              (pEntryConditionNode.GetID, ctx'.indexOf pEntryConditionNode.GetID)) ∧
      ∀ (i : Nat) (pStateNode : ToolsState),
        sm.GetChildGraph.stateNodes[i]? = some pStateNode →
        ∃ entry, s.m_stateSettings[i]? = some entry ∧
          match sm.GetEntryStateOverrideConduit.GetEntryConditionNodeForState
              pStateNode.GetID with
          | some pEntryConditionNode =>
            CompileEvent.call .entryCondition pEntryConditionNode.GetID
              entry.m_entryConditionNodeIdx ∈ journal ctx ctx' ∧
            ctx'.settingsIndexOf pEntryConditionNode.GetID =
              some entry.m_entryConditionNodeIdx ∧
            entry.m_entryConditionNodeIdx ≠ InvalidIndex
          | none => entry.m_entryConditionNodeIdx = InvalidIndex := by
  obtain ⟨-, -, hrec⟩ := Compile_record h hfresh hr
  obtain ⟨hj, hreg⟩ := Compile_entryConditions h hfresh hr
  refine ⟨_, hrec, hj, ?_⟩
  intro i st hi
  refine ⟨sm.stateSettingsOf ctx' st, by simp [StateMachineToolsNode.settingsOf, hi], ?_⟩
  cases hn : sm.GetEntryStateOverrideConduit.GetEntryConditionNodeForState st.GetID with
  | none => simp [StateMachineToolsNode.stateSettingsOf, hn]
  | some n =>
    obtain ⟨idx, hidx, hne⟩ := hreg st (List.getElem?_mem hi) n hn
    have hval : (sm.stateSettingsOf ctx' st).m_entryConditionNodeIdx = idx := by
      simp [StateMachineToolsNode.stateSettingsOf, hn, indexOf_of_settingsIndexOf hidx]
    simp only [hval]
    refine ⟨?_, hidx, hne⟩
    have hmem : (n.GetID, idx) ∈
        (journal ctx ctx').filterMap CompileEvent.entryConditionCall := by
      rw [hj, List.mem_filterMap]
      exact ⟨st, List.getElem?_mem hi, by simp [hn, indexOf_of_settingsIndexOf hidx]⟩
    rw [List.mem_filterMap] at hmem
    obtain ⟨e, he, hcall⟩ := hmem
    cases e with
    | call k id res =>
      cases k <;> simp [CompileEvent.entryConditionCall] at hcall
      obtain ⟨rfl, rfl⟩ := hcall
      exact he
    | emit _ _ _ _ => simp [CompileEvent.entryConditionCall] at hcall

theorem entryConditioned_compiles :
    entryConditioned.Compile {} = some (0, compiledContext entryConditioned) := by decide!

/-- C22, at a graph of two off states of which the second has an entry condition (node
70): the compile makes one entry condition call, on the node 70, which returns 3; the
first state's entry condition index is `InvalidIndex` and the second's is 3. -/
theorem entryConditioned_entry_conditions :
    entryConditioned.Compile {} = some (0, compiledContext entryConditioned) ∧
    (({} : GraphCompilationContext).m_nodeIDToIndexMap.lookup entryConditioned.GetID = none) ∧
    (0 : Int) ≠ InvalidIndex ∧
    entryConditionsAt (compiledContext entryConditioned) 0 = some [InvalidIndex, 3] ∧
    (journal {} (compiledContext entryConditioned)).filterMap
      CompileEvent.entryConditionCall = [(70, 3)] ∧
    ∃ s, (compiledContext entryConditioned).stateMachineAt
        ({} : GraphCompilationContext).m_nodeSettings.length = some s ∧
      (journal {} (compiledContext entryConditioned)).filterMap
          CompileEvent.entryConditionCall =
        entryConditioned.GetChildGraph.stateNodes.filterMap (fun pStateNode =>
          (entryConditioned.GetEntryStateOverrideConduit.GetEntryConditionNodeForState
            pStateNode.GetID).map fun pEntryConditionNode =>
              (pEntryConditionNode.GetID,
                (compiledContext entryConditioned).indexOf pEntryConditionNode.GetID)) ∧
      ∀ (i : Nat) (pStateNode : ToolsState),
        entryConditioned.GetChildGraph.stateNodes[i]? = some pStateNode →
        ∃ entry, s.m_stateSettings[i]? = some entry ∧
          match entryConditioned.GetEntryStateOverrideConduit.GetEntryConditionNodeForState
              pStateNode.GetID with
          | some pEntryConditionNode =>
            CompileEvent.call .entryCondition pEntryConditionNode.GetID
              entry.m_entryConditionNodeIdx ∈ journal {} (compiledContext entryConditioned) ∧
            (compiledContext entryConditioned).settingsIndexOf pEntryConditionNode.GetID =
              some entry.m_entryConditionNodeIdx ∧
            entry.m_entryConditionNodeIdx ≠ InvalidIndex
          | none => entry.m_entryConditionNodeIdx = InvalidIndex :=
  ⟨entryConditioned_compiles, rfl, by decide, by decide!, by decide!,
    entry_condition_index_is_that_of_the_compiled_node entryConditioned_compiles rfl
      (by decide)⟩

theorem forall₂_exists_of_mem {α β : Type} {R : α → β → Prop} {l1 : List α} {l2 : List β}
    (h : List.Forall₂ R l1 l2) {a : α} (ha : a ∈ l1) : ∃ b ∈ l2, R a b := by
  induction h with
  | nil => cases ha
  | @cons x y _ _ hxy _ ih =>
    rcases List.mem_cons.mp ha with rfl | hrest
    · exact ⟨y, List.mem_cons_self _ _, hxy⟩
    · obtain ⟨b, hb, hab⟩ := ih hrest
      exact ⟨b, List.mem_cons_of_mem _ hb, hab⟩

/-- After a first compile that succeeds, the transition node and the condition node of
every transition emitted for a state have a settings record, whose index the context
registers. -/
theorem Compile_emitted_registered {sm : StateMachineToolsNode}
    {ctx ctx' : GraphCompilationContext} {r : Int} (h : sm.Compile ctx = some (r, ctx'))
    (hfresh : ctx.m_nodeIDToIndexMap.lookup sm.GetID = none) (hr : r ≠ InvalidIndex) :
    ∀ pStateNode ∈ sm.GetChildGraph.stateNodes, ∀ t ∈ sm.emittedFor pStateNode,
      ctx'.settingsIndexOf t.pTransitionNode.GetID =
        some (ctx'.indexOf t.pTransitionNode.GetID) ∧
      ctx'.settingsIndexOf t.pConditionNode.GetID =
        some (ctx'.indexOf t.pConditionNode.GetID) := by
  unfold StateMachineToolsNode.Compile at h
  rw [GetSettings_new _ hfresh] at h
  simp only [ne_eq, not_true_eq_false, if_false] at h
  have hs0 : ({ ctx with
      m_nodeIDToIndexMap := ctx.m_nodeIDToIndexMap ++ [(sm.GetID, ctx.m_nodeSettings.length)]
      m_nodeSettings := ctx.m_nodeSettings ++
        [NodeSettings.stateMachine { m_nodeIdx := (ctx.m_nodeSettings.length : Int) }] } :
      GraphCompilationContext).stateMachineAt ctx.m_nodeSettings.length =
      some { m_nodeIdx := (ctx.m_nodeSettings.length : Int) } := by
    simp [GraphCompilationContext.stateMachineAt]
  generalize hps : ctx.m_nodeSettings.length = ps at h hs0
  split at h
  · cases h
  · split at h
    · cases h
    · cases h; exact absurd rfl hr
    · rename_i maps1 c1 hS
      obtain ⟨⟨entries, hfe, hse⟩, hmap⟩ := compileStates_record _ hS hs0
      have hidx : ∀ k, (maps1.IDToStateIdxMap.find k).getD 0 = sm.stateIndexOf k := by
        intro k; rw [hmap]; rfl
      split at h
      · cases h
      · cases h; exact absurd rfl hr
      · rename_i maps2 c2 hT
        obtain ⟨⟨lists, hfl, hsl⟩, hidx2⟩ :=
          compileTransitions_record sm.stateIndexOf _ hT hse hidx
        split at h
        · cases h
        · rename_i idx hn
          simp only [Option.some.injEq, Prod.mk.injEq] at h
          obtain ⟨-, hctx⟩ := h
          subst hctx
          have evF : Evolves (fun q => q = ps) c2 (c2.modifyStateMachine ps fun s =>
              { s with m_defaultStateIndex :=
                  (maps2.IDToStateIdxMap.index sm.GetChildGraph.GetDefaultEntryStateID 0).1 }) :=
            (Effect.modifyStateMachine (fun _ => False) c2 ps _ (by intro _; rfl)).evolves
          have hfl' := hfl.imp (fun _ _ hx => IsEntryOf.forall₂_mono evF hx)
          intro pStateNode hst t ht
          obtain ⟨list, -, hlist⟩ := forall₂_exists_of_mem hfl' hst
          obtain ⟨entry, -, -, h2, h3⟩ := forall₂_exists_of_mem hlist ht
          exact ⟨by rw [indexOf_of_settingsIndexOf h2]; exact h2,
            by rw [indexOf_of_settingsIndexOf h3]; exact h3⟩

theorem mem_emittedGlobals {g : GlobalTransitionToolsNode} {pConditionNode : FlowToolsNode}
    {gs : List GlobalTransitionToolsNode} (hg : g ∈ gs)
    (hc : g.GetConnectedInputNode 0 = some pConditionNode) :
    (⟨g.toTransitionToolsNode, pConditionNode, g.GetEndStateID⟩ : EmittedTransition) ∈
      emittedGlobals gs := by
  induction gs with
  | nil => cases hg
  | cons a rest ih =>
    simp only [emittedGlobals, List.mem_append]
    rcases List.mem_cons.mp hg with rfl | hrest
    · left
      simp [emittedTransition, hc]
    · exact Or.inr (ih hrest)

/-- C5 (as amended): on a first run of `Compile` that succeeds, a global transition with
a connected condition has a transition entry in the transition list of every state
other than its end state that has no conduit to that end state: the removals made for
one state do not reach another. The entry holds the index of the end state and the
indices registered for the transition node and for its condition node, and its append is
in the journal of the run. -/
theorem global_transition_emitted_from_every_state {sm : StateMachineToolsNode}
    {ctx ctx' : GraphCompilationContext} {r : Int} {i : Nat} {S : ToolsState}
    {g : GlobalTransitionToolsNode} {pConditionNode : FlowToolsNode}
    (h : sm.Compile ctx = some (r, ctx'))
    (hfresh : ctx.m_nodeIDToIndexMap.lookup sm.GetID = none) (hr : r ≠ InvalidIndex)
    (hS : sm.GetChildGraph.stateNodes[i]? = some S)
    (hg : g ∈ sm.GetGlobalTransitionConduit.globalTransitionNodes)
    (hconnected : g.GetConnectedInputNode 0 = some pConditionNode)
    (hother : g.GetEndStateID ≠ S.GetID)
    (hconduit : ∀ cd ∈ sm.GetChildGraph.conduitNodes,
      cd.GetStartStateID = S.GetID → cd.GetEndStateID ≠ g.GetEndStateID) :
    (∃ s entry transition, ctx'.stateMachineAt ctx.m_nodeSettings.length = some s ∧
      s.m_stateSettings[i]? = some entry ∧
      transition ∈ entry.m_transitionSettings ∧
      transition.m_targetStateIdx = sm.stateIndexOf g.GetEndStateID ∧
      ctx'.settingsIndexOf g.GetID = some transition.m_transitionNodeIdx ∧
      ctx'.settingsIndexOf pConditionNode.GetID = some transition.m_conditionNodeIdx) ∧
    CompileEvent.emit i .global g.GetID g.GetEndStateID ∈ journal ctx ctx' := by
  have hcopy : g ∈ globalsFor sm S :=
    mem_workingCopy _ _ (mem_RemoveFromGlobalTransitions hg hother) hconduit
  constructor
  · obtain ⟨-, -, hrec⟩ := Compile_record h hfresh hr
    have ht : (⟨g.toTransitionToolsNode, pConditionNode, g.GetEndStateID⟩ :
        EmittedTransition) ∈ sm.emittedFor S :=
      List.mem_append_right _ (mem_emittedGlobals hcopy hconnected)
    obtain ⟨k1, k2⟩ := Compile_emitted_registered h hfresh hr S (List.getElem?_mem hS) _ ht
    refine ⟨_, sm.stateSettingsOf ctx' S, sm.transitionSettingsOf ctx' _, hrec,
      by simp [StateMachineToolsNode.settingsOf, hS],
      List.mem_map_of_mem _ ht, rfl, k1, k2⟩
  · apply journal_emit_complete h hfresh hr
    rw [mem_plannedTransitions_global]
    exact ⟨i, S, g, by omega, hS, hcopy, by rw [hconnected]; simp, rfl, rfl⟩

/-- C5, counterexample: the global transition to state 12 has a connected condition,
state 11 (position 1) is another state and no conduit exists, yet the transition list of
state 11 in the record is empty, as is that of state 12, and the journal holds no append
for state 11: the compile returned `InvalidIndex` while it resolved state 10, whose list
holds the entry that was being filled in. -/
theorem aborted_compile_emits_nothing_for_later_states :
    failingCondition.Compile {} = some (InvalidIndex, compiledContext failingCondition) ∧
    failingCondition.GetChildGraph.stateNodes.map ToolsState.GetID = [10, 11, 12] ∧
    failingCondition.GetChildGraph.conduitNodes.length = 0 ∧
    failingCondition.GetGlobalTransitionConduit.globalTransitionNodes.map
      (fun g => (g.GetID, (g.GetConnectedInputNode 0).isSome, g.GetEndStateID)) =
      [(30, true, 12)] ∧
    (((compiledContext failingCondition).stateMachineAt 0).map fun s =>
      s.m_stateSettings[1]?.map fun st => st.m_transitionSettings) = some (some []) ∧
    (((compiledContext failingCondition).stateMachineAt 0).map fun s =>
      s.m_stateSettings.map fun st => st.m_transitionSettings.length) = some [1, 0, 0] ∧
    CompileEvent.emit 1 .global 30 12 ∉ journal {} (compiledContext failingCondition) := by
  decide!

/-- C5, witness: in the scenario with a global transition to each state, the one to
Jump (node 30, condition node 101) has an entry in the transition list of Run
(position 1), with the state index 2 of Jump as its target. -/
theorem run_has_global_transition_to_jump :
    targetsAt (compiledContext idleRunJumpAllGlobals) 0 = some [[1, 2], [0, 2], [0, 1]] ∧
    idleRunJumpAllGlobals.stateIndexOf 12 = 2 ∧
    ((∃ s entry transition,
      (compiledContext idleRunJumpAllGlobals).stateMachineAt
        ({} : GraphCompilationContext).m_nodeSettings.length = some s ∧
      s.m_stateSettings[1]? = some entry ∧
      transition ∈ entry.m_transitionSettings ∧
      transition.m_targetStateIdx = idleRunJumpAllGlobals.stateIndexOf 12 ∧
      (compiledContext idleRunJumpAllGlobals).settingsIndexOf 30 =
        some transition.m_transitionNodeIdx ∧
      (compiledContext idleRunJumpAllGlobals).settingsIndexOf 101 =
        some transition.m_conditionNodeIdx) ∧
    CompileEvent.emit 1 .global 30 12 ∈ journal {} (compiledContext idleRunJumpAllGlobals)) :=
  ⟨by decide!, by decide,
    global_transition_emitted_from_every_state (g := globalTransitionTo 30 (boolNode 101) 12)
      idleRunJumpAllGlobals_compiles rfl (by decide)
      (show idleRunJumpAllGlobals.GetChildGraph.stateNodes[1]? =
        some (blendTreeState 11 (poseNode 51)) from rfl)
      (by simp [idleRunJumpAllGlobals, stateMachineOf]) rfl (by decide) (by decide)⟩

namespace GraphNodes

open ExternalGraphNode

theorem AttachGraphInstance_eq_some (node : ExternalGraphNode) (context : GraphContext)
    (p : Option GraphInstance) (hp : p.isSome = true) (hn : node.m_pGraphInstance = none) :
    node.AttachGraphInstance context p = some { node with m_pGraphInstance := p } := by
  simp [AttachGraphInstance, EE_ASSERT, hp, hn]

theorem AttachGraphInstance_attached {node node' : ExternalGraphNode} {context : GraphContext}
    {p : Option GraphInstance} (h : node.AttachGraphInstance context p = some node') :
    node'.m_pGraphInstance.isSome = true := by
  unfold AttachGraphInstance EE_ASSERT at h
  cases hp : p.isSome <;> cases hn : node.m_pGraphInstance.isNone <;> simp [hp, hn] at h
  subst h
  exact hp

theorem TransferGraphInstanceData_attached {env : Collaborators}
    {node node' : ExternalGraphNode} {context context' : GraphContext}
    {result result' : GraphPoseNodeResult}
    (h : TransferGraphInstanceData env node context result = some (result', node', context')) :
    node'.m_pGraphInstance.isSome = true := by
  unfold TransferGraphInstanceData at h
  split at h
  · cases h
  · rename_i g hg
    simp only [Option.some.injEq, Prod.mk.injEq] at h
    obtain ⟨-, h2, -⟩ := h
    subst h2
    simp [hg]

/-- A call other than a detach leaves an attached node attached. -/
theorem Call.run_attached {env : Collaborators} {call : Call}
    {node node' : ExternalGraphNode} {context context' : GraphContext}
    (hcall : call.isDetach = false) (hatt : node.m_pGraphInstance.isSome = true)
    (h : call.run env node context = some (node', context')) :
    node'.m_pGraphInstance.isSome = true := by
  obtain ⟨g, hg⟩ := Option.isSome_iff_exists.mp hatt
  cases call with
  | Attach p =>
    simp only [Call.run, Option.map_eq_some', Prod.mk.injEq] at h
    obtain ⟨n, hn, rfl, -⟩ := h
    exact AttachGraphInstance_attached hn
  | Detach => simp [Call.isDetach] at hcall
  | Initialize t =>
    simp only [Call.run, Option.some.injEq, Prod.mk.injEq] at h
    obtain ⟨rfl, -⟩ := h
    simp [InitializeInternal, hg]
  | Update =>
    simp only [Call.run, Option.map_eq_some'] at h
    obtain ⟨⟨r, n, c⟩, hu, he⟩ := h
    simp only [Prod.mk.injEq] at he
    obtain ⟨rfl, -⟩ := he
    unfold ExternalGraphNode.Update at hu
    split at hu
    · cases hu
    · simp only [hg] at hu
      exact TransferGraphInstanceData_attached hu
  | UpdateSynchronized range =>
    simp only [Call.run, Option.map_eq_some'] at h
    obtain ⟨⟨r, n, c⟩, hu, he⟩ := h
    simp only [Prod.mk.injEq] at he
    obtain ⟨rfl, -⟩ := he
    unfold ExternalGraphNode.UpdateSynchronized at hu
    split at hu
    · cases hu
    · simp only [hg] at hu
      exact TransferGraphInstanceData_attached hu

/-- Calls without a detach leave an attached node attached. -/
theorem runCalls_attached {env : Collaborators} (calls : List Call) :
    ∀ {node node' : ExternalGraphNode} {context context' : GraphContext},
    (∀ call ∈ calls, call.isDetach = false) → node.m_pGraphInstance.isSome = true →
    runCalls env calls node context = some (node', context') →
    node'.m_pGraphInstance.isSome = true := by
  induction calls with
  | nil =>
    intro node node' context context' _ hatt h
    simp only [runCalls, Option.some.injEq, Prod.mk.injEq] at h
    obtain ⟨rfl, -⟩ := h
    exact hatt
  | cons call rest ih =>
    intro node node' context context' hcalls hatt h
    simp only [runCalls] at h
    split at h
    · cases h
    · rename_i n c hrun
      exact ih (fun x hx => hcalls x (List.mem_cons_of_mem _ hx))
        (Call.run_attached (hcalls call (List.mem_cons_self _ _)) hatt hrun) h

theorem runCalls_append {env : Collaborators} (xs ys : List Call) :
    ∀ (node : ExternalGraphNode) (context : GraphContext),
    runCalls env (xs ++ ys) node context =
      (runCalls env xs node context).bind fun s => runCalls env ys s.1 s.2 := by
  induction xs with
  | nil => intro node context; simp [runCalls]
  | cons x rest ih =>
    intro node context
    simp only [List.cons_append, runCalls]
    cases x.run env node context with
    | none => rfl
    | some s => exact ih s.1 s.2

/-- C13. `AttachGraphInstance` fails an assertion exactly when the given instance is null
or the node is attached, and otherwise leaves the node attached to the given instance,
its other members untouched; `DetachExternalGraphInstance` fails an assertion exactly
when the node is detached, and otherwise leaves it detached; the destructor fails its
assertion exactly when the node is attached; and any sequence of calls that starts with
an attach, ends with an attach and has no detach in between fails an assertion. -/
theorem attach_detach_assertions (env : Collaborators) (node : ExternalGraphNode)
    (context : GraphContext) :
    (∀ p : Option GraphInstance,
      (node.AttachGraphInstance context p = none ↔
        p = none ∨ node.m_pGraphInstance ≠ none) ∧
      ∀ node', node.AttachGraphInstance context p = some node' →
        p ≠ none ∧ node'.m_pGraphInstance = p ∧ node'.toPoseNode = node.toPoseNode) ∧
    ((node.DetachExternalGraphInstance context = none ↔ node.m_pGraphInstance = none) ∧
      ∀ node', node.DetachExternalGraphInstance context = some node' →
        node'.m_pGraphInstance = none ∧ node'.toPoseNode = node.toPoseNode) ∧
    (node.destructor = none ↔ node.m_pGraphInstance ≠ none) ∧
    (∀ (p1 p2 : Option GraphInstance) (between : List Call),
      (∀ call ∈ between, call.isDetach = false) →
      runCalls env ([Call.Attach p1] ++ between ++ [Call.Attach p2]) node context = none) := by
  refine ⟨fun p => ⟨?_, ?_⟩, ⟨?_, ?_⟩, ?_, ?_⟩
  · cases p <;> cases hn : node.m_pGraphInstance <;>
      simp [AttachGraphInstance, EE_ASSERT, hn]
  · intro node' h
    cases p <;> cases hn : node.m_pGraphInstance <;>
      simp [AttachGraphInstance, EE_ASSERT, hn] at h
    subst h
    simp
  · cases hn : node.m_pGraphInstance <;> simp [DetachExternalGraphInstance, EE_ASSERT, hn]
  · intro node' h
    cases hn : node.m_pGraphInstance <;>
      simp [DetachExternalGraphInstance, EE_ASSERT, hn] at h
    subst h
    simp
  · cases hn : node.m_pGraphInstance <;> simp [destructor, EE_ASSERT, hn]
  · intro p1 p2 between hbetween
    rw [List.append_assoc, runCalls_append]
    cases h1 : runCalls env [Call.Attach p1] node context with
    | none => rfl
    | some s1 =>
      obtain ⟨n1, c1⟩ := s1
      have hatt1 : n1.m_pGraphInstance.isSome = true := by
        simp only [runCalls, Call.run] at h1
        cases ha : node.AttachGraphInstance context p1 with
        | none => simp [ha] at h1
        | some n =>
          simp only [ha, Option.map_some', Option.some.injEq, Prod.mk.injEq] at h1
          obtain ⟨rfl, -⟩ := h1
          exact AttachGraphInstance_attached ha
      show runCalls env (between ++ [Call.Attach p2]) n1 c1 = none
      rw [runCalls_append]
      cases h2 : runCalls env between n1 c1 with
      | none => rfl
      | some s2 =>
        obtain ⟨n2, c2⟩ := s2
        have hatt2 := runCalls_attached between hbetween hatt1 h2
        obtain ⟨g, hg⟩ := Option.isSome_iff_exists.mp hatt2
        cases p2 <;> simp [runCalls, Call.run, AttachGraphInstance, EE_ASSERT, hg]

/-- C13, at a concrete node: attaching to the detached example node succeeds, and the
sequence attach, update, initialize, attach fails an assertion. -/
theorem second_attach_asserts_after_update :
    (exampleNode.AttachGraphInstance exampleContext (some exampleInstance)).isSome = true ∧
    runCalls exampleCollaborators
      ([Call.Attach (some exampleInstance)] ++ [Call.Update, Call.Initialize {}] ++
        [Call.Attach (some exampleInstance)]) exampleNode exampleContext = none :=
  ⟨by decide,
    (attach_detach_assertions exampleCollaborators exampleNode exampleContext).2.2.2
      (some exampleInstance) (some exampleInstance) [Call.Update, Call.Initialize {}]
      (by decide)⟩

/-- What either overload of `Update` does on a detached node in a valid context. -/
theorem Update_detached (env : Collaborators) (node : ExternalGraphNode)
    (context : GraphContext) (hd : node.m_pGraphInstance = none)
    (hv : context.IsValid = true) :
    node.Update env context = some
      ({ m_taskIdx := (context.m_pTaskSystem.m_tasks.length : Int)
         m_sampledEventRange := ⟨context.m_sampledEventsBuffer.GetNumEvents,
           context.m_sampledEventsBuffer.GetNumEvents⟩ },
        node,
        { context with
          m_activeNodes := context.m_activeNodes ++ [node.GetNodeIndex]
          m_pTaskSystem := ⟨context.m_pTaskSystem.m_tasks ++
            [Task.DefaultPoseTask node.GetNodeIndex .ReferencePose]⟩ }) := by
  simp [ExternalGraphNode.Update, EE_ASSERT, hv, hd, MarkNodeActive, TaskSystem.RegisterTask,
    SampledEventRange.atIndex]

theorem UpdateSynchronized_detached (env : Collaborators) (node : ExternalGraphNode)
    (context : GraphContext) (updateRange : SyncTrackTimeRange)
    (hd : node.m_pGraphInstance = none) (hv : context.IsValid = true) :
    node.UpdateSynchronized env context updateRange = node.Update env context := by
  simp [ExternalGraphNode.Update, ExternalGraphNode.UpdateSynchronized, EE_ASSERT, hv, hd]

/-- C14. Either overload of `Update`, on a detached node in a valid context, returns;
the range of the result is empty and anchored at the number of events in the buffer,
the task system holds its former tasks followed by one `DefaultPoseTask` for the node
with the reference pose, the task index of the result is the index of that task, and the
sampled event buffer is unchanged. -/
theorem update_detached_registers_default_pose (env : Collaborators)
    (node : ExternalGraphNode) (context : GraphContext) (updateRange : SyncTrackTimeRange)
    (hd : node.m_pGraphInstance = none) (hv : context.IsValid = true) :
    ∃ result node' context',
      node.Update env context = some (result, node', context') ∧
      node.UpdateSynchronized env context updateRange = some (result, node', context') ∧
      result.m_sampledEventRange.GetLength = 0 ∧
      result.m_sampledEventRange.m_startIdx = context.m_sampledEventsBuffer.GetNumEvents ∧
      result.m_sampledEventRange.m_endIdx = context.m_sampledEventsBuffer.GetNumEvents ∧
      context'.m_pTaskSystem.m_tasks = context.m_pTaskSystem.m_tasks ++
        [Task.DefaultPoseTask node.GetNodeIndex .ReferencePose] ∧
      result.m_taskIdx = (context.m_pTaskSystem.m_tasks.length : Int) ∧
      context'.m_pTaskSystem.m_tasks[context.m_pTaskSystem.m_tasks.length]? =
        some (Task.DefaultPoseTask node.GetNodeIndex .ReferencePose) ∧
      context'.m_sampledEventsBuffer = context.m_sampledEventsBuffer ∧
      node'.m_pGraphInstance = none := by
  refine ⟨_, _, _, Update_detached env node context hd hv, ?_, ?_⟩
  · rw [UpdateSynchronized_detached env node context updateRange hd hv]
    exact Update_detached env node context hd hv
  · simp [SampledEventRange.GetLength, hd]

/-- C14, at the example node and context: the range is `[2, 2)` and the task gets
index 1. -/
theorem exampleNode_update_detached :
    exampleNode.m_pGraphInstance = none ∧ exampleContext.IsValid = true ∧
    ∃ result node' context',
      exampleNode.Update exampleCollaborators exampleContext = some (result, node', context') ∧
      exampleNode.UpdateSynchronized exampleCollaborators exampleContext {} =
        some (result, node', context') ∧
      result.m_sampledEventRange.GetLength = 0 ∧
      result.m_sampledEventRange.m_startIdx = exampleContext.m_sampledEventsBuffer.GetNumEvents ∧
      result.m_sampledEventRange.m_endIdx = exampleContext.m_sampledEventsBuffer.GetNumEvents ∧
      context'.m_pTaskSystem.m_tasks = exampleContext.m_pTaskSystem.m_tasks ++
        [Task.DefaultPoseTask exampleNode.GetNodeIndex .ReferencePose] ∧
      result.m_taskIdx = (exampleContext.m_pTaskSystem.m_tasks.length : Int) ∧
      context'.m_pTaskSystem.m_tasks[exampleContext.m_pTaskSystem.m_tasks.length]? =
        some (Task.DefaultPoseTask exampleNode.GetNodeIndex .ReferencePose) ∧
      context'.m_sampledEventsBuffer = exampleContext.m_sampledEventsBuffer ∧
      node'.m_pGraphInstance = none :=
  ⟨rfl, rfl, update_detached_registers_default_pose exampleCollaborators exampleNode
    exampleContext {} rfl rfl⟩

/-- What `TransferGraphInstanceData` does on an attached node. -/
theorem TransferGraphInstanceData_eq (env : Collaborators) (node : ExternalGraphNode)
    (context : GraphContext) (result : GraphPoseNodeResult) (g : GraphInstance)
    (hg : node.m_pGraphInstance = some g) :
    ∃ result' node' context',
      TransferGraphInstanceData env node context result = some (result', node', context') ∧
      context'.m_sampledEventsBuffer.m_events =
        context.m_sampledEventsBuffer.m_events ++ g.GetSampledEvents.m_events ∧
      result'.m_sampledEventRange =
        ⟨context.m_sampledEventsBuffer.GetNumEvents + g.GetSampledEvents.GetNumEvents,
          context.m_sampledEventsBuffer.GetNumEvents + g.GetSampledEvents.GetNumEvents +
            g.GetSampledEvents.GetNumEvents⟩ ∧
      node'.m_pGraphInstance = some g ∧
      node'.m_previousTime = g.GetRootNode.GetCurrentTime ∧
      node'.m_currentTime = g.GetRootNode.GetCurrentTime ∧
      node'.m_duration = g.GetRootNode.GetDuration ∧
      context'.m_pTaskSystem = context.m_pTaskSystem := by
  simp only [TransferGraphInstanceData, hg]
  refine ⟨_, _, _, rfl, ?_, ?_, rfl, rfl, rfl, rfl, ?_⟩
  · cases env.EE_DEVELOPMENT_TOOLS <;>
      simp [SampledEventsBuffer.Append, GraphContext.RecordGraphSource]
  · simp [SampledEventsBuffer.Append, SampledEventsBuffer.GetNumEvents]
  · cases env.EE_DEVELOPMENT_TOOLS <;> simp [GraphContext.RecordGraphSource]

/-- What `Update( context )` does on an attached node in a valid context: `g` is the
external instance after its evaluation. -/
theorem Update_attached (env : Collaborators) (node : ExternalGraphNode)
    (context : GraphContext) (g0 : GraphInstance) (ha : node.m_pGraphInstance = some g0)
    (hv : context.IsValid = true) :
    ∃ result node' context',
      node.Update env context = some (result, node', context') ∧
      node'.m_pGraphInstance = some (env.EvaluateGraph g0 context.m_deltaTime
        context.m_worldTransform context.m_pPhysicsScene).2 ∧
      ∀ g, node'.m_pGraphInstance = some g →
        context'.m_sampledEventsBuffer.m_events =
          context.m_sampledEventsBuffer.m_events ++ g.GetSampledEvents.m_events ∧
        result.m_sampledEventRange =
          ⟨context.m_sampledEventsBuffer.GetNumEvents + g.GetSampledEvents.GetNumEvents,
            context.m_sampledEventsBuffer.GetNumEvents + g.GetSampledEvents.GetNumEvents +
              g.GetSampledEvents.GetNumEvents⟩ ∧
        node'.m_previousTime = g.GetRootNode.GetCurrentTime ∧
        node'.m_currentTime = g.GetRootNode.GetCurrentTime ∧
        node'.m_duration = g.GetRootNode.GetDuration := by
  obtain ⟨r, n, c, h, h1, h2, h3, h4, h5, h6, -⟩ := TransferGraphInstanceData_eq env
    { node with m_pGraphInstance := some (env.EvaluateGraph g0 context.m_deltaTime
        context.m_worldTransform context.m_pPhysicsScene).2 }
    (node.MarkNodeActive context)
    (env.EvaluateGraph g0 context.m_deltaTime context.m_worldTransform
      context.m_pPhysicsScene).1 _ rfl
  refine ⟨r, n, c, ?_, h3, ?_⟩
  · simp only [ExternalGraphNode.Update, EE_ASSERT, hv, if_true, ha]
    exact h
  · intro g hg
    rw [h3] at hg
    cases hg
    exact ⟨h1, h2, h4, h5, h6⟩

/-- What `Update( context, updateRange )` does on an attached node in a valid
context. -/
theorem UpdateSynchronized_attached (env : Collaborators) (node : ExternalGraphNode)
    (context : GraphContext) (updateRange : SyncTrackTimeRange) (g0 : GraphInstance)
    (ha : node.m_pGraphInstance = some g0) (hv : context.IsValid = true) :
    ∃ result node' context',
      node.UpdateSynchronized env context updateRange = some (result, node', context') ∧
      node'.m_pGraphInstance = some (env.EvaluateGraphSynchronized g0 context.m_deltaTime
        context.m_worldTransform context.m_pPhysicsScene updateRange).2 ∧
      ∀ g, node'.m_pGraphInstance = some g →
        context'.m_sampledEventsBuffer.m_events =
          context.m_sampledEventsBuffer.m_events ++ g.GetSampledEvents.m_events ∧
        result.m_sampledEventRange =
          ⟨context.m_sampledEventsBuffer.GetNumEvents + g.GetSampledEvents.GetNumEvents,
            context.m_sampledEventsBuffer.GetNumEvents + g.GetSampledEvents.GetNumEvents +
              g.GetSampledEvents.GetNumEvents⟩ ∧
        node'.m_previousTime = g.GetRootNode.GetCurrentTime ∧
        node'.m_currentTime = g.GetRootNode.GetCurrentTime ∧
        node'.m_duration = g.GetRootNode.GetDuration := by
  obtain ⟨r, n, c, h, h1, h2, h3, h4, h5, h6, -⟩ := TransferGraphInstanceData_eq env
    { node with m_pGraphInstance := some (env.EvaluateGraphSynchronized g0 context.m_deltaTime
        context.m_worldTransform context.m_pPhysicsScene updateRange).2 }
    (node.MarkNodeActive context)
    (env.EvaluateGraphSynchronized g0 context.m_deltaTime context.m_worldTransform
      context.m_pPhysicsScene updateRange).1 _ rfl
  refine ⟨r, n, c, ?_, h3, ?_⟩
  · simp only [ExternalGraphNode.UpdateSynchronized, EE_ASSERT, hv, if_true, ha]
    exact h
  · intro g hg
    rw [h3] at hg
    cases hg
    exact ⟨h1, h2, h4, h5, h6⟩

/-- C15. At the attached example node, whose instance sampled the 2 events 7 and 8, in
the example context, whose buffer holds the 2 events 1 and 2: both overloads of `Update`
return the range `[4, 6)`, which lies beyond the 4 events the buffer holds after the
call, while the events the node appended are those of the range `[2, 4)`. -/
theorem attached_update_range_lies_beyond_buffer :
    exampleContext.m_sampledEventsBuffer.GetNumEvents = 2 ∧
    ((attachedExampleNode.Update exampleCollaborators exampleContext).map fun r =>
      r.2.1.m_pGraphInstance.map fun g => g.GetSampledEvents.m_events) =
      some (some [7, 8]) ∧
    ((attachedExampleNode.Update exampleCollaborators exampleContext).map fun r =>
      (r.1.m_sampledEventRange, r.2.2.m_sampledEventsBuffer.m_events)) =
      some (⟨4, 6⟩, [1, 2, 7, 8]) ∧
    ((attachedExampleNode.Update exampleCollaborators exampleContext).map fun r =>
      r.1.m_sampledEventRange.eventsIn r.2.2.m_sampledEventsBuffer) = some none ∧
    ((attachedExampleNode.Update exampleCollaborators exampleContext).map fun r =>
      SampledEventRange.eventsIn ⟨2, 4⟩ r.2.2.m_sampledEventsBuffer) = some (some [7, 8]) ∧
    attachedExampleNode.UpdateSynchronized exampleCollaborators exampleContext {} =
      attachedExampleNode.Update exampleCollaborators exampleContext :=
  ⟨by decide, by decide, by decide, by decide, by decide, by decide⟩

/-- C16. Either overload of `Update`, on an attached node in a valid context, returns,
and the sampled event buffer of the context afterwards holds the events it held
before, in their order, followed by the events the external instance sampled in its
evaluation, in their order. -/
theorem update_attached_appends_external_events (env : Collaborators)
    (node : ExternalGraphNode) (context : GraphContext) (updateRange : SyncTrackTimeRange)
    (g0 : GraphInstance) (ha : node.m_pGraphInstance = some g0)
    (hv : context.IsValid = true) :
    (∃ result node' context',
      node.Update env context = some (result, node', context') ∧
      context'.m_sampledEventsBuffer.m_events =
        context.m_sampledEventsBuffer.m_events ++
          (env.EvaluateGraph g0 context.m_deltaTime context.m_worldTransform
            context.m_pPhysicsScene).2.GetSampledEvents.m_events) ∧
    (∃ result node' context',
      node.UpdateSynchronized env context updateRange = some (result, node', context') ∧
      context'.m_sampledEventsBuffer.m_events =
        context.m_sampledEventsBuffer.m_events ++
          (env.EvaluateGraphSynchronized g0 context.m_deltaTime context.m_worldTransform
            context.m_pPhysicsScene updateRange).2.GetSampledEvents.m_events) := by
  obtain ⟨r1, n1, c1, h1, hg1, hall1⟩ := Update_attached env node context g0 ha hv
  obtain ⟨r2, n2, c2, h2, hg2, hall2⟩ :=
    UpdateSynchronized_attached env node context updateRange g0 ha hv
  exact ⟨⟨r1, n1, c1, h1, (hall1 _ hg1).1⟩, ⟨r2, n2, c2, h2, (hall2 _ hg2).1⟩⟩

/-- C16, at the attached example node: the buffer `[1, 2]` becomes `[1, 2, 7, 8]`. -/
theorem attachedExampleNode_update_appends :
    attachedExampleNode.m_pGraphInstance = some exampleInstance ∧
    exampleContext.IsValid = true ∧
    (∃ result node' context',
      attachedExampleNode.Update exampleCollaborators exampleContext =
        some (result, node', context') ∧
      context'.m_sampledEventsBuffer.m_events =
        exampleContext.m_sampledEventsBuffer.m_events ++
          (exampleCollaborators.EvaluateGraph exampleInstance exampleContext.m_deltaTime
            exampleContext.m_worldTransform
            exampleContext.m_pPhysicsScene).2.GetSampledEvents.m_events) ∧
    (∃ result node' context',
      attachedExampleNode.UpdateSynchronized exampleCollaborators exampleContext {} =
        some (result, node', context') ∧
      context'.m_sampledEventsBuffer.m_events =
        exampleContext.m_sampledEventsBuffer.m_events ++
          (exampleCollaborators.EvaluateGraphSynchronized exampleInstance
            exampleContext.m_deltaTime exampleContext.m_worldTransform
            exampleContext.m_pPhysicsScene {}).2.GetSampledEvents.m_events) :=
  ⟨rfl, rfl, update_attached_appends_external_events exampleCollaborators attachedExampleNode
    exampleContext {} exampleInstance rfl rfl⟩

/-- `InitializeInternal` on an attached node resets the external instance, then sets the
node's previous time and its current time both to the current time of the root node of
the instance (lines 43 and 44 read `GetCurrentTime` twice), and its duration to the root
node's duration; on a detached node it sets the three of them to 0, whatever the initial
time and whatever the base class did. Whether the previous time is also the previous time
of the root node depends on what `ResetGraphState`, which is outside src, leaves in the
root node. -/
theorem initialize_reads_root_current_time (env : Collaborators) (node : ExternalGraphNode)
    (context : GraphContext) (initialTime : SyncTrackTime) :
    (∀ g0, node.m_pGraphInstance = some g0 →
      (node.InitializeInternal env context initialTime).m_pGraphInstance =
        some (env.ResetGraphState g0) ∧
      (node.InitializeInternal env context initialTime).m_currentTime =
        (env.ResetGraphState g0).GetRootNode.GetCurrentTime ∧
      (node.InitializeInternal env context initialTime).m_previousTime =
        (env.ResetGraphState g0).GetRootNode.GetCurrentTime ∧
      (node.InitializeInternal env context initialTime).m_duration =
        (env.ResetGraphState g0).GetRootNode.GetDuration) ∧
    (node.m_pGraphInstance = none →
      (node.InitializeInternal env context initialTime).m_pGraphInstance = none ∧
      (node.InitializeInternal env context initialTime).m_currentTime = ⟨0⟩ ∧
      (node.InitializeInternal env context initialTime).m_previousTime = ⟨0⟩ ∧
      (node.InitializeInternal env context initialTime).m_duration = ⟨0⟩) := by
  refine ⟨fun g0 hg => ?_, fun hn => ?_⟩
  · simp [InitializeInternal, hg]
  · simp [InitializeInternal, hn]

/-- At the example nodes: the attached node takes the previous time 0 from the current
time of the reset root node, and the detached node has the current time 0. -/
theorem exampleNode_initialize :
    (attachedExampleNode.InitializeInternal exampleCollaborators exampleContext
      ⟨2, ⟨7⟩⟩).m_previousTime = ⟨0⟩ ∧
    (exampleNode.InitializeInternal exampleCollaborators exampleContext
      ⟨2, ⟨7⟩⟩).m_currentTime = ⟨0⟩ :=
  ⟨((initialize_reads_root_current_time exampleCollaborators attachedExampleNode
      exampleContext ⟨2, ⟨7⟩⟩).1 exampleInstance rfl).2.2.1,
    ((initialize_reads_root_current_time exampleCollaborators exampleNode
      exampleContext ⟨2, ⟨7⟩⟩).2 rfl).2.1⟩

/-- C18. `GetSyncTrack` answers the track of the root node of the attached instance when
the node is attached and `SyncTrack::s_defaultTrack` when it is detached; a sequence of
calls that ends with a detach and fails no assertion leaves a node that answers the
default track, and on a detached node an attach followed by a detach fails no
assertion. -/
theorem sync_track_of_attached_instance_or_default (env : Collaborators)
    (node : ExternalGraphNode) (context : GraphContext) :
    (∀ g, node.m_pGraphInstance = some g →
      node.GetSyncTrack = g.GetRootNode.GetSyncTrack) ∧
    (node.m_pGraphInstance = none → node.GetSyncTrack = SyncTrack.s_defaultTrack) ∧
    (∀ (calls : List Call) (node' : ExternalGraphNode) (context' : GraphContext),
      runCalls env (calls ++ [Call.Detach]) node context = some (node', context') →
      node'.GetSyncTrack = SyncTrack.s_defaultTrack) ∧
    (∀ g, node.m_pGraphInstance = none →
      ∃ attached detached,
        runCalls env [Call.Attach (some g)] node context = some (attached, context) ∧
        attached.GetSyncTrack = g.GetRootNode.GetSyncTrack ∧
        runCalls env [Call.Attach (some g), Call.Detach] node context =
          some (detached, context) ∧
        detached.GetSyncTrack = SyncTrack.s_defaultTrack) := by
  refine ⟨fun g hg => by simp [GetSyncTrack, hg], fun hn => by simp [GetSyncTrack, hn],
    ?_, ?_⟩
  · intro calls node' context' h
    rw [runCalls_append] at h
    cases h1 : runCalls env calls node context with
    | none => simp [h1] at h
    | some s =>
      obtain ⟨n1, c1⟩ := s
      rw [h1] at h
      simp only [Option.some_bind, runCalls, Call.run] at h
      cases hd : n1.DetachExternalGraphInstance c1 with
      | none => rw [hd] at h; cases h
      | some n2 =>
        rw [hd] at h
        simp only [Option.map_some', Option.some.injEq, Prod.mk.injEq] at h
        obtain ⟨rfl, -⟩ := h
        have hn2 : n2.m_pGraphInstance = none := by
          cases hn : n1.m_pGraphInstance <;>
            simp [DetachExternalGraphInstance, EE_ASSERT, hn] at hd
          subst hd
          rfl
        simp [GetSyncTrack, hn2]
  · intro g hn
    refine ⟨{ node with m_pGraphInstance := some g }, { node with m_pGraphInstance := none },
      ?_, ?_, ?_, ?_⟩
    · simp [runCalls, Call.run, AttachGraphInstance, EE_ASSERT, hn]
    · simp [GetSyncTrack]
    · simp [runCalls, Call.run, AttachGraphInstance, DetachExternalGraphInstance, EE_ASSERT, hn]
    · simp [GetSyncTrack]

/-- C18, at the example node: once attached it answers the track `walk` of the example
instance, and after the detach the default track again. -/
theorem exampleNode_sync_track :
    exampleNode.GetSyncTrack = SyncTrack.s_defaultTrack ∧
    attachedExampleNode.GetSyncTrack = ⟨[("walk", ⟨0⟩)]⟩ ∧
    ((runCalls exampleCollaborators [Call.Attach (some exampleInstance), Call.Detach]
      exampleNode exampleContext).map fun s => s.1.GetSyncTrack) =
      some SyncTrack.s_defaultTrack :=
  ⟨(sync_track_of_attached_instance_or_default exampleCollaborators exampleNode
      exampleContext).2.1 rfl, by decide, by decide⟩

/-- C29. In a valid context, either overload of `Update` on a node attached to an
external instance returns, and afterwards the node's previous time and current time are
both the current time of the root node of the external instance as the evaluation left
it, so they are equal, and the node's duration is the duration of that root node,
whatever the node's times and duration were before the call. -/
theorem update_attached_takes_times_of_external_root (env : Collaborators)
    (node : ExternalGraphNode) (context : GraphContext) (updateRange : SyncTrackTimeRange)
    (g0 : GraphInstance) (ha : node.m_pGraphInstance = some g0)
    (hv : context.IsValid = true) :
    (∃ result node' context',
      node.Update env context = some (result, node', context') ∧
      node'.m_pGraphInstance = some (env.EvaluateGraph g0 context.m_deltaTime
        context.m_worldTransform context.m_pPhysicsScene).2 ∧
      ∀ g, node'.m_pGraphInstance = some g →
        node'.GetPreviousTime = g.GetRootNode.GetCurrentTime ∧
        node'.GetCurrentTime = g.GetRootNode.GetCurrentTime ∧
        node'.GetPreviousTime = node'.GetCurrentTime ∧
        node'.GetDuration = g.GetRootNode.GetDuration) ∧
    (∃ result node' context',
      node.UpdateSynchronized env context updateRange = some (result, node', context') ∧
      node'.m_pGraphInstance = some (env.EvaluateGraphSynchronized g0 context.m_deltaTime
        context.m_worldTransform context.m_pPhysicsScene updateRange).2 ∧
      ∀ g, node'.m_pGraphInstance = some g →
        node'.GetPreviousTime = g.GetRootNode.GetCurrentTime ∧
        node'.GetCurrentTime = g.GetRootNode.GetCurrentTime ∧
        node'.GetPreviousTime = node'.GetCurrentTime ∧
        node'.GetDuration = g.GetRootNode.GetDuration) := by
  constructor
  · obtain ⟨result, node', context', h, hg, hall⟩ := Update_attached env node context g0 ha hv
    refine ⟨result, node', context', h, hg, fun g hg' => ?_⟩
    obtain ⟨-, -, h1, h2, h3⟩ := hall g hg'
    exact ⟨h1, h2, h1.trans h2.symm, h3⟩
  · obtain ⟨result, node', context', h, hg, hall⟩ :=
      UpdateSynchronized_attached env node context updateRange g0 ha hv
    refine ⟨result, node', context', h, hg, fun g hg' => ?_⟩
    obtain ⟨-, -, h1, h2, h3⟩ := hall g hg'
    exact ⟨h1, h2, h1.trans h2.symm, h3⟩

/-- C29, at a node at time 1 (previous time 2) of a duration 3 that is attached to the
example instance, whose root node is at time 5 (previous time 4) of a duration 9: after
either overload the node's previous and current time are 5 and its duration is 9. -/
theorem staleNode_update_takes_times_of_external_root :
    staleNode.m_pGraphInstance = some exampleInstance ∧
    exampleContext.IsValid = true ∧
    ((staleNode.Update exampleCollaborators exampleContext).map fun r =>
      (r.2.1.GetPreviousTime, r.2.1.GetCurrentTime, r.2.1.GetDuration)) =
      some (⟨5⟩, ⟨5⟩, ⟨9⟩) ∧
    ((staleNode.UpdateSynchronized exampleCollaborators exampleContext {}).map fun r =>
      (r.2.1.GetPreviousTime, r.2.1.GetCurrentTime, r.2.1.GetDuration)) =
      some (⟨5⟩, ⟨5⟩, ⟨9⟩) ∧
    (∃ result node' context',
      staleNode.Update exampleCollaborators exampleContext = some (result, node', context') ∧
      node'.m_pGraphInstance = some (exampleCollaborators.EvaluateGraph exampleInstance
        exampleContext.m_deltaTime exampleContext.m_worldTransform
        exampleContext.m_pPhysicsScene).2 ∧
      ∀ g, node'.m_pGraphInstance = some g →
        node'.GetPreviousTime = g.GetRootNode.GetCurrentTime ∧
        node'.GetCurrentTime = g.GetRootNode.GetCurrentTime ∧
        node'.GetPreviousTime = node'.GetCurrentTime ∧
        node'.GetDuration = g.GetRootNode.GetDuration) ∧
    (∃ result node' context',
      staleNode.UpdateSynchronized exampleCollaborators exampleContext {} =
        some (result, node', context') ∧
      node'.m_pGraphInstance = some (exampleCollaborators.EvaluateGraphSynchronized
        exampleInstance exampleContext.m_deltaTime exampleContext.m_worldTransform
        exampleContext.m_pPhysicsScene {}).2 ∧
      ∀ g, node'.m_pGraphInstance = some g →
        node'.GetPreviousTime = g.GetRootNode.GetCurrentTime ∧
        node'.GetCurrentTime = g.GetRootNode.GetCurrentTime ∧
        node'.GetPreviousTime = node'.GetCurrentTime ∧
        node'.GetDuration = g.GetRootNode.GetDuration) :=
  ⟨rfl, rfl, by decide, by decide,
    update_attached_takes_times_of_external_root exampleCollaborators staleNode
      exampleContext {} exampleInstance rfl rfl⟩

end GraphNodes

end EE.Animation

namespace EE.Timeline

open EE.Serialization TrackContainer

theorem FindMember_writeItem (typeRegistry : TypeRegistry) (pItem : TrackItem) :
    (writeItem typeRegistry pItem).FindMember "Item" =
      some (some (typeRegistry.WriteItem pItem)) := by
  simp [writeItem, JsonValue.FindMember, List.lookup]

theorem FindMember_writeTrack (typeRegistry : TypeRegistry) (pTrack : Track) :
    (writeTrack typeRegistry pTrack).FindMember "Track" =
      some (some (typeRegistry.WriteTrack pTrack)) := by
  simp [writeTrack, JsonValue.FindMember, List.lookup]

theorem FindMember_writeTrack_items (typeRegistry : TypeRegistry) (pTrack : Track)
    (h : (typeRegistry.TrackSerializeCustomWriter pTrack).lookup "Items" = none) :
    (writeTrack typeRegistry pTrack).FindMember "Items" =
      some (some (.array (pTrack.m_items.map (writeItem typeRegistry)))) := by
  have hne : ("Items" == "Track") = false := by decide
  simp [writeTrack, JsonValue.FindMember, List.lookup, hne, List.lookup_append, h]

/-- Reading back the item records written for a list of items appends one item per
written item, in order, with the data and the time range of the written one. -/
theorem readItems_written {typeRegistry : TypeRegistry} (h : typeRegistry.RoundTrips)
    (items : List TrackItem) :
    ∀ pTrack : Track, ∃ read : List TrackItem,
      readItems typeRegistry (items.map (writeItem typeRegistry)) pTrack =
        some (false, { pTrack with m_items := pTrack.m_items ++ read }) ∧
      read.map (fun pItem => (pItem.m_data, pItem.GetTimeRange)) =
        items.map (fun pItem => (pItem.m_data, pItem.GetTimeRange)) := by
  induction items with
  | nil => intro pTrack; exact ⟨[], by simp [readItems], rfl⟩
  | cons pItem rest ih =>
    intro pTrack
    obtain ⟨r, hr, hd, ht⟩ := h.item pItem
    obtain ⟨read, hread, hmap⟩ := ih
      { pTrack with m_items := pTrack.m_items ++
          [typeRegistry.ItemSerializeCustom r (writeItem typeRegistry pItem)] }
    refine ⟨typeRegistry.ItemSerializeCustom r (writeItem typeRegistry pItem) :: read, ?_, ?_⟩
    · simp only [List.map_cons, readItems, FindMember_writeItem, hr, hread]
      simp
    · simp [hd, ht, hmap]

/-- Reading back the track records written for a list of tracks appends one track per
written track, in order, with the structure of the written one. -/
theorem readTracks_written {typeRegistry : TypeRegistry} (h : typeRegistry.RoundTrips)
    (tracks : List Track) :
    ∀ c : TrackContainer, ∃ read : List Track,
      readTracks typeRegistry (tracks.map (writeTrack typeRegistry)) c =
        some (false, { c with m_tracks := c.m_tracks ++ read }) ∧
      read.map (fun pTrack => (pTrack.m_data,
          pTrack.m_items.map fun pItem => (pItem.m_data, pItem.GetTimeRange))) =
        tracks.map (fun pTrack => (pTrack.m_data,
          pTrack.m_items.map fun pItem => (pItem.m_data, pItem.GetTimeRange))) := by
  induction tracks with
  | nil => intro c; exact ⟨[], by simp [readTracks], rfl⟩
  | cons pTrack rest ih =>
    intro c
    obtain ⟨r, hr, hd, hi⟩ := h.track pTrack
    obtain ⟨items, hitems, hmap⟩ := readItems_written h pTrack.m_items
      (typeRegistry.TrackSerializeCustom r (writeTrack typeRegistry pTrack))
    obtain ⟨read, hread, hmap2⟩ := ih
      { c with m_tracks := c.m_tracks ++
          [{ typeRegistry.TrackSerializeCustom r (writeTrack typeRegistry pTrack) with
            m_items := (typeRegistry.TrackSerializeCustom r
              (writeTrack typeRegistry pTrack)).m_items ++ items }] }
    refine ⟨{ typeRegistry.TrackSerializeCustom r (writeTrack typeRegistry pTrack) with
        m_items := (typeRegistry.TrackSerializeCustom r
          (writeTrack typeRegistry pTrack)).m_items ++ items } :: read, ?_, ?_⟩
    · simp only [List.map_cons, readTracks, FindMember_writeTrack, hr,
        FindMember_writeTrack_items typeRegistry pTrack (h.items pTrack), JsonValue.IsArray,
        JsonValue.GetArray, Bool.not_true, Bool.false_eq_true, if_false, hitems, hread]
      simp
    · simp [hd, hi, hmap, hmap2]

theorem IsDirty_ClearDirtyFlags (c : TrackContainer) : c.ClearDirtyFlags.IsDirty = false := by
  simp [IsDirty, ClearDirtyFlags, Track.IsDirty, Track.ClearDirtyFlags]

theorem structureOf_ClearDirtyFlags (c : TrackContainer) :
    c.ClearDirtyFlags.structureOf = c.structureOf := by
  simp [structureOf, ClearDirtyFlags, Track.ClearDirtyFlags, TrackItem.GetTimeRange,
    Function.comp_def]

/-- C19. When the registry round-trips single tracks and items, reading the document
that `Serialize( writer )` produced for a container into any container returns true,
and the container read has the structure of the written one (as many tracks, in the
same order and with the same data, each with as many items, in the same order and with
the same data and time range) and is not dirty. -/
theorem serialize_round_trip (typeRegistry : TypeRegistry) (h : typeRegistry.RoundTrips)
    (written target : TrackContainer) :
    ∃ read : TrackContainer,
      target.Serialize typeRegistry (written.SerializeWriter typeRegistry).1 =
        some (true, read) ∧
      read.structureOf = written.structureOf ∧
      read.m_tracks.length = written.m_tracks.length ∧
      (read.m_tracks.map fun pTrack => pTrack.m_items.map TrackItem.GetTimeRange) =
        (written.m_tracks.map fun pTrack => pTrack.m_items.map TrackItem.GetTimeRange) ∧
      read.IsDirty = false := by
  obtain ⟨tracks, hread, hmap⟩ := readTracks_written h written.m_tracks target.FreeTrackData
  have hstructure : TrackContainer.structureOf (TrackContainer.ClearDirtyFlags
      { target.FreeTrackData with m_tracks := target.FreeTrackData.m_tracks ++ tracks }) =
      written.structureOf := by
    rw [structureOf_ClearDirtyFlags]
    simpa [structureOf, FreeTrackData] using hmap
  refine ⟨_, ?_, hstructure, ?_, ?_, IsDirty_ClearDirtyFlags _⟩
  · simp only [Serialize, SerializeWriter, JsonValue.IsArray, JsonValue.GetArray,
      Bool.not_true, Bool.false_eq_true, if_false, hread]
  · have := congrArg List.length hstructure
    simpa [structureOf] using this
  · have := congrArg (List.map fun s : Nat × List (Nat × FloatRange) =>
      s.2.map fun i => i.2) hstructure
    simpa [structureOf, Function.comp_def] using this

theorem exampleRegistry_roundTrips : exampleRegistry.RoundTrips := by
  refine ⟨fun pItem => ⟨_, rfl, ?_, ?_⟩, fun pTrack => ⟨_, rfl, ?_, ?_⟩, fun _ => rfl⟩
  · simp [exampleRegistry]
  · simp [exampleRegistry, TrackItem.GetTimeRange]
  · simp [exampleRegistry]
  · simp [exampleRegistry]

/-- C19, at the container of 2 tracks of 3 items each. -/
theorem exampleContainer_round_trip :
    exampleRegistry.RoundTrips ∧
    ∃ read : TrackContainer,
      exampleContainer.Serialize exampleRegistry
        (exampleContainer.SerializeWriter exampleRegistry).1 = some (true, read) ∧
      read.structureOf = exampleContainer.structureOf ∧
      read.m_tracks.length = exampleContainer.m_tracks.length ∧
      (read.m_tracks.map fun pTrack => pTrack.m_items.map TrackItem.GetTimeRange) =
        (exampleContainer.m_tracks.map fun pTrack =>
          pTrack.m_items.map TrackItem.GetTimeRange) ∧
      read.IsDirty = false :=
  ⟨exampleRegistry_roundTrips,
    serialize_round_trip exampleRegistry exampleRegistry_roundTrips exampleContainer
      exampleContainer⟩

/-- The loop over the item records fails exactly when a record lacks `Item`. -/
theorem readItems_failed {typeRegistry : TypeRegistry} (itemRecords : List JsonValue) :
    ∀ {pTrack pTrack' : Track} {failed : Bool},
    readItems typeRegistry itemRecords pTrack = some (failed, pTrack') →
    (failed = false ↔
      itemRecords.all (fun itemRecord => itemRecord.HasMember "Item") = true) := by
  induction itemRecords with
  | nil =>
    intro pTrack pTrack' failed h
    simp only [readItems, Option.some.injEq, Prod.mk.injEq] at h
    simp [← h.1]
  | cons itemRecord rest ih =>
    intro pTrack pTrack' failed h
    simp only [readItems] at h
    split at h
    · cases h
    · rename_i hf
      cases h
      simp [JsonValue.HasMember, hf]
    · rename_i itemData hf
      split at h
      · cases h
      · rw [ih h]
        simp [JsonValue.HasMember, hf]

/-- The loop over the track records fails exactly when a record lacks a required
key. -/
theorem readTracks_failed {typeRegistry : TypeRegistry} (trackRecords : List JsonValue) :
    ∀ {c c' : TrackContainer} {failed : Bool},
    readTracks typeRegistry trackRecords c = some (failed, c') →
    (failed = false ↔ trackRecords.all trackRecordHasRequiredKeys = true) := by
  induction trackRecords with
  | nil =>
    intro c c' failed h
    simp only [readTracks, Option.some.injEq, Prod.mk.injEq] at h
    simp [← h.1]
  | cons trackRecord rest ih =>
    intro c c' failed h
    simp only [readTracks] at h
    split at h
    · cases h
    · rename_i hf
      cases h
      simp [trackRecordHasRequiredKeys, JsonValue.HasMember, hf]
    · rename_i trackData hf
      split at h
      · cases h
      · split at h
        · cases h
        · rename_i hi
          cases h
          simp [trackRecordHasRequiredKeys, hi]
        · rename_i itemArray hi
          split at h
          · rename_i hna
            cases h
            cases itemArray <;> simp [JsonValue.IsArray] at hna <;>
              simp [trackRecordHasRequiredKeys, hi]
          · rename_i ha
            cases itemArray <;> simp [JsonValue.IsArray] at ha
            rename_i itemRecords
            simp only [JsonValue.GetArray] at h
            split at h
            · cases h
            · rename_i hr
              cases h
              have := (readItems_failed itemRecords hr)
              simp only [Bool.true_eq_false, false_iff, Bool.not_eq_true] at this
              simp [trackRecordHasRequiredKeys, hi, this]
            · rename_i hr
              have := (readItems_failed itemRecords hr).mp rfl
              have hT : trackRecord.HasMember "Track" = true := by
                simp [JsonValue.HasMember, hf]
              rw [ih h]
              simp only [List.all_cons, trackRecordHasRequiredKeys, hT, hi, this,
                Bool.and_self, Bool.true_and]

/-- C20. When the reading `Serialize` returns, it returns true exactly when every record
of the document has its required keys, and when it returns false the container holds no
track afterwards, whatever it held before. -/
theorem failed_load_discards_tracks (typeRegistry : TypeRegistry) (c c' : TrackContainer)
    (document : JsonValue) (result : Bool)
    (h : c.Serialize typeRegistry document = some (result, c')) :
    (result = true ↔ hasRequiredKeys document = true) ∧
    (result = false → c'.m_tracks = []) := by
  unfold Serialize at h
  split at h
  · rename_i hna
    cases h
    cases document <;> simp [JsonValue.IsArray] at hna <;>
      simp [hasRequiredKeys, FreeTrackData]
  · rename_i ha
    cases document <;> simp [JsonValue.IsArray] at ha
    rename_i trackRecords
    simp only [JsonValue.GetArray] at h
    split at h
    · cases h
    · rename_i hr
      cases h
      have := readTracks_failed trackRecords hr
      simp only [Bool.true_eq_false, false_iff, Bool.not_eq_true] at this
      simp [hasRequiredKeys, this, FreeTrackData]
    · rename_i hr
      cases h
      have := (readTracks_failed trackRecords hr).mp rfl
      simp [hasRequiredKeys, this]

/-- C20, at a document whose second track record lacks `Items`: loading it into the
example container returns false and leaves no track, neither the two tracks held before
nor the track built from the first record. -/
theorem documentWithoutItems_discards_tracks :
    exampleContainer.m_tracks.length = 2 ∧
    exampleContainer.Serialize exampleRegistry documentWithoutItems =
      some (false, { m_tracks := [], m_isDirty := false }) ∧
    ((false = true ↔ hasRequiredKeys documentWithoutItems = true) ∧
      (false = false →
        ({ m_tracks := [], m_isDirty := false } : TrackContainer).m_tracks = [])) :=
  ⟨rfl, by decide, failed_load_discards_tracks exampleRegistry exampleContainer _
    documentWithoutItems false (by decide)⟩

theorem toInt32_of_range {n : Int} (hmin : -2147483648 ≤ n) (hmax : n ≤ 2147483647) :
    toInt32 n = n := by
  unfold toInt32
  omega

/-- What `BeginModification` does: the counter takes the value an `int32_t` holds after
the increment, nothing else of the container changes, and the begin event is executed
once when the counter was 0 and a user is bound to it, and not at all otherwise. -/
theorem BeginModification_spec (c : TrackContainer) (events : StaticEvents) :
    (c.BeginModification events).1 =
      { c with
        m_beginModificationCallCount := toInt32 (c.m_beginModificationCallCount + 1) } ∧
    (c.BeginModification events).2.s_onEndModification = events.s_onEndModification ∧
    (c.BeginModification events).2.s_onBeginModification.HasBoundUsers =
      events.s_onBeginModification.HasBoundUsers ∧
    (c.BeginModification events).2.s_onBeginModification.m_executed =
      events.s_onBeginModification.m_executed +
        (if c.m_beginModificationCallCount = 0 ∧
          events.s_onBeginModification.HasBoundUsers = true then 1 else 0) := by
  unfold TrackContainer.BeginModification
  by_cases h0 : c.m_beginModificationCallCount = 0 <;>
    by_cases hb : events.s_onBeginModification.HasBoundUsers = true <;>
    simp [h0, hb, TEvent.Execute]

/-- What `EndModification` does when its assertion holds: the counter takes the value an
`int32_t` holds after the decrement, the dirty flag is set, the tracks stay, and the end
event is executed once when the counter reaches 0 and a user is bound to it, and not at
all otherwise. -/
theorem EndModification_spec {c c' : TrackContainer} {events events' : StaticEvents}
    (h : c.EndModification events = some (c', events')) :
    0 < c.m_beginModificationCallCount ∧
    c' = { c with
      m_beginModificationCallCount := toInt32 (c.m_beginModificationCallCount - 1)
      m_isDirty := true } ∧
    events'.s_onBeginModification = events.s_onBeginModification ∧
    events'.s_onEndModification.HasBoundUsers = events.s_onEndModification.HasBoundUsers ∧
    events'.s_onEndModification.m_executed =
      events.s_onEndModification.m_executed +
        (if toInt32 (c.m_beginModificationCallCount - 1) = 0 ∧
          events.s_onEndModification.HasBoundUsers = true then 1 else 0) := by
  unfold TrackContainer.EndModification at h
  by_cases hpos : c.m_beginModificationCallCount > 0
  · simp only [EE.Animation.EE_ASSERT, hpos, decide_True, if_true, Option.some.injEq, Prod.mk.injEq] at h
    obtain ⟨hc, he⟩ := h
    subst hc
    subst he
    refine ⟨hpos, rfl, ?_, ?_, ?_⟩ <;>
      by_cases h0 : toInt32 (c.m_beginModificationCallCount - 1) = 0 <;>
      by_cases hb : events.s_onEndModification.HasBoundUsers = true <;>
      simp [h0, hb, TEvent.Execute]
  · simp [EE.Animation.EE_ASSERT, hpos] at h

theorem EndModification_isSome (c : TrackContainer) (events : StaticEvents) :
    (c.EndModification events).isSome = decide (0 < c.m_beginModificationCallCount) := by
  unfold TrackContainer.EndModification
  by_cases hpos : c.m_beginModificationCallCount > 0
  · simp [EE.Animation.EE_ASSERT, hpos]
  · simp [EE.Animation.EE_ASSERT, hpos]

/-- A call of `EndModification` right after the `BeginModification` of a call on `c`,
with other tracks in between, when the counter of `c` holds a value of `int32_t`: the
counter is as before and the dirty flag is set. -/
theorem modification_bracket {c c' : TrackContainer} {events events' : StaticEvents}
    {tracks : List Track} {isDirty : Bool}
    (hmin : -2147483648 ≤ c.m_beginModificationCallCount)
    (hmax : c.m_beginModificationCallCount ≤ 2147483647)
    (h : TrackContainer.EndModification
      { m_tracks := tracks, m_isDirty := isDirty
        m_beginModificationCallCount :=
          (c.BeginModification events).1.m_beginModificationCallCount }
      (c.BeginModification events).2 = some (c', events')) :
    c'.m_beginModificationCallCount = c.m_beginModificationCallCount ∧
    c'.m_isDirty = true := by
  obtain ⟨hpos, hc, -⟩ := EndModification_spec h
  rw [(BeginModification_spec c events).1] at hpos
  rw [hc, (BeginModification_spec c events).1]
  refine ⟨?_, rfl⟩
  show toInt32 (toInt32 (c.m_beginModificationCallCount + 1) - 1) =
    c.m_beginModificationCallCount
  have hpos2 : 0 < toInt32 (c.m_beginModificationCallCount + 1) := hpos
  unfold toInt32 at hpos2 ⊢
  omega

/-- A call of `EndModification` right after a `BeginModification` returns when the counter
was not negative and below the largest value of `int32_t`. -/
theorem modification_bracket_returns (c : TrackContainer) (events : StaticEvents)
    (tracks : List Track) (isDirty : Bool) (h0 : 0 ≤ c.m_beginModificationCallCount)
    (hlt : c.m_beginModificationCallCount < 2147483647) :
    (TrackContainer.EndModification
      { m_tracks := tracks, m_isDirty := isDirty
        m_beginModificationCallCount :=
          (c.BeginModification events).1.m_beginModificationCallCount }
      (c.BeginModification events).2).isSome = true := by
  rw [EndModification_isSome, (BeginModification_spec c events).1]
  simp only [decide_eq_true_eq]
  show 0 < toInt32 (c.m_beginModificationCallCount + 1)
  rw [toInt32_of_range (by omega) (by omega)]
  omega

theorem IsDirty_of_flag {c : TrackContainer} (h : c.m_isDirty = true) : c.IsDirty = true := by
  simp [TrackContainer.IsDirty, h]

/-- A mutating operation that returns leaves the counter as it was and the dirty flag
set, when the counter held a value of `int32_t`. -/
theorem Operation.run_mutation {operations : TrackOperations} {operation : Operation}
    {c c' : TrackContainer} {events events' : StaticEvents}
    (hmin : -2147483648 ≤ c.m_beginModificationCallCount)
    (hmax : c.m_beginModificationCallCount ≤ 2147483647)
    (hm : operation.isMutation = true)
    (h : operation.run operations c events = some (c', events')) :
    c'.m_beginModificationCallCount = c.m_beginModificationCallCount ∧
    c'.m_isDirty = true := by
  cases operation with
  | BeginModification => cases hm
  | EndModification => cases hm
  | CreateTrack pTrackTypeInfo =>
    simp only [Operation.run, TrackContainer.CreateTrack, Option.map_eq_some'] at h
    obtain ⟨r, hr, hr2⟩ := h
    split at hr
    · cases hr
    · split at hr
      · cases hr
      · rename_i hE
        cases hr
        cases hr2
        exact modification_bracket hmin hmax hE
  | DeleteTrack pTrack =>
    simp only [Operation.run, TrackContainer.DeleteTrack] at h
    split at h
    · cases h
    · cases pTrack <;> exact modification_bracket hmin hmax h
  | CreateItem pTrack itemStartTime =>
    simp only [Operation.run, TrackContainer.CreateItem] at h
    split at h
    · cases h
    · split at h
      · cases h
      · cases pTrack <;> exact modification_bracket hmin hmax h
  | UpdateItemTimeRange pItem newTimeRange =>
    simp only [Operation.run, TrackContainer.UpdateItemTimeRange] at h
    split at h
    · cases h
    · split at h
      · cases h
      · split at h
        · cases h
        · cases pItem <;> exact modification_bracket hmin hmax h
  | DeleteItem pItem =>
    simp only [Operation.run, TrackContainer.DeleteItem] at h
    split at h
    · cases h
    · split at h
      · cases h
      · cases pItem <;> exact modification_bracket hmin hmax h

/-- An operation returns when what it asserts holds: the arguments check, and the
counter is not negative (positive for `EndModification`). -/
theorem Operation.run_returns (operations : TrackOperations) (operation : Operation)
    (c : TrackContainer) (events : StaticEvents)
    (ha : operation.asserted operations c = true)
    (h0 : 0 ≤ c.m_beginModificationCallCount)
    (hlt : c.m_beginModificationCallCount < 2147483647) :
    (operation.run operations c events).isSome = true := by
  cases operation with
  | BeginModification => rfl
  | EndModification =>
    simp only [Operation.asserted, decide_eq_true_eq] at ha
    simp only [Operation.run, EndModification_isSome, decide_eq_true_eq]
    exact ha
  | CreateTrack pTrackTypeInfo =>
    simp only [Operation.asserted] at ha
    have hE := modification_bracket_returns c events
      ((c.BeginModification events).1.m_tracks ++ [pTrackTypeInfo.CreateType])
      (c.BeginModification events).1.m_isDirty h0 hlt
    rw [Option.isSome_iff_exists] at hE
    obtain ⟨r, hr⟩ := hE
    simp [Operation.run, TrackContainer.CreateTrack, EE.Animation.EE_ASSERT, ha, hr]
  | DeleteTrack pTrack =>
    simp only [Operation.asserted] at ha
    simp only [Operation.run, TrackContainer.DeleteTrack, EE.Animation.EE_ASSERT, ha, if_true]
    cases pTrack <;> exact modification_bracket_returns c events _ _ h0 hlt
  | CreateItem pTrack itemStartTime =>
    simp only [Operation.asserted, Bool.and_eq_true] at ha
    simp only [Operation.run, TrackContainer.CreateItem, EE.Animation.EE_ASSERT, ha.1, ha.2, if_true]
    cases pTrack <;> exact modification_bracket_returns c events _ _ h0 hlt
  | UpdateItemTimeRange pItem newTimeRange =>
    simp only [Operation.asserted, Bool.and_eq_true] at ha
    simp only [Operation.run, TrackContainer.UpdateItemTimeRange, EE.Animation.EE_ASSERT, ha.1.1, ha.1.2,
      ha.2, if_true]
    cases pItem <;> exact modification_bracket_returns c events _ _ h0 hlt
  | DeleteItem pItem =>
    simp only [Operation.asserted, Bool.and_eq_true] at ha
    simp only [Operation.run, TrackContainer.DeleteItem, EE.Animation.EE_ASSERT, ha.1, ha.2, if_true]
    cases pItem <;> exact modification_bracket_returns c events _ _ h0 hlt

/-- An operation that returns, on a counter that is not negative and below the largest
value of `int32_t`, leaves the counter not negative and raises it by at most one. -/
theorem Operation.run_bounds {operations : TrackOperations} {operation : Operation}
    {c c' : TrackContainer} {events events' : StaticEvents}
    (h0 : 0 ≤ c.m_beginModificationCallCount)
    (hlt : c.m_beginModificationCallCount < 2147483647)
    (h : operation.run operations c events = some (c', events')) :
    0 ≤ c'.m_beginModificationCallCount ∧
    c'.m_beginModificationCallCount ≤ c.m_beginModificationCallCount + 1 := by
  cases hm : operation.isMutation with
  | true =>
    rw [(Operation.run_mutation (by omega) (by omega) hm h).1]
    omega
  | false =>
    cases operation with
    | BeginModification =>
      simp only [Operation.run, Option.some.injEq] at h
      have := (BeginModification_spec c events).1
      rw [h] at this
      have hc : c' = { c with
          m_beginModificationCallCount :=
            toInt32 (c.m_beginModificationCallCount + 1) } := this
      rw [hc]
      show 0 ≤ toInt32 (c.m_beginModificationCallCount + 1) ∧
        toInt32 (c.m_beginModificationCallCount + 1) ≤ c.m_beginModificationCallCount + 1
      rw [toInt32_of_range (by omega) (by omega)]
      omega
    | EndModification =>
      obtain ⟨hpos, hc, -⟩ := EndModification_spec (show c.EndModification events = _ from h)
      rw [hc]
      show 0 ≤ toInt32 (c.m_beginModificationCallCount - 1) ∧
        toInt32 (c.m_beginModificationCallCount - 1) ≤ c.m_beginModificationCallCount + 1
      rw [toInt32_of_range (by omega) (by omega)]
      omega
    | CreateTrack _ => cases hm
    | DeleteTrack _ => cases hm
    | CreateItem _ _ => cases hm
    | UpdateItemTimeRange _ _ => cases hm
    | DeleteItem _ => cases hm

/-- A sequence of calls that returns leaves the counter not negative when it started not
negative and the counter has room for one increment per call. -/
theorem runOperations_nonneg {operations : TrackOperations} (calls : List Operation) :
    ∀ {c c' : TrackContainer} {events events' : StaticEvents},
    0 ≤ c.m_beginModificationCallCount →
    c.m_beginModificationCallCount + (calls.length : Int) ≤ 2147483647 →
    runOperations operations calls c events = some (c', events') →
    0 ≤ c'.m_beginModificationCallCount := by
  induction calls with
  | nil =>
    intro c c' events events' h0 _ h
    simp only [runOperations, Option.some.injEq, Prod.mk.injEq] at h
    rw [← h.1]; exact h0
  | cons operation rest ih =>
    intro c c' events events' h0 hroom h
    simp only [List.length_cons, Nat.cast_add, Nat.cast_one] at hroom
    simp only [runOperations] at h
    split at h
    · cases h
    · rename_i c1 events1 h1
      obtain ⟨k1, k2⟩ := Operation.run_bounds h0 (by omega) h1
      exact ih k1 (by omega) h

/-- C30 does not hold as stated: at a counter of 2147483647 `BeginModification` leaves
the counter at -2147483648, below 0, with no assertion failed; and `CreateTrack`, whose
own assertion holds there, does not leave the counter as it was: its `EndModification`
finds the counter negative and fails its assertion. -/
theorem begin_modification_wraps_below_zero :
    (deepestContainer.BeginModification boundEvents).1.m_beginModificationCallCount =
      -2147483648 ∧
    ((runOperations exampleOperations [.BeginModification] deepestContainer boundEvents).map
      fun r => r.1.m_beginModificationCallCount) = some (-2147483648) ∧
    (Operation.CreateTrack ⟨true, { m_data := 5 }⟩).asserted exampleOperations
      deepestContainer = true ∧
    (Operation.CreateTrack ⟨true, { m_data := 5 }⟩).run exampleOperations deepestContainer
      boundEvents = none := by
  decide

/-- C30, amended. The nesting of modifications of a track container whose counter holds a
value of `int32_t`, for any behaviour of the track operations. `BeginModification` raises
the counter by one when it is below 2147483647 and executes the begin event only when it
raises the counter from 0 to 1 (and then exactly when a user is bound). `EndModification`
returns only when the counter is positive, lowers it by one, sets the dirty flag, so that
`IsDirty()` is true, and executes the end event only when it lowers the counter to 0 (and
then exactly when a user is bound). Each of the five mutating operations returns when
what it asserts of its arguments holds and the counter is not negative and below
2147483647, and when it returns it leaves the counter as it was and `IsDirty()` true. So
the counter, once not negative, is not negative after any sequence of these calls for
which it has room. -/
theorem modification_count_nests (operations : TrackOperations) (c : TrackContainer)
    (events : StaticEvents)
    (hmin : -2147483648 ≤ c.m_beginModificationCallCount)
    (hmax : c.m_beginModificationCallCount ≤ 2147483647) :
    ((c.m_beginModificationCallCount < 2147483647 →
        (c.BeginModification events).1.m_beginModificationCallCount =
          c.m_beginModificationCallCount + 1) ∧
      ((c.BeginModification events).2.s_onBeginModification.m_executed ≠
          events.s_onBeginModification.m_executed →
        c.m_beginModificationCallCount = 0 ∧
        (c.BeginModification events).1.m_beginModificationCallCount = 1) ∧
      (c.m_beginModificationCallCount = 0 →
        events.s_onBeginModification.HasBoundUsers = true →
        (c.BeginModification events).2.s_onBeginModification.m_executed =
          events.s_onBeginModification.m_executed + 1) ∧
      (c.BeginModification events).2.s_onEndModification = events.s_onEndModification) ∧
    ((c.EndModification events).isSome = true ↔ 0 < c.m_beginModificationCallCount) ∧
    (∀ c' events', c.EndModification events = some (c', events') →
      c'.m_beginModificationCallCount = c.m_beginModificationCallCount - 1 ∧
      0 ≤ c'.m_beginModificationCallCount ∧
      c'.m_isDirty = true ∧ c'.IsDirty = true ∧
      (events'.s_onEndModification.m_executed ≠ events.s_onEndModification.m_executed →
        c'.m_beginModificationCallCount = 0) ∧
      (c'.m_beginModificationCallCount = 0 →
        events.s_onEndModification.HasBoundUsers = true →
        events'.s_onEndModification.m_executed =
          events.s_onEndModification.m_executed + 1) ∧
      events'.s_onBeginModification = events.s_onBeginModification) ∧
    (∀ operation : Operation, operation.isMutation = true →
      (operation.asserted operations c = true → 0 ≤ c.m_beginModificationCallCount →
        c.m_beginModificationCallCount < 2147483647 →
        (operation.run operations c events).isSome = true) ∧
      ∀ c' events', operation.run operations c events = some (c', events') →
        c'.m_beginModificationCallCount = c.m_beginModificationCallCount ∧
        c'.IsDirty = true) ∧
    ∀ (calls : List Operation) c' events', 0 ≤ c.m_beginModificationCallCount →
      c.m_beginModificationCallCount + (calls.length : Int) ≤ 2147483647 →
      runOperations operations calls c events = some (c', events') →
      0 ≤ c'.m_beginModificationCallCount := by
  obtain ⟨b1, b2, b3, b4⟩ := BeginModification_spec c events
  have hbegin : (c.BeginModification events).1.m_beginModificationCallCount =
      toInt32 (c.m_beginModificationCallCount + 1) := by rw [b1]
  refine ⟨⟨fun hlt => ?_, ?_, ?_, b2⟩, ?_, ?_, ?_, ?_⟩
  · rw [hbegin, toInt32_of_range (by omega) (by omega)]
  · intro hne
    rw [b4] at hne
    by_cases h0 : c.m_beginModificationCallCount = 0
    · refine ⟨h0, ?_⟩
      rw [hbegin, h0]
      rfl
    · simp [h0] at hne
  · intro h0 hb
    rw [b4]
    simp [h0, hb]
  · rw [EndModification_isSome]
    simp
  · intro c' events' h
    obtain ⟨hpos, hc, e1, e2, e3⟩ := EndModification_spec h
    have hwrap : toInt32 (c.m_beginModificationCallCount - 1) =
        c.m_beginModificationCallCount - 1 := toInt32_of_range (by omega) (by omega)
    have hcount : c'.m_beginModificationCallCount = c.m_beginModificationCallCount - 1 := by
      rw [hc]; exact hwrap
    have hdirty : c'.m_isDirty = true := by rw [hc]
    refine ⟨hcount, by rw [hcount]; omega, hdirty, IsDirty_of_flag hdirty, ?_, ?_, e1⟩
    · intro hne
      rw [e3, hwrap] at hne
      by_cases h0 : c.m_beginModificationCallCount - 1 = 0
      · rw [hcount]; exact h0
      · simp [h0] at hne
    · intro h0 hb
      rw [hcount] at h0
      rw [e3, hwrap]
      simp [h0, hb]
  · intro operation hm
    refine ⟨fun ha h0 hlt => Operation.run_returns operations operation c events ha h0 hlt,
      ?_⟩
    intro c' events' h
    obtain ⟨k1, k2⟩ := Operation.run_mutation hmin hmax hm h
    exact ⟨k1, IsDirty_of_flag k2⟩
  · intro calls c' events' h0 hroom h
    exact runOperations_nonneg calls h0 hroom h

/-- C30, amended, at an empty container with a user bound to each event: a begin, the
creation of a track, the creation of an item on it and an end leave the counter at 0 and
the container dirty, with one track, and execute each event once, the nested operations
executing none; an `EndModification` on the fresh container fails its assertion; and a
`CreateTrack` on it returns. -/
theorem nested_modifications_fire_each_event_once :
    ((runOperations exampleOperations
        [.BeginModification, .CreateTrack ⟨true, { m_data := 5 }⟩, .CreateItem (some 0) ⟨3⟩,
          .EndModification] {} boundEvents).map fun r =>
      (r.1.m_beginModificationCallCount, r.1.IsDirty, r.1.m_tracks.length,
        r.2.s_onBeginModification.m_executed, r.2.s_onEndModification.m_executed)) =
      some (0, true, 1, 1, 1) ∧
    ((runOperations exampleOperations
        [.BeginModification, .CreateTrack ⟨true, { m_data := 5 }⟩] {} boundEvents).map fun r =>
      (r.1.m_beginModificationCallCount, r.1.IsDirty,
        r.2.s_onBeginModification.m_executed, r.2.s_onEndModification.m_executed)) =
      some (1, true, 1, 0) ∧
    Operation.run exampleOperations .EndModification {} boundEvents = none ∧
    (-2147483648 : Int) ≤ ({} : TrackContainer).m_beginModificationCallCount ∧
    ({} : TrackContainer).m_beginModificationCallCount ≤ 2147483647 ∧
    ({} : TrackContainer).m_beginModificationCallCount < 2147483647 ∧
    (({} : TrackContainer).BeginModification boundEvents).1.m_beginModificationCallCount =
      ({} : TrackContainer).m_beginModificationCallCount + 1 ∧
    (Operation.CreateTrack ⟨true, { m_data := 5 }⟩).asserted exampleOperations {} = true ∧
    (0 : Int) ≤ ({} : TrackContainer).m_beginModificationCallCount ∧
    ((Operation.CreateTrack ⟨true, { m_data := 5 }⟩).run exampleOperations {}
      boundEvents).isSome = true :=
  ⟨by decide, by decide, by decide, by decide, by decide, by decide,
    (modification_count_nests exampleOperations {} boundEvents (by decide) (by decide)).1.1
      (by decide),
    rfl, by decide,
    ((modification_count_nests exampleOperations {} boundEvents (by decide)
      (by decide)).2.2.2.1 (.CreateTrack ⟨true, { m_data := 5 }⟩) rfl).1 rfl (by decide)
      (by decide)⟩

end EE.Timeline
